import Mathlib

/-!
# Optizelle (peopt.h, v3): release/capture of the optimization state and the
quasi-Newton operators

A shallow embedding of `src/v3/peopt.h`.

* `std::list <T>` is `List T`; the front of the list is the head.
* `unsigned int` is `Nat` (none of the code embedded here does arithmetic on
  the counters).
* The scalar type `Real` of the state is embedded as `peopt.Real`: a rational
  number, one of the two infinities, or the not-a-number value, with the
  comparison rules of IEEE-754 (every ordered comparison with a NaN is false,
  `!=` with a NaN is true).
* `Messaging::error` prints and calls `exit`; a bare `throw;` terminates.  Both
  are embedded as an early return in `Except Failure`.
* The quasi-Newton operators are embedded over an inner-product space with
  exact rational scalars (`Hilbert`).
-/

namespace peopt

/-- How a routine can end without returning normally. -/
inductive Failure where
  /-- `msg.error(...)`: the message is printed and the process exits. -/
  | error (msg : String)
  /-- A bare `throw;` outside of a handler. -/
  | thrown
  /-- An iterator was dereferenced past the end of its list. -/
  | undefined
  deriving DecidableEq, Repr

deriving instance DecidableEq for Except

/-- The floating-point scalar `X::Real`, with exact finite values. -/
inductive Real where
  | nan
  | ninf
  | fin (q : ℚ)
  | pinf
  deriving DecidableEq

namespace Real

/-- `a < b` on floating-point values. -/
def lt : Real → Real → Bool
  | nan, _ => false
  | _, nan => false
  | _, ninf => false
  | ninf, _ => true
  | pinf, _ => false
  | fin _, pinf => true
  | fin a, fin b => decide (a < b)

/-- `a <= b` on floating-point values. -/
def le : Real → Real → Bool
  | nan, _ => false
  | _, nan => false
  | ninf, _ => true
  | _, pinf => true
  | pinf, _ => false
  | fin _, ninf => false
  | fin a, fin b => decide (a ≤ b)

/-- `a > b` on floating-point values. -/
def gt (a b : Real) : Bool := lt b a

/-- `a >= b` on floating-point values. -/
def ge (a b : Real) : Bool := le b a

/-- `a != b` on floating-point values: a NaN differs from everything. -/
def ne : Real → Real → Bool
  | nan, _ => true
  | _, nan => true
  | a, b => decide (a ≠ b)

/-- The value is a number, i.e. not the NaN. -/
def isNumber : Real → Bool
  | nan => false
  | _ => true

end Real

/-- `std::string::substr(pos,len)`. -/
def substr (s : String) (pos len : Nat) : String := ⟨(s.data.drop pos).take len⟩

/-! ## The enumerated types and their canonical strings -/

namespace AlgorithmClass

inductive t where
  | TrustRegion
  | LineSearch
  deriving DecidableEq, Repr

def to_string : t → String
  | .TrustRegion => "TrustRegion"
  | .LineSearch => "LineSearch"

def from_string (algorithm_class : String) : Except Failure t :=
  if algorithm_class = "TrustRegion" then .ok .TrustRegion
  else if algorithm_class = "LineSearch" then .ok .LineSearch
  else .error .thrown

def is_valid (name : String) : Bool :=
  if name = "TrustRegion" ∨ name = "LineSearch" then true else false

end AlgorithmClass

namespace StoppingCondition

inductive t where
  | NotConverged
  | RelativeGradientSmall
  | RelativeStepSmall
  | MaxItersExceeded
  | External
  deriving DecidableEq, Repr

def to_string : t → String
  | .NotConverged => "NotConverged"
  | .RelativeGradientSmall => "RelativeGradientSmall"
  | .RelativeStepSmall => "RelativeStepSmall"
  | .MaxItersExceeded => "MaxItersExceeded"
  | .External => "External"

def from_string (opt_stop : String) : Except Failure t :=
  if opt_stop = "NotConverged" then .ok .NotConverged
  else if opt_stop = "RelativeGradientSmall" then .ok .RelativeGradientSmall
  else if opt_stop = "RelativeStepSmall" then .ok .RelativeStepSmall
  else if opt_stop = "MaxItersExceeded" then .ok .MaxItersExceeded
  else if opt_stop = "External" then .ok .External
  else .error .thrown

def is_valid (name : String) : Bool :=
  if name = "NotConverged" ∨ name = "RelativeGradientSmall" ∨
     name = "RelativeStepSmall" ∨ name = "MaxItersExceeded" ∨
     name = "External"
  then true else false

end StoppingCondition

namespace KrylovStop

inductive t where
  | NegativeCurvature
  | RelativeErrorSmall
  | MaxItersExceeded
  | TrustRegionViolated
  deriving DecidableEq, Repr

def to_string : t → String
  | .NegativeCurvature => "NegativeCurvature"
  | .RelativeErrorSmall => "RelativeErrorSmall"
  | .MaxItersExceeded => "MaxItersExceeded"
  | .TrustRegionViolated => "TrustRegionViolated"

def from_string (krylov_stop : String) : Except Failure t :=
  if krylov_stop = "NegativeCurvature" then .ok .NegativeCurvature
  else if krylov_stop = "RelativeErrorSmall" then .ok .RelativeErrorSmall
  else if krylov_stop = "MaxItersExceeded" then .ok .MaxItersExceeded
  else if krylov_stop = "TrustRegionViolated" then .ok .TrustRegionViolated
  else .error .thrown

def is_valid (name : String) : Bool :=
  if name = "NegativeCurvature" ∨ name = "RelativeErrorSmall" ∨
     name = "MaxItersExceeded" ∨ name = "TrustRegionViolated"
  then true else false

end KrylovStop

namespace Operators

inductive t where
  | Identity
  | ScaledIdentity
  | BFGS
  | InvBFGS
  | SR1
  | InvSR1
  | External
  deriving DecidableEq, Repr

def to_string : t → String
  | .Identity => "Identity"
  | .ScaledIdentity => "ScaledIdentity"
  | .BFGS => "BFGS"
  | .InvBFGS => "InvBFGS"
  | .SR1 => "SR1"
  | .InvSR1 => "InvSR1"
  | .External => "External"

def from_string (op : String) : Except Failure t :=
  if op = "Identity" then .ok .Identity
  else if op = "ScaledIdentity" then .ok .ScaledIdentity
  else if op = "BFGS" then .ok .BFGS
  else if op = "InvBFGS" then .ok .InvBFGS
  else if op = "SR1" then .ok .SR1
  else if op = "InvSR1" then .ok .InvSR1
  else if op = "External" then .ok .External
  else .error .thrown

def is_valid (name : String) : Bool :=
  if name = "Identity" ∨ name = "ScaledIdentity" ∨ name = "BFGS" ∨
     name = "InvBFGS" ∨ name = "SR1" ∨ name = "InvSR1" ∨ name = "External"
  then true else false

end Operators

namespace LineSearchDirection

inductive t where
  | SteepestDescent
  | FletcherReeves
  | PolakRibiere
  | HestenesStiefel
  | BFGS
  | NewtonCG
  deriving DecidableEq, Repr

def to_string : t → String
  | .SteepestDescent => "SteepestDescent"
  | .FletcherReeves => "FletcherReeves"
  | .PolakRibiere => "PolakRibiere"
  | .HestenesStiefel => "HestenesStiefel"
  | .BFGS => "BFGS"
  | .NewtonCG => "NewtonCG"

def from_string (dir : String) : Except Failure t :=
  if dir = "SteepestDescent" then .ok .SteepestDescent
  else if dir = "FletcherReeves" then .ok .FletcherReeves
  else if dir = "PolakRibiere" then .ok .PolakRibiere
  else if dir = "HestenesStiefel" then .ok .HestenesStiefel
  else if dir = "BFGS" then .ok .BFGS
  else if dir = "NewtonCG" then .ok .NewtonCG
  else .error .thrown

def is_valid (name : String) : Bool :=
  if name = "SteepestDescent" ∨ name = "FletcherReeves" ∨
     name = "PolakRibiere" ∨ name = "HestenesStiefel" ∨ name = "BFGS" ∨
     name = "NewtonCG"
  then true else false

end LineSearchDirection

namespace LineSearchKind

inductive t where
  | Brents
  | GoldenSection
  | BackTracking
  | TwoPointA
  | TwoPointB
  deriving DecidableEq, Repr

def to_string : t → String
  | .Brents => "Brents"
  | .GoldenSection => "GoldenSection"
  | .BackTracking => "BackTracking"
  | .TwoPointA => "TwoPointA"
  | .TwoPointB => "TwoPointB"

def from_string (kind : String) : Except Failure t :=
  if kind = "Brents" then .ok .Brents
  else if kind = "GoldenSection" then .ok .GoldenSection
  else if kind = "BackTracking" then .ok .BackTracking
  else if kind = "TwoPointA" then .ok .TwoPointA
  else if kind = "TwoPointB" then .ok .TwoPointB
  else .error .thrown

def is_valid (name : String) : Bool :=
  if name = "Brents" ∨ name = "GoldenSection" ∨ name = "BackTracking" ∨
     name = "TwoPointA" ∨ name = "TwoPointB"
  then true else false

end LineSearchKind

/-! ## The optimization state -/

namespace State

/-- The state of an unconstrained problem, `State::Unconstrained <X>`; the
type `V` is `X::Vector`. -/
structure Unconstrained (V : Type) where
  eps_g : Real
  eps_s : Real
  stored_history : Nat
  history_reset : Nat
  iter : Nat
  iter_max : Nat
  opt_stop : StoppingCondition.t
  krylov_iter : Nat
  krylov_iter_max : Nat
  krylov_iter_total : Nat
  krylov_stop : KrylovStop.t
  krylov_rel_err : Real
  eps_krylov : Real
  algorithm_class : AlgorithmClass.t
  Minv_type : Operators.t
  H_type : Operators.t
  norm_g : Real
  norm_gtyp : Real
  norm_s : Real
  norm_styp : Real
  x : List V
  g : List V
  s : List V
  x_old : List V
  g_old : List V
  s_old : List V
  oldY : List V
  oldS : List V
  obj_x : Real
  obj_xps : Real
  verbose : Nat
  delta : Real
  delta_max : Real
  eta1 : Real
  eta2 : Real
  rho : Real
  rejected_trustregion : Nat
  alpha : Real
  linesearch_iter : Nat
  linesearch_iter_max : Nat
  linesearch_iter_total : Nat
  eps_ls : Real
  dir : LineSearchDirection.t
  kind : LineSearchKind.t
  deriving DecidableEq

namespace Unconstrained

variable {V : Type}

/-- The constructor `Unconstrained()`: `init_params` on a state without
vectors. -/
def init_params : Unconstrained V where
  eps_g := .fin (1 / 1000000)
  eps_s := .fin (1 / 1000000)
  stored_history := 0
  history_reset := 5
  iter := 1
  iter_max := 10
  opt_stop := .NotConverged
  krylov_iter := 1
  krylov_iter_max := 10
  krylov_iter_total := 0
  krylov_stop := .RelativeErrorSmall
  krylov_rel_err := .nan
  eps_krylov := .fin (1 / 100)
  algorithm_class := .TrustRegion
  Minv_type := .Identity
  H_type := .Identity
  norm_g := .nan
  norm_gtyp := .nan
  norm_s := .nan
  norm_styp := .nan
  x := []
  g := []
  s := []
  x_old := []
  g_old := []
  s_old := []
  oldY := []
  oldS := []
  obj_x := .nan
  obj_xps := .nan
  verbose := 1
  delta := .fin 100
  delta_max := .fin 100
  eta1 := .fin (1 / 10)
  eta2 := .fin (9 / 10)
  rho := .fin 0
  rejected_trustregion := 0
  alpha := .fin 1
  linesearch_iter := 0
  linesearch_iter_max := 5
  linesearch_iter_total := 0
  eps_ls := .fin (1 / 100)
  dir := .SteepestDescent
  kind := .GoldenSection

/-- One test of `check`: `if(cond) msg.error(text);`. -/
def errorIf (cond : Bool) (text : String) : Except Failure Unit :=
  if cond then .error (.error text) else .ok ()

/-- The routine `check`: the tests in the order of the source; the first one
that fires ends the run through `msg.error`. -/
def check (st : Unconstrained V) : Except Failure Unit := do
  errorIf (Real.le st.eps_g (.fin 0))
    "The tolerance for the gradient stopping condition must be positive"
  errorIf (Real.le st.eps_s (.fin 0))
    "The tolerance for the step length stopping condition must be positive"
  errorIf (decide (st.stored_history < 0))
    "The number of stored vectors for quasi-Newton methods must be nonnegative"
  errorIf (decide (st.history_reset < 0))
    "The tolerance for resetting the quasi-Newton approximation must be nonnegative"
  errorIf (decide (st.iter ≤ 0))
    "The current optimization iteration must be positive"
  errorIf (decide (st.iter_max ≤ 0))
    "The maximum optimization iteration must be positive"
  errorIf (decide (st.krylov_iter ≤ 0))
    "The current Krlov iteration must be positive"
  errorIf (decide (st.krylov_iter_max ≤ 0))
    "The maximum Krylov iteration must be positive"
  errorIf (decide (st.krylov_iter_total < 0))
    "The total number of Krylov iterations must be positive"
  errorIf (Real.lt st.krylov_rel_err (.fin 0))
    "The relative error in the Krylov method must be nonnegative"
  errorIf (Real.le st.eps_krylov (.fin 0))
    "The tolerance for the Krylov method stopping condition must be positive"
  errorIf (Real.lt st.norm_g (.fin 0)
      || (decide (st.iter ≠ 1) && Real.ne st.norm_g st.norm_g))
    "The norm of the gradient must be nonnegative"
  errorIf (Real.lt st.norm_gtyp (.fin 0)
      || (decide (st.iter ≠ 1) && Real.ne st.norm_gtyp st.norm_gtyp))
    "The norm of a typical gradient must be nonnegative"
  errorIf (Real.lt st.norm_s (.fin 0)
      || (decide (st.iter ≠ 1) && Real.ne st.norm_s st.norm_s))
    "The norm of the trial step must be nonnegative"
  errorIf (Real.lt st.norm_styp (.fin 0)
      || (decide (st.iter ≠ 1) && Real.ne st.norm_styp st.norm_styp))
    "The norm of a typical trial step must be nonnegative"
  errorIf (decide (st.iter ≠ 1) && Real.ne st.obj_x st.obj_x)
    "The objective value must be a number"
  errorIf (decide (st.iter ≠ 1) && Real.ne st.obj_xps st.obj_xps)
    "The objective value at the trial step must be a number"
  errorIf (decide (st.verbose < 0))
    "The verbosity level must be nonnegative"
  errorIf (Real.le st.delta (.fin 0))
    "The trust-region radius must be positive"
  errorIf (Real.le st.delta_max (.fin 0))
    "The maximum trust-region radius must be positive"
  errorIf (Real.gt st.delta st.delta_max)
    "The trust-region radius must be less than or equal to the maximum trust-region radius"
  errorIf (Real.lt st.eta1 (.fin 0) || Real.gt st.eta1 (.fin 1))
    "The tolerance for whether or not we accept a trust-region step must be between 0 and 1"
  errorIf (Real.lt st.eta2 (.fin 0) || Real.gt st.eta2 (.fin 1))
    "The tolerance for whether or not we increase the trust-region radius must be between 0 and 1"
  errorIf (Real.ge st.eta1 st.eta2)
    "The trust-region tolerances for accepting steps must satisfy the relationship that eta1 < eta2"
  errorIf (Real.lt st.rho (.fin 0))
    "The predicted versus actual reduction must be nonnegative"
  errorIf (decide (st.rejected_trustregion < 0))
    "The number of rejected trust-region steps must be nonnegative"
  errorIf (Real.le st.alpha (.fin 0))
    "The line-search step length must be positive"
  errorIf (decide (st.linesearch_iter < 0))
    "The number of line-search iterations must be nonnegative"
  errorIf (decide (st.linesearch_iter_max < 0))
    "The maximum number of line-search iterations must be nonnegative"
  errorIf (decide (st.linesearch_iter_total < 0))
    "The total number of line-search iterations must be nonnegative"
  errorIf (Real.le st.eps_ls (.fin 0))
    "The tolerance for the line-search stopping condition must be positive"

/-! ### Releasing and capturing

The four bags: a list of labels paired with a list of values. -/

/-- The type `X_Vectors`. -/
abbrev X_Vectors (V : Type) := List String × List V

/-- The type `Reals`. -/
abbrev Reals := List String × List Real

/-- The type `Nats`. -/
abbrev Nats := List String × List Nat

/-- The type `Params`. -/
abbrev Params := List String × List String

/-- The loop of `stateToVectors` over a history list: while the list is not
empty, push the label made of the name and of the counter `i`, and splice the
first element of the list to the end of the bag.  The source declares
`int i=1` in front of the loop and does not change it in the loop. -/
def stateToVectors.history (name : String) (i : Int) :
    List V → X_Vectors V → X_Vectors V
  | [], xs => xs
  | y :: rest, xs =>
    stateToVectors.history name i rest (xs.1 ++ [name ++ toString i], xs.2 ++ [y])

/-- The routine `stateToVectors`: returns the state, emptied of its vectors,
and the bag. -/
def stateToVectors (st : Unconstrained V) (xs : X_Vectors V) :
    Unconstrained V × X_Vectors V :=
  let xs : X_Vectors V := (xs.1 ++ ["x"], xs.2 ++ st.x)
  let xs : X_Vectors V := (xs.1 ++ ["g"], xs.2 ++ st.g)
  let xs : X_Vectors V := (xs.1 ++ ["s"], xs.2 ++ st.s)
  let xs : X_Vectors V := (xs.1 ++ ["x_old"], xs.2 ++ st.x_old)
  let xs : X_Vectors V := (xs.1 ++ ["g_old"], xs.2 ++ st.g_old)
  let xs : X_Vectors V := (xs.1 ++ ["s_old"], xs.2 ++ st.s_old)
  let xs := stateToVectors.history "oldY_" 1 st.oldY xs
  let xs := stateToVectors.history "oldS_" 1 st.oldS xs
  ({ st with x := [], g := [], s := [], x_old := [], g_old := [], s_old := [],
             oldY := [], oldS := [] }, xs)

/-- The routine `stateToScalars`. -/
def stateToScalars (st : Unconstrained V) (reals : Reals) (nats : Nats)
    (params : Params) : Reals × Nats × Params :=
  let reals : Reals :=
    (reals.1 ++ ["eps_g", "eps_s", "krylov_rel_err", "eps_krylov", "norm_g",
        "norm_gtyp", "norm_s", "norm_styp", "obj_x", "obj_xps", "delta",
        "delta_max", "eta1", "eta2", "rho", "alpha", "eps_ls"],
     reals.2 ++ [st.eps_g, st.eps_s, st.krylov_rel_err, st.eps_krylov,
        st.norm_g, st.norm_gtyp, st.norm_s, st.norm_styp, st.obj_x, st.obj_xps,
        st.delta, st.delta_max, st.eta1, st.eta2, st.rho, st.alpha, st.eps_ls])
  let nats : Nats :=
    (nats.1 ++ ["stored_history", "history_reset", "iter", "iter_max",
        "krylov_iter", "krylov_iter_max", "krylov_iter_total", "verbose",
        "rejected_trustregion", "linesearch_iter", "linesearch_iter_max",
        "linesearch_iter_total"],
     nats.2 ++ [st.stored_history, st.history_reset, st.iter, st.iter_max,
        st.krylov_iter, st.krylov_iter_max, st.krylov_iter_total, st.verbose,
        st.rejected_trustregion, st.linesearch_iter, st.linesearch_iter_max,
        st.linesearch_iter_total])
  let params : Params :=
    (params.1 ++ ["algorithm_class", "opt_stop", "krylov_stop", "H_type",
        "Minv_type", "dir", "kind"],
     params.2 ++ [AlgorithmClass.to_string st.algorithm_class,
        StoppingCondition.to_string st.opt_stop,
        KrylovStop.to_string st.krylov_stop,
        Operators.to_string st.H_type,
        Operators.to_string st.Minv_type,
        LineSearchDirection.to_string st.dir,
        LineSearchKind.to_string st.kind])
  (reals, nats, params)

/-- The loop of `vectorsToState`: one step per label; the vector spliced is
always the first one left in the bag.  Returns the state and the vectors left
as they stand when the loop ends, and how it ended. -/
def vectorsToState.loop :
    List String → Unconstrained V → List V →
      Unconstrained V × List V × Except Failure Unit
  | [], st, vs => (st, vs, .ok ())
  | name :: names, st, vs =>
    if name = "x" then
      match vs with
      | [] => (st, vs, .error .undefined)
      | xx :: vs => vectorsToState.loop names { st with x := st.x ++ [xx] } vs
    else if name = "g" then
      match vs with
      | [] => (st, vs, .error .undefined)
      | xx :: vs => vectorsToState.loop names { st with g := st.g ++ [xx] } vs
    else if name = "s" then
      match vs with
      | [] => (st, vs, .error .undefined)
      | xx :: vs => vectorsToState.loop names { st with s := st.s ++ [xx] } vs
    else if name = "x_old" then
      match vs with
      | [] => (st, vs, .error .undefined)
      | xx :: vs =>
        vectorsToState.loop names { st with x_old := st.x_old ++ [xx] } vs
    else if name = "g_old" then
      match vs with
      | [] => (st, vs, .error .undefined)
      | xx :: vs =>
        vectorsToState.loop names { st with g_old := st.g_old ++ [xx] } vs
    else if name = "s_old" then
      match vs with
      | [] => (st, vs, .error .undefined)
      | xx :: vs =>
        vectorsToState.loop names { st with s_old := st.s_old ++ [xx] } vs
    else if substr name 0 5 = "oldY_" then
      match vs with
      | [] => (st, vs, .error .undefined)
      | xx :: vs =>
        vectorsToState.loop names { st with oldY := st.oldY ++ [xx] } vs
    else if substr name 0 5 = "oldS_" then
      match vs with
      | [] => (st, vs, .error .undefined)
      | xx :: vs =>
        vectorsToState.loop names { st with oldS := st.oldS ++ [xx] } vs
    else vectorsToState.loop names st vs

/-- The routine `vectorsToState`. -/
def vectorsToState (st : Unconstrained V) (xs : X_Vectors V) :
    Unconstrained V × X_Vectors V × Except Failure Unit :=
  let r := vectorsToState.loop xs.1 st xs.2
  (r.1, (xs.1, r.2.1), r.2.2)

/-- The first loop of `scalarsToState`: labels and reals are walked in
lockstep. -/
def scalarsToState.reals :
    List String → List Real → Unconstrained V →
      Unconstrained V × Except Failure Unit
  | [], _, st => (st, .ok ())
  | _ :: _, [], st => (st, .error .undefined)
  | name :: names, real :: rest, st =>
    scalarsToState.reals names rest
      (if name = "eps_g" then { st with eps_g := real }
       else if name = "eps_s" then { st with eps_s := real }
       else if name = "krylov_rel_err" then { st with krylov_rel_err := real }
       else if name = "eps_krylov" then { st with eps_krylov := real }
       else if name = "norm_g" then { st with norm_g := real }
       else if name = "norm_gtyp" then { st with norm_gtyp := real }
       else if name = "norm_s" then { st with norm_g := real }
       else if name = "norm_styp" then { st with norm_gtyp := real }
       else if name = "obj_x" then { st with obj_x := real }
       else if name = "obj_xps" then { st with obj_xps := real }
       else if name = "delta" then { st with delta := real }
       else if name = "delta_max" then { st with delta_max := real }
       else if name = "eta1" then { st with eta1 := real }
       else if name = "eta2" then { st with eta2 := real }
       else if name = "rho" then { st with rho := real }
       else if name = "alpha" then { st with alpha := real }
       else if name = "eps_ls" then { st with eps_ls := real }
       else st)

/-- The second loop of `scalarsToState`. -/
def scalarsToState.nats :
    List String → List Nat → Unconstrained V →
      Unconstrained V × Except Failure Unit
  | [], _, st => (st, .ok ())
  | _ :: _, [], st => (st, .error .undefined)
  | name :: names, nat :: rest, st =>
    scalarsToState.nats names rest
      (if name = "stored_history" then { st with stored_history := nat }
       else if name = "history_reset" then { st with history_reset := nat }
       else if name = "iter" then { st with iter := nat }
       else if name = "iter_max" then { st with iter_max := nat }
       else if name = "krylov_iter" then { st with krylov_iter := nat }
       else if name = "krylov_iter_max" then { st with krylov_iter_max := nat }
       else if name = "krylov_iter_total" then
         { st with krylov_iter_total := nat }
       else if name = "verbose" then { st with verbose := nat }
       else if name = "rejected_trustregion" then
         { st with rejected_trustregion := nat }
       else if name = "linesearch_iter" then { st with linesearch_iter := nat }
       else if name = "linesearch_iter_max" then
         { st with linesearch_iter_max := nat }
       else if name = "linesearch_iter_total" then
         { st with linesearch_iter_total := nat }
       else st)

/-- The third loop of `scalarsToState`; a `from_string` that throws ends the
run with the state as it stands. -/
def scalarsToState.params :
    List String → List String → Unconstrained V →
      Unconstrained V × Except Failure Unit
  | [], _, st => (st, .ok ())
  | _ :: _, [], st => (st, .error .undefined)
  | name :: names, param :: rest, st =>
    if name = "algorithm_class" then
      match AlgorithmClass.from_string param with
      | .error e => (st, .error e)
      | .ok v => scalarsToState.params names rest { st with algorithm_class := v }
    else if name = "opt_stop" then
      match StoppingCondition.from_string param with
      | .error e => (st, .error e)
      | .ok v => scalarsToState.params names rest { st with opt_stop := v }
    else if name = "krylov_stop" then
      match KrylovStop.from_string param with
      | .error e => (st, .error e)
      | .ok v => scalarsToState.params names rest { st with krylov_stop := v }
    else if name = "H_type" then
      match Operators.from_string param with
      | .error e => (st, .error e)
      | .ok v => scalarsToState.params names rest { st with H_type := v }
    else if name = "Minv_type" then
      match Operators.from_string param with
      | .error e => (st, .error e)
      | .ok v => scalarsToState.params names rest { st with Minv_type := v }
    else if name = "dir" then
      match LineSearchDirection.from_string param with
      | .error e => (st, .error e)
      | .ok v => scalarsToState.params names rest { st with dir := v }
    else if name = "kind" then
      match LineSearchKind.from_string param with
      | .error e => (st, .error e)
      | .ok v => scalarsToState.params names rest { st with kind := v }
    else scalarsToState.params names rest st

/-- The routine `scalarsToState`: the three loops, one after the other. -/
def scalarsToState (st : Unconstrained V) (reals : Reals) (nats : Nats)
    (params : Params) : Unconstrained V × Except Failure Unit :=
  match scalarsToState.reals reals.1 reals.2 st with
  | (st, .error e) => (st, .error e)
  | (st, .ok ()) =>
    match scalarsToState.nats nats.1 nats.2 st with
    | (st, .error e) => (st, .error e)
    | (st, .ok ()) => scalarsToState.params params.1 params.2 st

/-- The functor `is_var`. -/
def is_var (name : String) : Bool :=
  if name = "x" ∨ name = "g" ∨ name = "s" ∨ name = "x_old" ∨ name = "g_old" ∨
     name = "s_old" ∨ substr name 0 5 = "oldY_" ∨ substr name 0 5 = "oldS_"
  then true else false

/-- The functor `is_real`. -/
def is_real (name : String) : Bool :=
  if name = "eps_g" ∨ name = "eps_s" ∨ name = "krylov_rel_err" ∨
     name = "eps_krylov" ∨ name = "norm_g" ∨ name = "norm_gtyp" ∨
     name = "norm_s" ∨ name = "norm_styp" ∨ name = "obj_x" ∨
     name = "obj_xps" ∨ name = "delta" ∨ name = "delta_max" ∨ name = "eta1" ∨
     name = "eta2" ∨ name = "rho" ∨ name = "alpha" ∨ name = "eps_ls"
  then true else false

/-- The functor `is_nat`. -/
def is_nat (name : String) : Bool :=
  if name = "stored_history" ∨ name = "history_reset" ∨ name = "iter" ∨
     name = "iter_max" ∨ name = "krylov_iter" ∨ name = "krylov_iter_max" ∨
     name = "krylov_iter_total" ∨ name = "verbose" ∨
     name = "rejected_trustregion" ∨ name = "linesearch_iter" ∨
     name = "linesearch_iter_max" ∨ name = "linesearch_iter_total"
  then true else false

/-- The functor `is_param`. -/
def is_param (name : String) : Bool :=
  if name = "algorithm_class" ∨ name = "opt_stop" ∨ name = "krylov_stop" ∨
     name = "H_type" ∨ name = "Minv_type" ∨ name = "dir" ∨ name = "kind"
  then true else false

/-- One block of `checkLabels`: `find_if` with `not1` of the test, and
`msg.error` when a label is found. -/
def checkLabels.block (test : String → Bool) (what : String)
    (names : List String) : Except Failure Unit :=
  match names.find? (fun name => !test name) with
  | some name =>
    .error (.error ("During serialization, found an invalid " ++ what ++ name))
  | none => .ok ()

/-- The routine `checkLabels`. -/
def checkLabels (xs : X_Vectors V) (reals : Reals) (nats : Nats)
    (params : Params) : Except Failure Unit := do
  checkLabels.block is_var "variable name: " xs.1
  checkLabels.block is_real "real name: " reals.1
  checkLabels.block is_nat "natural name: " nats.1
  checkLabels.block is_param "parameter name: " params.1

/-- The routine `checkParams`: labels and strings are walked in lockstep. -/
def checkParams : List String → List String → Except Failure Unit
  | [], _ => .ok ()
  | _ :: _, [] => .error .undefined
  | name :: names, param :: rest => do
    if name = "algorithm_class" then
      errorIf (!AlgorithmClass.is_valid param)
        ("During serialization, found an invalid algorithm class: " ++ param)
    else if name = "opt_stop" then
      errorIf (!StoppingCondition.is_valid param)
        ("During serialization, found an invalid stopping condition: " ++ param)
    else if name = "krylov_stop" then
      errorIf (!KrylovStop.is_valid param)
        ("During serialization, found an invalid Krylov stopping condition: "
          ++ param)
    else if name = "H_type" then
      errorIf (!Operators.is_valid param)
        ("During serialization, found an invalid Hessian type: " ++ param)
    else if name = "Minv_type" then
      errorIf (!Operators.is_valid param)
        ("During serialization, found an invalid preconditioner type: " ++ param)
    else if name = "dir" then
      errorIf (!LineSearchDirection.is_valid param)
        ("During serialization, found an invalid line-search direction: "
          ++ param)
    else if name = "kind" then
      errorIf (!LineSearchKind.is_valid param)
        ("During serialization, found an invalid line-search kind: " ++ param)
    checkParams names rest

/-- The routine `release`: returns the emptied state and the four bags. -/
def release (st : Unconstrained V) (xs : X_Vectors V) (reals : Reals)
    (nats : Nats) (params : Params) :
    Unconstrained V × X_Vectors V × Reals × Nats × Params :=
  let r := stateToVectors st xs
  (r.1, r.2, stateToScalars r.1 reals nats params)

/-- The routine `capture`: returns the state as the routine leaves it, and
how the routine ended. -/
def capture (st : Unconstrained V) (xs : X_Vectors V) (reals : Reals)
    (nats : Nats) (params : Params) : Unconstrained V × Except Failure Unit :=
  match checkLabels xs reals nats params with
  | .error e => (st, .error e)
  | .ok () =>
    match checkParams params.1 params.2 with
    | .error e => (st, .error e)
    | .ok () =>
      match vectorsToState st xs with
      | (st, _, .error e) => (st, .error e)
      | (st, _, .ok ()) =>
        match scalarsToState st reals nats params with
        | (st, .error e) => (st, .error e)
        | (st, .ok ()) => (st, check st)

end Unconstrained

end State

/-! ## The Hilbert space interface -/

/-- The interface `HilbertSpace <Vector,Real>` with exact rational scalars:
the vectors form a vector space over the rationals and `innr` is an inner
product on it. -/
class Hilbert (V : Type) [AddCommGroup V] [Module ℚ V] where
  /-- The inner product `innr(x,y)`. -/
  innr : V → V → ℚ
  innr_comm : ∀ x y, innr x y = innr y x
  innr_add_left : ∀ x y z, innr (x + y) z = innr x z + innr y z
  innr_smul_left : ∀ (a : ℚ) x y, innr (a • x) y = a * innr x y
  innr_self_nonneg : ∀ x, 0 ≤ innr x x
  innr_self_eq_zero : ∀ x, innr x x = 0 → x = 0

namespace Hilbert

variable {V : Type} [AddCommGroup V] [Module ℚ V] [Hilbert V]

/-- The operation `copy(x,y)`: `y <- x`; returns the new `y`. -/
def copy (x : V) : V := x

/-- The operation `scal(alpha,x)`: `x <- alpha * x`; returns the new `x`. -/
def scal (alpha : ℚ) (x : V) : V := alpha • x

/-- The operation `axpy(alpha,x,y)`: `y <- alpha * x + y`; returns the new
`y`. -/
def axpy (alpha : ℚ) (x y : V) : V := alpha • x + y

end Hilbert

/-- The plane with the dot product. -/
instance : Hilbert (ℚ × ℚ) where
  innr x y := x.1 * y.1 + x.2 * y.2
  innr_comm x y := by ring
  innr_add_left x y z := by simp only [Prod.fst_add, Prod.snd_add]; ring
  innr_smul_left a x y := by
    simp only [Prod.smul_fst, Prod.smul_snd, smul_eq_mul]; ring
  innr_self_nonneg x := by
    show 0 ≤ x.1 * x.1 + x.2 * x.2
    nlinarith [mul_self_nonneg x.1, mul_self_nonneg x.2]
  innr_self_eq_zero x h := by
    have h0 : x.1 * x.1 + x.2 * x.2 = 0 := h
    have h1 : x.1 = 0 := by
      have : x.1 * x.1 = 0 := by
        nlinarith [mul_self_nonneg x.1, mul_self_nonneg x.2]
      exact mul_self_eq_zero.mp this
    have h2 : x.2 = 0 := by
      have : x.2 * x.2 = 0 := by
        nlinarith [mul_self_nonneg x.1, mul_self_nonneg x.2]
      exact mul_self_eq_zero.mp this
    exact Prod.ext h1 h2

/-! ## The quasi-Newton operators -/

namespace Operators

namespace Unconstrained

open Hilbert

variable {V : Type} [AddCommGroup V] [Module ℚ V] [Hilbert V]

/-- The main loop of `BFGS::operator()`.  The first list holds the pairs
`(yi,si)` from the position of `yi_iter`, `si_iter` towards the front of
`oldY`, `oldS`, the second list the work vectors from the position of
`Bisi_iter` towards the front of `work`; `result` accumulates `Bip`.  One step
updates `result`, then every work vector in front of `Bisi` (the inner loop),
and moves the three iterators one position towards the front. -/
def BFGS.loop (p : V) : List (V × V) → List V → V → V
  | (yi, si) :: hist, Bisi :: work, result =>
    let inner_Bisi_si := innr Bisi si
    let inner_yi_si := innr yi si
    let inner_si_Bip := innr si result
    let inner_yi_p := innr yi p
    let result := axpy (-inner_si_Bip / inner_Bisi_si) Bisi result
    let result := axpy (inner_yi_p / inner_yi_si) yi result
    let work := (List.zip hist work).map (fun (a : (V × V) × V) =>
      let sj := a.1.2
      let Bisj := a.2
      let inner_si_Bisj := innr si Bisj
      let inner_yi_sj := innr yi sj
      let Bisj := axpy (-inner_si_Bisj / inner_Bisi_si) Bisi Bisj
      axpy (inner_yi_sj / inner_yi_si) yi Bisj)
    BFGS.loop p hist work result
  | _, _, result => result

/-- The operator `BFGS`, built from a state, applied to `p`. -/
def BFGS (state : State.Unconstrained V) (p : V) : Except Failure V :=
  let oldY := state.oldY
  let oldS := state.oldS
  if oldY.length ≠ oldS.length then
    .error (.error ("In the BFGS Hessian approximation, the number of stored "
      ++ "gradient differences must equal the number of stored trial step "
      ++ "differences."))
  else
    let result := copy p
    if oldY.length = 0 then .ok result
    else if (List.zip oldY oldS).any (fun a => decide (innr a.1 a.2 < 0)) then
      .error (.error ("Detected a (s,y) pair in BFGS that possesed a "
        ++ "nonpositive inner product"))
    else
      let work := oldS.map copy
      .ok (BFGS.loop p (List.zip oldY oldS).reverse work.reverse result)

/-- The main loop of `SR1::operator()`, laid out as `BFGS.loop`. -/
def SR1.loop (p : V) : List (V × V) → List V → V → V
  | (yi, si) :: hist, Bisi :: work, result =>
    let inner_yi_p := innr yi p
    let inner_Bisi_p := innr Bisi p
    let inner_yi_si := innr yi si
    let inner_Bisi_si := innr Bisi si
    let alpha := (inner_yi_p - inner_Bisi_p) / (inner_yi_si - inner_Bisi_si)
    let result := axpy alpha yi result
    let result := axpy (-alpha) Bisi result
    let work := (List.zip hist work).map (fun (a : (V × V) × V) =>
      let sj := a.1.2
      let Bisj := a.2
      let inner_yi_sj := innr yi sj
      let inner_Bisi_sj := innr Bisi sj
      let beta := (inner_yi_sj - inner_Bisi_sj) / (inner_yi_si - inner_Bisi_si)
      let Bisj := axpy beta yi Bisj
      axpy (-beta) Bisi Bisj)
    SR1.loop p hist work result
  | _, _, result => result

/-- The operator `SR1`, built from a state, applied to `p`. -/
def SR1 (state : State.Unconstrained V) (p : V) : Except Failure V :=
  let oldY := state.oldY
  let oldS := state.oldS
  if oldY.length ≠ oldS.length then
    .error (.error ("In the SR1 Hessian approximation, the number of stored "
      ++ "gradient differences must equal the number of stored trial step "
      ++ "differences."))
  else
    let result := copy p
    if oldY.length = 0 then .ok result
    else
      let work := oldS.map copy
      .ok (SR1.loop p (List.zip oldY oldS).reverse work.reverse result)

/-- The first loop of `InvBFGS::operator()`: from the front of the lists to
the back; `alpha[i]` and `rho[i]` are stored at the end of the two arrays. -/
def InvBFGS.forward :
    List (V × V) → V → List ℚ → List ℚ → V × List ℚ × List ℚ
  | [], result, alpha, rho => (result, alpha, rho)
  | (y_k, s_k) :: rest, result, alpha, rho =>
    let rho_i := 1 / innr y_k s_k
    let alpha_i := rho_i * innr s_k result
    InvBFGS.forward rest (axpy (-alpha_i) y_k result)
      (alpha ++ [alpha_i]) (rho ++ [rho_i])

/-- The second loop of `InvBFGS::operator()`: from the back of the lists to
the front.  The list holds `(y_k, s_k, alpha[i], rho[i])` from the back. -/
def InvBFGS.backward : List (V × V × ℚ × ℚ) → V → V
  | [], result => result
  | (y_k, s_k, alpha_i, rho_i) :: rest, result =>
    let beta := rho_i * innr y_k result
    InvBFGS.backward rest (axpy (alpha_i - beta) s_k result)

/-- The operator `InvBFGS`, built from a state, applied to `p`. -/
def InvBFGS (state : State.Unconstrained V) (p : V) : Except Failure V :=
  let oldY := state.oldY
  let oldS := state.oldS
  if oldY.length ≠ oldS.length then
    .error (.error ("In the inverse BFGS operator, the number of stored "
      ++ "gradient differences must equal the number of stored trial step "
      ++ "differences."))
  else if (List.zip oldY oldS).any (fun a => decide (innr a.1 a.2 < 0)) then
    .error (.error ("Detected a (s,y) pair in the inverse BFGS operator that "
      ++ "possesed a nonpositive inner product"))
  else
    let result := copy p
    let f := InvBFGS.forward (List.zip oldY oldS) result [] []
    .ok (InvBFGS.backward
      (List.zip oldY (List.zip oldS (List.zip f.2.1 f.2.2))).reverse f.1)

/-- The operator `InvSR1`: its member `sr1` is built from the same state, and
its application calls `sr1`. -/
def InvSR1 (state : State.Unconstrained V) (p : V) : Except Failure V :=
  SR1 state p

end Unconstrained

end Operators

/-! ## The recursions of the specification -/

namespace Recursion

open Hilbert

variable {V : Type} [AddCommGroup V] [Module ℚ V] [Hilbert V]

/-- The BFGS update of an operator `B` with the pair `(y,s)`:
`B - (B s)(B s)ᵀ/⟨s, B s⟩ + y yᵀ/⟨y, s⟩`, as a map on vectors. -/
def bfgsUpdate (B : V → V) (y s : V) (p : V) : V :=
  B p - (innr (B s) p / innr s (B s)) • B s + (innr y p / innr y s) • y

/-- The operator `B_k` of the BFGS recursion for a history stored newest
first: `B_0 = I`, and the pairs are applied from the back of the lists to the
front. -/
def BFGS : List V → List V → V → V
  | y :: oldY, s :: oldS => bfgsUpdate (BFGS oldY oldS) y s
  | _, _ => fun p => p

/-- The SR1 update of an operator `B` with the pair `(y,s)`:
`B + (y - B s)(y - B s)ᵀ/⟨y - B s, s⟩`, as a map on vectors. -/
def sr1Update (B : V → V) (y s : V) (p : V) : V :=
  B p + (innr (y - B s) p / innr (y - B s) s) • (y - B s)

/-- The operator `B_k` of the SR1 recursion for a history stored newest
first: `B_0 = I`, and the pairs are applied from the back of the lists to the
front. -/
def SR1 : List V → List V → V → V
  | y :: oldY, s :: oldS => sr1Update (SR1 oldY oldS) y s
  | _, _ => fun p => p

/-- The denominators `⟨y_i - B_i s_i, s_i⟩` of the SR1 recursion are all
different from zero. -/
def SR1Defined : List V → List V → Prop
  | y :: oldY, s :: oldS =>
    innr (y - SR1 oldY oldS s) s ≠ 0 ∧ SR1Defined oldY oldS
  | _, _ => True

/-- The inverse BFGS update of an operator `H` with the pair `(y,s)`:
`(I - ρ s yᵀ) H (I - ρ y sᵀ) + ρ s sᵀ` with `ρ = 1/⟨y, s⟩`, as a map on
vectors. -/
def invBfgsUpdate (H : V → V) (y s : V) (p : V) : V :=
  let rho := 1 / innr y s
  let q := p - (rho * innr s p) • y
  let r := H q
  (r - (rho * innr y r) • s) + (rho * innr s p) • s

/-- The operator `H_k` of the inverse BFGS recursion for a history stored
newest first: `H_0 = I`, and the pairs are applied from the back of the lists
to the front. -/
def InvBFGS : List V → List V → V → V
  | y :: oldY, s :: oldS => invBfgsUpdate (InvBFGS oldY oldS) y s
  | _, _ => fun p => p

/-- Applies an update with each pair of a list in turn, first pair first. -/
def extend (upd : (V → V) → V → V → V → V) (B : V → V) : List (V × V) → V → V
  | [] => B
  | (y, s) :: rest => extend upd (upd B y s) rest

/-- An operator is symmetric for the inner product. -/
def Symmetric (B : V → V) : Prop := ∀ u v : V, innr (B u) v = innr u (B v)

/-- The two loops of `InvBFGS::operator()` as one recursion over the history,
front first: the first loop on the way in, the second on the way out. -/
def twoLoop : List (V × V) → V → V
  | [], q => q
  | (y, s) :: rest, q =>
    let rho := 1 / innr y s
    let alpha := rho * innr s q
    let r := twoLoop rest (axpy (-alpha) y q)
    axpy (alpha - rho * innr y r) s r

/-- The vector left by the first loop. -/
def forwardResult : List (V × V) → V → V
  | [], q => q
  | (y, s) :: rest, q => forwardResult rest (axpy (-(1 / innr y s * innr s q)) y q)

/-- The array `alpha` filled by the first loop. -/
def forwardAlpha : List (V × V) → V → List ℚ
  | [], _ => []
  | (y, s) :: rest, q =>
    (1 / innr y s * innr s q)
      :: forwardAlpha rest (axpy (-(1 / innr y s * innr s q)) y q)

/-- The array `rho` filled by the first loop. -/
def forwardRho : List (V × V) → List ℚ
  | [] => []
  | (y, s) :: rest => (1 / innr y s) :: forwardRho rest

/-- An operator is linear. -/
def Linear (B : V → V) : Prop :=
  (∀ u v : V, B (u + v) = B u + B v) ∧ ∀ (a : ℚ) (u : V), B (a • u) = a • B u

/-- An operator is positive definite. -/
def PosDef (B : V → V) : Prop := ∀ v : V, v ≠ 0 → 0 < innr v (B v)

/-- The denominators `⟨y_i, s_i⟩` and `⟨s_i, B_i s_i⟩` of the BFGS recursion
are all positive. -/
def BFGSDefined : List V → List V → Prop
  | y :: oldY, s :: oldS =>
    0 < innr y s ∧ 0 < innr s (BFGS oldY oldS s) ∧ BFGSDefined oldY oldS
  | _, _ => True

end Recursion

/-! ## The states and notions used in the statements -/

/-- The default state over the plane with the given history. -/
def withHistory (oldY oldS : List (ℚ × ℚ)) : State.Unconstrained (ℚ × ℚ) :=
  { State.Unconstrained.init_params with oldY := oldY, oldS := oldS }

/-- The default state over the plane after a first evaluation: one vector in
each of the six vector slots, and the norms and objective values set. -/
def evaluatedState : State.Unconstrained (ℚ × ℚ) :=
  { State.Unconstrained.init_params with
    x := [(1, 2)], g := [(3, 4)], s := [(5, 6)],
    x_old := [(7, 8)], g_old := [(9, 10)], s_old := [(11, 12)],
    norm_g := .fin 5, norm_gtyp := .fin 6, norm_s := .fin 7, norm_styp := .fin 8,
    obj_x := .fin 1, obj_xps := .fin 2 }

namespace State

namespace Unconstrained

/-- Releases a state into empty bags and captures the bags into a
default-constructed state. -/
def releaseThenCapture {V : Type} (st : Unconstrained V) :
    Unconstrained V × Except Failure Unit :=
  let r := release st ([], []) ([], []) ([], []) ([], [])
  capture init_params r.2.1 r.2.2.1 r.2.2.2.1 r.2.2.2.2

end Unconstrained

end State

/-- A run ends normally or through `msg.error`. -/
def State.Unconstrained.ReturnsOrReports (r : Except Failure Unit) : Prop :=
  r = .ok () ∨ ∃ msg, r = .error (.error msg)

/-- Every label of the four bags lies in its whitelist: a vector label is one
of `x, g, s, x_old, g_old, s_old` or starts with `oldY_` or `oldS_`; a real
label is one of the 17 real field names, a natural label one of the 12 counter
names, a parameter label one of the 7 parameter names. -/
def State.Unconstrained.LabelsAccepted {V : Type}
    (xs : State.Unconstrained.X_Vectors V) (reals : State.Unconstrained.Reals)
    (nats : State.Unconstrained.Nats) (params : State.Unconstrained.Params) :
    Prop :=
  (∀ name ∈ xs.1,
      name ∈ ["x", "g", "s", "x_old", "g_old", "s_old"]
        ∨ "oldY_".data <+: name.data ∨ "oldS_".data <+: name.data)
    ∧ (∀ name ∈ reals.1,
      name ∈ ["eps_g", "eps_s", "krylov_rel_err", "eps_krylov", "norm_g",
        "norm_gtyp", "norm_s", "norm_styp", "obj_x", "obj_xps", "delta",
        "delta_max", "eta1", "eta2", "rho", "alpha", "eps_ls"])
    ∧ (∀ name ∈ nats.1,
      name ∈ ["stored_history", "history_reset", "iter", "iter_max",
        "krylov_iter", "krylov_iter_max", "krylov_iter_total", "verbose",
        "rejected_trustregion", "linesearch_iter", "linesearch_iter_max",
        "linesearch_iter_total"])
    ∧ (∀ name ∈ params.1,
      name ∈ ["algorithm_class", "opt_stop", "krylov_stop", "H_type",
        "Minv_type", "dir", "kind"])

/-- The value is a finite number: neither the NaN nor an infinity. -/
def Real.isFinite : Real → Bool
  | .fin _ => true
  | _ => false

/-! ## Arithmetic on the scalars of the state

The operations of IEEE-754 on exact values: a NaN operand gives a NaN, `inf -
inf`, `0 * inf`, `0 / 0` and `inf / inf` are the NaN, and a non-zero number
divided by zero is an infinity.  The zero of the model stands for `+0`. -/

namespace Real

/-- The negation `-a`. -/
def neg : Real → Real
  | nan => nan
  | ninf => pinf
  | pinf => ninf
  | fin a => fin (-a)

/-- The sum `a + b`. -/
def add : Real → Real → Real
  | nan, _ => nan
  | _, nan => nan
  | pinf, ninf => nan
  | ninf, pinf => nan
  | pinf, _ => pinf
  | _, pinf => pinf
  | ninf, _ => ninf
  | _, ninf => ninf
  | fin a, fin b => fin (a + b)

/-- The difference `a - b`. -/
def sub (a b : Real) : Real := add a (neg b)

/-- The product `a * b`. -/
def mul : Real → Real → Real
  | nan, _ => nan
  | _, nan => nan
  | fin a, fin b => fin (a * b)
  | fin a, pinf => if a = 0 then nan else if 0 < a then pinf else ninf
  | fin a, ninf => if a = 0 then nan else if 0 < a then ninf else pinf
  | pinf, fin b => if b = 0 then nan else if 0 < b then pinf else ninf
  | ninf, fin b => if b = 0 then nan else if 0 < b then ninf else pinf
  | pinf, pinf => pinf
  | pinf, ninf => ninf
  | ninf, pinf => ninf
  | ninf, ninf => pinf

/-- The quotient `a / b`. -/
def div : Real → Real → Real
  | nan, _ => nan
  | _, nan => nan
  | fin a, fin b =>
    if b = 0 then (if a = 0 then nan else if 0 < a then pinf else ninf)
    else fin (a / b)
  | fin _, pinf => fin 0
  | fin _, ninf => fin 0
  | pinf, fin b => if b < 0 then ninf else pinf
  | ninf, fin b => if b < 0 then pinf else ninf
  | pinf, pinf => nan
  | pinf, ninf => nan
  | ninf, pinf => nan
  | ninf, ninf => nan

/-- The absolute value `fabs(a)`. -/
def fabs : Real → Real
  | nan => nan
  | ninf => pinf
  | pinf => pinf
  | fin a => fin |a|

/-- The minimum `std::min(a,b)`: `b` when `b < a`, and `a` otherwise. -/
def min (a b : Real) : Real := if lt b a then b else a

end Real

/-- The conversion of an `unsigned int` to an `int`: the value modulo `2^32`,
read in two's complement. -/
def toInt (n : Nat) : Int :=
  if n % 4294967296 < 2147483648 then (n % 4294967296 : Nat)
  else ((n % 4294967296 : Nat) : Int) - 4294967296

/-! ## The stopping test, the acceptance test and the driver -/

namespace Algorithms

namespace Unconstrained

variable {V : Type}

/-- The routine `checkStop`.  The shortcuts `iter` and `iter_max` are declared
`const int&` and bound to the `unsigned int` counters of the state. -/
def checkStop (state : State.Unconstrained V) : StoppingCondition.t :=
  let norm_g := state.norm_g
  let norm_gtyp := state.norm_gtyp
  let norm_s := state.norm_s
  let norm_styp := state.norm_styp
  let iter : Int := toInt state.iter
  let iter_max : Int := toInt state.iter_max
  let eps_g := state.eps_g
  let eps_s := state.eps_s
  if Real.lt norm_g (Real.mul eps_g norm_gtyp) then .RelativeGradientSmall
  else if Real.lt norm_s (Real.mul eps_s norm_styp) then .RelativeStepSmall
  else if iter ≥ iter_max then .MaxItersExceeded
  else .NotConverged

end Unconstrained

end Algorithms

/-! The routines of `core` name the fields `x`, `x_old`, `obj_x`, `obj_xps` of
the state `u`, `u_old`, `obj_u`, `obj_ups`.  A shortcut `*(state.s.begin())` on
an empty list is undefined. -/

namespace core

open Hilbert

variable {V : Type} [AddCommGroup V] [Module ℚ V] [Hilbert V]

/-- The routine `checkStep`: returns whether the step is accepted, and the
state with `obj_xps`, `rho` and `delta` updated.  `H` is the Hessian operator
and `obj_fn` the objective. -/
def checkStep (H : V → V) (obj_fn : V → Real) (state : State.Unconstrained V) :
    Except Failure (Bool × State.Unconstrained V) :=
  match state.s, state.x, state.g with
  | s :: _, u :: _, g :: _ =>
    let eta1 := state.eta1
    let eta2 := state.eta2
    let delta_max := state.delta_max
    let obj_u := state.obj_x
    let norm_s := state.norm_s
    let ups := axpy 1 u (copy s)
    let obj_ups := obj_fn ups
    let state := { state with obj_xps := obj_ups }
    let Hu_s := H s
    let model_s :=
      Real.add (Real.add obj_u (.fin (innr g s)))
        (Real.mul (.fin (1 / 2)) (.fin (innr Hu_s s)))
    if Real.gt model_s obj_u then
      .ok (false, { state with delta := Real.div norm_s (.fin 2), rho := .nan })
    else
      let rho := Real.div (Real.sub obj_u obj_ups) (Real.sub obj_u model_s)
      let state := { state with rho := rho }
      if Real.ge rho eta2 then
        if Real.lt (Real.fabs (Real.sub norm_s state.delta))
            (Real.mul (.fin (1 / 10000)) state.delta) then
          .ok (true, { state with
            delta := Real.min (Real.mul state.delta (.fin 2)) delta_max })
        else .ok (true, state)
      else if Real.ge rho eta1 && Real.lt rho eta2 then .ok (true, state)
      else .ok (false, { state with delta := Real.div norm_s (.fin 2) })
  | _, _, _ => .error .undefined

/-- The loop of `getStepTR`, with a bound on the number of passes: `none` when
the bound is reached before a step is accepted.  `truncatedCG` is the solver
of the trust-region subproblem, which computes the trial step in the state,
and `sqrt` the square root of the library.  The calls `oldY.empty()` and
`oldS.empty()` of the source return whether the list is empty; their result
is dropped. -/
def getStepTR.loop (truncatedCG : State.Unconstrained V → State.Unconstrained V)
    (sqrt : Real → Real) (H : V → V) (obj_fn : V → Real) :
    Nat → State.Unconstrained V → Option (Except Failure (State.Unconstrained V))
  | 0, _ => none
  | fuel + 1, state =>
    let state :=
      if state.rejected_trustregion > state.history_reset then
        let _ := state.oldY.isEmpty
        let _ := state.oldS.isEmpty
        state
      else state
    let state := truncatedCG state
    match state.s with
    | [] => some (.error .undefined)
    | s :: _ =>
      let state := { state with norm_s := sqrt (.fin (innr s s)) }
      let state := { state with
        rejected_trustregion := (state.rejected_trustregion + 1) % 4294967296 }
      match checkStep H obj_fn state with
      | .error e => some (.error e)
      | .ok (true, state) => some (.ok state)
      | .ok (false, state) => getStepTR.loop truncatedCG sqrt H obj_fn fuel state

/-- The routine `getStepTR`, with a bound on the number of passes of its
loop. -/
def getStepTR (truncatedCG : State.Unconstrained V → State.Unconstrained V)
    (sqrt : Real → Real) (H : V → V) (obj_fn : V → Real) (fuel : Nat)
    (state : State.Unconstrained V) :
    Option (Except Failure (State.Unconstrained V)) :=
  let state := { state with rejected_trustregion := 0 }
  match getStepTR.loop truncatedCG sqrt H obj_fn fuel state with
  | some (.ok state) =>
    some (.ok { state with
      rejected_trustregion :=
        (state.rejected_trustregion + 4294967295) % 4294967296 })
  | r => r

/-- The routine `updateQuasi`. -/
def updateQuasi (state : State.Unconstrained V) :
    Except Failure (State.Unconstrained V) :=
  if state.stored_history = 0 then .ok state
  else
    match state.x, state.g, state.x_old, state.g_old with
    | u :: _, g :: _, u_old :: _, g_old :: _ =>
      let s := axpy (-1) u_old (copy u)
      let y := axpy (-1) g_old (copy g)
      if (decide (state.Minv_type = .InvBFGS) || decide (state.H_type = .BFGS)
            || decide (state.dir = .BFGS))
          && decide (innr y s < 0) then
        .ok state
      else
        let oldS := s :: state.oldS
        let oldY := y :: state.oldY
        if oldS.length > state.stored_history then
          .ok { state with oldS := oldS.dropLast, oldY := oldY.dropLast }
        else .ok { state with oldS := oldS, oldY := oldY }
    | _, _, _, _ => .error .undefined

/-- One pass of the primary optimization loop of `getMin`.  `getStep` is the
computation of the trial step, `smanip` the state manipulator and `G` the
gradient. -/
def getMin.iteration
    (getStep : State.Unconstrained V → Except Failure (State.Unconstrained V))
    (smanip : State.Unconstrained V → State.Unconstrained V) (G : V → V)
    (sqrt : Real → Real) (state : State.Unconstrained V) :
    Except Failure (State.Unconstrained V) :=
  match getStep state with
  | .error e => .error e
  | .ok state =>
    let state :=
      if Real.ne state.norm_styp state.norm_styp then
        { state with norm_styp := state.norm_s }
      else state
    match state.x, state.g, state.s, state.x_old, state.g_old, state.s_old with
    | u :: xs, g :: _, s :: _, _ :: xos, _ :: gos, _ :: sos =>
      let state := { state with
        x_old := copy u :: xos, g_old := copy g :: gos, s_old := copy s :: sos }
      let state := { state with x := axpy 1 s u :: xs }
      let state := smanip state
      let state := { state with obj_x := state.obj_xps }
      match state.x, state.g with
      | u :: _, _ :: gs =>
        let g := G u
        let state := { state with g := g :: gs }
        let state := { state with norm_g := sqrt (.fin (innr g g)) }
        match updateQuasi state with
        | .error e => .error e
        | .ok state =>
          let state := { state with iter := (state.iter + 1) % 4294967296 }
          .ok { state with opt_stop := Algorithms.Unconstrained.checkStop state }
      | _, _ => .error .undefined
    | _, _, _, _, _, _ => .error .undefined

/-- The primary optimization loop of `getMin`, with a bound on the number of
passes: `none` when the bound is reached while the stop code is
`NotConverged`. -/
def getMin.loop
    (getStep : State.Unconstrained V → Except Failure (State.Unconstrained V))
    (smanip : State.Unconstrained V → State.Unconstrained V) (G : V → V)
    (sqrt : Real → Real) :
    Nat → State.Unconstrained V → Option (Except Failure (State.Unconstrained V))
  | 0, _ => none
  | fuel + 1, state =>
    match getMin.iteration getStep smanip G sqrt state with
    | .error e => some (.error e)
    | .ok state =>
      if state.opt_stop = .NotConverged then
        getMin.loop getStep smanip G sqrt fuel state
      else some (.ok state)

/-- The routine `getMin`, with a bound on the number of passes of its loop.
`F` is the objective. -/
def getMin
    (getStep : State.Unconstrained V → Except Failure (State.Unconstrained V))
    (smanip : State.Unconstrained V → State.Unconstrained V) (F : V → Real)
    (G : V → V) (sqrt : Real → Real) (fuel : Nat)
    (state : State.Unconstrained V) :
    Option (Except Failure (State.Unconstrained V)) :=
  if Real.ne state.obj_x state.obj_x then
    match state.x, state.g with
    | u :: _, _ :: gs =>
      let g := G u
      let norm_g := sqrt (.fin (innr g g))
      getMin.loop getStep smanip G sqrt fuel
        { state with obj_x := F u, g := g :: gs, norm_g := norm_g,
                     norm_gtyp := norm_g }
    | _, _ => some (.error .undefined)
  else getMin.loop getStep smanip G sqrt fuel state

end core

/-! ## The quantities of the trust-region acceptance test, and examples -/

namespace TrustRegion

open Hilbert

variable {V : Type} [AddCommGroup V] [Module ℚ V] [Hilbert V]

/-- The quadratic model `m(s) = f(x) + ⟨g, s⟩ + ½⟨B s, s⟩`. -/
def model (B : V → V) (f : V → Real) (x g s : V) : Real :=
  Real.add (Real.add (f x) (.fin (innr g s)))
    (Real.mul (.fin (1 / 2)) (.fin (innr (B s) s)))

/-- The ratio of reductions `ρ = (f(x) − f(x+s))/(f(x) − m(s))`. -/
def ratio (B : V → V) (f : V → Real) (x g s : V) : Real :=
  Real.div (Real.sub (f x) (f (x + s))) (Real.sub (f x) (model B f x g s))

end TrustRegion

/-- The objective `f(x) = (3/2)⟨x, x⟩` on the plane. -/
def quadratic (x : ℚ × ℚ) : Real := .fin (3 / 2 * Hilbert.innr x x)

/-- The gradient `3 x` of `quadratic`. -/
def quadraticGradient (x : ℚ × ℚ) : ℚ × ℚ := (3 : ℚ) • x

/-- The default state at `x = (3,4)` for the objective `quadratic`, with the
trial step `s = -g` of norm `15`. -/
def trustRegionState : State.Unconstrained (ℚ × ℚ) :=
  { State.Unconstrained.init_params with
    x := [(3, 4)], g := [(9, 12)], s := [(-9, -12)],
    x_old := [(0, 0)], g_old := [(0, 0)], s_old := [(0, 0)],
    obj_x := .fin (75 / 2), norm_g := .fin 15, norm_gtyp := .fin 15,
    norm_s := .fin 15 }

/-- The square root on the scalars, exact on the squares of rationals. -/
def exactSqrt : Real → Real
  | .fin q => if q < 0 then .nan else .fin (Rat.sqrt q)
  | .pinf => .pinf
  | _ => .nan

/-- A solver of the trust-region subproblem on the plane for the identity
Hessian: the step `-min(1, delta/‖g‖) g`, written into the state. -/
def steepestDescentSolver (state : State.Unconstrained (ℚ × ℚ)) :
    State.Unconstrained (ℚ × ℚ) :=
  match state.g, state.s, state.delta with
  | g :: _, _ :: ss, .fin d =>
    { state with s := (-(min 1 (d / Rat.sqrt (Hilbert.innr g g))) • g) :: ss }
  | _, _, _ => state

/-- A state manipulator that sets the stop code to `External`. -/
def setExternal (state : State.Unconstrained (ℚ × ℚ)) :
    State.Unconstrained (ℚ × ℚ) :=
  { state with opt_stop := .External }

/-- The trial step of the examples: `getStepTR` for the objective `quadratic`
with the identity as Hessian operator, with at most ten passes of its loop. -/
def trustRegionStep (state : State.Unconstrained (ℚ × ℚ)) :
    Except Failure (State.Unconstrained (ℚ × ℚ)) :=
  match core.getStepTR steepestDescentSolver exactSqrt (fun v => v) quadratic 10
      state with
  | some r => r
  | none => .error .undefined

/-- A state of the BFGS line search on the plane whose last step `(1,0)` is
orthogonal to the change `(0,1)` of the gradient. -/
def orthogonalPairState : State.Unconstrained (ℚ × ℚ) :=
  { State.Unconstrained.init_params with
    stored_history := 2, algorithm_class := .LineSearch, dir := .BFGS,
    x := [(1, 0)], g := [(0, 1)], s := [(1, 0)],
    x_old := [(0, 0)], g_old := [(0, 0)], s_old := [(0, 0)] }

/-- The value of a scalar as a rational number, when it is a finite number. -/
def Real.toRat? : Real → Option ℚ
  | .fin q => some q
  | _ => none

namespace Hilbert

variable {V : Type} [AddCommGroup V] [Module ℚ V] [Hilbert V]

/-- The operation `scal(alpha,x)` for a scalar of the state.  The vectors of
the model have rational entries: the product has a value only for a finite
`alpha`, and `none` stands for a vector with entries that are NaN or
infinite. -/
def scalReal (alpha : Real) (x : V) : Option V :=
  alpha.toRat?.map (fun a => scal a x)

/-- The operation `axpy(alpha,x,y)` for a scalar of the state, with the
convention of `scalReal`. -/
def axpyReal (alpha : Real) (x y : V) : Option V :=
  alpha.toRat?.map (fun a => axpy a x y)

end Hilbert

/-- The operator `ScaledIdentity`, built from a state, applied to `dx`.  The
members `norm_g` and `delta_max` of the operator are references to the fields
of the state: the state passed here is the state at the time of the
application. -/
def Operators.Unconstrained.ScaledIdentity {V : Type} [AddCommGroup V]
    [Module ℚ V] (state : State.Unconstrained V) (dx : V) : Option V :=
  let norm_g := state.norm_g
  let delta_max := state.delta_max
  let result := Hilbert.copy dx
  Hilbert.scalReal (Real.div norm_g delta_max) result

/-- The vectors of a bag whose label starts with the five characters `pre`,
in the order of the bag. -/
def State.Unconstrained.labelled {V : Type} (pre : String)
    (xs : State.Unconstrained.X_Vectors V) : List V :=
  ((xs.1.zip xs.2).filter (fun a => decide (substr a.1 0 5 = pre))).map
    (fun a => a.2)

/-- The state holds a vector in each of `x`, `g`, `s`, `x_old`, `g_old` and
`s_old`. -/
def State.Unconstrained.HoldsVectors {V : Type} (st : State.Unconstrained V) :
    Prop :=
  st.x ≠ [] ∧ st.g ≠ [] ∧ st.s ≠ [] ∧ st.x_old ≠ [] ∧ st.g_old ≠ []
    ∧ st.s_old ≠ []

/-- The state manipulator leaves the vectors of the state in place and does
not change the counters `iter` and `iter_max`. -/
def KeepsCounters {V : Type}
    (smanip : State.Unconstrained V → State.Unconstrained V) : Prop :=
  ∀ st, st.HoldsVectors →
    (smanip st).HoldsVectors ∧ (smanip st).iter = st.iter
      ∧ (smanip st).iter_max = st.iter_max

/-- The computation of the trial step returns on every state that holds its
vectors, leaves them in place and does not change the counters `iter` and
`iter_max`. -/
def StepReturns {V : Type}
    (getStep : State.Unconstrained V → Except Failure (State.Unconstrained V)) :
    Prop :=
  ∀ st, st.HoldsVectors →
    ∃ st1, getStep st = .ok st1 ∧ st1.HoldsVectors ∧ st1.iter = st.iter
      ∧ st1.iter_max = st.iter_max

/-- A computation of the trial step on the plane that always returns: the
step of `steepestDescentSolver`. -/
def descentStep (state : State.Unconstrained (ℚ × ℚ)) :
    Except Failure (State.Unconstrained (ℚ × ℚ)) :=
  .ok (steepestDescentSolver state)

/-! ## The truncated conjugate gradient routines

The scalars of the routines are scalars of the state (`Real`); the inner
products of the model are rational numbers.  A vector scaled by a scalar that
is not a finite number has no value in the model (`scalReal`, `axpyReal`): the
routines then give `none`. -/

namespace Algorithms

namespace Unconstrained

open Hilbert

variable {V : Type} [AddCommGroup V] [Module ℚ V] [Hilbert V]

/-- The variables of `truncatedCG` that live across the passes of its
loop. -/
structure truncatedCG.Locals (V : Type) where
  s_k : V
  g_k : V
  v_k : V
  p_k : V
  alpha : Real
  norm_sk_M2 : Real
  norm_skp1_M2 : Real
  norm_pk_M2 : Real
  inner_sk_M_pk : Real
  inner_gk_vk : Real

/-- How a pass of the loop of `truncatedCG` ends: by a `break` with the stop
code set, or at the end of the body. -/
inductive truncatedCG.Pass (V : Type) where
  | exit (stop : KrylovStop.t) (l : truncatedCG.Locals V)
  | next (l : truncatedCG.Locals V)

/-- The block of the loop of `truncatedCG` that ends in the `break` for
negative curvature or for a trial point outside of the trust region: the step
to the boundary.  `H_pk`, `kappa`, `alpha` and `norm_skp1_M2` are the values
computed in front of the block. -/
def truncatedCG.boundary (sqrt : Real → Real) (delta : Real)
    (l : truncatedCG.Locals V) (H_pk : V) (kappa alpha norm_skp1_M2 : Real) :
    Option (truncatedCG.Pass V) :=
  let sigma :=
    Real.div
      (Real.add (Real.neg l.inner_sk_M_pk)
        (sqrt (Real.add (Real.mul l.inner_sk_M_pk l.inner_sk_M_pk)
          (Real.mul l.norm_pk_M2
            (Real.sub (Real.mul delta delta) l.norm_sk_M2)))))
      l.norm_pk_M2
  match axpyReal sigma l.p_k l.s_k, axpyReal sigma H_pk l.g_k with
  | some s_k, some g_k =>
    some (.exit
      (if Real.le kappa (.fin 0) || Real.ne kappa kappa then .NegativeCurvature
       else .TrustRegionViolated)
      { l with s_k := s_k, g_k := g_k, alpha := alpha,
               norm_skp1_M2 := norm_skp1_M2 })
  | _, _ => none

/-- The body of the loop of `truncatedCG` after the block of `boundary`: the
step in the computed direction, the test of convergence and the new search
direction.  `norm_g` is the local variable of that name, which holds
`innr(g,g)`. -/
def truncatedCG.advance (sqrt : Real → Real) (Minv : V → V)
    (eps_cg norm_g : Real) (l : truncatedCG.Locals V) (H_pk : V)
    (alpha norm_skp1_M2 : Real) : Option (truncatedCG.Pass V) :=
  match axpyReal alpha l.p_k l.s_k, axpyReal alpha H_pk l.g_k with
  | some s_k, some g_k =>
    let norm_sk_M2 := norm_skp1_M2
    let rel_err :=
      Real.div (sqrt (.fin (innr g_k g_k)))
        (Real.add (.fin (1 / 10000000000000000)) norm_g)
    if Real.le rel_err eps_cg then
      some (.exit .RelativeErrorSmall
        { l with s_k := s_k, g_k := g_k, alpha := alpha,
                 norm_sk_M2 := norm_sk_M2, norm_skp1_M2 := norm_skp1_M2 })
    else
      let v_k := Minv g_k
      let inner_gkp1_vkp1 : Real := .fin (innr g_k v_k)
      let beta := Real.div inner_gkp1_vkp1 l.inner_gk_vk
      let inner_gk_vk := inner_gkp1_vkp1
      match scalReal beta l.p_k with
      | some p_k =>
        let p_k := axpy (-1) v_k p_k
        let inner_sk_M_pk :=
          Real.mul beta (Real.add l.inner_sk_M_pk (Real.mul alpha l.norm_pk_M2))
        let norm_pk_M2 :=
          Real.add inner_gk_vk (Real.mul (Real.mul beta beta) l.norm_pk_M2)
        some (.next
          { s_k := s_k, g_k := g_k, v_k := v_k, p_k := p_k, alpha := alpha,
            norm_sk_M2 := norm_sk_M2, norm_skp1_M2 := norm_skp1_M2,
            norm_pk_M2 := norm_pk_M2, inner_sk_M_pk := inner_sk_M_pk,
            inner_gk_vk := inner_gk_vk })
      | none => none
  | _, _ => none

/-- The curvature `kappa`, the step length `alpha` and the squared norm
`norm_skp1_M2` of the trial point, computed at the top of a pass of the loop
of `truncatedCG`; the last two are computed when `kappa > 0` and keep their
value otherwise. -/
def truncatedCG.trial (H : V → V) (l : truncatedCG.Locals V) :
    Real × Real × Real :=
  let H_pk := H l.p_k
  let kappa : Real := .fin (innr l.p_k H_pk)
  if Real.gt kappa (.fin 0) then
    let alpha := Real.div (.fin (innr l.g_k l.v_k)) kappa
    let norm_skp1_M2 :=
      Real.add
        (Real.add l.norm_sk_M2 (Real.mul (Real.mul (.fin 2) alpha) l.inner_sk_M_pk))
        (Real.mul (Real.mul alpha alpha) l.norm_pk_M2)
    (kappa, alpha, norm_skp1_M2)
  else (kappa, l.alpha, l.norm_skp1_M2)

/-- One pass of the loop of `truncatedCG`. -/
def truncatedCG.pass (sqrt : Real → Real) (Minv H : V → V)
    (delta eps_cg norm_g : Real) (l : truncatedCG.Locals V) :
    Option (truncatedCG.Pass V) :=
  let H_pk := H l.p_k
  let kappa := (truncatedCG.trial H l).1
  let alpha := (truncatedCG.trial H l).2.1
  let norm_skp1_M2 := (truncatedCG.trial H l).2.2
  if Real.le kappa (.fin 0) || Real.ge norm_skp1_M2 (Real.mul delta delta)
      || Real.ne kappa kappa then
    truncatedCG.boundary sqrt delta l H_pk kappa alpha norm_skp1_M2
  else
    truncatedCG.advance sqrt Minv eps_cg norm_g l H_pk alpha norm_skp1_M2

/-- The loop `for(iter=1;iter<=iter_max;iter++,iter_total++)` of
`truncatedCG`: the first argument counts the passes left, the second is
`iter`.  Returns `iter`, the stop code of the `break` if the loop ended by one,
and the variables.  When the test `iter<=iter_max` fails with `iter = 2^32`
the counter of the source has wrapped around and the loop goes on: the model
gives `none`. -/
def truncatedCG.loop (sqrt : Real → Real) (Minv H : V → V)
    (delta eps_cg norm_g : Real) :
    Nat → Nat → truncatedCG.Locals V →
      Option (Nat × Option KrylovStop.t × truncatedCG.Locals V)
  | 0, iter, l => if iter < 4294967296 then some (iter, none, l) else none
  | n + 1, iter, l =>
    match truncatedCG.pass sqrt Minv H delta eps_cg norm_g l with
    | none => none
    | some (.exit stop l) => some (iter, some stop, l)
    | some (.next l) =>
      truncatedCG.loop sqrt Minv H delta eps_cg norm_g n (iter + 1) l

/-- The routine `truncatedCG`; `sqrt` is the square root of the library,
`Minv` the preconditioner and `H` the Hessian operator.  The counter
`iter_total` is increased once in front of the loop and once after every pass
that ends at the end of the body. -/
def truncatedCG (sqrt : Real → Real) (Minv H : V → V)
    (state : State.Unconstrained V) :
    Option (Except Failure (State.Unconstrained V)) :=
  match state.x, state.g, state.s with
  | _ :: _, g :: _, s_k :: ss =>
    let delta := state.delta
    let eps_cg := state.eps_krylov
    let iter_max := state.krylov_iter_max
    let s_k := scal 0 s_k
    let g_k := copy g
    let v_k := Minv g_k
    let p_k := scal (-1) (copy v_k)
    let norm_sk_M2 : Real := .fin 0
    let norm_pk_M2 : Real := .fin (innr g_k v_k)
    let inner_sk_M_pk : Real := .fin 0
    let inner_gk_vk := norm_pk_M2
    let norm_g : Real := .fin (innr g g)
    match truncatedCG.loop sqrt Minv H delta eps_cg norm_g iter_max 1
        { s_k := s_k, g_k := g_k, v_k := v_k, p_k := p_k, alpha := .fin 0,
          norm_sk_M2 := norm_sk_M2, norm_skp1_M2 := .fin 0,
          norm_pk_M2 := norm_pk_M2, inner_sk_M_pk := inner_sk_M_pk,
          inner_gk_vk := inner_gk_vk } with
    | none => none
    | some (iter, stop, l) =>
      let iter_total := (state.krylov_iter_total + iter) % 4294967296
      let rel_err :=
        Real.div (sqrt (.fin (innr l.g_k l.g_k)))
          (Real.add (.fin (1 / 10000000000000000)) norm_g)
      match stop with
      | some stop =>
        some (.ok { state with
          s := l.s_k :: ss, krylov_iter := iter, krylov_iter_total := iter_total,
          krylov_stop := stop, krylov_rel_err := rel_err })
      | none =>
        some (.ok { state with
          s := l.s_k :: ss, krylov_iter := iter - 1,
          krylov_iter_total := (iter_total + 4294967295) % 4294967296,
          krylov_stop := .MaxItersExceeded, krylov_rel_err := rel_err })
  | _, _, _ => some (.error .undefined)

end Unconstrained

end Algorithms

namespace core

open Hilbert

variable {V : Type} [AddCommGroup V] [Module ℚ V] [Hilbert V]

/-- The variables of `NewtonCG` that live across the passes of its loop. -/
structure NewtonCG.Locals (V : Type) where
  s_k : V
  g_k : V
  v_k : V
  p_k : V
  alpha : Real
  inner_gk_vk : Real

/-- How a pass of the loop of `NewtonCG` ends. -/
inductive NewtonCG.Pass (V : Type) where
  | exit (stop : KrylovStop.t) (l : NewtonCG.Locals V)
  | next (l : NewtonCG.Locals V)

/-- One pass of the loop of `NewtonCG`.  `norm_g` is the local variable of
that name, which holds `innr(g,g)`. -/
def NewtonCG.pass (sqrt : Real → Real) (Minv H : V → V) (eps_cg norm_g : Real)
    (iter : Nat) (l : NewtonCG.Locals V) : Option (NewtonCG.Pass V) :=
  let H_pk := H l.p_k
  let kappa : Real := .fin (innr l.p_k H_pk)
  let alpha :=
    if Real.gt kappa (.fin 0) then Real.div (.fin (innr l.g_k l.v_k)) kappa
    else l.alpha
  if Real.le kappa (.fin 0) || Real.ne kappa kappa then
    let s_k := if iter = 1 then scal (-1) (copy l.g_k) else l.s_k
    some (.exit .NegativeCurvature { l with s_k := s_k, alpha := alpha })
  else
    match axpyReal alpha l.p_k l.s_k, axpyReal alpha H_pk l.g_k with
    | some s_k, some g_k =>
      if Real.le (sqrt (.fin (innr g_k g_k))) (Real.mul eps_cg norm_g) then
        some (.exit .RelativeErrorSmall
          { l with s_k := s_k, g_k := g_k, alpha := alpha })
      else
        let v_k := Minv g_k
        let inner_gkp1_vkp1 : Real := .fin (innr g_k v_k)
        let beta := Real.div inner_gkp1_vkp1 l.inner_gk_vk
        let inner_gk_vk := inner_gkp1_vkp1
        match scalReal beta l.p_k with
        | some p_k =>
          let p_k := axpy (-1) v_k p_k
          some (.next
            { s_k := s_k, g_k := g_k, v_k := v_k, p_k := p_k, alpha := alpha,
              inner_gk_vk := inner_gk_vk })
        | none => none
    | _, _ => none

/-- The loop of `NewtonCG`, laid out as `truncatedCG.loop`. -/
def NewtonCG.loop (sqrt : Real → Real) (Minv H : V → V) (eps_cg norm_g : Real) :
    Nat → Nat → NewtonCG.Locals V →
      Option (Nat × Option KrylovStop.t × NewtonCG.Locals V)
  | 0, iter, l => if iter < 4294967296 then some (iter, none, l) else none
  | n + 1, iter, l =>
    match NewtonCG.pass sqrt Minv H eps_cg norm_g iter l with
    | none => none
    | some (.exit stop l) => some (iter, some stop, l)
    | some (.next l) => NewtonCG.loop sqrt Minv H eps_cg norm_g n (iter + 1) l

/-- The routine `NewtonCG`, laid out as `truncatedCG`. -/
def NewtonCG (sqrt : Real → Real) (Minv H : V → V)
    (state : State.Unconstrained V) :
    Option (Except Failure (State.Unconstrained V)) :=
  match state.x, state.g, state.s with
  | _ :: _, g :: _, s_k :: ss =>
    let eps_cg := state.eps_krylov
    let iter_max := state.krylov_iter_max
    let s_k := scal 0 s_k
    let g_k := copy g
    let v_k := Minv g_k
    let p_k := scal (-1) (copy v_k)
    let inner_gk_vk : Real := .fin (innr g_k v_k)
    let norm_g : Real := .fin (innr g g)
    match NewtonCG.loop sqrt Minv H eps_cg norm_g iter_max 1
        { s_k := s_k, g_k := g_k, v_k := v_k, p_k := p_k, alpha := .fin 0,
          inner_gk_vk := inner_gk_vk } with
    | none => none
    | some (iter, stop, l) =>
      let iter_total := (state.krylov_iter_total + iter) % 4294967296
      let rel_err :=
        Real.div (sqrt (.fin (innr l.g_k l.g_k)))
          (Real.add (.fin (1 / 10000000000000000)) norm_g)
      match stop with
      | some stop =>
        some (.ok { state with
          s := l.s_k :: ss, krylov_iter := iter, krylov_iter_total := iter_total,
          krylov_stop := stop, krylov_rel_err := rel_err })
      | none =>
        some (.ok { state with
          s := l.s_k :: ss, krylov_iter := iter - 1,
          krylov_iter_total := (iter_total + 4294967295) % 4294967296,
          krylov_stop := .MaxItersExceeded, krylov_rel_err := rel_err })
  | _, _, _ => some (.error .undefined)

end core

/-- The state of the examples of the truncated conjugate gradient routines on
the plane: the gradient `(3,4)` at the origin, with the tolerance
`eps_krylov = 1/10`. -/
def krylovState : State.Unconstrained (ℚ × ℚ) :=
  { State.Unconstrained.init_params with
    x := [(0, 0)], g := [(3, 4)], s := [(0, 0)],
    x_old := [(0, 0)], g_old := [(0, 0)], s_old := [(0, 0)],
    eps_krylov := .fin (1 / 10) }

/-- The symmetric operator `diag(1,2)` on the plane. -/
def stretch (v : ℚ × ℚ) : ℚ × ℚ := (v.1, 2 * v.2)

/-- The search of the integer square root of `n`, bit by bit from the top:
`acc` holds the bits found so far, the first argument counts the bits left. -/
def intSqrt.search (n : Nat) : Nat → Nat → Nat
  | 0, acc => acc
  | k + 1, acc =>
    if (acc + 2 ^ k) * (acc + 2 ^ k) ≤ n then intSqrt.search n k (acc + 2 ^ k)
    else intSqrt.search n k acc

/-- The integer square root of a natural number below `2^128`: the largest
`r` below `2^64` with `r * r ≤ n`. -/
def intSqrt (n : Nat) : Nat := intSqrt.search n 64 0

/-- A square root on the scalars that is exact wherever it returns a number:
the root of the square of a rational number (with numerator and denominator
below `2^64`), and the NaN elsewhere. -/
def rationalSqrt : Real → Real
  | .fin q =>
    if ((intSqrt q.num.toNat : ℚ) / (intSqrt q.den : ℚ))
        * ((intSqrt q.num.toNat : ℚ) / (intSqrt q.den : ℚ)) = q then
      .fin ((intSqrt q.num.toNat : ℚ) / (intSqrt q.den : ℚ))
    else .nan
  | .pinf => .pinf
  | _ => .nan

/-- The relations between the variables of `truncatedCG` at the top of a pass
of its loop, for the identity as preconditioner: the tracked scalars are the
inner products they stand for, and there is a subspace `K` (the span of the
search directions used so far) that contains `s_k`, is orthogonal to the
residual `g_k`, is `H`-conjugate to `p_k`, contains `p_k + g_k`, and is mapped
by `H` into the span of `K` and `p_k`. -/
def Algorithms.Unconstrained.truncatedCG.Invariant {V : Type} [AddCommGroup V]
    [Module ℚ V] [Hilbert V] (H : V → V)
    (l : Algorithms.Unconstrained.truncatedCG.Locals V) : Prop :=
  l.v_k = l.g_k
    ∧ l.norm_sk_M2 = .fin (Hilbert.innr l.s_k l.s_k)
    ∧ l.norm_pk_M2 = .fin (Hilbert.innr l.p_k l.p_k)
    ∧ l.inner_sk_M_pk = .fin (Hilbert.innr l.s_k l.p_k)
    ∧ l.inner_gk_vk = .fin (Hilbert.innr l.g_k l.g_k)
    ∧ ∃ K : Submodule ℚ V,
        l.s_k ∈ K
          ∧ (∀ u ∈ K, Hilbert.innr l.g_k u = 0)
          ∧ (∀ u ∈ K, Hilbert.innr l.p_k (H u) = 0)
          ∧ l.p_k + l.g_k ∈ K
          ∧ (∀ u ∈ K, ∃ c : ℚ, H u - c • l.p_k ∈ K)

/-- A symmetric operator on the plane with a direction of negative
curvature. -/
def saddle (v : ℚ × ℚ) : ℚ × ℚ := (-3 * v.1 - 3 * v.2, -3 * v.1 + 2 * v.2)

/-! ## GMRES

`peopt::gmres` is declared in `peopt/linalg.h`, which is not among the sources under `src/`; only its
unit tests are (`src/cpp/unit/linear_algebra.cpp`). The definitions of this section follow the
description of the solver in the specification, in exact arithmetic over `ℚ^m`. -/

namespace gmres

/-- Squared Euclidean norm of a vector of `ℚ^m`. The norms themselves need not be rational, so the model
carries their squares. -/
def normSq {m : ℕ} (v : Fin m → ℚ) : ℚ :=
  Matrix.dotProduct v v

/-- Modelled from the spec: the body of `gmres` is missing; this is the test `‖residual‖ ≤ ε` of its
termination rule, stated on the square of the norm. -/
def small (errSq eps : ℚ) : Prop :=
  0 ≤ eps ∧ errSq ≤ eps * eps

/-- Modelled from the spec: the body of `gmres` is missing; this is the space that `k` Arnoldi steps
span, the Krylov space of the operator `A` and the vector `b`: the combinations of
`b, A b, ..., A^(k-1) b`. -/
def krylov {m : ℕ} (A : Matrix (Fin m) (Fin m) ℚ) (b : Fin m → ℚ) (k : ℕ) (y : Fin m → ℚ) : Prop :=
  ∃ c : ℕ → ℚ, y = ∑ i in Finset.range k, c i • (A ^ i).mulVec b

/-- Modelled from the spec: the body of `gmres` is missing; this is the squared norm of the residual
`b − A x` seen through the operator `P`. With `P = M_L⁻¹` it is the quantity `‖M_L⁻¹(b − A x)‖` that the
solver minimises. -/
def residualSq {m : ℕ} (P A : Matrix (Fin m) (Fin m) ℚ) (b x : Fin m → ℚ) : ℚ :=
  normSq (P.mulVec (b - A.mulVec x))

/-- Modelled from the spec: the body of `gmres` is missing; this is its iterate after `k` Arnoldi steps
from the initial iterate 0 without restart: `x = M_R⁻¹ y` where `y` minimises `‖M_L⁻¹(b − A M_R⁻¹ y)‖`
over the Krylov space of `M_L⁻¹ A M_R⁻¹` and `M_L⁻¹ b` (the result of the Arnoldi process, the Givens
rotations and the back-solve, with the preconditioners in their left and right places). -/
def iterate {m : ℕ} (A : Matrix (Fin m) (Fin m) ℚ) (b : Fin m → ℚ)
    (Ml_inv Mr_inv : Matrix (Fin m) (Fin m) ℚ) (k : ℕ) (x : Fin m → ℚ) : Prop :=
  ∃ y, krylov (Ml_inv * A * Mr_inv) (Ml_inv.mulVec b) k y ∧ x = Mr_inv.mulVec y ∧
    ∀ z, krylov (Ml_inv * A * Mr_inv) (Ml_inv.mulVec b) k z →
      residualSq Ml_inv A b (Mr_inv.mulVec y) ≤ residualSq Ml_inv A b (Mr_inv.mulVec z)

end gmres

/-- Modelled from the spec: the body of `gmres` is missing. `gmres P A b eps iter_max Ml_inv Mr_inv
errSq iter x` says that the solver, started at the initial iterate 0 with restart disabled and the empty
manipulator, returns the residual norm whose square is `errSq` and the number `iter` of Arnoldi steps,
and leaves `x`. It stops at the first step count whose iterate has `‖residual‖ ≤ ε`, the initial iterate
included, or at the iteration cap. The specification does not say which residual norm is tested and
returned; it is the one seen through `P`: `P = M_L⁻¹` for the preconditioned residual that the solver
minimises, `P = 1` for the residual `b − A x` itself. -/
def gmres {m : ℕ} (P A : Matrix (Fin m) (Fin m) ℚ) (b : Fin m → ℚ) (eps : ℚ) (iter_max : ℕ)
    (Ml_inv Mr_inv : Matrix (Fin m) (Fin m) ℚ) (errSq : ℚ) (iter : ℕ) (x : Fin m → ℚ) : Prop :=
  iter ≤ iter_max ∧ gmres.iterate A b Ml_inv Mr_inv iter x ∧ errSq = gmres.residualSq P A b x
    ∧ (gmres.small errSq eps ∨ iter = iter_max)
    ∧ ∀ j, j < iter → ∀ x1, gmres.iterate A b Ml_inv Mr_inv j x1 →
        ¬ gmres.small (gmres.residualSq P A b x1) eps

/-- The matrix `diag(1, 2)`. -/
def diagOneTwo : Matrix (Fin 2) (Fin 2) ℚ :=
  !![1, 0; 0, 2]

/-- The operator of the unit test `gmres_left_preconditioner`: `diag(2, 0, 3, 0, 4)`. -/
def leftPreconditionedA : Matrix (Fin 5) (Fin 5) ℚ :=
  Matrix.diagonal ![2, 0, 3, 0, 4]

/-- The left preconditioner of the unit test `gmres_left_preconditioner`: `diag(1/2, 0, 1/3, 0, 1/4)`. -/
def leftPreconditionedMl : Matrix (Fin 5) (Fin 5) ℚ :=
  Matrix.diagonal ![1 / 2, 0, 1 / 3, 0, 1 / 4]

/-! ## The search directions and the step rules of the line search -/

namespace core

open Hilbert

variable {V : Type} [AddCommGroup V] [Module ℚ V] [Hilbert V]

/-- The routine `SteepestDescent`. -/
def SteepestDescent (state : State.Unconstrained V) :
    Except Failure (State.Unconstrained V) :=
  match state.g, state.s with
  | g :: _, _ :: ss => .ok { state with s := scal (-1) (copy g) :: ss }
  | _, _ => .error .undefined

/-- The routine `FletcherReeves`.  The shortcut `iter` is declared `const int&`.  As
in the routines of the truncated conjugate gradient, a vector scaled by a
scalar that is not a finite number has no value in the model (`none`). -/
def FletcherReeves (state : State.Unconstrained V) :
    Option (Except Failure (State.Unconstrained V)) :=
  match state.g, state.g_old, state.s_old, state.s with
  | g :: _, g_old :: _, s_old :: _, _ :: ss =>
    let iter : Int := toInt state.iter
    if iter = 1 then some (SteepestDescent state)
    else
      let beta := Real.div (.fin (innr g g)) (.fin (innr g_old g_old))
      let s := scal (-1) (copy g)
      match axpyReal beta s_old s with
      | some s => some (.ok { state with s := s :: ss })
      | none => none
  | _, _, _, _ => some (.error .undefined)

/-- The routine `PolakRibiere`.  The shortcut `iter` is declared `const int&`. -/
def PolakRibiere (state : State.Unconstrained V) :
    Option (Except Failure (State.Unconstrained V)) :=
  match state.g, state.g_old, state.s_old, state.s with
  | g :: _, g_old :: _, s_old :: _, _ :: ss =>
    let iter : Int := toInt state.iter
    if iter = 1 then some (SteepestDescent state)
    else
      let beta := 
        Real.div (Real.sub (.fin (innr g g)) (.fin (innr g g_old)))
          (.fin (innr g_old g_old))
      let s := scal (-1) (copy g)
      match axpyReal beta s_old s with
      | some s => some (.ok { state with s := s :: ss })
      | none => none
  | _, _, _, _ => some (.error .undefined)

/-- The routine `HestenesStiefel`.  The shortcut `iter` is declared `const int&`. -/
def HestenesStiefel (state : State.Unconstrained V) :
    Option (Except Failure (State.Unconstrained V)) :=
  match state.g, state.g_old, state.s_old, state.s with
  | g :: _, g_old :: _, s_old :: _, _ :: ss =>
    let iter : Int := toInt state.iter
    if iter = 1 then some (SteepestDescent state)
    else
      let beta := 
        Real.div (Real.sub (.fin (innr g g)) (.fin (innr g g_old)))
          (Real.sub (.fin (innr g s_old)) (.fin (innr g_old s_old)))
      let s := scal (-1) (copy g)
      match axpyReal beta s_old s with
      | some s => some (.ok { state with s := s :: ss })
      | none => none
  | _, _, _, _ => some (.error .undefined)

/-- The routine `BFGS_SD`: the operator `InvBFGS` built from the state is
applied to the gradient, and the result is negated. -/
def BFGS_SD (state : State.Unconstrained V) :
    Except Failure (State.Unconstrained V) :=
  match state.g, state.s with
  | g :: _, _ :: ss =>
    match Operators.Unconstrained.InvBFGS state g with
    | .error e => .error e
    | .ok s => .ok { state with s := scal (-1) s :: ss }
  | _, _ => .error .undefined

/-- The variables of the loop of `goldenSection`.  The source is generic in the
type of its scalars; the step lengths of the model are elements of a ring `K`
(the rational numbers in the routine on the state), the objective values are
scalars of the state. -/
structure goldenSection.Bracket (K : Type) where
  a : K
  b : K
  lambda : K
  mu : K
  obj_lambda : Real
  obj_mu : Real

/-- One pass of the loop of `goldenSection`; `beta` is one over the golden
ratio and `phi t` stands for `F(u + t s)`. -/
def goldenSection.pass {K : Type} [Ring K] (beta : K) (phi : K → Real)
    (l : goldenSection.Bracket K) : goldenSection.Bracket K :=
  if Real.gt l.obj_lambda l.obj_mu then
    let a := l.lambda
    let lambda := l.mu
    let obj_lambda := l.obj_mu
    let mu := a + beta * (l.b - a)
    let obj_mu := phi mu
    { a := a, b := l.b, lambda := lambda, mu := mu, obj_lambda := obj_lambda,
      obj_mu := obj_mu }
  else
    let b := l.mu
    let mu := l.lambda
    let obj_mu := l.obj_lambda
    let lambda := l.a + (1 - beta) * (b - l.a)
    let obj_lambda := phi lambda
    { a := l.a, b := b, lambda := lambda, mu := mu, obj_lambda := obj_lambda,
      obj_mu := obj_mu }

/-- The loop of `goldenSection`: the first argument counts the passes. -/
def goldenSection.loop {K : Type} [Ring K] (beta : K) (phi : K → Real) :
    Nat → goldenSection.Bracket K → goldenSection.Bracket K
  | 0, l => l
  | n + 1, l => goldenSection.loop beta phi n (goldenSection.pass beta phi l)

/-- The bracket of `goldenSection` after `n` passes of its loop, from the
bracket `[a, b]`. -/
def goldenSection.search {K : Type} [Ring K] (beta a b : K) (phi : K → Real)
    (n : Nat) : goldenSection.Bracket K :=
  let lambda := a + (1 - beta) * (b - a)
  let mu := a + beta * (b - a)
  let obj_mu := phi mu
  let obj_lambda := phi lambda
  goldenSection.loop beta phi n
    { a := a, b := b, lambda := lambda, mu := mu, obj_lambda := obj_lambda,
      obj_mu := obj_mu }

/-- The relations between the variables of the loop of `goldenSection`, over
an ordered field: `a < lambda < mu < b`, with the two inner points at the
golden-section positions of the bracket. -/
def goldenSection.Invariant {K : Type} [LinearOrderedField K] (beta : K)
    (l : goldenSection.Bracket K) : Prop :=
  l.a < l.lambda ∧ l.lambda < l.mu ∧ l.mu < l.b
    ∧ l.lambda = l.a + (1 - beta) * (l.b - l.a)
    ∧ l.mu = l.a + beta * (l.b - l.a)

/-- The step length that `goldenSection` takes from the last bracket:
`obj_lambda < obj_mu ? lambda : mu`. -/
def goldenSection.alpha {K : Type} (l : goldenSection.Bracket K) : K :=
  if Real.lt l.obj_lambda l.obj_mu then l.lambda else l.mu

/-- The objective value that `goldenSection` takes from the last bracket:
`obj_lambda < obj_mu ? obj_lambda : obj_mu`. -/
def goldenSection.obj {K : Type} (l : goldenSection.Bracket K) : Real :=
  if Real.lt l.obj_lambda l.obj_mu then l.obj_lambda else l.obj_mu

/-- The routine `goldenSection`; `sqrt` is the square root of the library and
`F` the objective.  The step lengths have a value in the model when `beta` and
`2*alpha` are finite numbers.  The loop `for(iter=1;iter<=iter_max;...)` does
not end when `iter_max` is the largest `unsigned int`: the model gives `none`.
The counter `iter_total` is increased once per pass and decreased once after
the loop. -/
def goldenSection (sqrt : Real → Real) (F : V → Real)
    (state : State.Unconstrained V) :
    Option (Except Failure (State.Unconstrained V)) :=
  match state.x, state.s with
  | u :: _, s :: _ =>
    let iter_max := state.linesearch_iter_max
    let beta := Real.div (.fin 2) (Real.add (.fin 1) (sqrt (.fin 5)))
    let a : ℚ := 1 / 10000000000000000
    let b := Real.mul (.fin 2) state.alpha
    match beta.toRat?, b.toRat? with
    | some beta, some b =>
      if iter_max + 1 < 4294967296 then
        let l := goldenSection.search beta a b
          (fun t => F (axpy t s (copy u))) iter_max
        some (.ok { state with
          alpha := .fin (goldenSection.alpha l),
          obj_xps := goldenSection.obj l,
          linesearch_iter := iter_max,
          linesearch_iter_total :=
            (state.linesearch_iter_total + iter_max + 4294967295) % 4294967296 })
      else none
    | _, _ => none
  | _, _ => some (.error .undefined)

/-- The routine `twoPoint`.  When `kind` is neither `TwoPointA` nor `TwoPointB`
the step length keeps its value. -/
def twoPoint (F : V → Real) (state : State.Unconstrained V) :
    Option (Except Failure (State.Unconstrained V)) :=
  match state.x, state.g, state.x_old, state.g_old, state.s with
  | u :: _, g :: _, u_old :: _, g_old :: _, s :: _ =>
    let delta_u := axpy (-1) u_old (copy u)
    let delta_g := axpy (-1) g_old (copy g)
    let alpha :=
      if state.kind = .TwoPointA then
        Real.div (.fin (innr delta_u delta_g)) (.fin (innr delta_g delta_g))
      else if state.kind = .TwoPointB then
        Real.div (.fin (innr delta_u delta_u)) (.fin (innr delta_u delta_g))
      else state.alpha
    match axpyReal alpha s (copy u) with
    | some work =>
      some (.ok { state with
        alpha := alpha, obj_xps := F work, linesearch_iter := 1,
        linesearch_iter_total :=
          (state.linesearch_iter_total + 1) % 4294967296 })
    | none => none
  | _, _, _, _, _ => some (.error .undefined)

/-- The loop of `backTracking`: the first argument counts the passes left, the
second is `alpha0`; the triple holds `alpha_best`, `obj_best` and, for the
statements, the step lengths at which the objective has been evaluated so far,
in the order of the evaluations.  `phi t` stands for `F(u + t s)`. -/
def backTracking.loop (phi : ℚ → Real) :
    Nat → ℚ → ℚ × Real × List ℚ → ℚ × Real × List ℚ
  | 0, _, r => r
  | n + 1, alpha0, (alpha_best, obj_best, probes) =>
    let obj := phi alpha0
    let r : ℚ × Real × List ℚ :=
      if Real.lt obj obj_best then (alpha0, obj, probes ++ [alpha0])
      else (alpha_best, obj_best, probes ++ [alpha0])
    backTracking.loop phi n (alpha0 / 2) r

/-- The routine `backTracking`, together with the step lengths at which it
evaluates the objective, in the order of the evaluations.  The bound
`iter_max-1` of the loop is computed on `unsigned int`.  The step lengths have
a value in the model when `alpha` is a finite number. -/
def backTracking.run (F : V → Real) (state : State.Unconstrained V) :
    Option (Except Failure (State.Unconstrained V × List ℚ)) :=
  match state.x, state.s with
  | u :: _, s :: _ =>
    match state.alpha.toRat? with
    | some alpha =>
      let iter_max := state.linesearch_iter_max
      let phi := fun t : ℚ => F (axpy t s (copy u))
      let alpha_best := 2 * alpha
      let obj_best := phi alpha_best
      let r := backTracking.loop phi ((iter_max + 4294967295) % 4294967296) alpha
        (alpha_best, obj_best, [alpha_best])
      some (.ok ({ state with
        alpha := .fin r.1, obj_xps := r.2.1,
        linesearch_iter_total :=
          (state.linesearch_iter_total + iter_max) % 4294967296,
        linesearch_iter := iter_max }, r.2.2))
    | none => none
  | _, _ => some (.error .undefined)

/-- The routine `backTracking`. -/
def backTracking (F : V → Real) (state : State.Unconstrained V) :
    Option (Except Failure (State.Unconstrained V)) :=
  (backTracking.run F state).map (Except.map Prod.fst)

end core

/-- The default state at `x = (3,4)` for the objective `quadratic`, set up for
a line search in the direction `s = -g`. -/
def lineSearchState : State.Unconstrained (ℚ × ℚ) :=
  { State.Unconstrained.init_params with
    algorithm_class := .LineSearch,
    x := [(3, 4)], g := [(9, 12)], s := [(-9, -12)],
    x_old := [(0, 0)], g_old := [(0, 0)], s_old := [(0, 0)],
    obj_x := .fin (75 / 2) }

/-- A stand-in for the square root of the library in the examples of
`goldenSection`, which calls it at 5 only: the approximation `2.236068`. -/
def approxSqrt : Real → Real :=
  fun _ => .fin (2236068 / 1000000)

/-! ## The truncated conjugate gradient routine over a scalar field

The routines of the library are templates in the scalar type `Real`.  In this
section the scalar type is an ordered field `K` with exact arithmetic and the
vectors form a vector space over `K`: over the real numbers every square root
that the routine takes has a value.  A division by zero and the square root of
a negative number, which give an infinity or a NaN in floating point, have no
value in `K`: the routine then gives `none`. -/

namespace Exact

/-- The interface `HilbertSpace <Vector,Real>` with the scalars in the ordered
field `K`: the vectors form a vector space over `K` and `innr` is an inner
product on it. -/
class HilbertSpace (K : Type) [LinearOrderedField K] (V : Type)
    [AddCommGroup V] [Module K V] where
  /-- The inner product `innr(x,y)`. -/
  innr : V → V → K
  innr_comm : ∀ x y, innr x y = innr y x
  innr_add_left : ∀ x y z, innr (x + y) z = innr x z + innr y z
  innr_smul_left : ∀ (a : K) x y, innr (a • x) y = a * innr x y
  innr_self_nonneg : ∀ x, 0 ≤ innr x x
  innr_self_eq_zero : ∀ x, innr x x = 0 → x = 0

section

variable {K : Type} [LinearOrderedField K] {V : Type} [AddCommGroup V]
  [Module K V]

/-- The operation `copy(x,y)`: `y <- x`; returns the new `y`. -/
def copy (x : V) : V := x

/-- The operation `scal(alpha,x)`: `x <- alpha * x`; returns the new `x`. -/
def scal (alpha : K) (x : V) : V := alpha • x

/-- The operation `axpy(alpha,x,y)`: `y <- alpha * x + y`; returns the new
`y`. -/
def axpy (alpha : K) (x y : V) : V := alpha • x + y

/-- The quotient `a / b` of two scalars; the division by zero has no value. -/
def div (a b : K) : Option K := if b = 0 then none else some (a / b)

/-- The square root of a scalar, computed by the function `sqrt` of the
library; the root of a negative number has no value. -/
def root (sqrt : K → K) (a : K) : Option K :=
  if a < 0 then none else some (sqrt a)

variable (K)

/-- An operator is linear. -/
def Linear (B : V → V) : Prop :=
  (∀ u v : V, B (u + v) = B u + B v) ∧ ∀ (a : K) (u : V), B (a • u) = a • B u

end

section

variable (K : Type) [LinearOrderedField K] {V : Type} [AddCommGroup V]
  [Module K V] [HilbertSpace K V]

/-- The inner product `innr(x,y)`, with the scalar field named. -/
def innr (x y : V) : K := HilbertSpace.innr x y

/-- An operator is symmetric for the inner product. -/
def Symmetric (B : V → V) : Prop := ∀ u v : V, innr K (B u) v = innr K u (B v)

end

/-- The plane over `K` with the dot product. -/
instance (K : Type) [LinearOrderedField K] : HilbertSpace K (K × K) where
  innr x y := x.1 * y.1 + x.2 * y.2
  innr_comm x y := by ring
  innr_add_left x y z := by simp only [Prod.fst_add, Prod.snd_add]; ring
  innr_smul_left a x y := by
    simp only [Prod.smul_fst, Prod.smul_snd, smul_eq_mul]; ring
  innr_self_nonneg x := by
    show 0 ≤ x.1 * x.1 + x.2 * x.2
    nlinarith [mul_self_nonneg x.1, mul_self_nonneg x.2]
  innr_self_eq_zero x h := by
    have h0 : x.1 * x.1 + x.2 * x.2 = 0 := h
    have h1 : x.1 = 0 := by
      have : x.1 * x.1 = 0 := by
        nlinarith [mul_self_nonneg x.1, mul_self_nonneg x.2]
      exact mul_self_eq_zero.mp this
    have h2 : x.2 = 0 := by
      have : x.2 * x.2 = 0 := by
        nlinarith [mul_self_nonneg x.1, mul_self_nonneg x.2]
      exact mul_self_eq_zero.mp this
    exact Prod.ext h1 h2

variable {K : Type} [LinearOrderedField K] {V : Type} [AddCommGroup V]
  [Module K V] [HilbertSpace K V]

/-- The fields of `State::Unconstrained` that `truncatedCG` reads or writes,
with the scalars in `K`; `g` and `s` are the vectors at the front of the slots
of that name.  The vector at the front of the slot `x` serves the routine only
to allocate its temporaries and is left out. -/
structure State (K V : Type) where
  g : V
  s : V
  delta : K
  eps_krylov : K
  krylov_iter_max : Nat
  krylov_iter : Nat
  krylov_iter_total : Nat
  krylov_stop : KrylovStop.t
  krylov_rel_err : K

/-- The variables of `truncatedCG` that live across the passes of its
loop. -/
structure truncatedCG.Locals (K V : Type) where
  s_k : V
  g_k : V
  v_k : V
  p_k : V
  alpha : K
  norm_sk_M2 : K
  norm_skp1_M2 : K
  norm_pk_M2 : K
  inner_sk_M_pk : K
  inner_gk_vk : K

/-- How a pass of the loop of `truncatedCG` ends: by a `break` with the stop
code set, or at the end of the body. -/
inductive truncatedCG.Pass (K V : Type) where
  | exit (stop : KrylovStop.t) (l : truncatedCG.Locals K V)
  | next (l : truncatedCG.Locals K V)

/-- The block of the loop of `truncatedCG` that ends in the `break` for
negative curvature or for a trial point outside of the trust region: the step
to the boundary.  `H_pk`, `kappa`, `alpha` and `norm_skp1_M2` are the values
computed in front of the block. -/
def truncatedCG.boundary (sqrt : K → K) (delta : K)
    (l : truncatedCG.Locals K V) (H_pk : V) (kappa alpha norm_skp1_M2 : K) :
    Option (truncatedCG.Pass K V) :=
  (root sqrt (l.inner_sk_M_pk * l.inner_sk_M_pk
      + l.norm_pk_M2 * (delta * delta - l.norm_sk_M2))).bind fun r =>
  (div (-l.inner_sk_M_pk + r) l.norm_pk_M2).bind fun sigma =>
  let s_k := axpy sigma l.p_k l.s_k
  let krylov_stop : KrylovStop.t :=
    if kappa ≤ 0 ∨ kappa ≠ kappa then .NegativeCurvature
    else .TrustRegionViolated
  let g_k := axpy sigma H_pk l.g_k
  some (.exit krylov_stop
    { l with s_k := s_k, g_k := g_k, alpha := alpha,
             norm_skp1_M2 := norm_skp1_M2 })

/-- The body of the loop of `truncatedCG` after the block of `boundary`: the
step in the computed direction, the test of convergence and the new search
direction.  `norm_g` is the local variable of that name, which holds
`innr(g,g)`. -/
def truncatedCG.advance (sqrt : K → K) (Minv : V → V) (eps_cg norm_g : K)
    (l : truncatedCG.Locals K V) (H_pk : V) (alpha norm_skp1_M2 : K) :
    Option (truncatedCG.Pass K V) :=
  let s_k := axpy alpha l.p_k l.s_k
  let norm_sk_M2 := norm_skp1_M2
  let g_k := axpy alpha H_pk l.g_k
  (root sqrt (innr K g_k g_k)).bind fun r =>
  (div r (1 / 10000000000000000 + norm_g)).bind fun rel_err =>
  if rel_err ≤ eps_cg then
    some (.exit .RelativeErrorSmall
      { l with s_k := s_k, g_k := g_k, alpha := alpha,
               norm_sk_M2 := norm_sk_M2, norm_skp1_M2 := norm_skp1_M2 })
  else
    let v_k := Minv g_k
    let inner_gkp1_vkp1 := innr K g_k v_k
    (div inner_gkp1_vkp1 l.inner_gk_vk).bind fun beta =>
    let inner_gk_vk := inner_gkp1_vkp1
    let p_k := axpy (-1 : K) v_k (scal beta l.p_k)
    let inner_sk_M_pk := beta * (l.inner_sk_M_pk + alpha * l.norm_pk_M2)
    let norm_pk_M2 := inner_gk_vk + beta * beta * l.norm_pk_M2
    some (.next
      { s_k := s_k, g_k := g_k, v_k := v_k, p_k := p_k, alpha := alpha,
        norm_sk_M2 := norm_sk_M2, norm_skp1_M2 := norm_skp1_M2,
        norm_pk_M2 := norm_pk_M2, inner_sk_M_pk := inner_sk_M_pk,
        inner_gk_vk := inner_gk_vk })

/-- The curvature `kappa`, the step length `alpha` and the squared norm
`norm_skp1_M2` of the trial point, computed at the top of a pass of the loop
of `truncatedCG`; the last two are computed when `kappa > 0` and keep their
value otherwise. -/
def truncatedCG.trial (H : V → V) (l : truncatedCG.Locals K V) : K × K × K :=
  let H_pk := H l.p_k
  let kappa := innr K l.p_k H_pk
  if kappa > 0 then
    let alpha := innr K l.g_k l.v_k / kappa
    let norm_skp1_M2 :=
      l.norm_sk_M2 + 2 * alpha * l.inner_sk_M_pk + alpha * alpha * l.norm_pk_M2
    (kappa, alpha, norm_skp1_M2)
  else (kappa, l.alpha, l.norm_skp1_M2)

/-- One pass of the loop of `truncatedCG`. -/
def truncatedCG.pass (sqrt : K → K) (Minv H : V → V) (delta eps_cg norm_g : K)
    (l : truncatedCG.Locals K V) : Option (truncatedCG.Pass K V) :=
  let H_pk := H l.p_k
  let kappa := (truncatedCG.trial H l).1
  let alpha := (truncatedCG.trial H l).2.1
  let norm_skp1_M2 := (truncatedCG.trial H l).2.2
  if kappa ≤ 0 ∨ norm_skp1_M2 ≥ delta * delta ∨ kappa ≠ kappa then
    truncatedCG.boundary sqrt delta l H_pk kappa alpha norm_skp1_M2
  else
    truncatedCG.advance sqrt Minv eps_cg norm_g l H_pk alpha norm_skp1_M2

/-- The loop `for(iter=1;iter<=iter_max;iter++,iter_total++)` of
`truncatedCG`: the first argument counts the passes left, the second is
`iter`.  Returns `iter`, the stop code of the `break` if the loop ended by one,
and the variables.  When the test `iter<=iter_max` fails with `iter = 2^32`
the counter of the source has wrapped around and the loop goes on: the model
gives `none`. -/
def truncatedCG.loop (sqrt : K → K) (Minv H : V → V)
    (delta eps_cg norm_g : K) :
    Nat → Nat → truncatedCG.Locals K V →
      Option (Nat × Option KrylovStop.t × truncatedCG.Locals K V)
  | 0, iter, l => if iter < 4294967296 then some (iter, none, l) else none
  | n + 1, iter, l =>
    match truncatedCG.pass sqrt Minv H delta eps_cg norm_g l with
    | none => none
    | some (.exit stop l) => some (iter, some stop, l)
    | some (.next l) =>
      truncatedCG.loop sqrt Minv H delta eps_cg norm_g n (iter + 1) l

/-- The routine `truncatedCG` with the scalars in `K`; `sqrt` is the square
root of the library, `Minv` the preconditioner and `H` the Hessian operator.
The counter `iter_total` is increased once in front of the loop and once after
every pass that ends at the end of the body. -/
def truncatedCG (sqrt : K → K) (Minv H : V → V) (state : State K V) :
    Option (State K V) :=
  let g := state.g
  let delta := state.delta
  let eps_cg := state.eps_krylov
  let iter_max := state.krylov_iter_max
  let s_k := scal (0 : K) state.s
  let g_k := copy g
  let v_k := Minv g_k
  let p_k := scal (-1 : K) (copy v_k)
  let norm_sk_M2 : K := 0
  let norm_pk_M2 : K := innr K g_k v_k
  let inner_sk_M_pk : K := 0
  let inner_gk_vk := norm_pk_M2
  let norm_g : K := innr K g g
  match truncatedCG.loop sqrt Minv H delta eps_cg norm_g iter_max 1
      { s_k := s_k, g_k := g_k, v_k := v_k, p_k := p_k, alpha := 0,
        norm_sk_M2 := norm_sk_M2, norm_skp1_M2 := 0,
        norm_pk_M2 := norm_pk_M2, inner_sk_M_pk := inner_sk_M_pk,
        inner_gk_vk := inner_gk_vk } with
  | none => none
  | some (iter, stop, l) =>
    let iter_total := (state.krylov_iter_total + iter) % 4294967296
    (root sqrt (innr K l.g_k l.g_k)).bind fun r =>
    (div r (1 / 10000000000000000 + norm_g)).bind fun rel_err =>
    match stop with
    | some stop =>
      some { state with
        s := l.s_k, krylov_iter := iter, krylov_iter_total := iter_total,
        krylov_stop := stop, krylov_rel_err := rel_err }
    | none =>
      some { state with
        s := l.s_k, krylov_iter := iter - 1,
        krylov_iter_total := (iter_total + 4294967295) % 4294967296,
        krylov_stop := .MaxItersExceeded, krylov_rel_err := rel_err }

/-- The relations between the variables of `truncatedCG` at the top of a pass
of its loop, for the identity as preconditioner: the tracked scalars are the
inner products they stand for, and there is a subspace `W` (the span of the
search directions used so far) that contains `s_k`, is orthogonal to the
residual `g_k`, is `H`-conjugate to `p_k`, contains `p_k + g_k`, and is mapped
by `H` into the span of `W` and `p_k`. -/
def truncatedCG.Invariant (H : V → V) (l : truncatedCG.Locals K V) : Prop :=
  l.v_k = l.g_k
    ∧ l.norm_sk_M2 = innr K l.s_k l.s_k
    ∧ l.norm_pk_M2 = innr K l.p_k l.p_k
    ∧ l.inner_sk_M_pk = innr K l.s_k l.p_k
    ∧ l.inner_gk_vk = innr K l.g_k l.g_k
    ∧ ∃ W : Submodule K V,
        l.s_k ∈ W
          ∧ (∀ u ∈ W, innr K l.g_k u = 0)
          ∧ (∀ u ∈ W, innr K l.p_k (H u) = 0)
          ∧ l.p_k + l.g_k ∈ W
          ∧ (∀ u ∈ W, ∃ c : K, H u - c • l.p_k ∈ W)

/-- A state of `truncatedCG` on the plane over `K`: the gradient `(1,1)` and
the radius `1`, with the tolerance `eps_krylov = 1/10`. -/
def diagonalState (K : Type) [LinearOrderedField K] : State K (K × K) :=
  { g := (1, 1), s := (0, 0), delta := 1, eps_krylov := 1 / 10,
    krylov_iter_max := 10, krylov_iter := 0, krylov_iter_total := 0,
    krylov_stop := .RelativeErrorSmall, krylov_rel_err := 0 }

/-- A square root on the rational numbers that is exact on the squares of
rational numbers with numerator and denominator below `2^64`; elsewhere it
gives the quotient of the integer square roots of numerator and
denominator. -/
def rationalRoot (q : ℚ) : ℚ :=
  (intSqrt q.num.toNat : ℚ) / (intSqrt q.den : ℚ)

end Exact

namespace Exact

/-- The variables of `truncatedCG` over the rational numbers, read as
variables of the routine on the scalars of the state. -/
def truncatedCG.Locals.toReal {V : Type} (l : truncatedCG.Locals ℚ V) :
    Algorithms.Unconstrained.truncatedCG.Locals V :=
  { s_k := l.s_k, g_k := l.g_k, v_k := l.v_k, p_k := l.p_k,
    alpha := .fin l.alpha, norm_sk_M2 := .fin l.norm_sk_M2,
    norm_skp1_M2 := .fin l.norm_skp1_M2, norm_pk_M2 := .fin l.norm_pk_M2,
    inner_sk_M_pk := .fin l.inner_sk_M_pk, inner_gk_vk := .fin l.inner_gk_vk }

/-- The end of a pass of the loop of `truncatedCG` over the rational numbers,
read as the end of a pass of the routine on the scalars of the state. -/
def truncatedCG.Pass.toReal {V : Type} :
    truncatedCG.Pass ℚ V → Algorithms.Unconstrained.truncatedCG.Pass V
  | .exit stop l => .exit stop l.toReal
  | .next l => .next l.toReal

/-- The fields of a state that `truncatedCG` reads, with the vectors `g` and
`s` at the front of their slots and the rational numbers `delta` and
`eps_krylov`. -/
def State.read {V : Type} (state : State.Unconstrained V) (g s : V)
    (delta eps_krylov : ℚ) : State ℚ V :=
  { g := g, s := s, delta := delta, eps_krylov := eps_krylov,
    krylov_iter_max := state.krylov_iter_max,
    krylov_iter := state.krylov_iter,
    krylov_iter_total := state.krylov_iter_total,
    krylov_stop := state.krylov_stop, krylov_rel_err := 0 }

/-- The fields that `truncatedCG` over the rational numbers has written,
stored in a state whose slot `s` holds the vectors `ss` behind its front. -/
def State.write {V : Type} (state : State.Unconstrained V) (ss : List V)
    (r : State ℚ V) : State.Unconstrained V :=
  { state with
    s := r.s :: ss, krylov_iter := r.krylov_iter,
    krylov_iter_total := r.krylov_iter_total, krylov_stop := r.krylov_stop,
    krylov_rel_err := .fin r.krylov_rel_err }

end Exact

/-! ## Inner product lemmas -/

namespace Hilbert

variable {V : Type} [AddCommGroup V] [Module ℚ V] [Hilbert V]

theorem innr_add_right (x y z : V) : innr x (y + z) = innr x y + innr x z := by
  rw [innr_comm x (y + z), innr_add_left, innr_comm y x, innr_comm z x]

theorem innr_smul_right (a : ℚ) (x y : V) : innr x (a • y) = a * innr x y := by
  rw [innr_comm x (a • y), innr_smul_left, innr_comm y x]

theorem innr_neg_left (x y : V) : innr (-x) y = -innr x y := by
  have h := innr_smul_left (-1 : ℚ) x y
  simpa using h

theorem innr_neg_right (x y : V) : innr x (-y) = -innr x y := by
  rw [innr_comm x (-y), innr_neg_left, innr_comm y x]

theorem innr_sub_left (x y z : V) : innr (x - y) z = innr x z - innr y z := by
  rw [sub_eq_add_neg, innr_add_left, innr_neg_left, ← sub_eq_add_neg]

theorem innr_sub_right (x y z : V) : innr x (y - z) = innr x y - innr x z := by
  rw [sub_eq_add_neg, innr_add_right, innr_neg_right, ← sub_eq_add_neg]

theorem innr_zero_left (x : V) : innr (0 : V) x = 0 := by
  have h := innr_smul_left (0 : ℚ) (0 : V) x
  simpa using h

theorem innr_zero_right (x : V) : innr x (0 : V) = 0 := by
  rw [innr_comm, innr_zero_left]

end Hilbert

/-! ## The loops compute the recursions -/

namespace Recursion

open Hilbert

theorem extend_append {V : Type} (upd : (V → V) → V → V → V → V) (B : V → V)
    (l : List (V × V)) (a : V × V) :
    extend upd B (l ++ [a]) = upd (extend upd B l) a.1 a.2 := by
  induction l generalizing B with
  | nil => rfl
  | cons b l ih => simpa [extend] using ih (upd B b.1 b.2)

theorem map_zip_map {α β γ : Type} (l : List α) (g : α → β) (f : α × β → γ) :
    (List.zip l (l.map g)).map f = l.map (fun a => f (a, g a)) := by
  induction l with
  | nil => rfl
  | cons a l ih => simp [ih]

theorem work_reverse_eq {V : Type} (oldY oldS : List V) (h : oldY.length = oldS.length) :
    (oldS.map copy).reverse
      = (List.zip oldY oldS).reverse.map (fun a => (fun p : V => p) a.2) := by
  have h1 : oldS.map copy = oldS := by
    show oldS.map (fun x : V => x) = oldS
    simp
  have h2 : (List.zip oldY oldS).map (fun a => a.2) = oldS := by
    have := List.map_snd_zip oldY oldS (le_of_eq h.symm)
    simpa using this
  rw [h1, List.map_reverse, h2]

variable {V : Type} [AddCommGroup V] [Module ℚ V] [Hilbert V]

theorem symmetric_id : Symmetric (fun p : V => p) := fun _ _ => rfl

theorem symmetric_bfgsUpdate {B : V → V} (hB : Symmetric B) (y s : V) :
    Symmetric (bfgsUpdate B y s) := by
  intro u v
  simp only [bfgsUpdate, innr_add_left, innr_sub_left, innr_smul_left,
    innr_add_right, innr_sub_right, innr_smul_right]
  rw [hB u v, hB s u, hB s v, innr_comm u (B s), hB s u, innr_comm y u,
    innr_comm u y]
  ring

theorem symmetric_extend_bfgs {B : V → V} (hB : Symmetric B)
    (l : List (V × V)) : Symmetric (extend bfgsUpdate B l) := by
  induction l generalizing B with
  | nil => exact hB
  | cons a l ih => exact ih (symmetric_bfgsUpdate hB a.1 a.2)

theorem BFGS_eq_extend :
    ∀ (oldY oldS : List V), oldY.length = oldS.length →
      BFGS oldY oldS = extend bfgsUpdate (fun p => p) (List.zip oldY oldS).reverse
  | [], [], _ => rfl
  | [], _ :: _, h => by simp at h
  | _ :: _, [], h => by simp at h
  | y :: oldY, s :: oldS, h => by
    have ih := BFGS_eq_extend oldY oldS (by simpa using h)
    rw [List.zip_cons_cons, List.reverse_cons, extend_append, ← ih]
    rfl

theorem SR1_eq_extend :
    ∀ (oldY oldS : List V), oldY.length = oldS.length →
      SR1 oldY oldS = extend sr1Update (fun p => p) (List.zip oldY oldS).reverse
  | [], [], _ => rfl
  | [], _ :: _, h => by simp at h
  | _ :: _, [], h => by simp at h
  | y :: oldY, s :: oldS, h => by
    have ih := SR1_eq_extend oldY oldS (by simpa using h)
    rw [List.zip_cons_cons, List.reverse_cons, extend_append, ← ih]
    rfl

open Operators.Unconstrained in
theorem BFGS_loop_eq (p : V) (hist : List (V × V)) :
    ∀ (B : V → V), Symmetric B →
      BFGS.loop p hist (hist.map (fun a => B a.2)) (B p)
        = extend bfgsUpdate B hist p := by
  induction hist with
  | nil => intro B _; rfl
  | cons a hist ih =>
    intro B hB
    obtain ⟨y, s⟩ := a
    have hres : axpy (innr y p / innr y s) y
        (axpy (-innr s (B p) / innr (B s) s) (B s) (B p)) = bfgsUpdate B y s p := by
      simp only [axpy, bfgsUpdate]
      rw [← hB s p, innr_comm (B s) s, neg_div, neg_smul]
      abel
    have hwork : (List.zip hist (hist.map (fun a => B a.2))).map
        (fun (a : (V × V) × V) =>
          axpy (innr y a.1.2 / innr y s) y
            (axpy (-innr s a.2 / innr (B s) s) (B s) a.2))
        = hist.map (fun a => bfgsUpdate B y s a.2) := by
      rw [map_zip_map]
      apply List.map_congr_left
      intro a _
      simp only [axpy, bfgsUpdate]
      rw [← hB s a.2, innr_comm (B s) s, neg_div, neg_smul]
      abel
    simp only [List.map_cons, BFGS.loop, extend]
    rw [hres, hwork]
    exact ih (bfgsUpdate B y s) (symmetric_bfgsUpdate hB y s)

open Operators.Unconstrained in
theorem SR1_loop_eq (p : V) (hist : List (V × V)) :
    ∀ (B : V → V),
      SR1.loop p hist (hist.map (fun a => B a.2)) (B p)
        = extend sr1Update B hist p := by
  induction hist with
  | nil => intro B; rfl
  | cons a hist ih =>
    intro B
    obtain ⟨y, s⟩ := a
    have hres : axpy (-((innr y p - innr (B s) p) / (innr y s - innr (B s) s)))
        (B s) (axpy ((innr y p - innr (B s) p) / (innr y s - innr (B s) s)) y (B p))
          = sr1Update B y s p := by
      simp only [axpy, sr1Update, innr_sub_left, smul_sub, neg_smul]
      abel
    have hwork : (List.zip hist (hist.map (fun a => B a.2))).map
        (fun (a : (V × V) × V) =>
          axpy (-((innr y a.1.2 - innr (B s) a.1.2) / (innr y s - innr (B s) s)))
            (B s)
            (axpy ((innr y a.1.2 - innr (B s) a.1.2) / (innr y s - innr (B s) s))
              y a.2))
        = hist.map (fun a => sr1Update B y s a.2) := by
      rw [map_zip_map]
      apply List.map_congr_left
      intro a _
      simp only [axpy, sr1Update, innr_sub_left, smul_sub, neg_smul]
      abel
    simp only [List.map_cons, SR1.loop, extend]
    rw [hres, hwork]
    exact ih (sr1Update B y s)

open Operators.Unconstrained in
theorem forward_eq (l : List (V × V)) :
    ∀ (q : V) (alpha rho : List ℚ),
      InvBFGS.forward l q alpha rho
        = (forwardResult l q, alpha ++ forwardAlpha l q, rho ++ forwardRho l) := by
  induction l with
  | nil => intro q alpha rho; simp [InvBFGS.forward, forwardResult, forwardAlpha, forwardRho]
  | cons a l ih =>
    intro q alpha rho
    obtain ⟨y, s⟩ := a
    simp only [InvBFGS.forward, forwardResult, forwardAlpha, forwardRho, ih,
      List.append_assoc, List.singleton_append]

open Operators.Unconstrained in
theorem backward_append (l : List (V × V × ℚ × ℚ)) (a : V × V × ℚ × ℚ) :
    ∀ r : V, InvBFGS.backward (l ++ [a]) r
      = axpy (a.2.2.1 - a.2.2.2 * innr a.1 (InvBFGS.backward l r)) a.2.1
          (InvBFGS.backward l r) := by
  induction l with
  | nil => intro r; rfl
  | cons b l ih =>
    intro r
    obtain ⟨y, s, al, rh⟩ := b
    exact ih _

open Operators.Unconstrained in
theorem backward_forward_eq :
    ∀ (oldY oldS : List V) (q : V), oldY.length = oldS.length →
      InvBFGS.backward
        (List.zip oldY (List.zip oldS
          (List.zip (forwardAlpha (List.zip oldY oldS) q)
            (forwardRho (List.zip oldY oldS))))).reverse
        (forwardResult (List.zip oldY oldS) q)
        = twoLoop (List.zip oldY oldS) q
  | [], [], _, _ => rfl
  | [], _ :: _, _, h => by simp at h
  | _ :: _, [], _, h => by simp at h
  | y :: oldY, s :: oldS, q, h => by
    have ih := backward_forward_eq oldY oldS
      (axpy (-(1 / innr y s * innr s q)) y q) (by simpa using h)
    show InvBFGS.backward
        ((y, s, 1 / innr y s * innr s q, 1 / innr y s) ::
          List.zip oldY (List.zip oldS
            (List.zip
              (forwardAlpha (List.zip oldY oldS)
                (axpy (-(1 / innr y s * innr s q)) y q))
              (forwardRho (List.zip oldY oldS))))).reverse
        (forwardResult (List.zip oldY oldS)
          (axpy (-(1 / innr y s * innr s q)) y q))
      = twoLoop ((y, s) :: List.zip oldY oldS) q
    rw [List.reverse_cons, backward_append, ih]
    rfl

theorem twoLoop_eq :
    ∀ (oldY oldS : List V), oldY.length = oldS.length →
      ∀ p : V, twoLoop (List.zip oldY oldS) p = InvBFGS oldY oldS p
  | [], [], _, _ => rfl
  | [], _ :: _, h, _ => by simp at h
  | _ :: _, [], h, _ => by simp at h
  | y :: oldY, s :: oldS, h, p => by
    have ih := twoLoop_eq oldY oldS (by simpa using h)
    have hq : axpy (-(1 / innr y s * innr s p)) y p
        = p - (1 / innr y s * innr s p) • y := by
      simp only [axpy]
      rw [neg_smul]; abel
    show axpy
        (1 / innr y s * innr s p - 1 / innr y s
          * innr y (twoLoop (List.zip oldY oldS)
              (axpy (-(1 / innr y s * innr s p)) y p)))
        s (twoLoop (List.zip oldY oldS) (axpy (-(1 / innr y s * innr s p)) y p))
      = invBfgsUpdate (InvBFGS oldY oldS) y s p
    rw [ih, hq]
    simp only [invBfgsUpdate, axpy]
    rw [sub_smul]
    abel

/-! ### The denominators of the BFGS recursion are positive -/

theorem posDef_id : PosDef (fun p : V => p) := by
  intro v hv
  rcases lt_or_eq_of_le (innr_self_nonneg v) with h | h
  · exact h
  · exact absurd (innr_self_eq_zero v h.symm) hv

theorem linear_bfgsUpdate {B : V → V} (hL : Linear B) (y s : V) :
    Linear (bfgsUpdate B y s) := by
  constructor
  · intro u v
    simp only [bfgsUpdate, hL.1, innr_add_right, add_div, add_smul]
    abel
  · intro a u
    simp only [bfgsUpdate, hL.2, innr_smul_right, smul_sub, smul_add, smul_smul,
      mul_div_assoc]

theorem posDef_bfgsUpdate {B : V → V} (hS : Symmetric B) (hL : Linear B)
    (hP : PosDef B) {y s : V} (hys : 0 < innr y s) :
    PosDef (bfgsUpdate B y s) := by
  intro v hv
  have hs : s ≠ 0 := by
    intro h
    rw [h, innr_zero_right] at hys
    exact lt_irrefl _ hys
  have ha : 0 < innr s (B s) := hP s hs
  have hc : 0 < innr v (B v) := hP v hv
  have hb : innr v (B s) = innr (B s) v := innr_comm _ _
  have hb2 : innr s (B v) = innr (B s) v := (hS s v).symm
  have hyv : innr v y = innr y v := innr_comm _ _
  -- the value of the quadratic form of the update
  have hval : innr v (bfgsUpdate B y s v)
      = (innr s (B s) * innr v (B v) - innr (B s) v * innr (B s) v) / innr s (B s)
        + innr y v * innr y v / innr y s := by
    have ha0 : innr s (B s) ≠ 0 := ne_of_gt ha
    have hys0 : innr y s ≠ 0 := ne_of_gt hys
    have e1 : (innr s (B s) * innr v (B v) - innr (B s) v * innr (B s) v)
        / innr s (B s)
        = innr v (B v) - innr (B s) v / innr s (B s) * innr (B s) v := by
      rw [sub_div, mul_div_cancel_left₀ _ ha0, div_mul_eq_mul_div]
    have e2 : innr y v * innr y v / innr y s
        = innr y v / innr y s * innr y v := by
      rw [div_mul_eq_mul_div]
    simp only [bfgsUpdate, innr_add_right, innr_sub_right, innr_smul_right, hb, hyv]
    rw [e1, e2]
  -- the Cauchy-Schwarz vector
  have hw : innr (innr s (B s) • v + (-innr (B s) v) • s)
      (B (innr s (B s) • v + (-innr (B s) v) • s))
      = innr s (B s)
        * (innr s (B s) * innr v (B v) - innr (B s) v * innr (B s) v) := by
    rw [hL.1, hL.2, hL.2]
    simp only [innr_add_left, innr_add_right, innr_smul_left, innr_smul_right,
      hb, hb2]
    ring
  rw [hval]
  by_cases hw0 : innr s (B s) • v + (-innr (B s) v) • s = 0
  · -- the vector `v` is a multiple of `s`
    have h1 : innr s (B s) * innr v (B v) - innr (B s) v * innr (B s) v = 0 := by
      have h := hw
      rw [hw0, innr_zero_left] at h
      rcases mul_eq_zero.mp h.symm with h | h
      · exact absurd h (ne_of_gt ha)
      · exact h
    have h2 : innr s (B s) * innr y v = innr (B s) v * innr y s := by
      have h := congrArg (fun z => innr y z) hw0
      simp only [innr_add_right, innr_smul_right, innr_zero_right] at h
      linarith
    have hbne : innr (B s) v ≠ 0 := by
      intro hb0
      rw [hb0, neg_zero, zero_smul, add_zero] at hw0
      rcases smul_eq_zero.mp hw0 with h | h
      · exact absurd h (ne_of_gt ha)
      · exact hv h
    have hyvne : innr y v ≠ 0 := by
      intro h0
      rw [h0, mul_zero] at h2
      rcases mul_eq_zero.mp h2.symm with h | h
      · exact hbne h
      · exact absurd h (ne_of_gt hys)
    rw [h1, zero_div, zero_add]
    exact div_pos (mul_self_pos.mpr hyvne) hys
  · have h1 : 0 < innr s (B s)
        * (innr s (B s) * innr v (B v) - innr (B s) v * innr (B s) v) := by
      rw [← hw]
      exact hP _ hw0
    have h2 : 0 < innr s (B s) * innr v (B v) - innr (B s) v * innr (B s) v :=
      (pos_iff_pos_of_mul_pos h1).mp ha
    have h3 : 0 ≤ innr y v * innr y v / innr y s :=
      div_nonneg (mul_self_nonneg _) (le_of_lt hys)
    have h4 : 0 < (innr s (B s) * innr v (B v) - innr (B s) v * innr (B s) v)
        / innr s (B s) := div_pos h2 ha
    linarith

theorem BFGS_invariants :
    ∀ (oldY oldS : List V),
      (∀ a ∈ List.zip oldY oldS, 0 < innr a.1 a.2) →
        Symmetric (BFGS oldY oldS) ∧ Linear (BFGS oldY oldS)
          ∧ PosDef (BFGS oldY oldS)
  | [], _, _ => ⟨symmetric_id, ⟨fun _ _ => rfl, fun _ _ => rfl⟩, posDef_id⟩
  | _ :: _, [], _ => ⟨symmetric_id, ⟨fun _ _ => rfl, fun _ _ => rfl⟩, posDef_id⟩
  | y :: oldY, s :: oldS, h => by
    have hys : 0 < innr y s := h (y, s) (by simp)
    obtain ⟨hS, hL, hP⟩ := BFGS_invariants oldY oldS
      (fun a ha => h a (by simp [ha]))
    exact ⟨symmetric_bfgsUpdate hS y s, linear_bfgsUpdate hL y s,
      posDef_bfgsUpdate hS hL hP hys⟩

theorem BFGS_defined :
    ∀ (oldY oldS : List V),
      (∀ a ∈ List.zip oldY oldS, 0 < innr a.1 a.2) → BFGSDefined oldY oldS
  | [], _, _ => by simp [BFGSDefined]
  | _ :: _, [], _ => by simp [BFGSDefined]
  | y :: oldY, s :: oldS, h => by
    have hys : 0 < innr y s := h (y, s) (by simp)
    have hrest : ∀ a ∈ List.zip oldY oldS, 0 < innr a.1 a.2 :=
      fun a ha => h a (by simp [ha])
    have hs : s ≠ 0 := by
      intro h0
      rw [h0, innr_zero_right] at hys
      exact lt_irrefl _ hys
    exact ⟨hys, (BFGS_invariants oldY oldS hrest).2.2 s hs,
      BFGS_defined oldY oldS hrest⟩

end Recursion

/-! ## The claims on the quasi-Newton operators -/

section OperatorClaims

open Hilbert Operators.Unconstrained

variable {V : Type} [AddCommGroup V] [Module ℚ V] [Hilbert V]

theorem any_neg_eq_false (l : List (V × V))
    (hpos : ∀ a ∈ l, 0 < innr a.1 a.2) :
    l.any (fun a => decide (innr a.1 a.2 < 0)) = false := by
  rw [List.any_eq_false]
  intro a ha
  have := hpos a ha
  simp only [decide_eq_true_eq, not_lt]
  exact le_of_lt this

/-- C3: for every state whose `oldY` and `oldS` have the same length and whose
pairs all satisfy `⟨y_i, s_i⟩ > 0`, and every `p`, the operator `BFGS` returns
`B_k p`, where `B_0 = I`, `B_{i+1} = B_i - (B_i s_i)(B_i s_i)ᵀ/⟨s_i, B_i s_i⟩
+ y_i y_iᵀ/⟨y_i, s_i⟩` and the pairs are applied from the back of the lists to
the front; all the denominators of the recursion are positive; with an empty
history the operator returns `p`. -/
theorem BFGS_returns_recursion (state : State.Unconstrained V) (p : V)
    (hlen : state.oldY.length = state.oldS.length)
    (hpos : ∀ a ∈ List.zip state.oldY state.oldS, 0 < innr a.1 a.2) :
    BFGS state p = .ok (Recursion.BFGS state.oldY state.oldS p)
      ∧ Recursion.BFGSDefined state.oldY state.oldS
      ∧ BFGS { state with oldY := [], oldS := [] } p = .ok p := by
  refine ⟨?_, Recursion.BFGS_defined _ _ hpos, by simp [BFGS, copy]⟩
  unfold BFGS
  simp only [hlen, ne_eq, not_true_eq_false, if_false, any_neg_eq_false _ hpos,
    Bool.false_eq_true]
  split
  · rename_i h0
    have hS : state.oldS = [] := List.length_eq_zero.mp h0
    have hY : state.oldY = [] := List.length_eq_zero.mp (hlen.trans h0)
    rw [hS, hY]
    rfl
  · rw [Recursion.work_reverse_eq _ _ hlen, Recursion.BFGS_eq_extend _ _ hlen]
    exact congrArg Except.ok
      (Recursion.BFGS_loop_eq p _ (fun q => q) Recursion.symmetric_id)

/-- C3, at a history of two pairs: the operator returns `diag(2,3) p`. -/
theorem BFGS_returns_recursion_witness :
    (withHistory [(0, 3), (2, 0)] [(0, 1), (1, 0)]).oldY.length
        = (withHistory [(0, 3), (2, 0)] [(0, 1), (1, 0)]).oldS.length
      ∧ (∀ a ∈ List.zip (withHistory [(0, 3), (2, 0)] [(0, 1), (1, 0)]).oldY
            (withHistory [(0, 3), (2, 0)] [(0, 1), (1, 0)]).oldS,
          0 < innr a.1 a.2)
      ∧ BFGS (withHistory [(0, 3), (2, 0)] [(0, 1), (1, 0)]) (1, 1)
          = .ok (Recursion.BFGS [(0, 3), (2, 0)] [(0, 1), (1, 0)] (1, 1))
      ∧ Recursion.BFGS [(0, 3), (2, 0)] [(0, 1), (1, 0)] ((1, 1) : ℚ × ℚ)
          = (2, 3) :=
  have hpos : ∀ a ∈ List.zip (withHistory [(0, 3), (2, 0)] [(0, 1), (1, 0)]).oldY
      (withHistory [(0, 3), (2, 0)] [(0, 1), (1, 0)]).oldS,
      0 < innr a.1 a.2 := by
    simp [withHistory, innr]
  ⟨rfl, hpos,
    (BFGS_returns_recursion (withHistory [(0, 3), (2, 0)] [(0, 1), (1, 0)])
      (1, 1) rfl hpos).1,
    by simp [Recursion.BFGS, Recursion.bfgsUpdate, innr, Prod.ext_iff]⟩

/-- C4: for every state whose `oldY` and `oldS` have the same length and whose
pairs all satisfy `⟨y_i, s_i⟩ > 0`, and every `p`, the operator `InvBFGS` (the
two loops) returns `H_k p`, where `H_0 = I`, `H_{i+1} = (I - ρ_i s_i y_iᵀ) H_i
(I - ρ_i y_i s_iᵀ) + ρ_i s_i s_iᵀ` with `ρ_i = 1/⟨y_i, s_i⟩` and the pairs are
applied from the back of the lists to the front; with an empty history the
operator returns `p`. -/
theorem InvBFGS_returns_recursion (state : State.Unconstrained V) (p : V)
    (hlen : state.oldY.length = state.oldS.length)
    (hpos : ∀ a ∈ List.zip state.oldY state.oldS, 0 < innr a.1 a.2) :
    InvBFGS state p = .ok (Recursion.InvBFGS state.oldY state.oldS p)
      ∧ InvBFGS { state with oldY := [], oldS := [] } p = .ok p := by
  refine ⟨?_, by simp [InvBFGS, InvBFGS.forward, InvBFGS.backward, copy]⟩
  unfold InvBFGS
  simp only [hlen, ne_eq, not_true_eq_false, if_false, any_neg_eq_false _ hpos,
    Bool.false_eq_true, Recursion.forward_eq, List.nil_append, copy]
  rw [Recursion.backward_forward_eq _ _ p hlen, Recursion.twoLoop_eq _ _ hlen]

/-- C4, at a history of two pairs: the operator returns `diag(1/2,1/3) p`. -/
theorem InvBFGS_returns_recursion_witness :
    (withHistory [(0, 3), (2, 0)] [(0, 1), (1, 0)]).oldY.length
        = (withHistory [(0, 3), (2, 0)] [(0, 1), (1, 0)]).oldS.length
      ∧ (∀ a ∈ List.zip (withHistory [(0, 3), (2, 0)] [(0, 1), (1, 0)]).oldY
            (withHistory [(0, 3), (2, 0)] [(0, 1), (1, 0)]).oldS,
          0 < innr a.1 a.2)
      ∧ InvBFGS (withHistory [(0, 3), (2, 0)] [(0, 1), (1, 0)]) (1, 1)
          = .ok (Recursion.InvBFGS [(0, 3), (2, 0)] [(0, 1), (1, 0)] (1, 1))
      ∧ Recursion.InvBFGS [(0, 3), (2, 0)] [(0, 1), (1, 0)] ((1, 1) : ℚ × ℚ)
          = (1 / 2, 1 / 3) :=
  have hpos : ∀ a ∈ List.zip (withHistory [(0, 3), (2, 0)] [(0, 1), (1, 0)]).oldY
      (withHistory [(0, 3), (2, 0)] [(0, 1), (1, 0)]).oldS,
      0 < innr a.1 a.2 := by
    simp [withHistory, innr]
  ⟨rfl, hpos,
    (InvBFGS_returns_recursion (withHistory [(0, 3), (2, 0)] [(0, 1), (1, 0)])
      (1, 1) rfl hpos).1,
    by simp [Recursion.InvBFGS, Recursion.invBfgsUpdate, innr, Prod.ext_iff]⟩

/-- C5: for every state whose `oldY` and `oldS` have the same length and every
`p`, the operator `SR1` reports no error, whatever the sign of the `⟨y_i,
s_i⟩`; and when the denominators `⟨y_i - B_i s_i, s_i⟩` are different from zero
it returns `B_k p`, where `B_0 = I`, `B_{i+1} = B_i + (y_i - B_i s_i)(y_i - B_i
s_i)ᵀ/⟨y_i - B_i s_i, s_i⟩` and the pairs are applied from the back of the
lists to the front. -/
theorem SR1_returns_recursion (state : State.Unconstrained V) (p : V)
    (hlen : state.oldY.length = state.oldS.length) :
    (∃ r, SR1 state p = .ok r)
      ∧ (Recursion.SR1Defined state.oldY state.oldS →
          SR1 state p = .ok (Recursion.SR1 state.oldY state.oldS p)) := by
  have key : SR1 state p = .ok (Recursion.SR1 state.oldY state.oldS p) := by
    unfold SR1
    simp only [hlen, ne_eq, not_true_eq_false, if_false]
    split
    · rename_i h0
      have hS : state.oldS = [] := List.length_eq_zero.mp h0
      have hY : state.oldY = [] := List.length_eq_zero.mp (hlen.trans h0)
      rw [hS, hY]
      rfl
    · rw [Recursion.work_reverse_eq _ _ hlen, Recursion.SR1_eq_extend _ _ hlen]
      exact congrArg Except.ok (Recursion.SR1_loop_eq p _ (fun q => q))
  exact ⟨⟨_, key⟩, fun _ => key⟩

/-- C5, at a pair with `⟨y, s⟩ = -1`: no error, and the operator returns
`diag(-1,1) p`. -/
theorem SR1_returns_recursion_witness :
    (withHistory [(-1, 0)] [(1, 0)]).oldY.length
        = (withHistory [(-1, 0)] [(1, 0)]).oldS.length
      ∧ innr ((-1, 0) : ℚ × ℚ) (1, 0) = -1
      ∧ Recursion.SR1Defined (withHistory [(-1, 0)] [(1, 0)]).oldY
          (withHistory [(-1, 0)] [(1, 0)]).oldS
      ∧ SR1 (withHistory [(-1, 0)] [(1, 0)]) (1, 1)
          = .ok (Recursion.SR1 [(-1, 0)] [(1, 0)] (1, 1))
      ∧ Recursion.SR1 [(-1, 0)] [(1, 0)] ((1, 1) : ℚ × ℚ) = (-1, 1) :=
  have hden : Recursion.SR1Defined (withHistory [(-1, 0)] [(1, 0)]).oldY
      (withHistory [(-1, 0)] [(1, 0)]).oldS := by
    simp [withHistory, Recursion.SR1Defined, Recursion.SR1, innr]
    norm_num
  ⟨rfl, by simp [innr], hden,
    (SR1_returns_recursion (withHistory [(-1, 0)] [(1, 0)]) (1, 1) rfl).2 hden,
    by simp [Recursion.SR1, Recursion.sr1Update, innr, Prod.ext_iff]⟩

/-- C2 (the code at the failing input): `InvSR1` applies `SR1` to the history
as it is stored, for every state; with `oldY = [(2,0)]`, `oldS = [(1,0)]` and
`p = (1,0)` it returns `(2,0)`, whereas `SR1` on the swapped history returns
`(1/2,0)`. -/
theorem InvSR1_does_not_swap :
    (∀ (state : State.Unconstrained (ℚ × ℚ)) (p : ℚ × ℚ),
        InvSR1 state p = SR1 state p)
      ∧ InvSR1 (withHistory [(2, 0)] [(1, 0)]) (1, 0) = .ok (2, 0)
      ∧ SR1 (withHistory [(1, 0)] [(2, 0)]) (1, 0) = .ok (1 / 2, 0)
      ∧ InvSR1 (withHistory [(2, 0)] [(1, 0)]) (1, 0)
          ≠ SR1 (withHistory [(1, 0)] [(2, 0)]) (1, 0) := by
  have h1 : InvSR1 (withHistory [(2, 0)] [(1, 0)]) (1, 0) = .ok (2, 0) := by
    simp [InvSR1, SR1, SR1.loop, withHistory, axpy, copy, innr]
    norm_num
  have h2 : SR1 (withHistory [(1, 0)] [(2, 0)]) (1, 0) = .ok (1 / 2, 0) := by
    simp [SR1, SR1.loop, withHistory, axpy, copy, innr]
    norm_num
  refine ⟨fun _ _ => rfl, h1, h2, ?_⟩
  rw [h1, h2]
  intro h
  have h3 := congrArg Prod.fst (Except.ok.inj h)
  norm_num at h3

theorem BFGS_reports_length_mismatch (state : State.Unconstrained V) (p : V)
    (h : state.oldY.length ≠ state.oldS.length) :
    (∃ msg, BFGS state p = .error (.error msg))
      ∧ ∃ msg, InvBFGS state p = .error (.error msg) := by
  constructor
  · unfold BFGS
    simp only [h, ne_eq, not_false_eq_true, if_true]
    exact ⟨_, rfl⟩
  · unfold InvBFGS
    simp only [h, ne_eq, not_false_eq_true, if_true]
    exact ⟨_, rfl⟩

theorem BFGS_reports_negative_pair (state : State.Unconstrained V) (p : V)
    (hlen : state.oldY.length = state.oldS.length) (a : V × V)
    (ha : a ∈ List.zip state.oldY state.oldS) (hneg : innr a.1 a.2 < 0) :
    (∃ msg, BFGS state p = .error (.error msg))
      ∧ ∃ msg, InvBFGS state p = .error (.error msg) := by
  have hany : (List.zip state.oldY state.oldS).any
      (fun a => decide (innr a.1 a.2 < 0)) = true := by
    rw [List.any_eq_true]
    exact ⟨a, ha, by simpa using hneg⟩
  have hne : ¬ state.oldY.length = 0 := by
    intro h0
    have hY : state.oldY = [] := List.length_eq_zero.mp h0
    rw [hY] at ha
    simp at ha
  constructor
  · unfold BFGS
    simp only [hlen, ne_eq, not_true_eq_false, if_false, hany, if_true]
    rw [if_neg (by rw [← hlen]; exact hne)]
    exact ⟨_, rfl⟩
  · unfold InvBFGS
    simp only [hlen, ne_eq, not_true_eq_false, if_false, hany, if_true]
    exact ⟨_, rfl⟩

/-- C6 (the code at the failing input): with the single pair `y = (1,0)`, `s =
(0,1)`, for which `⟨y, s⟩ = 0`, neither `BFGS` nor `InvBFGS` reports an error;
the test of both is `inner_y_s < 0`. -/
theorem BFGS_accepts_zero_inner_product :
    innr ((1, 0) : ℚ × ℚ) (0, 1) = 0
      ∧ (∃ r, BFGS (withHistory [(1, 0)] [(0, 1)]) (1, 1) = .ok r)
      ∧ (∃ r, InvBFGS (withHistory [(1, 0)] [(0, 1)]) (1, 1) = .ok r) := by
  refine ⟨by simp [innr], ?_, ?_⟩
  · simp [BFGS, withHistory, innr]
  · simp [InvBFGS, withHistory, innr]

end OperatorClaims

/-! ## The claims on `check`, `release` and `capture` -/

section StateClaims

open State.Unconstrained

variable {V : Type}

theorem errorIf_bind_eq_ok (c : Bool) (m : String)
    (f : Unit → Except Failure Unit) :
    (errorIf c m >>= f) = .ok () ↔ c = false ∧ f () = .ok () := by
  cases c
  · simp [errorIf]; rfl
  · simp [errorIf]; intro h; cases h

theorem errorIf_eq_ok (c : Bool) (m : String) :
    errorIf c m = .ok () ↔ c = false := by
  cases c <;> simp [errorIf]

theorem returnsOrReports_errorIf (c : Bool) (m : String) :
    ReturnsOrReports (errorIf c m) := by
  cases c
  · exact Or.inl rfl
  · exact Or.inr ⟨m, rfl⟩

theorem returnsOrReports_bind (c : Bool) (m : String)
    (f : Unit → Except Failure Unit) (h : ReturnsOrReports (f ())) :
    ReturnsOrReports (errorIf c m >>= f) := by
  cases c
  · exact h
  · exact Or.inr ⟨m, rfl⟩

theorem check_returnsOrReports (st : State.Unconstrained V) :
    ReturnsOrReports (check st) := by
  unfold check
  repeat (first
    | exact returnsOrReports_errorIf _ _
    | apply returnsOrReports_bind)

theorem Real.le_of_lt_eq_false {a b : Real} (ha : a.isNumber = true)
    (hb : b.isNumber = true) (h : Real.lt a b = false) : Real.le b a = true := by
  cases a <;> cases b <;> simp_all [Real.lt, Real.le, Real.isNumber]

theorem Real.lt_of_le_eq_false {a b : Real} (ha : a.isNumber = true)
    (hb : b.isNumber = true) (h : Real.le a b = false) : Real.lt b a = true := by
  cases a <;> cases b <;> simp_all [Real.lt, Real.le, Real.isNumber]

/-- C8: `check` reports an error whenever `eps_g <= 0`, `eps_s <= 0`,
`eps_krylov <= 0`, `eps_ls <= 0`, `iter_max = 0`, `delta <= 0`, `delta >
delta_max`, `eta1` or `eta2` lies outside `[0,1]`, or `eta1 >= eta2`;
conversely, when `eta1`, `eta2`, `delta` and `delta_max` are numbers and
`check` reports no error, `0 <= eta1 < eta2 <= 1` and `0 < delta <=
delta_max`. -/
theorem check_reports_and_guarantees (st : State.Unconstrained V) :
    ((Real.le st.eps_g (.fin 0) = true ∨ Real.le st.eps_s (.fin 0) = true
        ∨ Real.le st.eps_krylov (.fin 0) = true
        ∨ Real.le st.eps_ls (.fin 0) = true
        ∨ st.iter_max = 0
        ∨ Real.le st.delta (.fin 0) = true
        ∨ Real.gt st.delta st.delta_max = true
        ∨ Real.lt st.eta1 (.fin 0) = true ∨ Real.gt st.eta1 (.fin 1) = true
        ∨ Real.lt st.eta2 (.fin 0) = true ∨ Real.gt st.eta2 (.fin 1) = true
        ∨ Real.ge st.eta1 st.eta2 = true) →
      ∃ msg, check st = .error (.error msg))
    ∧ (st.eta1.isNumber = true → st.eta2.isNumber = true →
        st.delta.isNumber = true → st.delta_max.isNumber = true →
        check st = .ok () →
          (Real.le (.fin 0) st.eta1 = true ∧ Real.lt st.eta1 st.eta2 = true
            ∧ Real.le st.eta2 (.fin 1) = true
            ∧ Real.lt (.fin 0) st.delta = true
            ∧ Real.le st.delta st.delta_max = true)
          ∧ ∃ e1 e2 : ℚ, st.eta1 = .fin e1 ∧ st.eta2 = .fin e2
              ∧ 0 ≤ e1 ∧ e1 < e2 ∧ e2 ≤ 1) := by
  constructor
  · intro h
    rcases check_returnsOrReports st with hok | herr
    · exfalso
      simp only [check, errorIf_bind_eq_ok, errorIf_eq_ok, Bool.or_eq_false_iff,
        decide_eq_false_iff_not, Real.gt, Real.ge] at hok
      simp only [Real.gt, Real.ge] at h
      obtain ⟨h1, h2, -, -, -, h6, -, -, -, -, h11, -, -, -, -, -, -, -, h19,
        -, h21, ⟨h22a, h22b⟩, ⟨h23a, h23b⟩, h24, -, -, -, -, -, -, h31⟩ := hok
      rcases h with h | h | h | h | h | h | h | h | h | h | h | h
      · rw [h] at h1; cases h1
      · rw [h] at h2; cases h2
      · rw [h] at h11; cases h11
      · rw [h] at h31; cases h31
      · exact h6 (by omega)
      · rw [h] at h19; cases h19
      · rw [h] at h21; cases h21
      · rw [h] at h22a; cases h22a
      · rw [h] at h22b; cases h22b
      · rw [h] at h23a; cases h23a
      · rw [h] at h23b; cases h23b
      · rw [h] at h24; cases h24
    · exact herr
  · intro n1 n2 n3 n4 hok
    simp only [check, errorIf_bind_eq_ok, errorIf_eq_ok, Bool.or_eq_false_iff,
      decide_eq_false_iff_not, Real.gt, Real.ge] at hok
    obtain ⟨-, -, -, -, -, -, -, -, -, -, -, -, -, -, -, -, -, -, h19,
      -, h21, ⟨h22a, h22b⟩, ⟨h23a, h23b⟩, h24, -, -, -, -, -, -, -⟩ := hok
    have a1 : Real.le (.fin 0) st.eta1 = true :=
      Real.le_of_lt_eq_false n1 rfl h22a
    have a2 : Real.lt st.eta1 st.eta2 = true :=
      Real.lt_of_le_eq_false n2 n1 h24
    have a3 : Real.le st.eta2 (.fin 1) = true :=
      Real.le_of_lt_eq_false rfl n2 h23b
    have a4 : Real.lt (.fin 0) st.delta = true :=
      Real.lt_of_le_eq_false n3 rfl h19
    have a5 : Real.le st.delta st.delta_max = true :=
      Real.le_of_lt_eq_false n4 n3 h21
    refine ⟨⟨a1, a2, a3, a4, a5⟩, ?_⟩
    cases h1 : st.eta1 <;> cases h2 : st.eta2 <;>
      simp_all [Real.lt, Real.le, Real.isNumber]

/-- C8, at two states: the default state with `delta = 200 > delta_max = 100`
is rejected; the default state is accepted and satisfies the bounds. -/
theorem check_reports_and_guarantees_witness :
    Real.gt (Real.fin 200) (Real.fin 100) = true
      ∧ (∃ msg, check ({ (init_params : State.Unconstrained Unit) with
            delta := .fin 200 }) = .error (.error msg))
      ∧ check (init_params : State.Unconstrained Unit) = .ok ()
      ∧ ∃ e1 e2 : ℚ, (init_params : State.Unconstrained Unit).eta1 = .fin e1
          ∧ (init_params : State.Unconstrained Unit).eta2 = .fin e2
          ∧ 0 ≤ e1 ∧ e1 < e2 ∧ e2 ≤ 1 :=
  have hgt : Real.gt (Real.fin 200) (Real.fin 100) = true := by
    simp [Real.gt, Real.lt]
    norm_num
  have hok : check (init_params : State.Unconstrained Unit) = .ok () := by
    simp [check, errorIf_bind_eq_ok, errorIf_eq_ok, init_params, Real.le,
      Real.lt, Real.gt, Real.ge, Real.ne]
    norm_num
  ⟨hgt,
    (check_reports_and_guarantees ({ (init_params : State.Unconstrained Unit)
        with delta := .fin 200 })).1
      (Or.inr (Or.inr (Or.inr (Or.inr (Or.inr (Or.inr (Or.inl hgt))))))),
    hok,
    ((check_reports_and_guarantees (init_params : State.Unconstrained Unit)).2
      rfl rfl rfl rfl hok).2⟩

/-- C1 (the code at the failing input): the state `evaluatedState` is accepted
by `check` and has `norm_g = 5`, `norm_gtyp = 6`, `norm_s = 7`, `norm_styp =
8`; releasing it and capturing the bags into a default-constructed state ends
without an error and leaves `norm_g = 7`, `norm_gtyp = 8` and the NaN of the
constructor in `norm_s` and `norm_styp`.  With `iter = 2` the captured state
is rejected by the `check` that ends `capture`. -/
theorem release_capture_misplaces_norm_s :
    check evaluatedState = .ok ()
      ∧ evaluatedState.norm_g = .fin 5 ∧ evaluatedState.norm_gtyp = .fin 6
      ∧ evaluatedState.norm_s = .fin 7 ∧ evaluatedState.norm_styp = .fin 8
      ∧ releaseThenCapture evaluatedState
          = ({ evaluatedState with
                norm_g := .fin 7, norm_gtyp := .fin 8,
                norm_s := .nan, norm_styp := .nan }, .ok ())
      ∧ check { evaluatedState with iter := 2 } = .ok ()
      ∧ releaseThenCapture { evaluatedState with iter := 2 }
          = ({ evaluatedState with
                iter := 2, norm_g := .fin 7, norm_gtyp := .fin 8,
                norm_s := .nan, norm_styp := .nan },
             .error (.error "The norm of the trial step must be nonnegative")) := by
  have h1 : check evaluatedState = .ok () := by
    simp [check, errorIf_bind_eq_ok, errorIf_eq_ok, evaluatedState, init_params,
      Real.le, Real.lt, Real.gt, Real.ge, Real.ne]
    norm_num
  have h2 : check { evaluatedState with iter := 2 } = .ok () := by
    simp [check, errorIf_bind_eq_ok, errorIf_eq_ok, evaluatedState, init_params,
      Real.le, Real.lt, Real.gt, Real.ge, Real.ne]
    norm_num
  have h3 : check { evaluatedState with
      norm_g := .fin 7, norm_gtyp := .fin 8, norm_s := .nan, norm_styp := .nan }
        = .ok () := by
    simp [check, errorIf_bind_eq_ok, errorIf_eq_ok, evaluatedState, init_params,
      Real.le, Real.lt, Real.gt, Real.ge, Real.ne]
    norm_num
  have h4 : check { evaluatedState with
      iter := 2, norm_g := .fin 7, norm_gtyp := .fin 8, norm_s := .nan,
      norm_styp := .nan }
        = .error (.error "The norm of the trial step must be nonnegative") := by
    simp [check, errorIf, evaluatedState, init_params,
      Real.le, Real.lt, Real.gt, Real.ge, Real.ne, bind, Except.bind]
    norm_num
  have h5 : releaseThenCapture evaluatedState
      = ({ evaluatedState with
            norm_g := .fin 7, norm_gtyp := .fin 8, norm_s := .nan,
            norm_styp := .nan },
         check { evaluatedState with
            norm_g := .fin 7, norm_gtyp := .fin 8, norm_s := .nan,
            norm_styp := .nan }) := rfl
  have h6 : releaseThenCapture { evaluatedState with iter := 2 }
      = ({ evaluatedState with
            iter := 2, norm_g := .fin 7, norm_gtyp := .fin 8, norm_s := .nan,
            norm_styp := .nan },
         check { evaluatedState with
            iter := 2, norm_g := .fin 7, norm_gtyp := .fin 8, norm_s := .nan,
            norm_styp := .nan }) := rfl
  rw [h3] at h5
  rw [h4] at h6
  exact ⟨h1, rfl, rfl, rfl, rfl, h5, h2, h6⟩

theorem stateToVectors_history_eq (name : String) (i : Int) (l : List V) :
    ∀ xs : X_Vectors V,
      stateToVectors.history name i l xs
        = (xs.1 ++ List.replicate l.length (name ++ toString i), xs.2 ++ l) := by
  induction l with
  | nil => intro xs; simp [stateToVectors.history]
  | cons y l ih =>
    intro xs
    simp only [stateToVectors.history, ih, List.length_cons, List.replicate_succ,
      List.append_assoc, List.singleton_append]

theorem stateToVectors_eq (st : State.Unconstrained V) (xs : X_Vectors V) :
    stateToVectors st xs
      = ({ st with x := [], g := [], s := [], x_old := [], g_old := [],
                   s_old := [], oldY := [], oldS := [] },
         (xs.1 ++ (["x", "g", "s", "x_old", "g_old", "s_old"]
            ++ (List.replicate st.oldY.length "oldY_1"
            ++ List.replicate st.oldS.length "oldS_1")),
          xs.2 ++ (st.x ++ (st.g ++ (st.s ++ (st.x_old ++ (st.g_old
            ++ (st.s_old ++ (st.oldY ++ st.oldS))))))))) := by
  have e1 : "oldY_" ++ toString (1 : Int) = "oldY_1" := by decide
  have e2 : "oldS_" ++ toString (1 : Int) = "oldS_1" := by decide
  simp only [stateToVectors, stateToVectors_history_eq, e1, e2,
    List.append_assoc, List.singleton_append, List.cons_append, List.nil_append]

/-- C10 (the code at the failing input): for every state, `release` labels the
vectors `x, g, s, x_old, g_old, s_old`, then every vector of `oldY` with
`oldY_1` and every vector of `oldS` with `oldS_1`; for the default state with
two pairs in its history the labels are not pairwise distinct and `oldY_2` is
not among them. -/
theorem release_repeats_history_label :
    (∀ (st : State.Unconstrained (ℚ × ℚ)),
        (release st ([], []) ([], []) ([], []) ([], [])).2.1.1
          = ["x", "g", "s", "x_old", "g_old", "s_old"]
              ++ (List.replicate st.oldY.length "oldY_1"
              ++ List.replicate st.oldS.length "oldS_1"))
      ∧ (release (withHistory [(0, 3), (2, 0)] [(0, 1), (1, 0)])
            ([], []) ([], []) ([], []) ([], [])).2.1.1
          = ["x", "g", "s", "x_old", "g_old", "s_old",
              "oldY_1", "oldY_1", "oldS_1", "oldS_1"]
      ∧ ¬ (release (withHistory [(0, 3), (2, 0)] [(0, 1), (1, 0)])
            ([], []) ([], []) ([], []) ([], [])).2.1.1.Nodup
      ∧ "oldY_2" ∉ (release (withHistory [(0, 3), (2, 0)] [(0, 1), (1, 0)])
            ([], []) ([], []) ([], []) ([], [])).2.1.1 := by
  refine ⟨fun st => ?_, by decide, by decide, by decide⟩
  simp only [release, stateToVectors_eq, List.nil_append]

/-- C7 (counterexample): capturing the single real `delta = 200` into the
default state, whose `delta_max` is `100`, reports the error of `check` on
`delta > delta_max`, and the state it leaves has `delta = 200`: it has been
modified. -/
theorem capture_installs_before_check :
    (capture (init_params : State.Unconstrained (ℚ × ℚ))
        ([], []) (["delta"], [.fin 200]) ([], []) ([], [])).2
        = .error (.error ("The trust-region radius must be less than or equal "
            ++ "to the maximum trust-region radius"))
      ∧ (capture (init_params : State.Unconstrained (ℚ × ℚ))
          ([], []) (["delta"], [.fin 200]) ([], []) ([], [])).1.delta = .fin 200
      ∧ (init_params : State.Unconstrained (ℚ × ℚ)).delta = .fin 100
      ∧ (capture (init_params : State.Unconstrained (ℚ × ℚ))
          ([], []) (["delta"], [.fin 200]) ([], []) ([], [])).1
          ≠ (init_params : State.Unconstrained (ℚ × ℚ)) := by
  have h0 : capture (init_params : State.Unconstrained (ℚ × ℚ))
      ([], []) (["delta"], [.fin 200]) ([], []) ([], [])
      = ({ (init_params : State.Unconstrained (ℚ × ℚ)) with delta := .fin 200 },
         check { (init_params : State.Unconstrained (ℚ × ℚ)) with
           delta := .fin 200 }) := rfl
  have h1 : check { (init_params : State.Unconstrained (ℚ × ℚ)) with
      delta := .fin 200 }
      = .error (.error ("The trust-region radius must be less than or equal "
            ++ "to the maximum trust-region radius")) := by
    simp [check, errorIf, init_params, Real.le, Real.lt, Real.gt, Real.ge,
      Real.ne, bind, Except.bind]
    norm_num
  rw [h0, h1]
  refine ⟨rfl, rfl, rfl, ?_⟩
  intro h
  have h2 := congrArg State.Unconstrained.delta h
  simp [init_params] at h2

theorem capture_of_installed (st : State.Unconstrained V) (xs : X_Vectors V)
    (reals : Reals) (nats : Nats) (params : Params)
    (hl : checkLabels xs reals nats params = .ok ())
    (hp : checkParams params.1 params.2 = .ok ())
    (hv : (vectorsToState st xs).2.2 = .ok ())
    (hs : (scalarsToState (vectorsToState st xs).1 reals nats params).2 = .ok ()) :
    capture st xs reals nats params
      = ((scalarsToState (vectorsToState st xs).1 reals nats params).1,
         check (scalarsToState (vectorsToState st xs).1 reals nats params).1) := by
  unfold capture
  rw [hl, hp]
  simp only
  rcases hv1 : vectorsToState st xs with ⟨st1, rest, o1⟩
  rw [hv1] at hv hs
  simp only at hv hs
  subst hv
  simp only
  rcases hs1 : scalarsToState st1 reals nats params with ⟨st2, o2⟩
  rw [hs1] at hs
  simp only at hs
  subst hs
  rfl

/-- C7 (amended): if `checkLabels` or `checkParams` fails (an unknown label, an
enum string outside its whitelist), `capture` reports the error and returns the
state unmodified; if both pass and the vectors and scalars are installed
without failure, `capture` returns the state with the bags installed together
with the verdict of `check` on that state: the value ranges are validated
after the installation. -/
theorem capture_validates_labels_before_installing
    (st : State.Unconstrained V) (xs : X_Vectors V) (reals : Reals)
    (nats : Nats) (params : Params) :
    ((checkLabels xs reals nats params ≠ .ok ()
        ∨ checkParams params.1 params.2 ≠ .ok ()) →
      (capture st xs reals nats params).1 = st
        ∧ (capture st xs reals nats params).2 ≠ .ok ())
    ∧ (checkLabels xs reals nats params = .ok () →
        checkParams params.1 params.2 = .ok () →
        (vectorsToState st xs).2.2 = .ok () →
        (scalarsToState (vectorsToState st xs).1 reals nats params).2 = .ok () →
        capture st xs reals nats params
          = ((scalarsToState (vectorsToState st xs).1 reals nats params).1,
             check (scalarsToState (vectorsToState st xs).1 reals nats params).1)) := by
  constructor
  · intro h
    unfold capture
    cases hl : checkLabels xs reals nats params with
    | error e => exact ⟨rfl, by simp⟩
    | ok u =>
      cases hp : checkParams params.1 params.2 with
      | error e => exact ⟨rfl, by simp⟩
      | ok v =>
        exfalso
        rcases h with h | h
        · exact h hl
        · exact h hp
  · exact capture_of_installed st xs reals nats params

/-- C7 (amended), at two inputs: the unknown enum string `Newton` for `dir`
leaves the default state unmodified; the real `delta = 200` passes the label
checks and is installed before `check` rejects it. -/
theorem capture_validates_labels_before_installing_witness :
    checkParams ["dir"] ["Newton"] ≠ .ok ()
      ∧ (capture (init_params : State.Unconstrained (ℚ × ℚ))
          ([], []) ([], []) ([], []) (["dir"], ["Newton"])).1 = init_params
      ∧ (capture (init_params : State.Unconstrained (ℚ × ℚ))
          ([], []) ([], []) ([], []) (["dir"], ["Newton"])).2 ≠ .ok ()
      ∧ capture (init_params : State.Unconstrained (ℚ × ℚ))
          ([], []) (["delta"], [.fin 200]) ([], []) ([], [])
          = ((scalarsToState (vectorsToState
                (init_params : State.Unconstrained (ℚ × ℚ)) ([], [])).1
                (["delta"], [.fin 200]) ([], []) ([], [])).1,
             check (scalarsToState (vectorsToState
                (init_params : State.Unconstrained (ℚ × ℚ)) ([], [])).1
                (["delta"], [.fin 200]) ([], []) ([], [])).1) :=
  have hp : checkParams ["dir"] ["Newton"] ≠ .ok () := by decide
  have h := (capture_validates_labels_before_installing
    (init_params : State.Unconstrained (ℚ × ℚ))
    ([], []) ([], []) ([], []) (["dir"], ["Newton"])).1 (Or.inr hp)
  ⟨hp, h.1, h.2,
    (capture_validates_labels_before_installing
      (init_params : State.Unconstrained (ℚ × ℚ))
      ([], []) (["delta"], [.fin 200]) ([], []) ([], [])).2
      (by decide) (by decide) (by decide) (by decide)⟩

theorem vectorsToState_loop_oldY (l : List V) (names : List String) :
    ∀ (st : State.Unconstrained V) (vs : List V),
      vectorsToState.loop (List.replicate l.length "oldY_1" ++ names) st (l ++ vs)
        = vectorsToState.loop names { st with oldY := st.oldY ++ l } vs := by
  have e : substr "oldY_1" 0 5 = "oldY_" := by decide
  induction l with
  | nil => intro st vs; simp
  | cons y l ih =>
    intro st vs
    have hstep : vectorsToState.loop
        ("oldY_1" :: (List.replicate l.length "oldY_1" ++ names)) st
        (y :: (l ++ vs))
        = vectorsToState.loop (List.replicate l.length "oldY_1" ++ names)
            { st with oldY := st.oldY ++ [y] } (l ++ vs) := by
      rw [vectorsToState.loop]
      simp [e]
    simp only [List.length_cons, List.replicate_succ, List.cons_append]
    rw [hstep, ih]
    simp

theorem vectorsToState_loop_oldS (l : List V) (names : List String) :
    ∀ (st : State.Unconstrained V) (vs : List V),
      vectorsToState.loop (List.replicate l.length "oldS_1" ++ names) st (l ++ vs)
        = vectorsToState.loop names { st with oldS := st.oldS ++ l } vs := by
  have e1 : substr "oldS_1" 0 5 = "oldS_" := by decide
  have e2 : ¬ substr "oldS_1" 0 5 = "oldY_" := by decide
  induction l with
  | nil => intro st vs; simp
  | cons y l ih =>
    intro st vs
    have hstep : vectorsToState.loop
        ("oldS_1" :: (List.replicate l.length "oldS_1" ++ names)) st
        (y :: (l ++ vs))
        = vectorsToState.loop (List.replicate l.length "oldS_1" ++ names)
            { st with oldS := st.oldS ++ [y] } (l ++ vs) := by
      rw [vectorsToState.loop]
      simp [e1, e2]
    simp only [List.length_cons, List.replicate_succ, List.cons_append]
    rw [hstep, ih]
    simp

theorem vectorsToState_loop_x (names : List String)
    (st : State.Unconstrained V) (xx : V) (vs : List V) :
    vectorsToState.loop ("x" :: names) st (xx :: vs)
      = vectorsToState.loop names { st with x := st.x ++ [xx] } vs := by
  rw [vectorsToState.loop]
  simp

theorem vectorsToState_loop_g (names : List String)
    (st : State.Unconstrained V) (xx : V) (vs : List V) :
    vectorsToState.loop ("g" :: names) st (xx :: vs)
      = vectorsToState.loop names { st with g := st.g ++ [xx] } vs := by
  rw [vectorsToState.loop]
  simp

theorem vectorsToState_loop_s (names : List String)
    (st : State.Unconstrained V) (xx : V) (vs : List V) :
    vectorsToState.loop ("s" :: names) st (xx :: vs)
      = vectorsToState.loop names { st with s := st.s ++ [xx] } vs := by
  rw [vectorsToState.loop]
  simp

theorem vectorsToState_loop_x_old (names : List String)
    (st : State.Unconstrained V) (xx : V) (vs : List V) :
    vectorsToState.loop ("x_old" :: names) st (xx :: vs)
      = vectorsToState.loop names { st with x_old := st.x_old ++ [xx] } vs := by
  rw [vectorsToState.loop]
  simp

theorem vectorsToState_loop_g_old (names : List String)
    (st : State.Unconstrained V) (xx : V) (vs : List V) :
    vectorsToState.loop ("g_old" :: names) st (xx :: vs)
      = vectorsToState.loop names { st with g_old := st.g_old ++ [xx] } vs := by
  rw [vectorsToState.loop]
  simp

theorem vectorsToState_loop_s_old (names : List String)
    (st : State.Unconstrained V) (xx : V) (vs : List V) :
    vectorsToState.loop ("s_old" :: names) st (xx :: vs)
      = vectorsToState.loop names { st with s_old := st.s_old ++ [xx] } vs := by
  rw [vectorsToState.loop]
  simp

theorem vectorsToState_loop_oldS_end (l : List V) (st : State.Unconstrained V) :
    vectorsToState.loop (List.replicate l.length "oldS_1") st l
      = ({ st with oldS := st.oldS ++ l }, [], .ok ()) := by
  have h := vectorsToState_loop_oldS l [] st []
  simp only [List.append_nil] at h
  rw [h]
  rfl

theorem vectorsToState_released (st : State.Unconstrained V)
    (vx vg vs vxo vgo vso : V)
    (hx : st.x = [vx]) (hg : st.g = [vg]) (hs : st.s = [vs])
    (hxo : st.x_old = [vxo]) (hgo : st.g_old = [vgo]) (hso : st.s_old = [vso]) :
    vectorsToState (stateToVectors st ([], [])).1 (stateToVectors st ([], [])).2
      = (st, ((stateToVectors st ([], [])).2.1, []), .ok ()) := by
  have hloop : vectorsToState.loop
      (["x", "g", "s", "x_old", "g_old", "s_old"]
        ++ (List.replicate st.oldY.length "oldY_1"
        ++ List.replicate st.oldS.length "oldS_1"))
      { st with x := [], g := [], s := [], x_old := [], g_old := [],
                s_old := [], oldY := [], oldS := [] }
      (st.x ++ (st.g ++ (st.s ++ (st.x_old ++ (st.g_old
        ++ (st.s_old ++ (st.oldY ++ st.oldS)))))))
      = (st, [], .ok ()) := by
    rw [hx, hg, hs, hxo, hgo, hso]
    show vectorsToState.loop
      ("x" :: "g" :: "s" :: "x_old" :: "g_old" :: "s_old"
        :: (List.replicate st.oldY.length "oldY_1"
          ++ List.replicate st.oldS.length "oldS_1"))
      { st with x := [], g := [], s := [], x_old := [], g_old := [],
                s_old := [], oldY := [], oldS := [] }
      (vx :: vg :: vs :: vxo :: vgo :: vso :: (st.oldY ++ st.oldS))
      = (st, [], .ok ())
    rw [vectorsToState_loop_x, vectorsToState_loop_g, vectorsToState_loop_s,
      vectorsToState_loop_x_old, vectorsToState_loop_g_old,
      vectorsToState_loop_s_old, vectorsToState_loop_oldY,
      vectorsToState_loop_oldS_end]
    cases st
    simp only at hx hg hs hxo hgo hso
    subst hx hg hs hxo hgo hso
    rfl
  simp only [vectorsToState, stateToVectors_eq, List.nil_append, hloop]

theorem checkLabels_released (ny ns : Nat) :
    checkLabels
      ((["x", "g", "s", "x_old", "g_old", "s_old"]
        ++ (List.replicate ny "oldY_1" ++ List.replicate ns "oldS_1"),
        ([] : List V)) : X_Vectors V) ([], []) ([], []) ([], []) = .ok () := by
  have hnone : List.find? (fun name => !is_var name)
      (["x", "g", "s", "x_old", "g_old", "s_old"]
        ++ (List.replicate ny "oldY_1" ++ List.replicate ns "oldS_1")) = none := by
    rw [List.find?_eq_none]
    intro name hname
    simp only [List.mem_append, List.mem_cons, List.mem_replicate,
      List.mem_singleton, List.not_mem_nil, or_false] at hname
    rcases hname with (h | h | h | h | h | h) | ⟨-, h⟩ | ⟨-, h⟩ <;>
      · subst h
        decide
  simp only [checkLabels, checkLabels.block, hnone, List.find?_nil]
  rfl

theorem checkLabels_vectors_only (labels : List String) (vs ws : List V) :
    checkLabels ((labels, vs) : X_Vectors V) ([], []) ([], []) ([], [])
      = checkLabels ((labels, ws) : X_Vectors V) ([], []) ([], []) ([], []) :=
  rfl

/-- C9: for every state in which each of `x, g, s, x_old, g_old, s_old` holds
exactly one vector, `release` leaves the state with all its vector lists
empty, `oldY` and `oldS` included, hands out all the vectors in the order `x,
g, s, x_old, g_old, s_old, oldY, oldS` with one label per vector, and capturing
the released vector bag into the emptied state gives back the state as it was
before the release. -/
theorem release_then_capture_restores_vectors (st : State.Unconstrained V)
    (hx : st.x.length = 1) (hg : st.g.length = 1) (hs : st.s.length = 1)
    (hxo : st.x_old.length = 1) (hgo : st.g_old.length = 1)
    (hso : st.s_old.length = 1) :
    (release st ([], []) ([], []) ([], []) ([], [])).1
        = { st with x := [], g := [], s := [], x_old := [], g_old := [],
                    s_old := [], oldY := [], oldS := [] }
      ∧ (release st ([], []) ([], []) ([], []) ([], [])).2.1.2
          = st.x ++ (st.g ++ (st.s ++ (st.x_old ++ (st.g_old
              ++ (st.s_old ++ (st.oldY ++ st.oldS))))))
      ∧ (release st ([], []) ([], []) ([], []) ([], [])).2.1.1.length
          = (release st ([], []) ([], []) ([], []) ([], [])).2.1.2.length
      ∧ vectorsToState (release st ([], []) ([], []) ([], []) ([], [])).1
          (release st ([], []) ([], []) ([], []) ([], [])).2.1
          = (st, ((release st ([], []) ([], []) ([], []) ([], [])).2.1.1, []),
              .ok ())
      ∧ (capture (release st ([], []) ([], []) ([], []) ([], [])).1
          (release st ([], []) ([], []) ([], []) ([], [])).2.1
          ([], []) ([], []) ([], [])).1 = st := by
  obtain ⟨vx, hx⟩ := List.length_eq_one.mp hx
  obtain ⟨vg, hg⟩ := List.length_eq_one.mp hg
  obtain ⟨vs, hs⟩ := List.length_eq_one.mp hs
  obtain ⟨vxo, hxo⟩ := List.length_eq_one.mp hxo
  obtain ⟨vgo, hgo⟩ := List.length_eq_one.mp hgo
  obtain ⟨vso, hso⟩ := List.length_eq_one.mp hso
  have hr1 : (release st ([], []) ([], []) ([], []) ([], [])).1
      = (stateToVectors st ([], [])).1 := rfl
  have hr2 : (release st ([], []) ([], []) ([], []) ([], [])).2.1
      = (stateToVectors st ([], [])).2 := rfl
  have hv := vectorsToState_released st vx vg vs vxo vgo vso hx hg hs hxo hgo hso
  rw [hr1, hr2]
  refine ⟨?_, ?_, ?_, hv, ?_⟩
  · rw [stateToVectors_eq]
  · rw [stateToVectors_eq]
    rfl
  · rw [stateToVectors_eq, hx, hg, hs, hxo, hgo, hso]
    simp only [List.nil_append, List.length_append, List.length_cons,
      List.length_nil, List.length_replicate]
    omega
  · have hl : checkLabels (stateToVectors st ([], [])).2 ([], []) ([], [])
        ([], []) = .ok () := by
      rw [stateToVectors_eq]
      exact (checkLabels_vectors_only _ _ _).trans
        (checkLabels_released st.oldY.length st.oldS.length)
    have hc := capture_of_installed (stateToVectors st ([], [])).1
      (stateToVectors st ([], [])).2 ([], []) ([], []) ([], []) hl rfl
      (by rw [hv]) (by rw [hv]; rfl)
    rw [hc, hv]
    rfl

/-- C9, at the state `evaluatedState` with two pairs in its history. -/
theorem release_then_capture_restores_vectors_witness :
    ({ evaluatedState with
        oldY := [(0, 3), (2, 0)], oldS := [(0, 1), (1, 0)] }
      : State.Unconstrained (ℚ × ℚ)).x.length = 1
      ∧ (release ({ evaluatedState with
            oldY := [(0, 3), (2, 0)], oldS := [(0, 1), (1, 0)] })
          ([], []) ([], []) ([], []) ([], [])).2.1
          = (["x", "g", "s", "x_old", "g_old", "s_old",
              "oldY_1", "oldY_1", "oldS_1", "oldS_1"],
             [(1, 2), (3, 4), (5, 6), (7, 8), (9, 10), (11, 12),
              (0, 3), (2, 0), (0, 1), (1, 0)])
      ∧ (capture (release ({ evaluatedState with
            oldY := [(0, 3), (2, 0)], oldS := [(0, 1), (1, 0)] })
            ([], []) ([], []) ([], []) ([], [])).1
          (release ({ evaluatedState with
            oldY := [(0, 3), (2, 0)], oldS := [(0, 1), (1, 0)] })
            ([], []) ([], []) ([], []) ([], [])).2.1
          ([], []) ([], []) ([], [])).1
          = { evaluatedState with
              oldY := [(0, 3), (2, 0)], oldS := [(0, 1), (1, 0)] } :=
  ⟨rfl, rfl,
    (release_then_capture_restores_vectors
      ({ evaluatedState with
          oldY := [(0, 3), (2, 0)], oldS := [(0, 1), (1, 0)] })
      rfl rfl rfl rfl rfl rfl).2.2.2.2⟩

end StateClaims

/-! ## The claims on the canonical strings and on the labels -/

section EnumClaims

open State.Unconstrained

variable {V : Type}

theorem AlgorithmClass_is_valid_iff (s : String) :
    AlgorithmClass.is_valid s = true
      ↔ ∃ v, AlgorithmClass.from_string s = .ok v ∧ AlgorithmClass.to_string v = s := by
  constructor
  · intro h
    simp only [AlgorithmClass.is_valid, ite_eq_left_iff, Bool.false_eq_true,
      imp_false, not_not] at h
    rcases h with h | h <;> subst h <;> exact ⟨_, rfl, rfl⟩
  · rintro ⟨v, -, rfl⟩
    cases v <;> rfl

theorem StoppingCondition_is_valid_iff (s : String) :
    StoppingCondition.is_valid s = true
      ↔ ∃ v, StoppingCondition.from_string s = .ok v
          ∧ StoppingCondition.to_string v = s := by
  constructor
  · intro h
    simp only [StoppingCondition.is_valid, ite_eq_left_iff, Bool.false_eq_true,
      imp_false, not_not] at h
    rcases h with h | h | h | h | h <;> subst h <;> exact ⟨_, rfl, rfl⟩
  · rintro ⟨v, -, rfl⟩
    cases v <;> rfl

theorem KrylovStop_is_valid_iff (s : String) :
    KrylovStop.is_valid s = true
      ↔ ∃ v, KrylovStop.from_string s = .ok v ∧ KrylovStop.to_string v = s := by
  constructor
  · intro h
    simp only [KrylovStop.is_valid, ite_eq_left_iff, Bool.false_eq_true,
      imp_false, not_not] at h
    rcases h with h | h | h | h <;> subst h <;> exact ⟨_, rfl, rfl⟩
  · rintro ⟨v, -, rfl⟩
    cases v <;> rfl

theorem Operators_is_valid_iff (s : String) :
    Operators.is_valid s = true
      ↔ ∃ v, Operators.from_string s = .ok v ∧ Operators.to_string v = s := by
  constructor
  · intro h
    simp only [Operators.is_valid, ite_eq_left_iff, Bool.false_eq_true,
      imp_false, not_not] at h
    rcases h with h | h | h | h | h | h | h <;> subst h <;> exact ⟨_, rfl, rfl⟩
  · rintro ⟨v, -, rfl⟩
    cases v <;> rfl

theorem LineSearchDirection_is_valid_iff (s : String) :
    LineSearchDirection.is_valid s = true
      ↔ ∃ v, LineSearchDirection.from_string s = .ok v
          ∧ LineSearchDirection.to_string v = s := by
  constructor
  · intro h
    simp only [LineSearchDirection.is_valid, ite_eq_left_iff, Bool.false_eq_true,
      imp_false, not_not] at h
    rcases h with h | h | h | h | h | h <;> subst h <;> exact ⟨_, rfl, rfl⟩
  · rintro ⟨v, -, rfl⟩
    cases v <;> rfl

theorem LineSearchKind_is_valid_iff (s : String) :
    LineSearchKind.is_valid s = true
      ↔ ∃ v, LineSearchKind.from_string s = .ok v
          ∧ LineSearchKind.to_string v = s := by
  constructor
  · intro h
    simp only [LineSearchKind.is_valid, ite_eq_left_iff, Bool.false_eq_true,
      imp_false, not_not] at h
    rcases h with h | h | h | h | h <;> subst h <;> exact ⟨_, rfl, rfl⟩
  · rintro ⟨v, -, rfl⟩
    cases v <;> rfl

theorem AlgorithmClass_to_string_of_from_string {s : String} {v : AlgorithmClass.t}
    (h : AlgorithmClass.from_string s = .ok v) : AlgorithmClass.to_string v = s := by
  unfold AlgorithmClass.from_string at h
  split_ifs at h <;> (injection h with h; subst h; subst_vars; rfl)

theorem AlgorithmClass_from_string_to_string (v : AlgorithmClass.t) :
    AlgorithmClass.from_string (AlgorithmClass.to_string v) = .ok v := by
  cases v <;> rfl

theorem AlgorithmClass_is_valid_iff_from_string (s : String) :
    AlgorithmClass.is_valid s = true ↔ ∃ v, AlgorithmClass.from_string s = .ok v := by
  constructor
  · intro h
    obtain ⟨v, hv, -⟩ := (AlgorithmClass_is_valid_iff s).mp h
    exact ⟨v, hv⟩
  · rintro ⟨v, hv⟩
    exact (AlgorithmClass_is_valid_iff s).mpr ⟨v, hv, AlgorithmClass_to_string_of_from_string hv⟩

theorem StoppingCondition_to_string_of_from_string {s : String} {v : StoppingCondition.t}
    (h : StoppingCondition.from_string s = .ok v) : StoppingCondition.to_string v = s := by
  unfold StoppingCondition.from_string at h
  split_ifs at h <;> (injection h with h; subst h; subst_vars; rfl)

theorem StoppingCondition_from_string_to_string (v : StoppingCondition.t) :
    StoppingCondition.from_string (StoppingCondition.to_string v) = .ok v := by
  cases v <;> rfl

theorem StoppingCondition_is_valid_iff_from_string (s : String) :
    StoppingCondition.is_valid s = true ↔ ∃ v, StoppingCondition.from_string s = .ok v := by
  constructor
  · intro h
    obtain ⟨v, hv, -⟩ := (StoppingCondition_is_valid_iff s).mp h
    exact ⟨v, hv⟩
  · rintro ⟨v, hv⟩
    exact (StoppingCondition_is_valid_iff s).mpr ⟨v, hv, StoppingCondition_to_string_of_from_string hv⟩

theorem KrylovStop_to_string_of_from_string {s : String} {v : KrylovStop.t}
    (h : KrylovStop.from_string s = .ok v) : KrylovStop.to_string v = s := by
  unfold KrylovStop.from_string at h
  split_ifs at h <;> (injection h with h; subst h; subst_vars; rfl)

theorem KrylovStop_from_string_to_string (v : KrylovStop.t) :
    KrylovStop.from_string (KrylovStop.to_string v) = .ok v := by
  cases v <;> rfl

theorem KrylovStop_is_valid_iff_from_string (s : String) :
    KrylovStop.is_valid s = true ↔ ∃ v, KrylovStop.from_string s = .ok v := by
  constructor
  · intro h
    obtain ⟨v, hv, -⟩ := (KrylovStop_is_valid_iff s).mp h
    exact ⟨v, hv⟩
  · rintro ⟨v, hv⟩
    exact (KrylovStop_is_valid_iff s).mpr ⟨v, hv, KrylovStop_to_string_of_from_string hv⟩

theorem Operators_to_string_of_from_string {s : String} {v : Operators.t}
    (h : Operators.from_string s = .ok v) : Operators.to_string v = s := by
  unfold Operators.from_string at h
  split_ifs at h <;> (injection h with h; subst h; subst_vars; rfl)

theorem Operators_from_string_to_string (v : Operators.t) :
    Operators.from_string (Operators.to_string v) = .ok v := by
  cases v <;> rfl

theorem Operators_is_valid_iff_from_string (s : String) :
    Operators.is_valid s = true ↔ ∃ v, Operators.from_string s = .ok v := by
  constructor
  · intro h
    obtain ⟨v, hv, -⟩ := (Operators_is_valid_iff s).mp h
    exact ⟨v, hv⟩
  · rintro ⟨v, hv⟩
    exact (Operators_is_valid_iff s).mpr ⟨v, hv, Operators_to_string_of_from_string hv⟩

theorem LineSearchDirection_to_string_of_from_string {s : String} {v : LineSearchDirection.t}
    (h : LineSearchDirection.from_string s = .ok v) : LineSearchDirection.to_string v = s := by
  unfold LineSearchDirection.from_string at h
  split_ifs at h <;> (injection h with h; subst h; subst_vars; rfl)

theorem LineSearchDirection_from_string_to_string (v : LineSearchDirection.t) :
    LineSearchDirection.from_string (LineSearchDirection.to_string v) = .ok v := by
  cases v <;> rfl

theorem LineSearchDirection_is_valid_iff_from_string (s : String) :
    LineSearchDirection.is_valid s = true ↔ ∃ v, LineSearchDirection.from_string s = .ok v := by
  constructor
  · intro h
    obtain ⟨v, hv, -⟩ := (LineSearchDirection_is_valid_iff s).mp h
    exact ⟨v, hv⟩
  · rintro ⟨v, hv⟩
    exact (LineSearchDirection_is_valid_iff s).mpr ⟨v, hv, LineSearchDirection_to_string_of_from_string hv⟩

theorem LineSearchKind_to_string_of_from_string {s : String} {v : LineSearchKind.t}
    (h : LineSearchKind.from_string s = .ok v) : LineSearchKind.to_string v = s := by
  unfold LineSearchKind.from_string at h
  split_ifs at h <;> (injection h with h; subst h; subst_vars; rfl)

theorem LineSearchKind_from_string_to_string (v : LineSearchKind.t) :
    LineSearchKind.from_string (LineSearchKind.to_string v) = .ok v := by
  cases v <;> rfl

theorem LineSearchKind_is_valid_iff_from_string (s : String) :
    LineSearchKind.is_valid s = true ↔ ∃ v, LineSearchKind.from_string s = .ok v := by
  constructor
  · intro h
    obtain ⟨v, hv, -⟩ := (LineSearchKind_is_valid_iff s).mp h
    exact ⟨v, hv⟩
  · rintro ⟨v, hv⟩
    exact (LineSearchKind_is_valid_iff s).mpr ⟨v, hv, LineSearchKind_to_string_of_from_string hv⟩

/-- C11: for each of the six enumerations, `from_string (to_string v)` returns
`v` for every variant `v`, and for every string `s` that `is_valid` accepts
`from_string s` returns a variant whose `to_string` is `s`; hence `to_string`
is injective. -/
theorem enum_strings_round_trip :
    ((∀ v, AlgorithmClass.from_string (AlgorithmClass.to_string v) = .ok v)
      ∧ (∀ s, AlgorithmClass.is_valid s = true →
          ∃ v, AlgorithmClass.from_string s = .ok v
            ∧ AlgorithmClass.to_string v = s)
      ∧ Function.Injective AlgorithmClass.to_string)
    ∧ ((∀ v, StoppingCondition.from_string (StoppingCondition.to_string v) = .ok v)
      ∧ (∀ s, StoppingCondition.is_valid s = true →
          ∃ v, StoppingCondition.from_string s = .ok v
            ∧ StoppingCondition.to_string v = s)
      ∧ Function.Injective StoppingCondition.to_string)
    ∧ ((∀ v, KrylovStop.from_string (KrylovStop.to_string v) = .ok v)
      ∧ (∀ s, KrylovStop.is_valid s = true →
          ∃ v, KrylovStop.from_string s = .ok v ∧ KrylovStop.to_string v = s)
      ∧ Function.Injective KrylovStop.to_string)
    ∧ ((∀ v, Operators.from_string (Operators.to_string v) = .ok v)
      ∧ (∀ s, Operators.is_valid s = true →
          ∃ v, Operators.from_string s = .ok v ∧ Operators.to_string v = s)
      ∧ Function.Injective Operators.to_string)
    ∧ ((∀ v, LineSearchDirection.from_string (LineSearchDirection.to_string v)
          = .ok v)
      ∧ (∀ s, LineSearchDirection.is_valid s = true →
          ∃ v, LineSearchDirection.from_string s = .ok v
            ∧ LineSearchDirection.to_string v = s)
      ∧ Function.Injective LineSearchDirection.to_string)
    ∧ ((∀ v, LineSearchKind.from_string (LineSearchKind.to_string v) = .ok v)
      ∧ (∀ s, LineSearchKind.is_valid s = true →
          ∃ v, LineSearchKind.from_string s = .ok v
            ∧ LineSearchKind.to_string v = s)
      ∧ Function.Injective LineSearchKind.to_string) := by
  refine ⟨⟨AlgorithmClass_from_string_to_string,
      fun s => (AlgorithmClass_is_valid_iff s).mp, ?_⟩,
    ⟨StoppingCondition_from_string_to_string,
      fun s => (StoppingCondition_is_valid_iff s).mp, ?_⟩,
    ⟨KrylovStop_from_string_to_string,
      fun s => (KrylovStop_is_valid_iff s).mp, ?_⟩,
    ⟨Operators_from_string_to_string,
      fun s => (Operators_is_valid_iff s).mp, ?_⟩,
    ⟨LineSearchDirection_from_string_to_string,
      fun s => (LineSearchDirection_is_valid_iff s).mp, ?_⟩,
    ⟨LineSearchKind_from_string_to_string,
      fun s => (LineSearchKind_is_valid_iff s).mp, ?_⟩⟩
  · intro a b h
    have h1 := AlgorithmClass_from_string_to_string a
    rw [h, AlgorithmClass_from_string_to_string] at h1
    exact (Except.ok.inj h1).symm
  · intro a b h
    have h1 := StoppingCondition_from_string_to_string a
    rw [h, StoppingCondition_from_string_to_string] at h1
    exact (Except.ok.inj h1).symm
  · intro a b h
    have h1 := KrylovStop_from_string_to_string a
    rw [h, KrylovStop_from_string_to_string] at h1
    exact (Except.ok.inj h1).symm
  · intro a b h
    have h1 := Operators_from_string_to_string a
    rw [h, Operators_from_string_to_string] at h1
    exact (Except.ok.inj h1).symm
  · intro a b h
    have h1 := LineSearchDirection_from_string_to_string a
    rw [h, LineSearchDirection_from_string_to_string] at h1
    exact (Except.ok.inj h1).symm
  · intro a b h
    have h1 := LineSearchKind_from_string_to_string a
    rw [h, LineSearchKind_from_string_to_string] at h1
    exact (Except.ok.inj h1).symm

/-- C11, at the string `InvBFGS`, which `Operators::is_valid` accepts. -/
theorem enum_strings_round_trip_witness :
    Operators.is_valid "InvBFGS" = true
      ∧ ∃ v, Operators.from_string "InvBFGS" = .ok v
          ∧ Operators.to_string v = "InvBFGS" :=
  ⟨by decide, enum_strings_round_trip.2.2.2.1.2.1 "InvBFGS" (by decide)⟩

theorem checkParams_cons_ok {name param : String} {names rest : List String}
    (h : checkParams (name :: names) (param :: rest) = .ok ()) :
    checkParams names rest = .ok ()
      ∧ (name = "algorithm_class" → AlgorithmClass.is_valid param = true)
      ∧ (name = "opt_stop" → StoppingCondition.is_valid param = true)
      ∧ (name = "krylov_stop" → KrylovStop.is_valid param = true)
      ∧ (name = "H_type" → Operators.is_valid param = true)
      ∧ (name = "Minv_type" → Operators.is_valid param = true)
      ∧ (name = "dir" → LineSearchDirection.is_valid param = true)
      ∧ (name = "kind" → LineSearchKind.is_valid param = true) := by
  rw [checkParams] at h
  split_ifs at h with h1 h2 h3 h4 h5 h6 h7
  all_goals
    first
    | (rw [errorIf_bind_eq_ok] at h
       simp only [Bool.not_eq_false'] at h
       subst_vars
       simp [h.1, h.2])
    | (simp only [pure_bind] at h
       simp [*])

theorem scalarsToState_params_ok (names : List String) :
    ∀ (rest : List String) (st : State.Unconstrained V),
      checkParams names rest = .ok () →
        (scalarsToState.params names rest st).2 = .ok () := by
  induction names with
  | nil => intro rest st _; rfl
  | cons name names ih =>
    intro rest st h
    cases rest with
    | nil => simp [checkParams] at h
    | cons param rest =>
      obtain ⟨hrest, h1, h2, h3, h4, h5, h6, h7⟩ := checkParams_cons_ok h
      rw [scalarsToState.params]
      split_ifs with c1 c2 c3 c4 c5 c6 c7
      · obtain ⟨v, hv⟩ := (AlgorithmClass_is_valid_iff_from_string param).mp (h1 c1)
        rw [hv]
        exact ih rest _ hrest
      · obtain ⟨v, hv⟩ :=
          (StoppingCondition_is_valid_iff_from_string param).mp (h2 c2)
        rw [hv]
        exact ih rest _ hrest
      · obtain ⟨v, hv⟩ := (KrylovStop_is_valid_iff_from_string param).mp (h3 c3)
        rw [hv]
        exact ih rest _ hrest
      · obtain ⟨v, hv⟩ := (Operators_is_valid_iff_from_string param).mp (h4 c4)
        rw [hv]
        exact ih rest _ hrest
      · obtain ⟨v, hv⟩ := (Operators_is_valid_iff_from_string param).mp (h5 c5)
        rw [hv]
        exact ih rest _ hrest
      · obtain ⟨v, hv⟩ :=
          (LineSearchDirection_is_valid_iff_from_string param).mp (h6 c6)
        rw [hv]
        exact ih rest _ hrest
      · obtain ⟨v, hv⟩ :=
          (LineSearchKind_is_valid_iff_from_string param).mp (h7 c7)
        rw [hv]
        exact ih rest _ hrest
      · exact ih rest _ hrest

theorem scalarsToState_reals_not_thrown (names : List String) :
    ∀ (rest : List Real) (st : State.Unconstrained V),
      (scalarsToState.reals names rest st).2 ≠ .error .thrown := by
  induction names with
  | nil => intro rest st; simp [scalarsToState.reals]
  | cons name names ih =>
    intro rest st
    cases rest with
    | nil => simp [scalarsToState.reals]
    | cons real rest =>
      rw [scalarsToState.reals]
      exact ih rest _

theorem scalarsToState_nats_not_thrown (names : List String) :
    ∀ (rest : List Nat) (st : State.Unconstrained V),
      (scalarsToState.nats names rest st).2 ≠ .error .thrown := by
  induction names with
  | nil => intro rest st; simp [scalarsToState.nats]
  | cons name names ih =>
    intro rest st
    cases rest with
    | nil => simp [scalarsToState.nats]
    | cons nat rest =>
      rw [scalarsToState.nats]
      exact ih rest _

/-- C12: for each of the six enumerations and every string `s`, `is_valid`
accepts `s` if and only if `from_string s` returns a variant (does not throw);
hence, for a parameter bag that passes `checkParams`, the third loop of
`scalarsToState` converts every enum string and ends normally, and
`scalarsToState` does not end by a `throw`. -/
theorem is_valid_iff_from_string_succeeds :
    (∀ s, AlgorithmClass.is_valid s = true
        ↔ ∃ v, AlgorithmClass.from_string s = .ok v)
      ∧ (∀ s, StoppingCondition.is_valid s = true
        ↔ ∃ v, StoppingCondition.from_string s = .ok v)
      ∧ (∀ s, KrylovStop.is_valid s = true
        ↔ ∃ v, KrylovStop.from_string s = .ok v)
      ∧ (∀ s, Operators.is_valid s = true
        ↔ ∃ v, Operators.from_string s = .ok v)
      ∧ (∀ s, LineSearchDirection.is_valid s = true
        ↔ ∃ v, LineSearchDirection.from_string s = .ok v)
      ∧ (∀ s, LineSearchKind.is_valid s = true
        ↔ ∃ v, LineSearchKind.from_string s = .ok v)
      ∧ (∀ (st : State.Unconstrained (ℚ × ℚ)) (reals : Reals) (nats : Nats)
          (params : Params),
          checkParams params.1 params.2 = .ok () →
            (scalarsToState.params params.1 params.2 st).2 = .ok ()
              ∧ (scalarsToState st reals nats params).2 ≠ .error .thrown) := by
  refine ⟨AlgorithmClass_is_valid_iff_from_string,
    StoppingCondition_is_valid_iff_from_string,
    KrylovStop_is_valid_iff_from_string, Operators_is_valid_iff_from_string,
    LineSearchDirection_is_valid_iff_from_string,
    LineSearchKind_is_valid_iff_from_string, ?_⟩
  intro st reals nats params h
  refine ⟨scalarsToState_params_ok _ _ _ h, ?_⟩
  unfold scalarsToState
  have hr := scalarsToState_reals_not_thrown reals.1 reals.2 st
  rcases hre : scalarsToState.reals reals.1 reals.2 st with ⟨st1, o1⟩
  rw [hre] at hr
  cases o1 with
  | error e =>
    simp only at hr ⊢
    intro hc
    exact hr hc
  | ok u =>
    simp only
    have hn := scalarsToState_nats_not_thrown nats.1 nats.2 st1
    rcases hne : scalarsToState.nats nats.1 nats.2 st1 with ⟨st2, o2⟩
    rw [hne] at hn
    cases o2 with
    | error e =>
      simp only at hn ⊢
      intro hc
      exact hn hc
    | ok u2 =>
      simp only
      rw [scalarsToState_params_ok _ _ _ h]
      simp

/-- C12, at the parameter bag `dir = NewtonCG`, `kind = TwoPointA`. -/
theorem is_valid_iff_from_string_succeeds_witness :
    checkParams ["dir", "kind"] ["NewtonCG", "TwoPointA"] = .ok ()
      ∧ (scalarsToState.params ["dir", "kind"] ["NewtonCG", "TwoPointA"]
          (init_params : State.Unconstrained (ℚ × ℚ))).2 = .ok ()
      ∧ (scalarsToState (init_params : State.Unconstrained (ℚ × ℚ)) ([], [])
          ([], []) (["dir", "kind"], ["NewtonCG", "TwoPointA"])).2
          ≠ .error .thrown :=
  have h : checkParams ["dir", "kind"] ["NewtonCG", "TwoPointA"] = .ok () := by
    decide
  ⟨h, is_valid_iff_from_string_succeeds.2.2.2.2.2.2
    (init_params : State.Unconstrained (ℚ × ℚ)) ([], []) ([], [])
    (["dir", "kind"], ["NewtonCG", "TwoPointA"]) h⟩

/-- C13 (counterexample): the string of the variant `PolakRibiere` is spelled
without the accent, and `is_valid` rejects the spelling `PolakRibière` of the
specification. -/
theorem PolakRibiere_is_spelled_in_ascii :
    LineSearchDirection.to_string .PolakRibiere ≠ "PolakRibière"
      ∧ LineSearchDirection.to_string .PolakRibiere = "PolakRibiere"
      ∧ LineSearchDirection.is_valid "PolakRibière" = false
      ∧ LineSearchDirection.from_string "PolakRibière" = .error .thrown := by
  decide

/-- C13 (amended): `LineSearchDirection::to_string` maps its six variants to
`SteepestDescent`, `FletcherReeves`, `PolakRibiere`, `HestenesStiefel`, `BFGS`
and `NewtonCG` respectively, and `LineSearchDirection::is_valid` accepts
exactly these six strings. -/
theorem LineSearchDirection_canonical_strings :
    LineSearchDirection.to_string .SteepestDescent = "SteepestDescent"
      ∧ LineSearchDirection.to_string .FletcherReeves = "FletcherReeves"
      ∧ LineSearchDirection.to_string .PolakRibiere = "PolakRibiere"
      ∧ LineSearchDirection.to_string .HestenesStiefel = "HestenesStiefel"
      ∧ LineSearchDirection.to_string .BFGS = "BFGS"
      ∧ LineSearchDirection.to_string .NewtonCG = "NewtonCG"
      ∧ ∀ s, LineSearchDirection.is_valid s = true
          ↔ s ∈ ["SteepestDescent", "FletcherReeves", "PolakRibiere",
                  "HestenesStiefel", "BFGS", "NewtonCG"] := by
  refine ⟨rfl, rfl, rfl, rfl, rfl, rfl, fun s => ?_⟩
  simp only [LineSearchDirection.is_valid, ite_eq_left_iff, Bool.false_eq_true,
    imp_false, not_not, List.mem_cons, List.mem_singleton, List.not_mem_nil,
    or_false]

theorem substr_eq_iff_prefix (name pre : String) (h : pre.data.length = 5) :
    substr name 0 5 = pre ↔ pre.data <+: name.data := by
  rw [List.prefix_iff_eq_take, h, String.ext_iff]
  simp only [substr, List.drop_zero]
  exact eq_comm

theorem is_var_iff (name : String) :
    is_var name = true
      ↔ name ∈ ["x", "g", "s", "x_old", "g_old", "s_old"]
        ∨ "oldY_".data <+: name.data ∨ "oldS_".data <+: name.data := by
  simp only [is_var, ite_eq_left_iff, Bool.false_eq_true, imp_false, not_not,
    List.mem_cons, List.mem_singleton, List.not_mem_nil, or_false,
    substr_eq_iff_prefix name "oldY_" rfl, substr_eq_iff_prefix name "oldS_" rfl,
    or_assoc]

theorem is_real_iff (name : String) :
    is_real name = true
      ↔ name ∈ ["eps_g", "eps_s", "krylov_rel_err", "eps_krylov", "norm_g",
        "norm_gtyp", "norm_s", "norm_styp", "obj_x", "obj_xps", "delta",
        "delta_max", "eta1", "eta2", "rho", "alpha", "eps_ls"] := by
  simp only [is_real, ite_eq_left_iff, Bool.false_eq_true, imp_false, not_not,
    List.mem_cons, List.mem_singleton, List.not_mem_nil, or_false]

theorem is_nat_iff (name : String) :
    is_nat name = true
      ↔ name ∈ ["stored_history", "history_reset", "iter", "iter_max",
        "krylov_iter", "krylov_iter_max", "krylov_iter_total", "verbose",
        "rejected_trustregion", "linesearch_iter", "linesearch_iter_max",
        "linesearch_iter_total"] := by
  simp only [is_nat, ite_eq_left_iff, Bool.false_eq_true, imp_false, not_not,
    List.mem_cons, List.mem_singleton, List.not_mem_nil, or_false]

theorem is_param_iff (name : String) :
    is_param name = true
      ↔ name ∈ ["algorithm_class", "opt_stop", "krylov_stop", "H_type",
        "Minv_type", "dir", "kind"] := by
  simp only [is_param, ite_eq_left_iff, Bool.false_eq_true, imp_false, not_not,
    List.mem_cons, List.mem_singleton, List.not_mem_nil, or_false]

theorem checkLabels_block_eq_ok (test : String → Bool) (what : String)
    (names : List String) :
    checkLabels.block test what names = .ok () ↔ ∀ name ∈ names, test name = true := by
  unfold checkLabels.block
  cases h : names.find? (fun name => !test name) with
  | none =>
    simp only [true_iff]
    intro name hname
    have := List.find?_eq_none.mp h name hname
    simpa using this
  | some name =>
    simp only [reduceCtorEq, false_iff, not_forall]
    have hmem := List.mem_of_find?_eq_some h
    have hp := List.find?_some h
    exact ⟨name, hmem, by simpa using hp⟩

theorem checkLabels_block_returnsOrReports (test : String → Bool)
    (what : String) (names : List String) :
    ReturnsOrReports (checkLabels.block test what names) := by
  unfold checkLabels.block
  cases names.find? (fun name => !test name) with
  | none => exact Or.inl rfl
  | some name => exact Or.inr ⟨_, rfl⟩

theorem bind_eq_ok (a : Except Failure Unit) (f : Unit → Except Failure Unit) :
    (a >>= f) = .ok () ↔ a = .ok () ∧ f () = .ok () := by
  cases a with
  | error e => simp [bind, Except.bind]
  | ok u => simp [bind, Except.bind]

theorem returnsOrReports_bind_of (a : Except Failure Unit)
    (f : Unit → Except Failure Unit) (ha : ReturnsOrReports a)
    (hf : ReturnsOrReports (f ())) : ReturnsOrReports (a >>= f) := by
  rcases ha with ha | ⟨msg, ha⟩
  · rw [ha]; exact hf
  · rw [ha]; exact Or.inr ⟨msg, rfl⟩

theorem checkLabels_eq_ok (xs : X_Vectors V) (reals : Reals) (nats : Nats)
    (params : Params) :
    checkLabels xs reals nats params = .ok ()
      ↔ LabelsAccepted xs reals nats params := by
  unfold checkLabels LabelsAccepted
  simp only [bind_eq_ok, checkLabels_block_eq_ok, is_var_iff, is_real_iff,
    is_nat_iff, is_param_iff]

theorem checkLabels_returnsOrReports (xs : X_Vectors V) (reals : Reals)
    (nats : Nats) (params : Params) :
    ReturnsOrReports (checkLabels xs reals nats params) := by
  unfold checkLabels
  repeat (first
    | exact checkLabels_block_returnsOrReports _ _ _
    | apply returnsOrReports_bind_of)

/-- C14 (counterexample): in the bag that holds the single real `delta = 200`
every label lies in its whitelist and `checkLabels` ends normally, yet `capture`
into the default state reports an error: a later step of `capture` (here
`check`, on `delta > delta_max`) reports although no label lies outside its
whitelist. -/
theorem capture_reports_on_whitelisted_labels :
    LabelsAccepted (([], []) : X_Vectors (ℚ × ℚ)) (["delta"], [.fin 200])
        ([], []) ([], [])
      ∧ checkLabels (([], []) : X_Vectors (ℚ × ℚ)) (["delta"], [.fin 200])
          ([], []) ([], []) = .ok ()
      ∧ checkParams [] [] = .ok ()
      ∧ (∃ msg, (capture (init_params : State.Unconstrained (ℚ × ℚ))
          ([], []) (["delta"], [.fin 200]) ([], []) ([], [])).2
          = .error (.error msg)) := by
  have hl : checkLabels (([], []) : X_Vectors (ℚ × ℚ)) (["delta"], [.fin 200])
      ([], []) ([], []) = .ok () := by decide
  have h0 : capture (init_params : State.Unconstrained (ℚ × ℚ))
      ([], []) (["delta"], [.fin 200]) ([], []) ([], [])
      = ({ (init_params : State.Unconstrained (ℚ × ℚ)) with delta := .fin 200 },
         check { (init_params : State.Unconstrained (ℚ × ℚ)) with
           delta := .fin 200 }) := rfl
  have h1 : check { (init_params : State.Unconstrained (ℚ × ℚ)) with
      delta := .fin 200 }
      = .error (.error ("The trust-region radius must be less than or equal "
            ++ "to the maximum trust-region radius")) := by
    simp [check, errorIf, init_params, Real.le, Real.lt, Real.gt, Real.ge,
      Real.ne, bind, Except.bind]
    norm_num
  refine ⟨(checkLabels_eq_ok _ _ _ _).mp hl, hl, by decide,
    ⟨"The trust-region radius must be less than or equal "
      ++ "to the maximum trust-region radius", ?_⟩⟩
  rw [h0, h1]

/-- C14 (amended): `checkLabels` reports an error if and only if some label
lies outside its whitelist (`LabelsAccepted` spells the four whitelists out)
and ends normally otherwise; `capture` reports an error whenever some label
lies outside its whitelist, the converse being left out. -/
theorem checkLabels_reports_iff (st : State.Unconstrained V) (xs : X_Vectors V)
    (reals : Reals) (nats : Nats) (params : Params) :
    ((∃ msg, checkLabels xs reals nats params = .error (.error msg))
        ↔ ¬ LabelsAccepted xs reals nats params)
      ∧ (checkLabels xs reals nats params = .ok ()
        ↔ LabelsAccepted xs reals nats params)
      ∧ (¬ LabelsAccepted xs reals nats params →
          ∃ msg, (capture st xs reals nats params).2 = .error (.error msg)) := by
  have hiff := checkLabels_eq_ok xs reals nats params
  have hrep : (∃ msg, checkLabels xs reals nats params = .error (.error msg))
      ↔ ¬ LabelsAccepted xs reals nats params := by
    rw [← hiff]
    constructor
    · rintro ⟨msg, h⟩ hok
      rw [h] at hok
      cases hok
    · intro h
      rcases checkLabels_returnsOrReports xs reals nats params with hok | herr
      · exact absurd hok h
      · exact herr
  refine ⟨hrep, hiff, fun h => ?_⟩
  obtain ⟨msg, hmsg⟩ := hrep.mpr h
  refine ⟨msg, ?_⟩
  unfold capture
  rw [hmsg]

/-- C14 (amended), at two bags: the vector label `oldY` (without the
underscore) is reported by `checkLabels` and by `capture`; the labels `x` and
`oldS_7` are accepted. -/
theorem checkLabels_reports_iff_witness :
    ¬ LabelsAccepted ((["oldY"], [(0, 0)]) : X_Vectors (ℚ × ℚ)) ([], []) ([], [])
        ([], [])
      ∧ (∃ msg, (capture (init_params : State.Unconstrained (ℚ × ℚ))
          (["oldY"], [(0, 0)]) ([], []) ([], []) ([], [])).2
          = .error (.error msg))
      ∧ checkLabels ((["x", "oldS_7"], [(0, 0), (1, 1)]) : X_Vectors (ℚ × ℚ))
          ([], []) ([], []) ([], []) = .ok ()
      ∧ LabelsAccepted ((["x", "oldS_7"], [(0, 0), (1, 1)]) : X_Vectors (ℚ × ℚ))
          ([], []) ([], []) ([], []) :=
  have h1 : checkLabels ((["oldY"], [(0, 0)]) : X_Vectors (ℚ × ℚ)) ([], [])
      ([], []) ([], []) ≠ .ok () := by decide
  have h2 : checkLabels ((["x", "oldS_7"], [(0, 0), (1, 1)]) : X_Vectors (ℚ × ℚ))
      ([], []) ([], []) ([], []) = .ok () := by decide
  have hn : ¬ LabelsAccepted ((["oldY"], [(0, 0)]) : X_Vectors (ℚ × ℚ)) ([], [])
      ([], []) ([], []) := fun h =>
    h1 ((checkLabels_reports_iff (init_params : State.Unconstrained (ℚ × ℚ))
      (["oldY"], [(0, 0)]) ([], []) ([], []) ([], [])).2.1.mpr h)
  ⟨hn,
    (checkLabels_reports_iff (init_params : State.Unconstrained (ℚ × ℚ))
      (["oldY"], [(0, 0)]) ([], []) ([], []) ([], [])).2.2 hn,
    h2,
    (checkLabels_reports_iff (init_params : State.Unconstrained (ℚ × ℚ))
      (["x", "oldS_7"], [(0, 0), (1, 1)]) ([], []) ([], []) ([], [])).2.1.mp h2⟩

end EnumClaims

/-! ## The claim on the norms and objective values accepted by `check` -/

section NormClaims

open State.Unconstrained

variable {V : Type}

theorem Real.ne_self_eq_false {a : Real} (h : Real.ne a a = false) :
    a.isNumber = true := by
  cases a <;> simp_all [Real.ne, Real.isNumber]

/-- C15 (counterexample): the state `evaluatedState` with `iter = 2`, `norm_g =
+inf`, `norm_s = +inf` and `obj_x = -inf` is accepted by `check`. -/
theorem check_accepts_infinite_norm :
    check { evaluatedState with
        iter := 2, norm_g := .pinf, norm_s := .pinf, obj_x := .ninf } = .ok ()
      ∧ ({ evaluatedState with
          iter := 2, norm_g := .pinf, norm_s := .pinf, obj_x := .ninf }
          : State.Unconstrained (ℚ × ℚ)).iter ≠ 1
      ∧ Real.isFinite .pinf = false ∧ Real.isFinite .ninf = false := by
  refine ⟨?_, by decide, rfl, rfl⟩
  simp [check, errorIf_bind_eq_ok, errorIf_eq_ok, evaluatedState, init_params,
    Real.le, Real.lt, Real.gt, Real.ge, Real.ne]
  norm_num

/-- C15 (amended): for every state for which `check` reports no error, if
`iter ≠ 1` then `norm_g`, `norm_gtyp`, `norm_s` and `norm_styp` are numbers
(not NaN) and not negative, possibly `+inf`, and `obj_x`, `obj_xps` are numbers
(not NaN), possibly infinite; and if one of these six fields is the NaN then
`iter = 1`. -/
theorem check_rejects_nan_after_first_iteration (st : State.Unconstrained V)
    (hok : check st = .ok ()) :
    (st.iter ≠ 1 →
        (st.norm_g.isNumber = true ∧ Real.le (.fin 0) st.norm_g = true)
          ∧ (st.norm_gtyp.isNumber = true ∧ Real.le (.fin 0) st.norm_gtyp = true)
          ∧ (st.norm_s.isNumber = true ∧ Real.le (.fin 0) st.norm_s = true)
          ∧ (st.norm_styp.isNumber = true ∧ Real.le (.fin 0) st.norm_styp = true)
          ∧ st.obj_x.isNumber = true ∧ st.obj_xps.isNumber = true)
      ∧ ((st.norm_g = .nan ∨ st.norm_gtyp = .nan ∨ st.norm_s = .nan
            ∨ st.norm_styp = .nan ∨ st.obj_x = .nan ∨ st.obj_xps = .nan) →
          st.iter = 1) := by
  simp only [check, errorIf_bind_eq_ok, errorIf_eq_ok, Bool.or_eq_false_iff,
    decide_eq_false_iff_not, Real.gt, Real.ge] at hok
  obtain ⟨-, -, -, -, -, -, -, -, -, -, -, ⟨h12a, h12b⟩, ⟨h13a, h13b⟩,
    ⟨h14a, h14b⟩, ⟨h15a, h15b⟩, h16, h17, -, -, -, -, -, -, -, -, -, -, -, -,
    -, -⟩ := hok
  have key : st.iter ≠ 1 →
      (st.norm_g.isNumber = true ∧ Real.le (.fin 0) st.norm_g = true)
        ∧ (st.norm_gtyp.isNumber = true ∧ Real.le (.fin 0) st.norm_gtyp = true)
        ∧ (st.norm_s.isNumber = true ∧ Real.le (.fin 0) st.norm_s = true)
        ∧ (st.norm_styp.isNumber = true ∧ Real.le (.fin 0) st.norm_styp = true)
        ∧ st.obj_x.isNumber = true ∧ st.obj_xps.isNumber = true := by
    intro hiter
    have hd : decide (st.iter ≠ 1) = true := decide_eq_true hiter
    rw [hd, Bool.true_and] at h12b h13b h14b h15b h16 h17
    have n1 := Real.ne_self_eq_false h12b
    have n2 := Real.ne_self_eq_false h13b
    have n3 := Real.ne_self_eq_false h14b
    have n4 := Real.ne_self_eq_false h15b
    exact ⟨⟨n1, Real.le_of_lt_eq_false n1 rfl h12a⟩,
      ⟨n2, Real.le_of_lt_eq_false n2 rfl h13a⟩,
      ⟨n3, Real.le_of_lt_eq_false n3 rfl h14a⟩,
      ⟨n4, Real.le_of_lt_eq_false n4 rfl h15a⟩,
      Real.ne_self_eq_false h16, Real.ne_self_eq_false h17⟩
  refine ⟨key, fun hnan => ?_⟩
  by_contra hiter
  obtain ⟨⟨n1, -⟩, ⟨n2, -⟩, ⟨n3, -⟩, ⟨n4, -⟩, n5, n6⟩ := key hiter
  rcases hnan with h | h | h | h | h | h
  · rw [h] at n1; cases n1
  · rw [h] at n2; cases n2
  · rw [h] at n3; cases n3
  · rw [h] at n4; cases n4
  · rw [h] at n5; cases n5
  · rw [h] at n6; cases n6

/-- C15 (amended), at two states: `evaluatedState` with `iter = 2`, and the
default state, which holds NaN norms and has `iter = 1`. -/
theorem check_rejects_nan_after_first_iteration_witness :
    check { evaluatedState with iter := 2 } = .ok ()
      ∧ ({ evaluatedState with iter := 2 } : State.Unconstrained (ℚ × ℚ)).iter ≠ 1
      ∧ ({ evaluatedState with iter := 2 }
          : State.Unconstrained (ℚ × ℚ)).norm_g.isNumber = true
      ∧ check (init_params : State.Unconstrained (ℚ × ℚ)) = .ok ()
      ∧ (init_params : State.Unconstrained (ℚ × ℚ)).norm_g = .nan
      ∧ (init_params : State.Unconstrained (ℚ × ℚ)).iter = 1 :=
  have h1 : check { evaluatedState with iter := 2 } = .ok () := by
    simp [check, errorIf_bind_eq_ok, errorIf_eq_ok, evaluatedState, init_params,
      Real.le, Real.lt, Real.gt, Real.ge, Real.ne]
    norm_num
  have h2 : check (init_params : State.Unconstrained (ℚ × ℚ)) = .ok () := by
    simp [check, errorIf_bind_eq_ok, errorIf_eq_ok, init_params,
      Real.le, Real.lt, Real.gt, Real.ge, Real.ne]
    norm_num
  ⟨h1, by decide,
    ((check_rejects_nan_after_first_iteration _ h1).1 (by decide)).1.1,
    h2, rfl,
    (check_rejects_nan_after_first_iteration _ h2).2 (Or.inl rfl)⟩

end NormClaims

/-! ## The claims on the stopping test -/

section StopClaims

open State.Unconstrained Algorithms.Unconstrained

variable {V : Type}

theorem toInt_of_lt {n : Nat} (h : n < 2147483648) : toInt n = (n : Int) := by
  unfold toInt
  have h1 : n % 4294967296 = n := Nat.mod_eq_of_lt (by omega)
  rw [h1, if_pos h]

theorem checkStop_ne_External (state : State.Unconstrained V) :
    checkStop state ≠ .External := by
  unfold checkStop
  simp only
  split_ifs <;> decide

theorem checkStop_opt_stop (state : State.Unconstrained V)
    (c : StoppingCondition.t) :
    checkStop { state with opt_stop := c } = checkStop state := rfl

theorem checkStop_cases (state : State.Unconstrained V) :
    (checkStop state = .RelativeGradientSmall
        ↔ Real.lt state.norm_g (Real.mul state.eps_g state.norm_gtyp) = true)
      ∧ (checkStop state = .RelativeStepSmall
        ↔ Real.lt state.norm_g (Real.mul state.eps_g state.norm_gtyp) = false
          ∧ Real.lt state.norm_s (Real.mul state.eps_s state.norm_styp) = true)
      ∧ (checkStop state = .MaxItersExceeded
        ↔ Real.lt state.norm_g (Real.mul state.eps_g state.norm_gtyp) = false
          ∧ Real.lt state.norm_s (Real.mul state.eps_s state.norm_styp) = false
          ∧ toInt state.iter ≥ toInt state.iter_max)
      ∧ (checkStop state = .NotConverged
        ↔ Real.lt state.norm_g (Real.mul state.eps_g state.norm_gtyp) = false
          ∧ Real.lt state.norm_s (Real.mul state.eps_s state.norm_styp) = false
          ∧ ¬ toInt state.iter ≥ toInt state.iter_max) := by
  unfold checkStop
  simp only
  split_ifs with h1 h2 h3 <;> simp_all

/-- C16 (the code at the failing input): the state `evaluatedState` with
`iter_max = 2^31` is accepted by `check`, has `iter = 1 < iter_max`, and none
of the two norm tests holds, yet `checkStop` returns `MaxItersExceeded`: the
shortcuts `iter` and `iter_max` of `checkStop` are `const int&` bound to the
`unsigned int` fields of the state, and `iter_max` is read as `-2^31`. -/
theorem checkStop_compares_counters_as_int :
    checkStop { evaluatedState with iter_max := 2147483648 } = .MaxItersExceeded
      ∧ ({ evaluatedState with iter_max := 2147483648 }
          : State.Unconstrained (ℚ × ℚ)).iter = 1
      ∧ ¬ ({ evaluatedState with iter_max := 2147483648 }
          : State.Unconstrained (ℚ × ℚ)).iter
          ≥ ({ evaluatedState with iter_max := 2147483648 }
          : State.Unconstrained (ℚ × ℚ)).iter_max
      ∧ toInt 2147483648 = -2147483648
      ∧ check { evaluatedState with iter_max := 2147483648 } = .ok () := by
  decide!

/-- The tests of `checkStop` in their order: it returns
`RelativeGradientSmall` iff `norm_g < eps_g * norm_gtyp`; otherwise
`RelativeStepSmall` iff `norm_s < eps_s * norm_styp`; otherwise
`MaxItersExceeded` iff `iter >= iter_max` for the two counters read as `int`;
and `NotConverged` iff none of the three conditions holds.  For counters below
`2^31` the third test is `iter >= iter_max` on the counters themselves. -/
theorem checkStop_priority_chain (state : State.Unconstrained V) :
    ((checkStop state = .RelativeGradientSmall
        ↔ Real.lt state.norm_g (Real.mul state.eps_g state.norm_gtyp) = true)
      ∧ (checkStop state = .RelativeStepSmall
        ↔ Real.lt state.norm_g (Real.mul state.eps_g state.norm_gtyp) = false
          ∧ Real.lt state.norm_s (Real.mul state.eps_s state.norm_styp) = true)
      ∧ (checkStop state = .MaxItersExceeded
        ↔ Real.lt state.norm_g (Real.mul state.eps_g state.norm_gtyp) = false
          ∧ Real.lt state.norm_s (Real.mul state.eps_s state.norm_styp) = false
          ∧ toInt state.iter ≥ toInt state.iter_max)
      ∧ (checkStop state = .NotConverged
        ↔ Real.lt state.norm_g (Real.mul state.eps_g state.norm_gtyp) = false
          ∧ Real.lt state.norm_s (Real.mul state.eps_s state.norm_styp) = false
          ∧ ¬ toInt state.iter ≥ toInt state.iter_max))
    ∧ (state.iter < 2147483648 → state.iter_max < 2147483648 →
        (checkStop state = .MaxItersExceeded
          ↔ Real.lt state.norm_g (Real.mul state.eps_g state.norm_gtyp) = false
            ∧ Real.lt state.norm_s (Real.mul state.eps_s state.norm_styp) = false
            ∧ state.iter ≥ state.iter_max)
        ∧ (checkStop state = .NotConverged
          ↔ Real.lt state.norm_g (Real.mul state.eps_g state.norm_gtyp) = false
            ∧ Real.lt state.norm_s (Real.mul state.eps_s state.norm_styp) = false
            ∧ state.iter < state.iter_max)) := by
  refine ⟨checkStop_cases state, fun h1 h2 => ?_⟩
  obtain ⟨-, -, h3, h4⟩ := checkStop_cases state
  rw [toInt_of_lt h1, toInt_of_lt h2] at h3 h4
  constructor
  · rw [h3]
    simp only [ge_iff_le, Nat.cast_le]
  · rw [h4]
    simp only [ge_iff_le, Nat.cast_le, not_le]

/-- The tests of `checkStop` at two states with counters below `2^31`:
`evaluatedState` (`iter = 1`, `iter_max = 10`) is not converged, and with
`iter = 10` the iteration cap is reported. -/
theorem checkStop_priority_chain_witness :
    (evaluatedState.iter < 2147483648 ∧ evaluatedState.iter_max < 2147483648)
      ∧ checkStop evaluatedState = .NotConverged
      ∧ checkStop { evaluatedState with iter := 10 } = .MaxItersExceeded
      ∧ (Real.lt evaluatedState.norm_g
            (Real.mul evaluatedState.eps_g evaluatedState.norm_gtyp) = false
          ∧ Real.lt evaluatedState.norm_s
            (Real.mul evaluatedState.eps_s evaluatedState.norm_styp) = false
          ∧ evaluatedState.iter < evaluatedState.iter_max) :=
  have h1 : checkStop evaluatedState = .NotConverged := by decide!
  ⟨⟨by decide, by decide⟩, h1, by decide!,
    ((checkStop_priority_chain evaluatedState).2 (by decide) (by decide)).2.mp h1⟩

end StopClaims

/-! ## The claims on the trust-region acceptance test -/

section StepClaims

open Hilbert State.Unconstrained core

variable {V : Type} [AddCommGroup V] [Module ℚ V] [Hilbert V]

theorem Real.isNumber_of_le_left {a b : Real} (h : Real.le a b = true) :
    a.isNumber = true := by
  cases a <;> cases b <;> simp_all [Real.le, Real.isNumber]

theorem Real.isNumber_of_le_right {a b : Real} (h : Real.le a b = true) :
    b.isNumber = true := by
  cases a <;> cases b <;> simp_all [Real.le, Real.isNumber]

theorem Real.le_trans {a b c : Real} (h1 : Real.le a b = true)
    (h2 : Real.le b c = true) : Real.le a c = true := by
  cases a <;> cases b <;> cases c <;> simp_all [Real.le]
  exact h1.trans h2

theorem checkStep_eq (H : V → V) (obj_fn : V → Real)
    (state : State.Unconstrained V) (s u g : V) (ss us gs : List V)
    (hs : state.s = s :: ss) (hx : state.x = u :: us) (hg : state.g = g :: gs)
    (hobj : state.obj_x = obj_fn u) :
    checkStep H obj_fn state
      = if Real.gt (TrustRegion.model H obj_fn u g s) (obj_fn u) then
          .ok (false, { state with
            obj_xps := obj_fn (u + s),
            delta := Real.div state.norm_s (.fin 2), rho := .nan })
        else if Real.ge (TrustRegion.ratio H obj_fn u g s) state.eta2 then
          if Real.lt (Real.fabs (Real.sub state.norm_s state.delta))
              (Real.mul (.fin (1 / 10000)) state.delta) then
            .ok (true, { state with
              obj_xps := obj_fn (u + s),
              rho := TrustRegion.ratio H obj_fn u g s,
              delta := Real.min (Real.mul state.delta (.fin 2)) state.delta_max })
          else
            .ok (true, { state with
              obj_xps := obj_fn (u + s),
              rho := TrustRegion.ratio H obj_fn u g s })
        else if Real.ge (TrustRegion.ratio H obj_fn u g s) state.eta1
            && Real.lt (TrustRegion.ratio H obj_fn u g s) state.eta2 then
          .ok (true, { state with
            obj_xps := obj_fn (u + s),
            rho := TrustRegion.ratio H obj_fn u g s })
        else
          .ok (false, { state with
            obj_xps := obj_fn (u + s),
            rho := TrustRegion.ratio H obj_fn u g s,
            delta := Real.div state.norm_s (.fin 2) }) := by
  have hups : axpy 1 u (copy s) = u + s := by
    simp only [axpy, copy, one_smul]
  unfold checkStep
  rw [hs, hx, hg]
  simp only [hups, hobj, TrustRegion.model, TrustRegion.ratio]

/-- C18: for a state that holds the step `s`, the iterate `x` and the gradient
`g`, with `obj_x = f(x)` and `eta1 <= eta2` (the invariant of the state), and
with `m(s) = f(x) + ⟨g, s⟩ + ½⟨B s, s⟩` and `ρ = (f(x) − f(x+s))/(f(x) − m(s))`:
`checkStep` returns; it rejects the step whenever `m(s) > f(x)`, and otherwise
it accepts the step if and only if `ρ >= eta1`. -/
theorem checkStep_accepts_iff (H : V → V) (obj_fn : V → Real)
    (state : State.Unconstrained V) (s u g : V) (ss us gs : List V)
    (hs : state.s = s :: ss) (hx : state.x = u :: us) (hg : state.g = g :: gs)
    (hobj : state.obj_x = obj_fn u)
    (heta : Real.le state.eta1 state.eta2 = true) :
    ∃ accepted state', checkStep H obj_fn state = .ok (accepted, state')
      ∧ (Real.gt (TrustRegion.model H obj_fn u g s) (obj_fn u) = true →
          accepted = false)
      ∧ (Real.gt (TrustRegion.model H obj_fn u g s) (obj_fn u) = false →
          (accepted = true
            ↔ Real.ge (TrustRegion.ratio H obj_fn u g s) state.eta1 = true)) := by
  rw [checkStep_eq H obj_fn state s u g ss us gs hs hx hg hobj]
  split_ifs with c1 c2 c3 c4
  · exact ⟨_, _, rfl, fun _ => rfl, fun h => by rw [c1] at h; cases h⟩
  · refine ⟨_, _, rfl, fun h => absurd h c1, fun _ => ?_⟩
    simp only [true_iff]
    exact Real.le_trans heta c2
  · refine ⟨_, _, rfl, fun h => absurd h c1, fun _ => ?_⟩
    simp only [true_iff]
    exact Real.le_trans heta c2
  · refine ⟨_, _, rfl, fun h => absurd h c1, fun _ => ?_⟩
    simp only [true_iff]
    simp only [Bool.and_eq_true] at c4
    exact c4.1
  · refine ⟨_, _, rfl, fun h => absurd h c1, fun _ => ?_⟩
    simp only [Bool.false_eq_true, false_iff]
    intro h1
    apply c4
    have h2 : Real.le state.eta2 (TrustRegion.ratio H obj_fn u g s) = false := by
      simpa [Real.ge] using c2
    have h3 : Real.lt (TrustRegion.ratio H obj_fn u g s) state.eta2 = true :=
      Real.lt_of_le_eq_false (Real.isNumber_of_le_right heta)
        (Real.isNumber_of_le_right h1) h2
    rw [h1, h3]
    rfl

/-- C18, at two states for the objective `quadratic` and `B = I`: the step `s
= -g` has `ρ = -1` and is rejected; the step `s = -g/2` has `ρ = 1/3` and is
accepted. -/
theorem checkStep_accepts_iff_witness :
    (trustRegionState.obj_x = quadratic (3, 4)
        ∧ Real.le trustRegionState.eta1 trustRegionState.eta2 = true)
      ∧ Real.gt (TrustRegion.model (fun v => v) quadratic (3, 4) (9, 12) (-9, -12))
          (quadratic (3, 4)) = false
      ∧ TrustRegion.ratio (fun v => v) quadratic (3, 4) (9, 12) (-9, -12)
          = .fin (-1)
      ∧ (checkStep (fun v => v) quadratic trustRegionState).map (fun r => r.1)
          = .ok false
      ∧ TrustRegion.ratio (fun v => v) quadratic (3, 4) (9, 12) (-9 / 2, -6)
          = .fin (1 / 3)
      ∧ (checkStep (fun v => v) quadratic
          { trustRegionState with s := [(-9 / 2, -6)], norm_s := .fin (15 / 2),
                                  delta := .fin (15 / 2) }).map (fun r => r.1)
          = .ok true
      ∧ ∃ accepted state',
          checkStep (fun v => v) quadratic trustRegionState
            = .ok (accepted, state')
          ∧ (Real.gt (TrustRegion.model (fun v => v) quadratic (3, 4) (9, 12)
                (-9, -12)) (quadratic (3, 4)) = true → accepted = false)
          ∧ (Real.gt (TrustRegion.model (fun v => v) quadratic (3, 4) (9, 12)
                (-9, -12)) (quadratic (3, 4)) = false →
              (accepted = true
                ↔ Real.ge (TrustRegion.ratio (fun v => v) quadratic (3, 4)
                    (9, 12) (-9, -12)) trustRegionState.eta1 = true)) :=
  ⟨⟨by decide!, by decide!⟩, by decide!, by decide!, by decide!, by decide!,
    by decide!,
    checkStep_accepts_iff (fun v => v) quadratic trustRegionState
      (-9, -12) (3, 4) (9, 12) [] [] [] rfl rfl rfl (by decide!) (by decide!)⟩

/-- C19: for a state that holds the step `s`, the iterate `x` and the gradient
`g`, with `obj_x = f(x)`, `checkStep` returns; it never modifies `delta_max`,
`eta1` and `eta2`; on every rejection it sets `delta` to `norm_s / 2`; on
acceptance with `ρ >= eta2` and `|norm_s − delta| < 10⁻⁴ · delta` it sets
`delta` to `min(2 delta, delta_max)`; and on every other acceptance it leaves
`delta` unchanged. -/
theorem checkStep_updates_radius (H : V → V) (obj_fn : V → Real)
    (state : State.Unconstrained V) (s u g : V) (ss us gs : List V)
    (hs : state.s = s :: ss) (hx : state.x = u :: us) (hg : state.g = g :: gs)
    (hobj : state.obj_x = obj_fn u) :
    ∃ accepted state', checkStep H obj_fn state = .ok (accepted, state')
      ∧ state'.delta_max = state.delta_max
      ∧ state'.eta1 = state.eta1 ∧ state'.eta2 = state.eta2
      ∧ (accepted = false → state'.delta = Real.div state.norm_s (.fin 2))
      ∧ (accepted = true →
          (Real.ge (TrustRegion.ratio H obj_fn u g s) state.eta2 = true
            ∧ Real.lt (Real.fabs (Real.sub state.norm_s state.delta))
                (Real.mul (.fin (1 / 10000)) state.delta) = true) →
          state'.delta
            = Real.min (Real.mul state.delta (.fin 2)) state.delta_max)
      ∧ (accepted = true →
          ¬ (Real.ge (TrustRegion.ratio H obj_fn u g s) state.eta2 = true
            ∧ Real.lt (Real.fabs (Real.sub state.norm_s state.delta))
                (Real.mul (.fin (1 / 10000)) state.delta) = true) →
          state'.delta = state.delta) := by
  rw [checkStep_eq H obj_fn state s u g ss us gs hs hx hg hobj]
  split_ifs with c1 c2 c3 c4
  · exact ⟨_, _, rfl, rfl, rfl, rfl, fun _ => rfl, fun h => (by cases h),
      fun h => (by cases h)⟩
  · exact ⟨_, _, rfl, rfl, rfl, rfl, fun h => (by cases h), fun _ _ => rfl,
      fun _ h => absurd ⟨c2, c3⟩ h⟩
  · exact ⟨_, _, rfl, rfl, rfl, rfl, fun h => (by cases h),
      fun _ h => absurd h.2 c3, fun _ _ => rfl⟩
  · exact ⟨_, _, rfl, rfl, rfl, rfl, fun h => (by cases h),
      fun _ h => absurd h.1 c2, fun _ _ => rfl⟩
  · exact ⟨_, _, rfl, rfl, rfl, rfl, fun _ => rfl, fun h => (by cases h),
      fun h => (by cases h)⟩

/-- C19, at three states for the objective `quadratic`: a rejection (`delta`
becomes `15/2`), an acceptance inside the region (`delta` stays `15/2`), and an
acceptance with `ρ = 1` on the boundary for `B = 3 I` (`delta` grows from `5/2`
to `5`). -/
theorem checkStep_updates_radius_witness :
    trustRegionState.obj_x = quadratic (3, 4)
      ∧ (checkStep (fun v => v) quadratic trustRegionState).map
          (fun r => (r.1, r.2.delta)) = .ok (false, .fin (15 / 2))
      ∧ (checkStep (fun v => v) quadratic
          { trustRegionState with s := [(-9 / 2, -6)], norm_s := .fin (15 / 2),
                                  delta := .fin (15 / 2) }).map
          (fun r => (r.1, r.2.delta)) = .ok (true, .fin (15 / 2))
      ∧ (checkStep (fun v => (3 : ℚ) • v) quadratic
          { trustRegionState with s := [(-3 / 2, -2)], norm_s := .fin (5 / 2),
                                  delta := .fin (5 / 2) }).map
          (fun r => (r.1, r.2.delta, r.2.rho)) = .ok (true, .fin 5, .fin 1)
      ∧ ∃ accepted state',
          checkStep (fun v => v) quadratic trustRegionState
            = .ok (accepted, state')
          ∧ state'.delta_max = trustRegionState.delta_max
          ∧ state'.eta1 = trustRegionState.eta1
          ∧ state'.eta2 = trustRegionState.eta2
          ∧ (accepted = false →
              state'.delta = Real.div trustRegionState.norm_s (.fin 2)) :=
  have h := checkStep_updates_radius (fun v => v) quadratic trustRegionState
    (-9, -12) (3, 4) (9, 12) [] [] [] rfl rfl rfl (by decide!)
  ⟨by decide!, by decide!, by decide!, by decide!,
    h.elim fun accepted h1 => h1.elim fun state' h2 =>
      ⟨accepted, state', h2.1, h2.2.1, h2.2.2.1, h2.2.2.2.1, h2.2.2.2.2.1⟩⟩

theorem checkStep_history (H : V → V) (obj_fn : V → Real)
    (state state' : State.Unconstrained V) (accepted : Bool)
    (h : checkStep H obj_fn state = .ok (accepted, state')) :
    state'.oldY = state.oldY ∧ state'.oldS = state.oldS
      ∧ state'.history_reset = state.history_reset
      ∧ state'.rejected_trustregion = state.rejected_trustregion := by
  unfold checkStep at h
  split at h
  · simp only at h
    split_ifs at h <;>
      (simp only [Except.ok.injEq, Prod.mk.injEq] at h
       obtain ⟨-, rfl⟩ := h
       exact ⟨rfl, rfl, rfl, rfl⟩)
  · cases h

theorem getStepTR_loop_history
    (truncatedCG : State.Unconstrained V → State.Unconstrained V)
    (sqrt : Real → Real) (H : V → V) (obj_fn : V → Real)
    (hcg : ∀ st, (truncatedCG st).oldY = st.oldY ∧ (truncatedCG st).oldS = st.oldS) :
    ∀ (fuel : Nat) (state result : State.Unconstrained V),
      getStepTR.loop truncatedCG sqrt H obj_fn fuel state = some (.ok result) →
        result.oldY = state.oldY ∧ result.oldS = state.oldS := by
  intro fuel
  induction fuel with
  | zero => intro state result h; simp [getStepTR.loop] at h
  | succ fuel ih =>
    intro state result h
    rw [getStepTR.loop] at h
    simp only [ite_self] at h
    split at h
    · cases h
    · rename_i s0 ss hs0
      split at h
      · cases h
      · rename_i st1 hc
        obtain ⟨h1, h2, -, -⟩ := checkStep_history _ _ _ _ _ hc
        simp only [Option.some.injEq, Except.ok.injEq] at h
        subst h
        exact ⟨h1.trans (hcg state).1, h2.trans (hcg state).2⟩
      · rename_i st1 hc
        obtain ⟨h1, h2, -, -⟩ := checkStep_history _ _ _ _ _ hc
        obtain ⟨h3, h4⟩ := ih _ _ h
        exact ⟨h3.trans (h1.trans (hcg state).1), h4.trans (h2.trans (hcg state).2)⟩

theorem getStepTR_history
    (truncatedCG : State.Unconstrained V → State.Unconstrained V)
    (sqrt : Real → Real) (H : V → V) (obj_fn : V → Real)
    (hcg : ∀ st, (truncatedCG st).oldY = st.oldY ∧ (truncatedCG st).oldS = st.oldS)
    (fuel : Nat) (state result : State.Unconstrained V)
    (h : getStepTR truncatedCG sqrt H obj_fn fuel state = some (.ok result)) :
    result.oldY = state.oldY ∧ result.oldS = state.oldS := by
  unfold getStepTR at h
  simp only at h
  split at h
  · rename_i st1 hl
    simp only [Option.some.injEq, Except.ok.injEq] at h
    have hh := getStepTR_loop_history truncatedCG sqrt H obj_fn hcg fuel _ _ hl
    subst h
    simp only at hh ⊢
    exact hh
  · rename_i r hne
    exact absurd h (hne result)

/-- C20 (the code at the failing input): whatever the solver of the subproblem
that does not touch the histories, the objective and the number of rejected
steps, `getStepTR` returns the state with `oldY` and `oldS` as they were on
entry.  At the state `trustRegionState` with `history_reset = 0` and two pairs
in the history, the first step is rejected, so that the subproblem is solved
again with `rejected_trustregion = 1 > history_reset`; the routine returns
with one rejected step and with both histories of length `2`. -/
theorem getStepTR_does_not_clear_history :
    (∀ (truncatedCG : State.Unconstrained (ℚ × ℚ) → State.Unconstrained (ℚ × ℚ))
        (sqrt : Real → Real) (H : ℚ × ℚ → ℚ × ℚ) (obj_fn : ℚ × ℚ → Real)
        (fuel : Nat) (state result : State.Unconstrained (ℚ × ℚ)),
        (∀ st, (truncatedCG st).oldY = st.oldY ∧ (truncatedCG st).oldS = st.oldS) →
        getStepTR truncatedCG sqrt H obj_fn fuel state = some (.ok result) →
          result.oldY = state.oldY ∧ result.oldS = state.oldS)
      ∧ (getStepTR steepestDescentSolver exactSqrt (fun v => v) quadratic 5
          { trustRegionState with
            history_reset := 0, oldY := [(0, 3), (2, 0)],
            oldS := [(0, 1), (1, 0)] }).map
          (Except.map (fun st => (st.rejected_trustregion, st.history_reset)))
          = some (.ok (1, 0))
      ∧ (getStepTR steepestDescentSolver exactSqrt (fun v => v) quadratic 5
          { trustRegionState with
            history_reset := 0, oldY := [(0, 3), (2, 0)],
            oldS := [(0, 1), (1, 0)] }).map
          (Except.map (fun st => (st.oldY.length, st.oldS.length)))
          = some (.ok (2, 2))
      ∧ (getStepTR steepestDescentSolver exactSqrt (fun v => v) quadratic 5
          { trustRegionState with
            history_reset := 0, oldY := [(0, 3), (2, 0)],
            oldS := [(0, 1), (1, 0)] }).map
          (Except.map (fun st => (st.s, st.delta, st.rho)))
          = some (.ok ([(-9 / 2, -6)], .fin (15 / 2), .fin (1 / 3))) := by
  refine ⟨fun truncatedCG sqrt H obj_fn fuel state result hcg h =>
    getStepTR_history truncatedCG sqrt H obj_fn hcg fuel state result h,
    ?_, ?_, ?_⟩
  · decide!
  · decide!
  · decide!

end StepClaims

/-! ## The stop code of the driver (C17) -/

section DriverClaims

open Hilbert State.Unconstrained Algorithms.Unconstrained core

variable {V : Type} [AddCommGroup V] [Module ℚ V] [Hilbert V]

theorem getMin_iteration_opt_stop
    (getStep : State.Unconstrained V → Except Failure (State.Unconstrained V))
    (smanip : State.Unconstrained V → State.Unconstrained V) (G : V → V)
    (sqrt : Real → Real) (state result : State.Unconstrained V)
    (h : getMin.iteration getStep smanip G sqrt state = .ok result) :
    result.opt_stop = checkStop result := by
  unfold getMin.iteration at h
  split at h
  · cases h
  · simp only at h
    split at h
    · split at h
      · split at h
        · cases h
        · injection h with h
          subst h
          rfl
      · cases h
    · cases h

theorem getMin_loop_opt_stop
    (getStep : State.Unconstrained V → Except Failure (State.Unconstrained V))
    (smanip : State.Unconstrained V → State.Unconstrained V) (G : V → V)
    (sqrt : Real → Real) (fuel : Nat) (state result : State.Unconstrained V)
    (h : getMin.loop getStep smanip G sqrt fuel state = some (.ok result)) :
    result.opt_stop = checkStop result ∧ result.opt_stop ≠ .NotConverged := by
  induction fuel generalizing state with
  | zero => simp [getMin.loop] at h
  | succ fuel ih =>
    rw [getMin.loop] at h
    split at h
    · cases h
    · rename_i st hst
      split_ifs at h with hc
      · exact ih st h
      · injection h with h
        injection h with h
        subst h
        exact ⟨getMin_iteration_opt_stop getStep smanip G sqrt state st hst, hc⟩

theorem getMin_opt_stop
    (getStep : State.Unconstrained V → Except Failure (State.Unconstrained V))
    (smanip : State.Unconstrained V → State.Unconstrained V) (F : V → Real)
    (G : V → V) (sqrt : Real → Real) (fuel : Nat)
    (state result : State.Unconstrained V)
    (h : getMin getStep smanip F G sqrt fuel state = some (.ok result)) :
    result.opt_stop = checkStop result ∧ result.opt_stop ≠ .NotConverged := by
  unfold getMin at h
  split_ifs at h
  · split at h
    · exact getMin_loop_opt_stop getStep smanip G sqrt fuel _ result h
    · cases h
  · exact getMin_loop_opt_stop getStep smanip G sqrt fuel _ result h

/-- C17 (counterexample): the manipulator `setExternal` sets the stop code to
`External` in every outer iteration.  From `trustRegionState` with
`iter_max = 3`, the first iteration ends in a state with `iter = 2` where none
of the gradient, step and iteration-cap conditions holds, and its stop code is
`NotConverged`, not `External`: the loop goes on, and `getMin` returns after
the second iteration with `iter = 3` and stop code `MaxItersExceeded`. -/
theorem getMin_overwrites_External :
    (setExternal trustRegionState).opt_stop = .External
      ∧ (getMin.iteration trustRegionStep setExternal quadraticGradient exactSqrt
          { trustRegionState with iter_max := 3 }).map
          (fun st => (st.opt_stop, checkStop st, st.iter, st.iter_max))
          = .ok (.NotConverged, .NotConverged, 2, 3)
      ∧ (getMin.iteration trustRegionStep setExternal quadraticGradient exactSqrt
          { trustRegionState with iter_max := 3 }).map
          (fun st =>
            (Real.lt st.norm_g (Real.mul st.eps_g st.norm_gtyp),
             Real.lt st.norm_s (Real.mul st.eps_s st.norm_styp)))
          = .ok (false, false)
      ∧ (getMin trustRegionStep setExternal quadratic quadraticGradient exactSqrt
          5 { trustRegionState with iter_max := 3 }).map
          (Except.map (fun st => (st.opt_stop, st.iter)))
          = some (.ok (.MaxItersExceeded, 3)) := by
  refine ⟨rfl, ?_, ?_, ?_⟩
  · decide!
  · decide!
  · decide!

/-- C17 (amended): the stop code at the end of every outer iteration of
`getMin` is the value of `checkStop` on the state of that moment, whatever
the state manipulator wrote into the stop code, and `checkStop` never returns
`External`.  Hence when `getMin` returns, the stop code is the value of
`checkStop` on the final state and is one of `RelativeGradientSmall`,
`RelativeStepSmall` and `MaxItersExceeded`; in particular it is not
`External`. -/
theorem getMin_ends_with_checkStop
    (getStep : State.Unconstrained V → Except Failure (State.Unconstrained V))
    (smanip : State.Unconstrained V → State.Unconstrained V) (F : V → Real)
    (G : V → V) (sqrt : Real → Real) (fuel : Nat)
    (state result : State.Unconstrained V)
    (h : getMin getStep smanip F G sqrt fuel state = some (.ok result)) :
    (∀ st st1, getMin.iteration getStep smanip G sqrt st = .ok st1 →
        st1.opt_stop = checkStop st1 ∧ st1.opt_stop ≠ .External)
      ∧ result.opt_stop = checkStop result
      ∧ result.opt_stop ≠ .External
      ∧ (result.opt_stop = .RelativeGradientSmall
          ∨ result.opt_stop = .RelativeStepSmall
          ∨ result.opt_stop = .MaxItersExceeded) := by
  have hr := getMin_opt_stop getStep smanip F G sqrt fuel state result h
  have hne : result.opt_stop ≠ .External := by
    rw [hr.1]
    exact checkStop_ne_External result
  refine ⟨fun st st1 hst => ?_, hr.1, hne, ?_⟩
  · have h1 := getMin_iteration_opt_stop getStep smanip G sqrt st st1 hst
    refine ⟨h1, ?_⟩
    rw [h1]
    exact checkStop_ne_External st1
  · have h2 := hr.2
    revert hne h2
    cases result.opt_stop <;> simp

theorem getMin_ends_with_checkStop_witness :
    ∃ result,
      getMin trustRegionStep setExternal quadratic quadraticGradient exactSqrt 5
          { trustRegionState with iter_max := 3 } = some (.ok result)
        ∧ result.opt_stop = checkStop result
        ∧ result.opt_stop ≠ .External
        ∧ (result.opt_stop = .RelativeGradientSmall
            ∨ result.opt_stop = .RelativeStepSmall
            ∨ result.opt_stop = .MaxItersExceeded) := by
  have h0 : (match getMin trustRegionStep setExternal quadratic
      quadraticGradient exactSqrt 5 { trustRegionState with iter_max := 3 } with
      | some (.ok _) => true
      | _ => false) = true := by decide!
  rcases h : getMin trustRegionStep setExternal quadratic quadraticGradient
      exactSqrt 5 { trustRegionState with iter_max := 3 } with _ | (e | r)
  · rw [h] at h0
    cases h0
  · rw [h] at h0
    cases h0
  · exact ⟨r, rfl, (getMin_ends_with_checkStop trustRegionStep setExternal
      quadratic quadraticGradient exactSqrt 5
      { trustRegionState with iter_max := 3 } r h).2⟩

end DriverClaims

/-! ## The claims on the quasi-Newton history (C21, C22, C30) -/

section HistoryClaims

open Hilbert State.Unconstrained core

variable {V : Type} [AddCommGroup V] [Module ℚ V] [Hilbert V]

omit [Hilbert V] in
theorem axpy_neg_one_copy (a b : V) : axpy (-1) a (copy b) = b - a := by
  simp only [axpy, copy, neg_smul, one_smul]
  abel

theorem updateQuasi_eq (state : State.Unconstrained V) (u g u_old g_old : V)
    (us gs uos gos : List V) (hx : state.x = u :: us) (hg : state.g = g :: gs)
    (hxo : state.x_old = u_old :: uos) (hgo : state.g_old = g_old :: gos)
    (hh : state.stored_history ≠ 0) :
    updateQuasi state
      = if (decide (state.Minv_type = .InvBFGS) || decide (state.H_type = .BFGS)
              || decide (state.dir = .BFGS))
            && decide (innr (g - g_old) (u - u_old) < 0) then
          .ok state
        else if (state.oldS.length + 1 > state.stored_history) then
          .ok { state with
            oldS := ((u - u_old) :: state.oldS).dropLast,
            oldY := ((g - g_old) :: state.oldY).dropLast }
        else
          .ok { state with
            oldS := (u - u_old) :: state.oldS,
            oldY := (g - g_old) :: state.oldY } := by
  unfold updateQuasi
  rw [if_neg hh, hx, hg, hxo, hgo]
  simp only [axpy_neg_one_copy, List.length_cons]

theorem dropLast_cons_eq_take {α : Type} (a : α) (l : List α) :
    (a :: l).dropLast = (a :: l).take l.length := by
  rw [List.dropLast_eq_take]
  simp

/-- C21 (the code at the failing input): in the state `orthogonalPairState`,
which uses the BFGS direction and stores up to two pairs, the new pair is
`s = (1,0)`, `y = (0,1)` with `⟨y, s⟩ = 0`; `updateQuasi` does not discard it
and puts it into the empty history.  A new pair with `⟨y, s⟩ < 0` is
discarded under a BFGS variant. -/
theorem updateQuasi_keeps_orthogonal_pair :
    orthogonalPairState.dir = .BFGS
      ∧ innr ((0, 1) : ℚ × ℚ) ((1, 0) : ℚ × ℚ) = 0
      ∧ (orthogonalPairState.oldY = [] ∧ orthogonalPairState.oldS = [])
      ∧ (updateQuasi orthogonalPairState).map (fun st => (st.oldY, st.oldS))
          = .ok ([(0, 1)], [(1, 0)])
      ∧ (updateQuasi { orthogonalPairState with g := [(-1, 1)] }).map
          (fun st => (st.oldY, st.oldS)) = .ok ([], []) := by
  refine ⟨rfl, ?_, ⟨rfl, rfl⟩, ?_, ?_⟩
  · decide!
  · decide!
  · decide!

/-- C22: for every state with `|oldS| = |oldY| ≤ stored_history` (and, unless
`stored_history = 0`, with the vectors `x`, `g`, `x_old` and `g_old` in
place), `updateQuasi` returns, and `|oldS| = |oldY| ≤ stored_history` holds
in the state it returns, whose `stored_history` is unchanged; with
`stored_history = 0` the histories are left untouched. -/
theorem updateQuasi_preserves_history_bound (state : State.Unconstrained V)
    (hv : state.stored_history ≠ 0 →
      state.x ≠ [] ∧ state.g ≠ [] ∧ state.x_old ≠ [] ∧ state.g_old ≠ [])
    (hlen : state.oldS.length = state.oldY.length)
    (hb : state.oldY.length ≤ state.stored_history) :
    ∃ result, updateQuasi state = .ok result
      ∧ result.stored_history = state.stored_history
      ∧ result.oldS.length = result.oldY.length
      ∧ result.oldY.length ≤ result.stored_history
      ∧ (state.stored_history = 0 →
          result.oldS = state.oldS ∧ result.oldY = state.oldY) := by
  by_cases hh : state.stored_history = 0
  · refine ⟨state, ?_, rfl, hlen, hb, fun _ => ⟨rfl, rfl⟩⟩
    unfold updateQuasi
    rw [if_pos hh]
  · obtain ⟨h1, h2, h3, h4⟩ := hv hh
    obtain ⟨u, us, hx⟩ := List.exists_cons_of_ne_nil h1
    obtain ⟨g, gs, hg⟩ := List.exists_cons_of_ne_nil h2
    obtain ⟨u_old, uos, hxo⟩ := List.exists_cons_of_ne_nil h3
    obtain ⟨g_old, gos, hgo⟩ := List.exists_cons_of_ne_nil h4
    rw [updateQuasi_eq state u g u_old g_old us gs uos gos hx hg hxo hgo hh]
    split_ifs with c1 c2
    · exact ⟨_, rfl, rfl, hlen, hb, fun h => absurd h hh⟩
    · refine ⟨_, rfl, rfl, ?_, ?_, fun h => absurd h hh⟩
      · simp only [List.length_dropLast, List.length_cons, hlen]
      · simp only [List.length_dropLast, List.length_cons, Nat.add_sub_cancel]
        exact hb
    · refine ⟨_, rfl, rfl, ?_, ?_, fun h => absurd h hh⟩
      · simp only [List.length_cons, hlen]
      · simp only [List.length_cons]
        omega

/-- C22, at the state `orthogonalPairState` with a full history of two
pairs. -/
theorem updateQuasi_preserves_history_bound_witness :
    ∃ result,
      updateQuasi { orthogonalPairState with
          oldY := [(0, 3), (2, 0)], oldS := [(0, 1), (1, 0)] } = .ok result
        ∧ result.stored_history = 2
        ∧ result.oldS.length = result.oldY.length
        ∧ result.oldY.length ≤ result.stored_history := by
  obtain ⟨result, h1, h2, h3, h4, -⟩ :=
    updateQuasi_preserves_history_bound
      { orthogonalPairState with
          oldY := [(0, 3), (2, 0)], oldS := [(0, 1), (1, 0)] }
      (fun _ => by decide) rfl (by decide)
  exact ⟨result, h1, h2, h3, h4⟩

/-- C30: for a state that holds `x`, `g`, `x_old` and `g_old`, with
`stored_history > 0` and `|oldS| = |oldY| ≤ stored_history`, when the new pair
is not discarded (the configuration uses no BFGS variant, or `⟨y, s⟩ < 0` does
not hold), `updateQuasi` returns the state in which `oldS` is the first
`stored_history` elements of `(x − x_old) :: oldS` and `oldY` the first
`stored_history` elements of `(g − g_old) :: oldY`. -/
theorem updateQuasi_pushes_front (state : State.Unconstrained V)
    (u g u_old g_old : V) (us gs uos gos : List V)
    (hx : state.x = u :: us) (hg : state.g = g :: gs)
    (hxo : state.x_old = u_old :: uos) (hgo : state.g_old = g_old :: gos)
    (hh : 0 < state.stored_history)
    (hkeep : ¬ ((state.Minv_type = .InvBFGS ∨ state.H_type = .BFGS
        ∨ state.dir = .BFGS) ∧ innr (g - g_old) (u - u_old) < 0))
    (hlen : state.oldS.length = state.oldY.length)
    (hb : state.oldS.length ≤ state.stored_history) :
    ∃ result, updateQuasi state = .ok result
      ∧ result.oldS = ((u - u_old) :: state.oldS).take state.stored_history
      ∧ result.oldY = ((g - g_old) :: state.oldY).take state.stored_history
      ∧ (result.oldS.head? = some (u - u_old)
          ∧ result.oldY.head? = some (g - g_old)) := by
  rw [updateQuasi_eq state u g u_old g_old us gs uos gos hx hg hxo hgo
    (Nat.pos_iff_ne_zero.mp hh)]
  have hc : ((decide (state.Minv_type = .InvBFGS) || decide (state.H_type = .BFGS)
      || decide (state.dir = .BFGS))
      && decide (innr (g - g_old) (u - u_old) < 0)) = false := by
    rw [Bool.eq_false_iff]
    intro h
    apply hkeep
    simpa [or_assoc] using h
  rw [hc]
  simp only [Bool.false_eq_true, if_false]
  obtain ⟨n, hn⟩ : ∃ n, state.stored_history = n + 1 :=
    ⟨state.stored_history - 1, by omega⟩
  split_ifs with c2
  · have e1 : state.oldS.length = state.stored_history := by omega
    have e2 : state.oldY.length = state.stored_history := by omega
    refine ⟨_, rfl, ?_, ?_, ?_⟩
    · simp only
      rw [dropLast_cons_eq_take, e1]
    · simp only
      rw [dropLast_cons_eq_take, e2]
    · simp only
      rw [dropLast_cons_eq_take, dropLast_cons_eq_take, e1, e2, hn]
      simp
  · refine ⟨_, rfl, ?_, ?_, ?_⟩
    · simp only
      rw [List.take_of_length_le]
      simp only [List.length_cons]
      omega
    · simp only
      rw [List.take_of_length_le]
      simp only [List.length_cons]
      omega
    · simp

/-- C30, at the state `orthogonalPairState` with the gradient `(2,1)` and a full
history of two pairs: the new pair goes to the front and the oldest pair is
removed. -/
theorem updateQuasi_pushes_front_witness :
    ∃ result,
      updateQuasi { orthogonalPairState with
          g := [(2, 1)], oldY := [(0, 3), (2, 0)], oldS := [(0, 1), (1, 0)] }
          = .ok result
        ∧ result.oldS = [(1, 0), (0, 1)]
        ∧ result.oldY = [(2, 1), (0, 3)] := by
  obtain ⟨result, h1, h2, h3, -⟩ :=
    updateQuasi_pushes_front
      { orthogonalPairState with
          g := [(2, 1)], oldY := [(0, 3), (2, 0)], oldS := [(0, 1), (1, 0)] }
      (1, 0) (2, 1) (0, 0) (0, 0) [] [] [] [] rfl rfl rfl rfl (by decide)
      (by
        rintro ⟨-, h⟩
        revert h
        decide!)
      rfl (by decide)
  refine ⟨result, h1, ?_, ?_⟩
  · rw [h2]
    decide!
  · rw [h3]
    decide!

end HistoryClaims

/-! ## The scaled identity (C28) and the order of the captured history (C29) -/

section CaptureOrderClaims

open Hilbert State.Unconstrained Operators.Unconstrained

variable {V : Type}

/-- C28: for every state and every vector `p`, the operator `ScaledIdentity`
applied in that state scales `p` by the quotient `norm_g / delta_max` of the
two fields of the state; for finite `norm_g = a` and `delta_max = b ≠ 0` it
returns `(a / b) p`. -/
theorem ScaledIdentity_returns_scaled [AddCommGroup V] [Module ℚ V]
    (state : State.Unconstrained V) (p : V)
    (a b : ℚ) (hg : state.norm_g = .fin a) (hd : state.delta_max = .fin b)
    (hb : b ≠ 0) :
    ScaledIdentity state p = scalReal (Real.div state.norm_g state.delta_max) p
      ∧ ScaledIdentity state p = some ((a / b) • p) := by
  refine ⟨rfl, ?_⟩
  simp only [ScaledIdentity, scalReal, copy, scal, hg, hd, Real.div, if_neg hb,
    Real.toRat?, Option.map_some']

/-- C28, at the state `evaluatedState` (`norm_g = 5`, `delta_max = 100`) and
at the same state after `norm_g` has changed to `50`. -/
theorem ScaledIdentity_returns_scaled_witness :
    ScaledIdentity evaluatedState ((20, 40) : ℚ × ℚ) = some (1, 2)
      ∧ ScaledIdentity { evaluatedState with norm_g := .fin 50 }
          ((20, 40) : ℚ × ℚ) = some (10, 20) := by
  have h1 := (ScaledIdentity_returns_scaled evaluatedState ((20, 40) : ℚ × ℚ)
    5 100 rfl rfl (by norm_num)).2
  have h2 := (ScaledIdentity_returns_scaled
    { evaluatedState with norm_g := .fin 50 } ((20, 40) : ℚ × ℚ)
    50 100 rfl rfl (by norm_num)).2
  rw [h1, h2]
  constructor
  · congr 1
    ext <;> simp <;> norm_num
  · congr 1
    ext <;> simp <;> norm_num

theorem scalarsToState_reals_history (names : List String) :
    ∀ (vals : List Real) (st : State.Unconstrained V),
      (scalarsToState.reals names vals st).1.oldY = st.oldY
        ∧ (scalarsToState.reals names vals st).1.oldS = st.oldS := by
  induction names with
  | nil => intro vals st; exact ⟨rfl, rfl⟩
  | cons name names ih =>
    intro vals st
    cases vals with
    | nil => exact ⟨rfl, rfl⟩
    | cons v vals =>
      rw [scalarsToState.reals]
      refine ⟨(ih vals _).1.trans ?_, (ih vals _).2.trans ?_⟩
      · simp only [apply_ite (fun s : State.Unconstrained V => s.oldY), ite_self]
      · simp only [apply_ite (fun s : State.Unconstrained V => s.oldS), ite_self]

theorem scalarsToState_nats_history (names : List String) :
    ∀ (vals : List Nat) (st : State.Unconstrained V),
      (scalarsToState.nats names vals st).1.oldY = st.oldY
        ∧ (scalarsToState.nats names vals st).1.oldS = st.oldS := by
  induction names with
  | nil => intro vals st; exact ⟨rfl, rfl⟩
  | cons name names ih =>
    intro vals st
    cases vals with
    | nil => exact ⟨rfl, rfl⟩
    | cons v vals =>
      rw [scalarsToState.nats]
      refine ⟨(ih vals _).1.trans ?_, (ih vals _).2.trans ?_⟩
      · simp only [apply_ite (fun s : State.Unconstrained V => s.oldY), ite_self]
      · simp only [apply_ite (fun s : State.Unconstrained V => s.oldS), ite_self]

theorem scalarsToState_params_history (names : List String) :
    ∀ (vals : List String) (st : State.Unconstrained V),
      (scalarsToState.params names vals st).1.oldY = st.oldY
        ∧ (scalarsToState.params names vals st).1.oldS = st.oldS := by
  induction names with
  | nil => intro vals st; exact ⟨rfl, rfl⟩
  | cons name names ih =>
    intro vals st
    cases vals with
    | nil => exact ⟨rfl, rfl⟩
    | cons v vals =>
      rw [scalarsToState.params]
      split_ifs
      all_goals first
        | exact ih vals _
        | (split
           · exact ⟨rfl, rfl⟩
           · exact ih vals _)

theorem scalarsToState_history (st : State.Unconstrained V) (reals : Reals)
    (nats : Nats) (params : Params) :
    (scalarsToState st reals nats params).1.oldY = st.oldY
      ∧ (scalarsToState st reals nats params).1.oldS = st.oldS := by
  unfold scalarsToState
  have h1 := scalarsToState_reals_history reals.1 reals.2 st
  rcases hr : scalarsToState.reals reals.1 reals.2 st with ⟨st1, o1⟩
  rw [hr] at h1
  cases o1 with
  | error e => exact h1
  | ok u =>
    simp only
    have h2 := scalarsToState_nats_history nats.1 nats.2 st1
    rcases hn : scalarsToState.nats nats.1 nats.2 st1 with ⟨st2, o2⟩
    rw [hn] at h2
    cases o2 with
    | error e => exact ⟨h2.1.trans h1.1, h2.2.trans h1.2⟩
    | ok u2 =>
      simp only
      have h3 := scalarsToState_params_history params.1 params.2 st2
      exact ⟨h3.1.trans (h2.1.trans h1.1), h3.2.trans (h2.2.trans h1.2)⟩

theorem labelled_cons_of_eq {pre name : String} (h : substr name 0 5 = pre)
    (names : List String) (v : V) (vs : List V) :
    labelled pre ((name :: names, v :: vs) : X_Vectors V)
      = v :: labelled pre ((names, vs) : X_Vectors V) := by
  simp [labelled, h]

theorem labelled_cons_of_ne {pre name : String} (h : substr name 0 5 ≠ pre)
    (names : List String) (v : V) (vs : List V) :
    labelled pre ((name :: names, v :: vs) : X_Vectors V)
      = labelled pre ((names, vs) : X_Vectors V) := by
  simp [labelled, h]

theorem vectorsToState_loop_oldY_step {name : String}
    (h : substr name 0 5 = "oldY_") (names : List String)
    (st : State.Unconstrained V) (xx : V) (vs : List V) :
    vectorsToState.loop (name :: names) st (xx :: vs)
      = vectorsToState.loop names { st with oldY := st.oldY ++ [xx] } vs := by
  have n1 : name ≠ "x" := by rintro rfl; revert h; decide
  have n2 : name ≠ "g" := by rintro rfl; revert h; decide
  have n3 : name ≠ "s" := by rintro rfl; revert h; decide
  have n4 : name ≠ "x_old" := by rintro rfl; revert h; decide
  have n5 : name ≠ "g_old" := by rintro rfl; revert h; decide
  have n6 : name ≠ "s_old" := by rintro rfl; revert h; decide
  rw [vectorsToState.loop]
  simp only [if_neg n1, if_neg n2, if_neg n3, if_neg n4, if_neg n5, if_neg n6,
    if_pos h]

theorem vectorsToState_loop_oldS_step {name : String}
    (h : substr name 0 5 = "oldS_") (names : List String)
    (st : State.Unconstrained V) (xx : V) (vs : List V) :
    vectorsToState.loop (name :: names) st (xx :: vs)
      = vectorsToState.loop names { st with oldS := st.oldS ++ [xx] } vs := by
  have n1 : name ≠ "x" := by rintro rfl; revert h; decide
  have n2 : name ≠ "g" := by rintro rfl; revert h; decide
  have n3 : name ≠ "s" := by rintro rfl; revert h; decide
  have n4 : name ≠ "x_old" := by rintro rfl; revert h; decide
  have n5 : name ≠ "g_old" := by rintro rfl; revert h; decide
  have n6 : name ≠ "s_old" := by rintro rfl; revert h; decide
  have n7 : ¬ substr name 0 5 = "oldY_" := by rw [h]; decide
  rw [vectorsToState.loop]
  simp only [if_neg n1, if_neg n2, if_neg n3, if_neg n4, if_neg n5, if_neg n6,
    if_neg n7, if_pos h]

theorem vectorsToState_loop_nil_of_is_var {name : String}
    (h : is_var name = true) (names : List String)
    (st : State.Unconstrained V) :
    (vectorsToState.loop (name :: names) st []).2.2 = .error .undefined := by
  rw [vectorsToState.loop]
  simp only [is_var, ite_eq_left_iff, Bool.false_eq_true, imp_false,
    not_not] at h
  split_ifs with c1 c2 c3 c4 c5 c6 c7 c8
  · rfl
  · rfl
  · rfl
  · rfl
  · rfl
  · rfl
  · rfl
  · rfl
  · exfalso
    rcases h with h | h | h | h | h | h | h | h <;> contradiction

theorem vectorsToState_loop_history (names : List String) :
    ∀ (st : State.Unconstrained V) (vs : List V),
      (∀ name ∈ names, is_var name = true) →
      (vectorsToState.loop names st vs).2.2 = .ok () →
        (vectorsToState.loop names st vs).1.oldY
            = st.oldY ++ labelled "oldY_" ((names, vs) : X_Vectors V)
          ∧ (vectorsToState.loop names st vs).1.oldS
            = st.oldS ++ labelled "oldS_" ((names, vs) : X_Vectors V) := by
  have x1 : substr "x" 0 5 ≠ "oldY_" := by decide
  have x2 : substr "x" 0 5 ≠ "oldS_" := by decide
  have g1 : substr "g" 0 5 ≠ "oldY_" := by decide
  have g2 : substr "g" 0 5 ≠ "oldS_" := by decide
  have s1 : substr "s" 0 5 ≠ "oldY_" := by decide
  have s2 : substr "s" 0 5 ≠ "oldS_" := by decide
  have xo1 : substr "x_old" 0 5 ≠ "oldY_" := by decide
  have xo2 : substr "x_old" 0 5 ≠ "oldS_" := by decide
  have go1 : substr "g_old" 0 5 ≠ "oldY_" := by decide
  have go2 : substr "g_old" 0 5 ≠ "oldS_" := by decide
  have so1 : substr "s_old" 0 5 ≠ "oldY_" := by decide
  have so2 : substr "s_old" 0 5 ≠ "oldS_" := by decide
  induction names with
  | nil =>
    intro st vs _ _
    simp [vectorsToState.loop, labelled]
  | cons name names ih =>
    intro st vs hvar hok
    have hname : is_var name = true := hvar name (List.mem_cons_self _ _)
    have hrest : ∀ n ∈ names, is_var n = true := fun n hn =>
      hvar n (List.mem_cons_of_mem _ hn)
    cases vs with
    | nil =>
      rw [vectorsToState_loop_nil_of_is_var hname] at hok
      cases hok
    | cons v vs =>
      simp only [is_var, ite_eq_left_iff, Bool.false_eq_true, imp_false,
        not_not] at hname
      rcases hname with h | h | h | h | h | h | h | h
      · subst h
        rw [vectorsToState_loop_x] at hok ⊢
        obtain ⟨e1, e2⟩ := ih _ vs hrest hok
        rw [e1, e2, labelled_cons_of_ne x1, labelled_cons_of_ne x2]
        exact ⟨rfl, rfl⟩
      · subst h
        rw [vectorsToState_loop_g] at hok ⊢
        obtain ⟨e1, e2⟩ := ih _ vs hrest hok
        rw [e1, e2, labelled_cons_of_ne g1, labelled_cons_of_ne g2]
        exact ⟨rfl, rfl⟩
      · subst h
        rw [vectorsToState_loop_s] at hok ⊢
        obtain ⟨e1, e2⟩ := ih _ vs hrest hok
        rw [e1, e2, labelled_cons_of_ne s1, labelled_cons_of_ne s2]
        exact ⟨rfl, rfl⟩
      · subst h
        rw [vectorsToState_loop_x_old] at hok ⊢
        obtain ⟨e1, e2⟩ := ih _ vs hrest hok
        rw [e1, e2, labelled_cons_of_ne xo1, labelled_cons_of_ne xo2]
        exact ⟨rfl, rfl⟩
      · subst h
        rw [vectorsToState_loop_g_old] at hok ⊢
        obtain ⟨e1, e2⟩ := ih _ vs hrest hok
        rw [e1, e2, labelled_cons_of_ne go1, labelled_cons_of_ne go2]
        exact ⟨rfl, rfl⟩
      · subst h
        rw [vectorsToState_loop_s_old] at hok ⊢
        obtain ⟨e1, e2⟩ := ih _ vs hrest hok
        rw [e1, e2, labelled_cons_of_ne so1, labelled_cons_of_ne so2]
        exact ⟨rfl, rfl⟩
      · rw [vectorsToState_loop_oldY_step h] at hok ⊢
        obtain ⟨e1, e2⟩ := ih _ vs hrest hok
        have c8 : substr name 0 5 ≠ "oldS_" := by
          rw [h]
          decide
        rw [e1, e2, labelled_cons_of_eq h, labelled_cons_of_ne c8]
        simp
      · rw [vectorsToState_loop_oldS_step h] at hok ⊢
        obtain ⟨e1, e2⟩ := ih _ vs hrest hok
        have c7 : substr name 0 5 ≠ "oldY_" := by
          rw [h]
          decide
        rw [e1, e2, labelled_cons_of_ne c7, labelled_cons_of_eq h]
        simp

/-- C29: when `capture` ends normally, the history of the state it returns
is the history before the call followed by the vectors of the bag whose label
starts with `oldY_` (respectively `oldS_`), in the order of the bag, whatever
follows the prefix in the label. -/
theorem capture_appends_history_in_bag_order (st : State.Unconstrained V)
    (xs : X_Vectors V) (reals : Reals) (nats : Nats) (params : Params)
    (hok : (capture st xs reals nats params).2 = .ok ()) :
    (capture st xs reals nats params).1.oldY = st.oldY ++ labelled "oldY_" xs
      ∧ (capture st xs reals nats params).1.oldS
          = st.oldS ++ labelled "oldS_" xs := by
  unfold capture at hok ⊢
  rcases hl : checkLabels xs reals nats params with e | u
  · rw [hl] at hok
    cases hok
  rw [hl] at hok
  simp only at hok ⊢
  rcases hp : checkParams params.1 params.2 with e | u
  · rw [hp] at hok
    cases hok
  rw [hp] at hok
  simp only at hok ⊢
  have hvar : ∀ name ∈ xs.1, is_var name = true := by
    have h := (checkLabels_eq_ok xs reals nats params).mp hl
    intro name hname
    rw [is_var_iff]
    exact h.1 name hname
  have hloop := vectorsToState_loop_history xs.1 st xs.2 hvar
  rcases hv : vectorsToState st xs with ⟨st1, rest, o1⟩
  have hv1 : (vectorsToState.loop xs.1 st xs.2).1 = st1 := by
    have := congrArg (fun r => r.1) hv
    simpa [vectorsToState] using this
  have hv2 : (vectorsToState.loop xs.1 st xs.2).2.2 = o1 := by
    have := congrArg (fun r => r.2.2) hv
    simpa [vectorsToState] using this
  rw [hv] at hok
  cases o1 with
  | error e => cases hok
  | ok u =>
    simp only at hok ⊢
    rw [hv1, hv2] at hloop
    obtain ⟨e1, e2⟩ := hloop rfl
    have hs := scalarsToState_history st1 reals nats params
    rcases hsc : scalarsToState st1 reals nats params with ⟨st2, o2⟩
    rw [hsc] at hs hok
    cases o2 with
    | error e => cases hok
    | ok u2 =>
      simp only at hs ⊢
      exact ⟨hs.1.trans e1, hs.2.trans e2⟩

/-- C29, at a bag that lists `oldY_2` before `oldY_1` and `oldS_2` before
`oldS_1`: the vector labelled `oldY_2` is installed in front of the one
labelled `oldY_1`. -/
theorem capture_appends_history_in_bag_order_witness :
    (capture (init_params : State.Unconstrained (ℚ × ℚ))
        (["oldY_2", "oldS_2", "oldY_1", "oldS_1"],
          [(2, 0), (1, 0), (0, 3), (0, 1)]) ([], []) ([], []) ([], [])).2
        = .ok ()
      ∧ (capture (init_params : State.Unconstrained (ℚ × ℚ))
        (["oldY_2", "oldS_2", "oldY_1", "oldS_1"],
          [(2, 0), (1, 0), (0, 3), (0, 1)]) ([], []) ([], []) ([], [])).1.oldY
        = [(2, 0), (0, 3)]
      ∧ (capture (init_params : State.Unconstrained (ℚ × ℚ))
        (["oldY_2", "oldS_2", "oldY_1", "oldS_1"],
          [(2, 0), (1, 0), (0, 3), (0, 1)]) ([], []) ([], []) ([], [])).1.oldS
        = [(1, 0), (0, 1)] := by
  have hok : (capture (init_params : State.Unconstrained (ℚ × ℚ))
      (["oldY_2", "oldS_2", "oldY_1", "oldS_1"],
        [(2, 0), (1, 0), (0, 3), (0, 1)]) ([], []) ([], []) ([], [])).2
      = .ok () := by decide!
  have h := capture_appends_history_in_bag_order
    (init_params : State.Unconstrained (ℚ × ℚ))
    (["oldY_2", "oldS_2", "oldY_1", "oldS_1"],
      [(2, 0), (1, 0), (0, 3), (0, 1)]) ([], []) ([], []) ([], []) hok
  refine ⟨hok, ?_, ?_⟩
  · rw [h.1]
    decide!
  · rw [h.2]
    decide!

end CaptureOrderClaims

/-! ## The termination of the driver (C25) -/

section TerminationClaims

open Hilbert State.Unconstrained Algorithms.Unconstrained core

variable {V : Type} [AddCommGroup V] [Module ℚ V] [Hilbert V]

theorem updateQuasi_frame (state result : State.Unconstrained V)
    (h : updateQuasi state = .ok result) :
    result.x = state.x ∧ result.g = state.g ∧ result.s = state.s
      ∧ result.x_old = state.x_old ∧ result.g_old = state.g_old
      ∧ result.s_old = state.s_old ∧ result.iter = state.iter
      ∧ result.iter_max = state.iter_max := by
  unfold updateQuasi at h
  split_ifs at h with c1
  · injection h with h
    subst h
    exact ⟨rfl, rfl, rfl, rfl, rfl, rfl, rfl, rfl⟩
  · split at h
    · simp only at h
      split_ifs at h
      all_goals
        injection h with h
        subst h
        exact ⟨rfl, rfl, rfl, rfl, rfl, rfl, rfl, rfl⟩
    · cases h

theorem updateQuasi_returns (state : State.Unconstrained V)
    (hv : state.HoldsVectors) : ∃ result, updateQuasi state = .ok result := by
  obtain ⟨h1, h2, -, h4, h5, -⟩ := hv
  by_cases hh : state.stored_history = 0
  · refine ⟨state, ?_⟩
    unfold updateQuasi
    rw [if_pos hh]
  · obtain ⟨u, us, hx⟩ := List.exists_cons_of_ne_nil h1
    obtain ⟨g, gs, hg⟩ := List.exists_cons_of_ne_nil h2
    obtain ⟨u_old, uos, hxo⟩ := List.exists_cons_of_ne_nil h4
    obtain ⟨g_old, gos, hgo⟩ := List.exists_cons_of_ne_nil h5
    rw [updateQuasi_eq state u g u_old g_old us gs uos gos hx hg hxo hgo hh]
    split_ifs
    · exact ⟨_, rfl⟩
    · exact ⟨_, rfl⟩
    · exact ⟨_, rfl⟩

theorem getMin_iteration_frame
    (getStep : State.Unconstrained V → Except Failure (State.Unconstrained V))
    (smanip : State.Unconstrained V → State.Unconstrained V) (G : V → V)
    (sqrt : Real → Real) (hstep : StepReturns getStep)
    (hmanip : KeepsCounters smanip) (state : State.Unconstrained V)
    (hv : state.HoldsVectors) :
    ∃ result, getMin.iteration getStep smanip G sqrt state = .ok result
      ∧ result.HoldsVectors
      ∧ result.iter = (state.iter + 1) % 4294967296
      ∧ result.iter_max = state.iter_max
      ∧ result.opt_stop = checkStop result := by
  obtain ⟨st1, hs1, hv1, hi1, hm1⟩ := hstep state hv
  unfold getMin.iteration
  rw [hs1]
  simp only
  obtain ⟨st2, hst2, hv2, hi2, hm2⟩ :
      ∃ st2, (if Real.ne st1.norm_styp st1.norm_styp = true then
          { st1 with norm_styp := st1.norm_s } else st1) = st2
        ∧ st2.HoldsVectors ∧ st2.iter = state.iter
        ∧ st2.iter_max = state.iter_max := by
    refine ⟨_, rfl, ?_, ?_, ?_⟩
    · split_ifs
      · exact hv1
      · exact hv1
    · split_ifs
      · exact hi1
      · exact hi1
    · split_ifs
      · exact hm1
      · exact hm1
  rw [hst2]
  obtain ⟨h1, h2, h3, h4, h5, h6⟩ := hv2
  split
  · rename_i u xs g gs s ss uo xos go gos so sos hx hg hs hxo hgo hso
    generalize hB : smanip _ = B
    have hm : B.HoldsVectors ∧ B.iter = st2.iter ∧ B.iter_max = st2.iter_max := by
      rw [← hB]
      exact hmanip _ ⟨by simp, h2, h3, by simp, by simp, by simp⟩
    obtain ⟨⟨k1, k2, k3, k4, k5, k6⟩, hi3, hm3⟩ := hm
    split
    · rename_i u1 xs1 g1 gs1 hx1 hg1
      split
      · rename_i e he
        exfalso
        obtain ⟨r, hr⟩ := updateQuasi_returns _
          (show State.Unconstrained.HoldsVectors
            { B with obj_x := B.obj_xps, g := G u1 :: gs1,
                     norm_g := sqrt (.fin (innr (G u1) (G u1))) } from
            ⟨k1, by simp, k3, k4, k5, k6⟩)
        rw [hr] at he
        cases he
      · rename_i st4 h4
        obtain ⟨f1, f2, f3, f4, f5, f6, f7, f8⟩ := updateQuasi_frame _ _ h4
        refine ⟨_, rfl, ⟨?_, ?_, ?_, ?_, ?_, ?_⟩, ?_, ?_, rfl⟩
        · show st4.x ≠ []
          rw [f1]
          exact k1
        · show st4.g ≠ []
          rw [f2]
          simp
        · show st4.s ≠ []
          rw [f3]
          exact k3
        · show st4.x_old ≠ []
          rw [f4]
          exact k4
        · show st4.g_old ≠ []
          rw [f5]
          exact k5
        · show st4.s_old ≠ []
          rw [f6]
          exact k6
        · show (st4.iter + 1) % 4294967296 = (state.iter + 1) % 4294967296
          rw [f7]
          show (B.iter + 1) % 4294967296 = (state.iter + 1) % 4294967296
          rw [hi3, hi2]
        · show st4.iter_max = state.iter_max
          rw [f8]
          show B.iter_max = state.iter_max
          rw [hm3, hm2]
    · rename_i hno
      exfalso
      obtain ⟨u1, xs1, hx1⟩ := List.exists_cons_of_ne_nil k1
      obtain ⟨g1, gs1, hg1⟩ := List.exists_cons_of_ne_nil k2
      exact hno u1 xs1 g1 gs1 hx1 hg1
  · rename_i hno
    exfalso
    obtain ⟨u, xs, hx⟩ := List.exists_cons_of_ne_nil h1
    obtain ⟨g, gs, hg⟩ := List.exists_cons_of_ne_nil h2
    obtain ⟨s, ss, hs⟩ := List.exists_cons_of_ne_nil h3
    obtain ⟨uo, xos, hxo⟩ := List.exists_cons_of_ne_nil h4
    obtain ⟨go, gos, hgo⟩ := List.exists_cons_of_ne_nil h5
    obtain ⟨so, sos, hso⟩ := List.exists_cons_of_ne_nil h6
    exact hno u xs g gs s ss uo xos go gos so sos hx hg hs hxo hgo hso

theorem getMin_loop_succ
    (getStep : State.Unconstrained V → Except Failure (State.Unconstrained V))
    (smanip : State.Unconstrained V → State.Unconstrained V) (G : V → V)
    (sqrt : Real → Real) (fuel : Nat) (state st1 : State.Unconstrained V)
    (h : getMin.iteration getStep smanip G sqrt state = .ok st1) :
    getMin.loop getStep smanip G sqrt (fuel + 1) state
      = if st1.opt_stop = .NotConverged then
          getMin.loop getStep smanip G sqrt fuel st1
        else some (.ok st1) := by
  rw [getMin.loop, h]

theorem getMin_loop_returns
    (getStep : State.Unconstrained V → Except Failure (State.Unconstrained V))
    (smanip : State.Unconstrained V → State.Unconstrained V) (G : V → V)
    (sqrt : Real → Real) (hstep : StepReturns getStep)
    (hmanip : KeepsCounters smanip) :
    ∀ (n : Nat) (state : State.Unconstrained V), state.HoldsVectors →
      state.iter + 1 < 2147483648 → state.iter_max < 2147483648 →
      state.iter_max - state.iter ≤ n →
      ∃ k result, 1 ≤ k ∧ k ≤ max 1 (state.iter_max - state.iter)
        ∧ (∀ fuel, k ≤ fuel →
            getMin.loop getStep smanip G sqrt fuel state = some (.ok result))
        ∧ (∀ fuel, fuel < k →
            getMin.loop getStep smanip G sqrt fuel state = none)
        ∧ result.iter = state.iter + k
        ∧ result.opt_stop ≠ .NotConverged := by
  intro n
  induction n with
  | zero =>
    intro state hv hi hm hn
    obtain ⟨st1, hit, hv1, hi1, hm1, hs1⟩ :=
      getMin_iteration_frame getStep smanip G sqrt hstep hmanip state hv
    have hi1' : st1.iter = state.iter + 1 := by
      rw [hi1]
      exact Nat.mod_eq_of_lt (by omega)
    have hc : st1.opt_stop ≠ .NotConverged := by
      intro hc
      rw [hs1] at hc
      have h3 := (checkStop_cases st1).2.2.2.mp hc
      rw [toInt_of_lt (by omega), toInt_of_lt (by omega)] at h3
      exact h3.2.2 (by omega)
    refine ⟨1, st1, le_refl 1, le_max_left 1 _, ?_, ?_, hi1', hc⟩
    · intro fuel hf
      obtain ⟨f, rfl⟩ : ∃ f, fuel = f + 1 := ⟨fuel - 1, by omega⟩
      rw [getMin_loop_succ getStep smanip G sqrt f state st1 hit, if_neg hc]
    · intro fuel hf
      have : fuel = 0 := by omega
      subst this
      rfl
  | succ n ih =>
    intro state hv hi hm hn
    obtain ⟨st1, hit, hv1, hi1, hm1, hs1⟩ :=
      getMin_iteration_frame getStep smanip G sqrt hstep hmanip state hv
    have hi1' : st1.iter = state.iter + 1 := by
      rw [hi1]
      exact Nat.mod_eq_of_lt (by omega)
    by_cases hc : st1.opt_stop = .NotConverged
    · have hlt : st1.iter < st1.iter_max := by
        have hc' := hc
        rw [hs1] at hc'
        have h3 := (checkStop_cases st1).2.2.2.mp hc'
        rw [toInt_of_lt (by omega), toInt_of_lt (by omega)] at h3
        have h4 := h3.2.2
        simp only [ge_iff_le, Nat.cast_le, not_le] at h4
        exact h4
      obtain ⟨k, result, hk1, hk2, hsome, hnone, hiter, hstop⟩ :=
        ih st1 hv1 (by omega) (by omega) (by omega)
      have hk3 : k ≤ st1.iter_max - st1.iter := by
        rw [max_eq_right (by omega)] at hk2
        exact hk2
      refine ⟨k + 1, result, by omega, ?_, ?_, ?_, by omega, hstop⟩
      · exact le_trans (by omega) (le_max_right 1 _)
      · intro fuel hf
        obtain ⟨f, rfl⟩ : ∃ f, fuel = f + 1 := ⟨fuel - 1, by omega⟩
        rw [getMin_loop_succ getStep smanip G sqrt f state st1 hit, if_pos hc]
        exact hsome f (by omega)
      · intro fuel hf
        cases fuel with
        | zero => rfl
        | succ f =>
          rw [getMin_loop_succ getStep smanip G sqrt f state st1 hit, if_pos hc]
          exact hnone f (by omega)
    · refine ⟨1, st1, le_refl 1, le_max_left 1 _, ?_, ?_, hi1', hc⟩
      · intro fuel hf
        obtain ⟨f, rfl⟩ : ∃ f, fuel = f + 1 := ⟨fuel - 1, by omega⟩
        rw [getMin_loop_succ getStep smanip G sqrt f state st1 hit, if_neg hc]
      · intro fuel hf
        have : fuel = 0 := by omega
        subst this
        rfl

theorem stepReturns_descentStep : StepReturns descentStep := by
  intro st hv
  refine ⟨_, rfl, ?_, ?_, ?_⟩
  · obtain ⟨h1, h2, h3, h4, h5, h6⟩ := hv
    unfold steepestDescentSolver
    split
    · exact ⟨h1, h2, by simp, h4, h5, h6⟩
    · exact ⟨h1, h2, h3, h4, h5, h6⟩
  · unfold steepestDescentSolver
    split <;> rfl
  · unfold steepestDescentSolver
    split <;> rfl

theorem keepsCounters_setExternal : KeepsCounters setExternal :=
  fun _ hv => ⟨hv, rfl, rfl⟩

/-- C25 (the code at the failing input): the state `trustRegionState` with
`iter = 2^31`, `iter_max = 10` and numbers in `norm_styp` and `obj_xps` is accepted by
`check`, and `max(1, iter_max − iter) = 1`.  The first outer iteration
returns with `iter = 2^31 + 1` and the stop code `NotConverged`, since
`checkStop` reads `iter` as the negative `int` `-2^31 + 1`: `getMin` has not
returned after one outer iteration, nor after two. -/
theorem getMin_runs_past_iteration_cap :
    State.Unconstrained.check
        { trustRegionState with
          iter := 2147483648, norm_styp := .fin 15, obj_xps := .fin (75 / 2) }
        = .ok ()
      ∧ max 1 (({ trustRegionState with
          iter := 2147483648, norm_styp := .fin 15, obj_xps := .fin (75 / 2) }
            : State.Unconstrained (ℚ × ℚ)).iter_max
          - ({ trustRegionState with
          iter := 2147483648, norm_styp := .fin 15, obj_xps := .fin (75 / 2) }
            : State.Unconstrained (ℚ × ℚ)).iter) = 1
      ∧ (getMin.iteration trustRegionStep (fun st => st) quadraticGradient
          exactSqrt
          { trustRegionState with
            iter := 2147483648, norm_styp := .fin 15,
            obj_xps := .fin (75 / 2) }).map
          (fun st => (st.iter, st.iter_max, st.opt_stop))
          = .ok (2147483649, 10, .NotConverged)
      ∧ (getMin trustRegionStep (fun st => st) quadratic quadraticGradient
          exactSqrt 1
          { trustRegionState with
            iter := 2147483648, norm_styp := .fin 15,
            obj_xps := .fin (75 / 2) }).isNone = true
      ∧ (getMin trustRegionStep (fun st => st) quadratic quadraticGradient
          exactSqrt 2
          { trustRegionState with
            iter := 2147483648, norm_styp := .fin 15,
            obj_xps := .fin (75 / 2) }).isNone = true := by
  refine ⟨?_, ?_, ?_, ?_, ?_⟩
  · decide!
  · decide
  · decide!
  · decide!
  · decide!

/-- The iteration cap of `getMin` for counters below `2^31`: when the
computation of the trial step returns on every state and neither it nor the state manipulator changes `iter`, `iter_max` or
empties a vector slot, then for every state that holds its vectors, with
`iter + 1` and `iter_max` below `2^31`, `getMin` returns after `k` outer
iterations with `1 ≤ k ≤ max(1, iter_max − iter)`: it returns its result for
every bound `fuel ≥ k` on the passes of the loop and has not returned within
fewer passes; each outer iteration increases `iter` by one, so that `iter` is
`k` more than on entry; and on return the stop code is different from
`NotConverged`. -/
theorem getMin_returns_within_iteration_cap
    (getStep : State.Unconstrained V → Except Failure (State.Unconstrained V))
    (smanip : State.Unconstrained V → State.Unconstrained V) (F : V → Real)
    (G : V → V) (sqrt : Real → Real) (hstep : StepReturns getStep)
    (hmanip : KeepsCounters smanip) (state : State.Unconstrained V)
    (hv : state.HoldsVectors) (hi : state.iter + 1 < 2147483648)
    (hm : state.iter_max < 2147483648) :
    (∃ k result, 1 ≤ k ∧ k ≤ max 1 (state.iter_max - state.iter)
        ∧ (∀ fuel, k ≤ fuel →
            getMin getStep smanip F G sqrt fuel state = some (.ok result))
        ∧ (∀ fuel, fuel < k →
            getMin getStep smanip F G sqrt fuel state = none)
        ∧ result.iter = state.iter + k
        ∧ result.opt_stop ≠ .NotConverged)
      ∧ (∀ st : State.Unconstrained V, st.HoldsVectors →
          st.iter + 1 < 4294967296 →
          ∃ st1, getMin.iteration getStep smanip G sqrt st = .ok st1
            ∧ st1.iter = st.iter + 1) := by
  constructor
  · unfold getMin
    split_ifs with c
    · obtain ⟨h1, h2, h3, h4, h5, h6⟩ := hv
      split
      · rename_i u xs g gs hx hg
        obtain ⟨k, result, hk1, hk2, hsome, hnone, hiter, hstop⟩ :=
          getMin_loop_returns getStep smanip G sqrt hstep hmanip
            (state.iter_max - state.iter)
            { state with
              obj_x := F u, g := G u :: gs,
              norm_g := sqrt (.fin (innr (G u) (G u))),
              norm_gtyp := sqrt (.fin (innr (G u) (G u))) }
            ⟨h1, by simp, h3, h4, h5, h6⟩ hi hm (le_refl _)
        exact ⟨k, result, hk1, hk2, hsome, hnone, hiter, hstop⟩
      · rename_i hno
        exfalso
        obtain ⟨u, xs, hx⟩ := List.exists_cons_of_ne_nil h1
        obtain ⟨g, gs, hg⟩ := List.exists_cons_of_ne_nil h2
        exact hno u xs g gs hx hg
    · exact getMin_loop_returns getStep smanip G sqrt hstep hmanip
        (state.iter_max - state.iter) state hv hi hm (le_refl _)
  · intro st hst hlt
    obtain ⟨st1, hit, -, hi1, -, -⟩ :=
      getMin_iteration_frame getStep smanip G sqrt hstep hmanip st hst
    refine ⟨st1, hit, ?_⟩
    rw [hi1]
    exact Nat.mod_eq_of_lt hlt

/-- The iteration cap of `getMin` at the state `trustRegionState` with
`iter = 1` and `iter_max = 3`, for the trial step `descentStep` and the manipulator
`setExternal`: `getMin` returns within two outer iterations. -/
theorem getMin_returns_within_iteration_cap_witness :
    ∃ k result, 1 ≤ k ∧ k ≤ 2
      ∧ getMin descentStep setExternal quadratic quadraticGradient exactSqrt 2
          { trustRegionState with iter_max := 3 } = some (.ok result)
      ∧ result.iter = 1 + k
      ∧ result.opt_stop ≠ .NotConverged := by
  obtain ⟨k, result, hk1, hk2, hsome, -, hiter, hstop⟩ :=
    (getMin_returns_within_iteration_cap descentStep setExternal quadratic
      quadraticGradient exactSqrt stepReturns_descentStep
      keepsCounters_setExternal { trustRegionState with iter_max := 3 }
      ⟨by decide, by decide, by decide, by decide, by decide, by decide⟩
      (by decide) (by decide)).1
  have hk3 : k ≤ 2 := hk2
  exact ⟨k, result, hk1, hk3, hsome 2 hk3, hiter, hstop⟩

end TerminationClaims

/-! ## The truncated conjugate gradient routines on the scalars of the state (C24) -/

section KrylovClaims

open Hilbert State.Unconstrained Algorithms.Unconstrained core Recursion

variable {V : Type} [AddCommGroup V] [Module ℚ V] [Hilbert V]

theorem cg_step (H : V → V) (hlin : Linear H) (hsym : Symmetric H)
    (K : Submodule ℚ V) (s g p : V) (hs : s ∈ K)
    (hg : ∀ u ∈ K, innr g u = 0) (hp : ∀ u ∈ K, innr p (H u) = 0)
    (hpg : p + g ∈ K) (hH : ∀ u ∈ K, ∃ c : ℚ, H u - c • p ∈ K)
    (hk : innr p (H p) ≠ 0) (hgg : innr g g ≠ 0)
    (α β : ℚ) (s1 g1 p1 : V)
    (hα : α = innr g g / innr p (H p))
    (hs1 : s1 = α • p + s) (hg1 : g1 = α • H p + g)
    (hβ : β = innr g1 g1 / innr g g)
    (hp1 : p1 = (-1 : ℚ) • g1 + β • p) :
    (∃ K1 : Submodule ℚ V,
        s1 ∈ K1
          ∧ (∀ u ∈ K1, innr g1 u = 0)
          ∧ (∀ u ∈ K1, innr p1 (H u) = 0)
          ∧ p1 + g1 ∈ K1
          ∧ (∀ u ∈ K1, ∃ c : ℚ, H u - c • p1 ∈ K1))
      ∧ innr s1 s1 = innr s s + 2 * α * innr s p + α * α * innr p p
      ∧ innr s1 p1 = β * (innr s p + α * innr p p)
      ∧ innr p1 p1 = innr g1 g1 + β * β * innr p p := by
  obtain ⟨hadd, hsmul⟩ := hlin
  have hακ : α * innr p (H p) = innr g g := by
    rw [hα]
    field_simp
  have hα0 : α ≠ 0 := by
    rw [hα]
    exact div_ne_zero hgg hk
  -- the residual and the direction
  have hgp : innr g p = -innr g g := by
    have h := hg (p + g) hpg
    rw [innr_add_right] at h
    linarith
  have hg1K : ∀ u ∈ K, innr g1 u = 0 := by
    intro u hu
    rw [hg1, innr_add_left, innr_smul_left, hsym p u, hp u hu, hg u hu]
    ring
  have hg1p : innr g1 p = 0 := by
    rw [hg1, innr_add_left, innr_smul_left, innr_comm (H p) p, hακ, hgp]
    ring
  have hg1g : innr g1 g = 0 := by
    have h := hg1K (p + g) hpg
    rw [innr_add_right, hg1p] at h
    linarith
  have hg1s : innr g1 s = 0 := hg1K s hs
  have hg1s1 : innr g1 s1 = 0 := by
    rw [hs1, innr_add_right, innr_smul_right, hg1p, hg1s]
    ring
  -- the image of the direction
  have hHp : H p = (1 / α) • (g1 - g) := by
    rw [hg1, add_sub_cancel_right, smul_smul]
    field_simp
  have hg1Hp : innr g1 (H p) = β * innr p (H p) := by
    conv_lhs => rw [hHp]
    rw [innr_smul_right, innr_sub_right, hg1g, sub_zero, hβ, ← hακ]
    field_simp
    ring
  have hp1g1 : p1 + g1 = β • p := by
    rw [hp1]
    simp only [neg_smul, one_smul]
    abel
  -- the new subspace
  have hmem : ∀ x : V, x ∈ K ⊔ Submodule.span ℚ {p} ↔ ∃ u ∈ K, ∃ c : ℚ, u + c • p = x := by
    intro x
    rw [Submodule.mem_sup]
    constructor
    · rintro ⟨u, hu, z, hz, rfl⟩
      obtain ⟨c, rfl⟩ := Submodule.mem_span_singleton.mp hz
      exact ⟨u, hu, c, rfl⟩
    · rintro ⟨u, hu, c, rfl⟩
      exact ⟨u, hu, c • p, Submodule.mem_span_singleton.mpr ⟨c, rfl⟩, rfl⟩
  have hpK1 : p ∈ K ⊔ Submodule.span ℚ {p} :=
    (hmem p).mpr ⟨0, K.zero_mem, 1, by simp⟩
  have hKK1 : ∀ u ∈ K, u ∈ K ⊔ Submodule.span ℚ {p} := fun u hu =>
    (hmem u).mpr ⟨u, hu, 0, by simp⟩
  have hb1 : ∀ x ∈ K ⊔ Submodule.span ℚ {p}, innr g1 x = 0 := by
    intro x hx
    obtain ⟨u, hu, c, rfl⟩ := (hmem x).mp hx
    rw [innr_add_right, innr_smul_right, hg1K u hu, hg1p]
    ring
  have hHK : ∀ u ∈ K, H u ∈ K ⊔ Submodule.span ℚ {p} := by
    intro u hu
    obtain ⟨c, hc⟩ := hH u hu
    have : H u = (H u - c • p) + c • p := by abel
    rw [this]
    exact (hmem _).mpr ⟨_, hc, c, rfl⟩
  have hgK1 : g ∈ K ⊔ Submodule.span ℚ {p} := by
    have : g = (p + g) + (-1 : ℚ) • p := by
      simp only [neg_smul, one_smul]
      abel
    rw [this]
    exact (hmem _).mpr ⟨_, hpg, -1, rfl⟩
  refine ⟨⟨K ⊔ Submodule.span ℚ {p}, ?_, hb1, ?_, ?_, ?_⟩, ?_, ?_, ?_⟩
  · rw [hs1]
    exact (hmem _).mpr ⟨s, hs, α, by abel⟩
  · intro x hx
    obtain ⟨u, hu, c, rfl⟩ := (hmem x).mp hx
    rw [hadd, hsmul, innr_add_right, innr_smul_right, hp1]
    simp only [innr_add_left, innr_smul_left]
    rw [hb1 (H u) (hHK u hu), hp u hu, hg1Hp]
    ring
  · rw [hp1g1]
    exact Submodule.smul_mem _ _ hpK1
  · intro x hx
    obtain ⟨u, hu, c, rfl⟩ := (hmem x).mp hx
    refine ⟨-(c / α), ?_⟩
    have hg1' : g1 = β • p - p1 := by
      rw [← hp1g1]
      abel
    have e : H (u + c • p) - -(c / α) • p1
        = H u + (c / α) • (β • p - g) := by
      rw [hadd, hsmul, hHp, hg1']
      module
    rw [e]
    refine Submodule.add_mem _ (hHK u hu) (Submodule.smul_mem _ _ ?_)
    exact Submodule.sub_mem _ (Submodule.smul_mem _ _ hpK1) hgK1
  · rw [hs1]
    simp only [innr_add_left, innr_add_right, innr_smul_left, innr_smul_right]
    rw [innr_comm p s]
    ring
  · rw [hp1]
    simp only [innr_add_right, innr_smul_right]
    rw [innr_comm s1 g1, hg1s1, hs1]
    simp only [innr_add_left, innr_smul_left]
    ring
  · rw [hp1]
    simp only [innr_add_left, innr_add_right, innr_smul_left, innr_smul_right]
    rw [innr_comm p g1, hg1p]
    ring

theorem Real.add_fin (a b : ℚ) : Real.add (.fin a) (.fin b) = .fin (a + b) :=
  rfl

theorem Real.mul_fin (a b : ℚ) : Real.mul (.fin a) (.fin b) = .fin (a * b) :=
  rfl

theorem Real.neg_fin (a : ℚ) : Real.neg (.fin a) = .fin (-a) := rfl

theorem Real.sub_fin (a b : ℚ) : Real.sub (.fin a) (.fin b) = .fin (a - b) := by
  simp only [Real.sub, Real.neg, Real.add, sub_eq_add_neg]

theorem Real.div_fin_of_ne (a : ℚ) {b : ℚ} (h : b ≠ 0) :
    Real.div (.fin a) (.fin b) = .fin (a / b) := by
  simp only [Real.div, if_neg h]

theorem Real.div_fin_eq_fin {x : Real} {a σ : ℚ}
    (h : Real.div x (.fin a) = .fin σ) : ∃ y, x = .fin y ∧ a ≠ 0 ∧ σ = y / a := by
  cases x with
  | nan => cases h
  | ninf =>
    simp only [Real.div] at h
    split_ifs at h
  | pinf =>
    simp only [Real.div] at h
    split_ifs at h
  | fin y =>
    simp only [Real.div] at h
    split_ifs at h with h1
    injection h with h
    exact ⟨y, rfl, h1, h.symm⟩

theorem Real.add_fin_eq_fin {y : Real} {x z : ℚ}
    (h : Real.add (.fin x) y = .fin z) : ∃ r, y = .fin r ∧ z = x + r := by
  cases y with
  | nan => cases h
  | ninf => cases h
  | pinf => cases h
  | fin r =>
    injection h with h
    exact ⟨r, rfl, h.symm⟩

omit [Hilbert V] in
theorem axpyReal_eq_some {x : Real} {p s r : V}
    (h : axpyReal x p s = some r) : ∃ q, x = .fin q ∧ r = q • p + s := by
  cases x with
  | fin q =>
    simp only [axpyReal, Real.toRat?, Option.map_some', Option.some.injEq,
      axpy] at h
    exact ⟨q, rfl, h.symm⟩
  | nan => cases h
  | ninf => cases h
  | pinf => cases h

omit [Hilbert V] in
theorem scalReal_eq_some {x : Real} {p r : V}
    (h : scalReal x p = some r) : ∃ q, x = .fin q ∧ r = q • p := by
  cases x with
  | fin q =>
    simp only [scalReal, Real.toRat?, Option.map_some', Option.some.injEq,
      scal] at h
    exact ⟨q, rfl, h.symm⟩
  | nan => cases h
  | ninf => cases h
  | pinf => cases h

theorem truncatedCG_boundary_exit (sqrt : Real → Real)
    (hsqrt : ∀ q r : ℚ, sqrt (.fin q) = .fin r → r * r = q) (d : ℚ)
    (l : truncatedCG.Locals V) (H_pk : V) (kappa alpha norm_skp1_M2 : Real)
    (r : truncatedCG.Pass V)
    (hc : l.norm_sk_M2 = .fin (innr l.s_k l.s_k))
    (ha : l.norm_pk_M2 = .fin (innr l.p_k l.p_k))
    (hb : l.inner_sk_M_pk = .fin (innr l.s_k l.p_k))
    (h : truncatedCG.boundary sqrt (.fin d) l H_pk kappa alpha norm_skp1_M2
      = some r) :
    ∃ stop l1, r = .exit stop l1 ∧ innr l1.s_k l1.s_k = d * d := by
  unfold truncatedCG.boundary at h
  simp only [hc, ha, hb, Real.mul_fin, Real.sub_fin, Real.add_fin,
    Real.neg_fin] at h
  split at h
  · rename_i s1 g1 hs1 hg1
    injection h with h
    subst h
    refine ⟨_, _, rfl, ?_⟩
    show innr s1 s1 = d * d
    obtain ⟨σ, hσ, rfl⟩ := axpyReal_eq_some hs1
    obtain ⟨y, hy, ha0, rfl⟩ := Real.div_fin_eq_fin hσ
    obtain ⟨r, hr, rfl⟩ := Real.add_fin_eq_fin hy
    have hrr := hsqrt _ _ hr
    simp only [innr_add_left, innr_add_right, innr_smul_left, innr_smul_right]
    rw [innr_comm l.p_k l.s_k]
    field_simp
    linear_combination hrr
  · cases h

omit [Hilbert V] in
theorem truncatedCG_boundary_some (sqrt : Real → Real) (delta : Real)
    (l : truncatedCG.Locals V) (H_pk : V) (kappa alpha norm_skp1_M2 : Real)
    (r : truncatedCG.Pass V)
    (h : truncatedCG.boundary sqrt delta l H_pk kappa alpha norm_skp1_M2
      = some r) :
    ∃ stop l1, r = .exit stop l1 := by
  unfold truncatedCG.boundary at h
  simp only at h
  split at h
  · injection h with h
    exact ⟨_, _, h.symm⟩
  · cases h

theorem truncatedCG_advance_exit (sqrt : Real → Real) (Minv : V → V)
    (eps_cg norm_g : Real) (l l1 : truncatedCG.Locals V) (H_pk : V)
    (alpha norm_skp1_M2 : Real) (stop : KrylovStop.t)
    (h : truncatedCG.advance sqrt Minv eps_cg norm_g l H_pk alpha norm_skp1_M2
      = some (.exit stop l1)) :
    stop = .RelativeErrorSmall := by
  unfold truncatedCG.advance at h
  split at h
  · simp only at h
    split_ifs at h
    · injection h with h
      injection h with h1 h2
      exact h1.symm
    · split at h
      · cases h
      · cases h
  · cases h

theorem truncatedCG_advance_next (sqrt : Real → Real) (H : V → V)
    (hlin : Linear H) (hsym : Symmetric H) (eps_cg norm_g : Real)
    (l l1 : truncatedCG.Locals V) (α : ℚ)
    (hk : innr l.p_k (H l.p_k) ≠ 0)
    (hα : α = innr l.g_k l.g_k / innr l.p_k (H l.p_k))
    (hinv : truncatedCG.Invariant H l)
    (h : truncatedCG.advance sqrt (fun v => v) eps_cg norm_g l (H l.p_k)
      (.fin α)
      (.fin (innr l.s_k l.s_k + 2 * α * innr l.s_k l.p_k
        + α * α * innr l.p_k l.p_k))
      = some (.next l1)) :
    truncatedCG.Invariant H l1 := by
  obtain ⟨hv, hc, ha, hb, hγ, K, hs, hg, hp, hpg, hH⟩ := hinv
  unfold truncatedCG.advance at h
  split at h
  · rename_i s1 g1 hs1 hg1
    obtain ⟨q1, hq1, hs1'⟩ := axpyReal_eq_some hs1
    obtain ⟨q2, hq2, hg1'⟩ := axpyReal_eq_some hg1
    injection hq1 with hq1
    injection hq2 with hq2
    subst hq1 hq2
    simp only at h
    split_ifs at h
    · injection h with h
      cases h
    split at h
    · rename_i pk hpk
      obtain ⟨β, hβ, hpk'⟩ := scalReal_eq_some hpk
      have hβ0 := hβ
      rw [hγ] at hβ
      obtain ⟨y, hy, hgg, hβ'⟩ := Real.div_fin_eq_fin hβ
      injection hy with hy
      subst hy
      injection h with h
      injection h with h
      subst h
      obtain ⟨hK1, e1, e2, e3⟩ := cg_step H hlin hsym K l.s_k l.g_k l.p_k hs hg hp
        hpg hH hk hgg α β s1 g1 (axpy (-1) g1 pk) hα hs1' hg1' hβ'
        (by rw [hpk']; rfl)
      refine ⟨rfl, ?_, ?_, ?_, rfl, hK1⟩
      · show Real.fin _ = Real.fin (innr s1 s1)
        rw [e1]
      · simp only [hβ0, ha, Real.mul_fin, Real.add_fin, e3]
      · simp only [hβ0, ha, hb, Real.mul_fin, Real.add_fin, e2]
    · cases h
  · cases h

theorem truncatedCG_trial_eq (H : V → V) (l : truncatedCG.Locals V)
    (hv : l.v_k = l.g_k)
    (hc : l.norm_sk_M2 = .fin (innr l.s_k l.s_k))
    (ha : l.norm_pk_M2 = .fin (innr l.p_k l.p_k))
    (hb : l.inner_sk_M_pk = .fin (innr l.s_k l.p_k))
    (hk : 0 < innr l.p_k (H l.p_k)) :
    truncatedCG.trial H l
      = (.fin (innr l.p_k (H l.p_k)),
         .fin (innr l.g_k l.g_k / innr l.p_k (H l.p_k)),
         .fin (innr l.s_k l.s_k
            + 2 * (innr l.g_k l.g_k / innr l.p_k (H l.p_k)) * innr l.s_k l.p_k
            + (innr l.g_k l.g_k / innr l.p_k (H l.p_k))
              * (innr l.g_k l.g_k / innr l.p_k (H l.p_k)) * innr l.p_k l.p_k)) := by
  unfold truncatedCG.trial
  have h1 : Real.gt (.fin (innr l.p_k (H l.p_k))) (.fin 0) = true := by
    simp only [Real.gt, Real.lt, decide_eq_true_eq]
    exact hk
  simp only [h1, if_true, hv, hc, ha, hb, Real.div_fin_of_ne _ (ne_of_gt hk),
    Real.mul_fin, Real.add_fin]

theorem truncatedCG_trial_fst (H : V → V) (l : truncatedCG.Locals V) :
    (truncatedCG.trial H l).1 = .fin (innr l.p_k (H l.p_k)) := by
  unfold truncatedCG.trial
  simp only
  split_ifs <;> rfl

theorem truncatedCG_pass_exit (sqrt : Real → Real) (Minv H : V → V)
    (hsqrt : ∀ q r : ℚ, sqrt (.fin q) = .fin r → r * r = q) (d : ℚ)
    (eps_cg norm_g : Real) (l l1 : truncatedCG.Locals V) (stop : KrylovStop.t)
    (hc : l.norm_sk_M2 = .fin (innr l.s_k l.s_k))
    (ha : l.norm_pk_M2 = .fin (innr l.p_k l.p_k))
    (hb : l.inner_sk_M_pk = .fin (innr l.s_k l.p_k))
    (h : truncatedCG.pass sqrt Minv H (.fin d) eps_cg norm_g l
      = some (.exit stop l1))
    (hstop : stop ≠ .RelativeErrorSmall) :
    innr l1.s_k l1.s_k = d * d := by
  unfold truncatedCG.pass at h
  simp only at h
  split_ifs at h with hcond
  · obtain ⟨stop1, l2, e, hl2⟩ :=
      truncatedCG_boundary_exit sqrt hsqrt d l _ _ _ _ _ hc ha hb h
    injection e with e1 e2
    subst e2
    exact hl2
  · exact absurd (truncatedCG_advance_exit sqrt Minv eps_cg norm_g l l1 _ _ _
      stop h) hstop

theorem truncatedCG_pass_next (sqrt : Real → Real) (H : V → V)
    (hlin : Linear H) (hsym : Symmetric H) (delta eps_cg norm_g : Real)
    (l l1 : truncatedCG.Locals V) (hinv : truncatedCG.Invariant H l)
    (h : truncatedCG.pass sqrt (fun v => v) H delta eps_cg norm_g l
      = some (.next l1)) :
    truncatedCG.Invariant H l1 := by
  unfold truncatedCG.pass at h
  simp only at h
  split_ifs at h with hcond
  · obtain ⟨stop, l2, e⟩ := truncatedCG_boundary_some sqrt delta l _ _ _ _ _ h
    cases e
  · have hk : 0 < innr l.p_k (H l.p_k) := by
      rw [truncatedCG_trial_fst] at hcond
      simp only [Bool.or_eq_true, not_or, Real.le, decide_eq_true_eq] at hcond
      exact lt_of_not_le hcond.1.1
    obtain ⟨hv, hc, ha, hb, -⟩ := id hinv
    rw [truncatedCG_trial_eq H l hv hc ha hb hk] at h
    exact truncatedCG_advance_next sqrt H hlin hsym eps_cg norm_g l l1 _
      (ne_of_gt hk) rfl hinv h

theorem truncatedCG_loop_boundary (sqrt : Real → Real) (H : V → V)
    (hlin : Linear H) (hsym : Symmetric H)
    (hsqrt : ∀ q r : ℚ, sqrt (.fin q) = .fin r → r * r = q) (d : ℚ)
    (eps_cg norm_g : Real) :
    ∀ (n iter : Nat) (l l1 : truncatedCG.Locals V) (it : Nat)
      (stop : KrylovStop.t),
      truncatedCG.Invariant H l →
      truncatedCG.loop sqrt (fun v => v) H (.fin d) eps_cg norm_g n iter l
        = some (it, some stop, l1) →
      stop ≠ .RelativeErrorSmall →
      innr l1.s_k l1.s_k = d * d := by
  intro n
  induction n with
  | zero =>
    intro iter l l1 it stop _ h _
    unfold truncatedCG.loop at h
    split_ifs at h
    injection h with h
    injection h with h1 h2
    injection h2 with h3 h4
    cases h3
  | succ n ih =>
    intro iter l l1 it stop hinv h hstop
    unfold truncatedCG.loop at h
    split at h
    · cases h
    · rename_i stop1 l2 hpass
      injection h with h
      injection h with h1 h2
      injection h2 with h3 h4
      injection h3 with h3
      subst h3 h4
      obtain ⟨-, hc, ha, hb, -⟩ := hinv
      exact truncatedCG_pass_exit sqrt _ H hsqrt d eps_cg norm_g l l2 stop1
        hc ha hb hpass hstop
    · rename_i l2 hpass
      exact ih (iter + 1) l2 l1 it stop
        (truncatedCG_pass_next sqrt H hlin hsym _ eps_cg norm_g l l2 hinv hpass)
        h hstop

theorem truncatedCG_initial_invariant (H : V → V) (hlin : Linear H) (g s : V) :
    truncatedCG.Invariant H
      { s_k := scal 0 s, g_k := copy g, v_k := (fun v : V => v) (copy g),
        p_k := scal (-1) (copy ((fun v : V => v) (copy g))), alpha := .fin 0,
        norm_sk_M2 := .fin 0, norm_skp1_M2 := .fin 0,
        norm_pk_M2 := .fin (innr (copy g) ((fun v : V => v) (copy g))),
        inner_sk_M_pk := .fin 0,
        inner_gk_vk := .fin (innr (copy g) ((fun v : V => v) (copy g))) } := by
  have hH0 : H 0 = 0 := by
    have h := hlin.2 0 0
    simpa using h
  refine ⟨rfl, ?_, ?_, ?_, rfl, ⊥, ?_, ?_, ?_, ?_, ?_⟩
  · simp only [scal, zero_smul, innr_zero_left]
  · simp only [scal, copy, innr_smul_left, innr_smul_right]
    congr 1
    ring
  · simp only [scal, zero_smul, innr_zero_left]
  · simp only [scal, zero_smul]
    exact Submodule.zero_mem _
  · intro u hu
    rw [(Submodule.mem_bot ℚ).mp hu, innr_zero_right]
  · intro u hu
    rw [(Submodule.mem_bot ℚ).mp hu, hH0, innr_zero_right]
  · simp only [scal, copy, neg_smul, one_smul, neg_add_cancel]
    exact Submodule.zero_mem _
  · intro u hu
    refine ⟨0, ?_⟩
    rw [(Submodule.mem_bot ℚ).mp hu, hH0]
    simp

theorem rationalSqrt_exact (q r : ℚ) (h : rationalSqrt (.fin q) = .fin r) :
    r * r = q := by
  unfold rationalSqrt at h
  simp only at h
  split_ifs at h with hq
  injection h with h
  rw [← h]
  exact hq

theorem linear_saddle : Linear saddle := by
  constructor
  · intro u v
    simp only [saddle, Prod.fst_add, Prod.snd_add, Prod.mk_add_mk]
    ext <;> simp <;> ring
  · intro a u
    simp only [saddle, Prod.smul_fst, Prod.smul_snd, smul_eq_mul, Prod.smul_mk]
    ext <;> simp <;> ring

theorem symmetric_saddle : Symmetric saddle := by
  intro u v
  show (saddle u).1 * v.1 + (saddle u).2 * v.2
    = u.1 * (saddle v).1 + u.2 * (saddle v).2
  simp only [saddle]
  ring

/-- The routine `truncatedCG` on the scalars of the state, with vectors over
the rational numbers: for the identity as preconditioner, a linear symmetric
operator `H`, a finite radius `delta = d ≥ 0` and a square root that is exact
where it returns a number, whenever `truncatedCG` returns with the stop code
`NegativeCurvature` or `TrustRegionViolated`, the step `s` it leaves in the
state lies on the boundary of the trust region: `⟨s, s⟩ = d²`.  A run whose
step to the boundary has an irrational length has no value here; the routine
over a scalar field covers it. -/
theorem truncatedCG_rational_boundary (sqrt : Real → Real) (H : V → V)
    (hlin : Linear H) (hsym : Symmetric H)
    (hsqrt : ∀ q r : ℚ, sqrt (.fin q) = .fin r → r * r = q)
    (state result : State.Unconstrained V) (d : ℚ)
    (hd : state.delta = .fin d) (hd0 : 0 ≤ d)
    (h : truncatedCG sqrt (fun v => v) H state = some (.ok result))
    (hstop : result.krylov_stop = .NegativeCurvature
      ∨ result.krylov_stop = .TrustRegionViolated) :
    ∃ s ss, result.s = s :: ss ∧ innr s s = d * d
      ∧ ∀ n : ℚ, 0 ≤ n → n * n = innr s s → n = d := by
  unfold truncatedCG at h
  split at h
  · rename_i u us g gs s0 ss hx hg hs
    simp only [hd] at h
    split at h
    · cases h
    · rename_i iter stop l hloop
      split at h
      · rename_i stop1
        injection h with h
        injection h with h
        subst h
        have hne : stop1 ≠ .RelativeErrorSmall := by
          rcases hstop with h1 | h1
          · intro h2
            rw [h2] at h1
            cases h1
          · intro h2
            rw [h2] at h1
            cases h1
        have hb := truncatedCG_loop_boundary sqrt H hlin hsym hsqrt d _ _ _ _ _ _
          _ _ (truncatedCG_initial_invariant H hlin g s0) hloop hne
        refine ⟨l.s_k, ss, rfl, hb, fun n hn hnn => ?_⟩
        rw [hb] at hnn
        exact (mul_self_inj hn hd0).mp hnn
      · injection h with h
        injection h with h
        subst h
        rcases hstop with h1 | h1 <;> cases h1
  · injection h with h
    cases h

/-- The routine `truncatedCG` on the scalars of the state, at the state
`krylovState` with the gradient `(0,3)` and the radius `13/3`, for the
operator `saddle`: the first pass stays inside the trust
region, the second meets negative curvature, and the step `(-5/3,-4)` has the
norm `13/3`. -/
theorem truncatedCG_rational_boundary_witness :
    ∃ result s ss,
      truncatedCG rationalSqrt (fun v => v) saddle
          { krylovState with g := [(0, 3)], delta := .fin (13 / 3) }
          = some (.ok result)
        ∧ result.krylov_stop = .NegativeCurvature ∧ result.krylov_iter = 2
        ∧ result.s = s :: ss ∧ innr s s = 13 / 3 * (13 / 3) := by
  have h0 : (truncatedCG rationalSqrt (fun v => v) saddle
      { krylovState with g := [(0, 3)], delta := .fin (13 / 3) }).map
      (Except.map (fun st => (st.krylov_stop, st.krylov_iter)))
      = some (.ok (.NegativeCurvature, 2)) := by decide!
  rcases h : truncatedCG rationalSqrt (fun v => v) saddle
      { krylovState with g := [(0, 3)], delta := .fin (13 / 3) }
    with _ | (e | result)
  · rw [h] at h0
    cases h0
  · rw [h] at h0
    cases h0
  · rw [h] at h0
    simp only [Option.map_some', Except.map, Option.some.injEq,
      Except.ok.injEq, Prod.mk.injEq] at h0
    obtain ⟨s, ss, hs, hb, -⟩ := truncatedCG_rational_boundary rationalSqrt
      saddle linear_saddle symmetric_saddle rationalSqrt_exact
      { krylovState with g := [(0, 3)], delta := .fin (13 / 3) } result (13 / 3)
      rfl (by norm_num) h (Or.inl h0.1)
    exact ⟨result, s, ss, rfl, h0.1, h0.2, hs, hb⟩

/-- C24 (the code at the failing input): in the state `krylovState` the
right-hand side is `g = (3,4)` with `‖g‖ = 5` and `eps_krylov = 1/10`; for the
operator `stretch` the first iterate is `s = (-75/41,-100/41)` with the
residual `g + H s` of norm `60/41`, which exceeds `eps_krylov · ‖g‖ = 1/2`.
Both `NewtonCG` and `truncatedCG` stop there with `RelativeErrorSmall`:
their `norm_g` holds `⟨g, g⟩ = 25`, and `60/41 ≤ eps_krylov · 25`.  The
`krylov_rel_err` they report is `(60/41)/(10⁻¹⁶ + 25)`, not `(60/41)/5`.  With
`g = (3/10,4/10)` and `eps_krylov = 1/2` the residual `6/41` of the first
iterate is below `eps_krylov · ‖g‖ = 1/4`, and both routines go on to a second
pass. -/
theorem krylov_stop_uses_squared_norm :
    (innr ((3, 4) : ℚ × ℚ) (3, 4) = 5 * 5
      ∧ innr (((3, 4) : ℚ × ℚ) + stretch (-75 / 41, -100 / 41))
          ((3, 4) + stretch (-75 / 41, -100 / 41)) = 60 / 41 * (60 / 41)
      ∧ ¬ ((60 / 41 : ℚ) ≤ 1 / 10 * 5) ∧ (60 / 41 : ℚ) ≤ 1 / 10 * (5 * 5))
      ∧ (NewtonCG rationalSqrt (fun v => v) stretch krylovState).map
          (Except.map (fun st => (st.s, st.krylov_stop, st.krylov_iter)))
          = some (.ok ([(-75 / 41, -100 / 41)], .RelativeErrorSmall, 1))
      ∧ (truncatedCG rationalSqrt (fun v => v) stretch krylovState).map
          (Except.map (fun st => (st.s, st.krylov_stop, st.krylov_iter)))
          = some (.ok ([(-75 / 41, -100 / 41)], .RelativeErrorSmall, 1))
      ∧ (NewtonCG rationalSqrt (fun v => v) stretch krylovState).map
          (Except.map (fun st => st.krylov_rel_err))
          = some (.ok (.fin (60 / 41 / (1 / 10000000000000000 + 25))))
      ∧ (truncatedCG rationalSqrt (fun v => v) stretch krylovState).map
          (Except.map (fun st => st.krylov_rel_err))
          = some (.ok (.fin (60 / 41 / (1 / 10000000000000000 + 25))))
      ∧ (60 / 41 / (1 / 10000000000000000 + 25) : ℚ) ≠ 60 / 41 / 5
      ∧ (innr (((3 / 10, 4 / 10) : ℚ × ℚ) + stretch (-15 / 82, -10 / 41))
          ((3 / 10, 4 / 10) + stretch (-15 / 82, -10 / 41)) = 6 / 41 * (6 / 41)
        ∧ innr ((3 / 10, 4 / 10) : ℚ × ℚ) (3 / 10, 4 / 10) = 1 / 2 * (1 / 2)
        ∧ (6 / 41 : ℚ) ≤ 1 / 2 * (1 / 2))
      ∧ (NewtonCG rationalSqrt (fun v => v) stretch
          { krylovState with
            g := [(3 / 10, 4 / 10)], eps_krylov := .fin (1 / 2),
            krylov_iter_max := 1 }).map
          (Except.map (fun st => (st.s, st.krylov_stop, st.krylov_iter)))
          = some (.ok ([(-15 / 82, -10 / 41)], .MaxItersExceeded, 1))
      ∧ (truncatedCG rationalSqrt (fun v => v) stretch
          { krylovState with
            g := [(3 / 10, 4 / 10)], eps_krylov := .fin (1 / 2),
            krylov_iter_max := 1 }).map
          (Except.map (fun st => (st.s, st.krylov_stop, st.krylov_iter)))
          = some (.ok ([(-15 / 82, -10 / 41)], .MaxItersExceeded, 1)) := by
  refine ⟨⟨?_, ?_, ?_, ?_⟩, ?_, ?_, ?_, ?_, ?_, ⟨?_, ?_, ?_⟩, ?_, ?_⟩
  all_goals decide!

end KrylovClaims

/-! ## Claims on GMRES -/

section GmresClaims

/-- Applying a combination of powers of a matrix to a vector. -/
theorem sum_smul_pow_mulVec {m : ℕ} (A : Matrix (Fin m) (Fin m) ℚ) (b : Fin m → ℚ) (c : ℕ → ℚ)
    (n : ℕ) :
    (∑ i in Finset.range n, c i • A ^ i).mulVec b
      = ∑ i in Finset.range n, c i • (A ^ i).mulVec b := by
  induction n with
  | zero => simp
  | succ n ih => rw [Finset.sum_range_succ, Finset.sum_range_succ, Matrix.add_mulVec, ih,
      Matrix.smul_mulVec_assoc]

/-- The solution of a nonsingular system lies in the Krylov space of `m` steps (Cayley–Hamilton). -/
theorem gmres_krylov_solution {m : ℕ} (A : Matrix (Fin m) (Fin m) ℚ) (b : Fin m → ℚ)
    (hA : A.det ≠ 0) : ∃ y, gmres.krylov A b m y ∧ A.mulVec y = b := by
  have hCH : Polynomial.aeval A A.charpoly = 0 := Matrix.aeval_self_charpoly A
  have hc0 : A.charpoly.coeff 0 ≠ 0 := by
    intro h
    apply hA
    rw [Matrix.det_eq_sign_charpoly_coeff, h, mul_zero]
  have hsplit :
      Polynomial.X * A.charpoly.divX + Polynomial.C (A.charpoly.coeff 0) = A.charpoly := by
    rw [mul_comm]
    exact Polynomial.divX_mul_X_add A.charpoly
  have h1 : A * Polynomial.aeval A A.charpoly.divX
      + (A.charpoly.coeff 0) • (1 : Matrix (Fin m) (Fin m) ℚ) = 0 := by
    have h : Polynomial.aeval A
        (Polynomial.X * A.charpoly.divX + Polynomial.C (A.charpoly.coeff 0)) = 0 := by
      rw [hsplit]
      exact hCH
    simp only [map_add, map_mul, Polynomial.aeval_X, Polynomial.aeval_C,
      Algebra.algebraMap_eq_smul_one] at h
    exact h
  have h2 : A * Polynomial.aeval A A.charpoly.divX
      = (-(A.charpoly.coeff 0)) • (1 : Matrix (Fin m) (Fin m) ℚ) := by
    rw [neg_smul]
    exact eq_neg_of_add_eq_zero_left h1
  refine ⟨(-(A.charpoly.coeff 0))⁻¹ • (Polynomial.aeval A A.charpoly.divX).mulVec b, ?_, ?_⟩
  · rcases Nat.eq_zero_or_pos m with hm | hm
    · subst hm
      exact ⟨fun _ => 0, Subsingleton.elim _ _⟩
    · have hdeg : A.charpoly.divX.natDegree < m := by
        rw [Polynomial.natDegree_divX_eq_natDegree_tsub_one, Matrix.charpoly_natDegree_eq_dim,
          Fintype.card_fin]
        omega
      refine ⟨fun i => (-(A.charpoly.coeff 0))⁻¹ * A.charpoly.divX.coeff i, ?_⟩
      rw [Polynomial.aeval_eq_sum_range' hdeg, sum_smul_pow_mulVec, Finset.smul_sum]
      refine Finset.sum_congr rfl (fun i _ => ?_)
      rw [smul_smul]
  · rw [Matrix.mulVec_smul, Matrix.mulVec_mulVec, h2, Matrix.smul_mulVec_assoc, Matrix.one_mulVec,
      smul_smul, inv_mul_cancel₀ (neg_ne_zero.mpr hc0), one_smul]

/-- The squared residual norm is not negative. -/
theorem gmres_residualSq_nonneg {m : ℕ} (P A : Matrix (Fin m) (Fin m) ℚ) (b x : Fin m → ℚ) :
    0 ≤ gmres.residualSq P A b x := by
  unfold gmres.residualSq gmres.normSq Matrix.dotProduct
  exact Finset.sum_nonneg (fun i _ => mul_self_nonneg _)

/-- Seen through a nonsingular operator, the residual norm vanishes exactly at the solutions. -/
theorem gmres_residualSq_eq_zero {m : ℕ} (P A : Matrix (Fin m) (Fin m) ℚ) (b x : Fin m → ℚ)
    (hP : P.det ≠ 0) : gmres.residualSq P A b x = 0 ↔ A.mulVec x = b := by
  have hinj : Function.Injective P.mulVec :=
    Matrix.mulVec_injective_iff_isUnit.mpr
      ((Matrix.isUnit_iff_isUnit_det P).mpr (isUnit_iff_ne_zero.mpr hP))
  unfold gmres.residualSq gmres.normSq
  rw [Matrix.dotProduct_self_eq_zero]
  constructor
  · intro h
    have h0 : b - A.mulVec x = 0 := hinj (by rw [h, Matrix.mulVec_zero])
    exact (sub_eq_zero.mp h0).symm
  · intro h
    rw [h, sub_self, Matrix.mulVec_zero]

/-- After `m` steps the solution of a nonsingular system is an iterate. -/
theorem gmres_exact_iterate {m : ℕ} (A : Matrix (Fin m) (Fin m) ℚ) (b : Fin m → ℚ)
    (Ml_inv Mr_inv : Matrix (Fin m) (Fin m) ℚ) (hA : A.det ≠ 0) (hl : Ml_inv.det ≠ 0)
    (hr : Mr_inv.det ≠ 0) :
    ∃ x, gmres.iterate A b Ml_inv Mr_inv m x ∧ A.mulVec x = b := by
  have hdet : (Ml_inv * A * Mr_inv).det ≠ 0 := by
    rw [Matrix.det_mul, Matrix.det_mul]
    exact mul_ne_zero (mul_ne_zero hl hA) hr
  obtain ⟨y, hy, hsol⟩ := gmres_krylov_solution (Ml_inv * A * Mr_inv) (Ml_inv.mulVec b) hdet
  have hres : gmres.residualSq Ml_inv A b (Mr_inv.mulVec y) = 0 := by
    unfold gmres.residualSq gmres.normSq
    rw [Matrix.dotProduct_self_eq_zero, Matrix.mulVec_sub, Matrix.mulVec_mulVec,
      Matrix.mulVec_mulVec, hsol, sub_self]
  refine ⟨Mr_inv.mulVec y, ⟨y, hy, rfl, fun z _ => ?_⟩, ?_⟩
  · rw [hres]
    exact gmres_residualSq_nonneg _ _ _ _
  · exact (gmres_residualSq_eq_zero Ml_inv A b _ hl).mp hres

/-- Every iterate after `m` steps solves a nonsingular system. -/
theorem gmres_iterate_exact {m : ℕ} (A : Matrix (Fin m) (Fin m) ℚ) (b : Fin m → ℚ)
    (Ml_inv Mr_inv : Matrix (Fin m) (Fin m) ℚ) (hA : A.det ≠ 0) (hl : Ml_inv.det ≠ 0)
    (hr : Mr_inv.det ≠ 0) (x : Fin m → ℚ) (hx : gmres.iterate A b Ml_inv Mr_inv m x) :
    A.mulVec x = b := by
  obtain ⟨x0, ⟨y0, hy0, hx0, _⟩, hsol⟩ := gmres_exact_iterate A b Ml_inv Mr_inv hA hl hr
  obtain ⟨y, _, hxy, hmin⟩ := hx
  have h0 : gmres.residualSq Ml_inv A b (Mr_inv.mulVec y0) = 0 := by
    rw [← hx0]
    exact (gmres_residualSq_eq_zero Ml_inv A b _ hl).mpr hsol
  have h1 : gmres.residualSq Ml_inv A b x = 0 := by
    have h := hmin y0 hy0
    rw [h0, ← hxy] at h
    exact le_antisymm h (gmres_residualSq_nonneg _ _ _ _)
  exact (gmres_residualSq_eq_zero Ml_inv A b _ hl).mp h1

/-- No Arnoldi step spans only the zero vector. -/
theorem gmres_krylov_zero {m : ℕ} (A : Matrix (Fin m) (Fin m) ℚ) (b y : Fin m → ℚ) :
    gmres.krylov A b 0 y ↔ y = 0 := by
  unfold gmres.krylov
  simp

/-- One Arnoldi step spans the multiples of the right-hand side. -/
theorem gmres_krylov_one {m : ℕ} (A : Matrix (Fin m) (Fin m) ℚ) (b y : Fin m → ℚ) :
    gmres.krylov A b 1 y ↔ ∃ t : ℚ, y = t • b := by
  unfold gmres.krylov
  constructor
  · rintro ⟨c, hc⟩
    exact ⟨c 0, by simpa using hc⟩
  · rintro ⟨t, ht⟩
    exact ⟨fun _ => t, by simpa using ht⟩

/-- The residual of `diag(1,2) x = (1,1)` along the right-hand side. -/
theorem gmres_residualSq_diagOneTwo (t : ℚ) :
    gmres.residualSq 1 diagOneTwo ![1, 1] (t • ![1, 1]) = (1 - t) ^ 2 + (1 - 2 * t) ^ 2 := by
  simp [gmres.residualSq, gmres.normSq, diagOneTwo, Matrix.dotProduct, Matrix.mulVec,
    Fin.sum_univ_two]
  ring

/-- The first iterate of `diag(1,2) x = (1,1)` is `(3/5, 3/5)`. -/
theorem gmres_iterate_diagOneTwo (x : Fin 2 → ℚ) :
    gmres.iterate diagOneTwo ![1, 1] 1 1 1 x ↔ x = ![3 / 5, 3 / 5] := by
  have h35 : (3 / 5 : ℚ) • ![(1 : ℚ), 1] = ![3 / 5, 3 / 5] := by
    ext i
    fin_cases i <;> simp
  unfold gmres.iterate
  simp only [Matrix.one_mul, Matrix.mul_one, Matrix.one_mulVec, gmres_krylov_one]
  constructor
  · rintro ⟨y, ⟨t, rfl⟩, hx, hmin⟩
    have h := hmin ((3 / 5 : ℚ) • ![1, 1]) ⟨3 / 5, rfl⟩
    rw [gmres_residualSq_diagOneTwo, gmres_residualSq_diagOneTwo] at h
    have ht : t = 3 / 5 := by nlinarith [sq_nonneg (5 * t - 3)]
    rw [hx, ht, h35]
  · rintro rfl
    refine ⟨(3 / 5 : ℚ) • ![1, 1], ⟨3 / 5, rfl⟩, h35.symm, ?_⟩
    rintro z ⟨t, rfl⟩
    rw [gmres_residualSq_diagOneTwo, gmres_residualSq_diagOneTwo]
    nlinarith [sq_nonneg (5 * t - 3)]

/-- The unit test `gmres_left_preconditioner` in the model: with the tolerance `1e-12` the solver makes
one Arnoldi step, returns the residual norm 0 and leaves `(1/2, 0, 1/3, 0, 1/4)`. -/
theorem gmres_left_preconditioner :
    gmres leftPreconditionedMl leftPreconditionedA ![1, 0, 1, 0, 1] (1 / 1000000000000) 200
      leftPreconditionedMl 1 0 1 ![1 / 2, 0, 1 / 3, 0, 1 / 4] := by
  have hb : leftPreconditionedMl.mulVec ![1, 0, 1, 0, 1] = ![1 / 2, 0, 1 / 3, 0, 1 / 4] := by
    ext i
    fin_cases i <;> simp [leftPreconditionedMl, Matrix.mulVec_diagonal]
  have hx : leftPreconditionedA.mulVec ![1 / 2, 0, 1 / 3, 0, 1 / 4] = ![1, 0, 1, 0, 1] := by
    ext i
    fin_cases i <;> simp [leftPreconditionedA, Matrix.mulVec_diagonal]
  have hres : gmres.residualSq leftPreconditionedMl leftPreconditionedA ![1, 0, 1, 0, 1]
      ![1 / 2, 0, 1 / 3, 0, 1 / 4] = 0 := by
    unfold gmres.residualSq gmres.normSq
    rw [hx, sub_self, Matrix.mulVec_zero, Matrix.dotProduct_self_eq_zero]
  have hres0 : gmres.residualSq leftPreconditionedMl leftPreconditionedA ![1, 0, 1, 0, 1] 0
      = 61 / 144 := by
    unfold gmres.residualSq gmres.normSq
    rw [Matrix.mulVec_zero, sub_zero, hb]
    simp [Matrix.dotProduct, Fin.sum_univ_five]
    norm_num
  refine ⟨by norm_num, ?_, hres.symm, Or.inl ⟨by norm_num, by norm_num⟩, ?_⟩
  · refine ⟨leftPreconditionedMl.mulVec ![1, 0, 1, 0, 1],
      (gmres_krylov_one _ _ _).mpr ⟨1, (one_smul _ _).symm⟩, ?_, fun z _ => ?_⟩
    · rw [Matrix.one_mulVec, hb]
    · rw [Matrix.one_mulVec, hb, hres]
      exact gmres_residualSq_nonneg _ _ _ _
  · intro j hj x1 hx1 hs
    have hj0 : j = 0 := by omega
    subst hj0
    obtain ⟨y, hy, hxy, _⟩ := hx1
    rw [gmres_krylov_zero] at hy
    rw [hxy, hy, Matrix.mulVec_zero, hres0] at hs
    have := hs.2
    norm_num at this

/-- Claim C26, counterexample: `diag(1,2) x = (1,1)` is a nonsingular 2×2 system; with identity
preconditioners, initial iterate 0, no restart, `iter_max = 2` and tolerance `ε = 1`, `gmres` stops after
one Arnoldi step with residual norm `√(1/5) ≤ ε` and leaves `x = (3/5, 3/5)`, which does not solve the
system; it returns nothing else. -/
theorem gmres_stops_short_of_solution :
    diagOneTwo.det ≠ 0 ∧ (1 : Matrix (Fin 2) (Fin 2) ℚ).det ≠ 0
      ∧ gmres 1 diagOneTwo ![1, 1] 1 2 1 1 (1 / 5) 1 ![3 / 5, 3 / 5]
      ∧ (∀ errSq iter x, gmres 1 diagOneTwo ![1, 1] 1 2 1 1 errSq iter x →
          errSq = 1 / 5 ∧ iter = 1 ∧ x = ![3 / 5, 3 / 5])
      ∧ diagOneTwo.mulVec ![3 / 5, 3 / 5] ≠ ![1, 1] := by
  have hres : gmres.residualSq 1 diagOneTwo ![1, 1] ![3 / 5, 3 / 5] = 1 / 5 := by
    simp [gmres.residualSq, gmres.normSq, diagOneTwo, Matrix.dotProduct, Matrix.mulVec,
      Fin.sum_univ_two]
    norm_num
  have hres0 : gmres.residualSq 1 diagOneTwo ![1, 1] 0 = 2 := by
    simp [gmres.residualSq, gmres.normSq, diagOneTwo, Matrix.dotProduct, Matrix.mulVec,
      Fin.sum_univ_two]
    norm_num
  have hzero : ∀ x, gmres.iterate diagOneTwo ![1, 1] 1 1 0 x → x = 0 := by
    rintro x ⟨y, hy, hx, _⟩
    rw [gmres_krylov_zero] at hy
    rw [hx, hy, Matrix.mulVec_zero]
  have hone : gmres.small (1 / 5) 1 := ⟨by norm_num, by norm_num⟩
  refine ⟨by simp [diagOneTwo, Matrix.det_fin_two], by simp, ?_, ?_, ?_⟩
  · refine ⟨by norm_num, (gmres_iterate_diagOneTwo _).mpr rfl, hres.symm, Or.inl hone, ?_⟩
    intro j hj x1 hx1 hs
    have hj0 : j = 0 := by omega
    subst hj0
    rw [hzero x1 hx1, hres0] at hs
    have := hs.2
    norm_num at this
  · rintro errSq iter x ⟨hle, hit, herr, hstop, hfirst⟩
    have h1 : iter = 1 := by
      rcases Nat.lt_or_ge iter 1 with h | h
      · have h0 : iter = 0 := by omega
        subst h0
        rw [hzero x hit, hres0] at herr
        rcases hstop with hs | hs
        · rw [herr] at hs
          have := hs.2
          norm_num at this
        · omega
      · rcases Nat.lt_or_ge 1 iter with h2 | h2
        · exfalso
          apply hfirst 1 h2 ![3 / 5, 3 / 5] ((gmres_iterate_diagOneTwo _).mpr rfl)
          rw [hres]
          exact hone
        · omega
    subst h1
    have hx : x = ![3 / 5, 3 / 5] := (gmres_iterate_diagOneTwo x).mp hit
    subst hx
    exact ⟨herr.trans hres, rfl, rfl⟩
  · intro h
    have := congrFun h 1
    simp [diagOneTwo, Matrix.mulVec, Matrix.dotProduct, Fin.sum_univ_two] at this
    norm_num at this

/-- Claim C26, amended: for a nonsingular `m×m` system with invertible preconditioners, a tolerance
`ε ≥ 0` and `iter_max ≥ m`, `gmres` (initial iterate 0, restart disabled) returns; the residual norm it
returns does not exceed `ε` and its Arnoldi-step count is at most `m`; the `x` it leaves has that
residual norm, so it solves `A x = b` when the returned norm is 0, and it does whenever `m` steps were
made. -/
theorem gmres_reaches_tolerance_within_dimension {m : ℕ} (P A : Matrix (Fin m) (Fin m) ℚ)
    (b : Fin m → ℚ) (eps : ℚ) (iter_max : ℕ) (Ml_inv Mr_inv : Matrix (Fin m) (Fin m) ℚ)
    (hA : A.det ≠ 0) (hl : Ml_inv.det ≠ 0) (hr : Mr_inv.det ≠ 0) (hP : P.det ≠ 0)
    (heps : 0 ≤ eps) (hcap : m ≤ iter_max) :
    (∃ errSq iter x, gmres P A b eps iter_max Ml_inv Mr_inv errSq iter x)
      ∧ ∀ errSq iter x, gmres P A b eps iter_max Ml_inv Mr_inv errSq iter x →
          gmres.small errSq eps ∧ iter ≤ m ∧ errSq = gmres.residualSq P A b x
            ∧ (errSq = 0 → A.mulVec x = b) ∧ (iter = m → A.mulVec x = b) := by
  classical
  obtain ⟨xm, hxm, hsol⟩ := gmres_exact_iterate A b Ml_inv Mr_inv hA hl hr
  have hsmall : gmres.small (gmres.residualSq P A b xm) eps := by
    rw [(gmres_residualSq_eq_zero P A b xm hP).mpr hsol]
    exact ⟨heps, mul_nonneg heps heps⟩
  have hex : ∃ k, ∃ x, gmres.iterate A b Ml_inv Mr_inv k x
      ∧ gmres.small (gmres.residualSq P A b x) eps := ⟨m, xm, hxm, hsmall⟩
  constructor
  · obtain ⟨x0, hx0, hs0⟩ := Nat.find_spec hex
    refine ⟨gmres.residualSq P A b x0, Nat.find hex, x0, ?_, hx0, rfl, Or.inl hs0, ?_⟩
    · exact (Nat.find_min' hex ⟨xm, hxm, hsmall⟩).trans hcap
    · intro j hj x1 hx1 hs1
      exact Nat.find_min hex hj ⟨x1, hx1, hs1⟩
  · rintro errSq iter x ⟨hle, hit, herr, hstop, hfirst⟩
    have him : iter ≤ m := by
      by_contra hlt
      exact hfirst m (Nat.lt_of_not_le hlt) xm hxm hsmall
    have hfull : iter = m → A.mulVec x = b := by
      intro h
      subst h
      exact gmres_iterate_exact A b Ml_inv Mr_inv hA hl hr x hit
    refine ⟨?_, him, herr, ?_, hfull⟩
    · rcases hstop with h | h
      · exact h
      · have hm : iter = m := le_antisymm him (hcap.trans h.ge)
        rw [herr, (gmres_residualSq_eq_zero P A b x hP).mpr (hfull hm)]
        exact ⟨heps, mul_nonneg heps heps⟩
    · intro h0
      rw [herr] at h0
      exact (gmres_residualSq_eq_zero P A b x hP).mp h0

/-- The amended claim on `diag(1,2) x = (1,1)` with the tolerance 0. -/
theorem gmres_reaches_tolerance_within_dimension_witness :
    diagOneTwo.det ≠ 0 ∧ (1 : Matrix (Fin 2) (Fin 2) ℚ).det ≠ 0 ∧ (0 : ℚ) ≤ 0 ∧ 2 ≤ 2
      ∧ ((∃ errSq iter x, gmres 1 diagOneTwo ![1, 1] 0 2 1 1 errSq iter x)
        ∧ ∀ errSq iter x, gmres 1 diagOneTwo ![1, 1] 0 2 1 1 errSq iter x →
            gmres.small errSq 0 ∧ iter ≤ 2 ∧ errSq = gmres.residualSq 1 diagOneTwo ![1, 1] x
              ∧ (errSq = 0 → diagOneTwo.mulVec x = ![1, 1])
              ∧ (iter = 2 → diagOneTwo.mulVec x = ![1, 1])) :=
  ⟨by simp [diagOneTwo, Matrix.det_fin_two], by simp, le_refl 0, le_refl 2,
    gmres_reaches_tolerance_within_dimension 1 diagOneTwo ![1, 1] 0 2 1 1
      (by simp [diagOneTwo, Matrix.det_fin_two]) (by simp) (by simp) (by simp) (le_refl 0)
      (le_refl 2)⟩

end GmresClaims

/-! ## The invariants of the radius (C36) and the constructed state (C37) -/

section RadiusClaims

open Hilbert core State.Unconstrained

variable {V : Type} [AddCommGroup V] [Module ℚ V] [Hilbert V]

/-- Half of a positive scalar that does not exceed `d` is positive and does
not exceed `d`. -/
theorem Real.half_bounds {n d : Real} (h0 : Real.lt (.fin 0) n = true)
    (h1 : Real.le n d = true) :
    Real.lt (.fin 0) (Real.div n (.fin 2)) = true
      ∧ Real.le (Real.div n (.fin 2)) d = true := by
  cases n <;> cases d <;> simp_all [Real.lt, Real.le, Real.div]
  · linarith
  · norm_num [Real.lt, Real.le]

/-- The minimum of twice a positive scalar `d` and a bound `m ≥ d` is positive
and does not exceed `m`. -/
theorem Real.min_double_bounds {d m : Real} (h0 : Real.lt (.fin 0) d = true)
    (h1 : Real.le d m = true) :
    Real.lt (.fin 0) (Real.min (Real.mul d (.fin 2)) m) = true
      ∧ Real.le (Real.min (Real.mul d (.fin 2)) m) m = true := by
  cases d <;> cases m <;> simp_all [Real.lt, Real.le, Real.mul, Real.min]
  rename_i a b
  split_ifs with h
  · simp only [Real.lt, Real.le, decide_eq_true_eq]
    exact ⟨by linarith, le_refl _⟩
  · simp only [Real.lt, Real.le, decide_eq_true_eq]
    exact ⟨by linarith, by linarith⟩

/-- The radius that `checkStep` leaves: half of `norm_s` on a rejection, and on
an acceptance the old radius or `min(2 delta, delta_max)`. -/
theorem checkStep_radius (H : V → V) (obj_fn : V → Real)
    (state : State.Unconstrained V) (accepted : Bool)
    (state' : State.Unconstrained V)
    (h : checkStep H obj_fn state = .ok (accepted, state')) :
    state'.delta_max = state.delta_max
      ∧ ((accepted = false ∧ state'.delta = Real.div state.norm_s (.fin 2))
        ∨ (accepted = true ∧ state'.delta = state.delta)
        ∨ (accepted = true
            ∧ state'.delta = Real.min (Real.mul state.delta (.fin 2)) state.delta_max)) := by
  unfold checkStep at h
  split at h
  · simp only at h
    split_ifs at h <;> injection h with h <;> injection h with h1 h2 <;> subst h1 <;>
      subst h2 <;> simp
  · cases h

/-- Claim C36: for a state that holds the step, the iterate and the gradient,
with `0 < delta ≤ delta_max` and a trial step with `0 < norm_s ≤ delta`,
`checkStep` returns, and whether it accepts or rejects the step the state it
leaves has `0 < delta ≤ delta_max` again, with `delta_max` unchanged; on a
rejection the new radius does not exceed the old one. -/
theorem checkStep_keeps_radius_in_range (H : V → V) (obj_fn : V → Real)
    (state : State.Unconstrained V) (s u g : V) (ss us gs : List V)
    (hs : state.s = s :: ss) (hx : state.x = u :: us) (hg : state.g = g :: gs)
    (hd : Real.lt (.fin 0) state.delta = true)
    (hdm : Real.le state.delta state.delta_max = true)
    (hn : Real.lt (.fin 0) state.norm_s = true)
    (hnd : Real.le state.norm_s state.delta = true) :
    ∃ accepted state', checkStep H obj_fn state = .ok (accepted, state')
      ∧ Real.lt (.fin 0) state'.delta = true
      ∧ Real.le state'.delta state'.delta_max = true
      ∧ state'.delta_max = state.delta_max
      ∧ (accepted = false → Real.le state'.delta state.delta = true) := by
  have hret : ∃ r, checkStep H obj_fn state = .ok r := by
    unfold checkStep
    rw [hs, hx, hg]
    simp only
    split_ifs <;> exact ⟨_, rfl⟩
  obtain ⟨⟨accepted, state'⟩, hr⟩ := hret
  obtain ⟨hmax, hcases⟩ := checkStep_radius H obj_fn state accepted state' hr
  refine ⟨accepted, state', hr, ?_⟩
  rw [hmax]
  rcases hcases with ⟨ha, hδ⟩ | ⟨ha, hδ⟩ | ⟨ha, hδ⟩
  · have hb := Real.half_bounds hn hnd
    rw [hδ]
    exact ⟨hb.1, Real.le_trans hb.2 hdm, rfl, fun _ => hb.2⟩
  · rw [hδ]
    exact ⟨hd, hdm, rfl, fun h => by rw [ha] at h; cases h⟩
  · have hb := Real.min_double_bounds hd hdm
    rw [hδ]
    exact ⟨hb.1, hb.2, rfl, fun h => by rw [ha] at h; cases h⟩

/-- C36, at the state `trustRegionState` with the radius `delta = 20`: the step
of norm 15 is rejected and the radius becomes `15/2`. -/
theorem checkStep_keeps_radius_in_range_witness :
    Real.lt (.fin 0) ({ trustRegionState with delta := .fin 20 }
        : State.Unconstrained (ℚ × ℚ)).delta = true
      ∧ (checkStep (fun v => v) quadratic
          { trustRegionState with delta := .fin 20 }).map
          (fun r => (r.1, r.2.delta)) = .ok (false, .fin (15 / 2))
      ∧ ∃ accepted state',
          checkStep (fun v => v) quadratic { trustRegionState with delta := .fin 20 }
            = .ok (accepted, state')
          ∧ Real.lt (.fin 0) state'.delta = true
          ∧ Real.le state'.delta state'.delta_max = true
          ∧ state'.delta_max
            = ({ trustRegionState with delta := .fin 20 }
                : State.Unconstrained (ℚ × ℚ)).delta_max
          ∧ (accepted = false →
              Real.le state'.delta
                ({ trustRegionState with delta := .fin 20 }
                  : State.Unconstrained (ℚ × ℚ)).delta = true) :=
  ⟨by decide!, by decide!,
    checkStep_keeps_radius_in_range (fun v => v) quadratic
      { trustRegionState with delta := .fin 20 } (-9, -12) (3, 4) (9, 12) [] [] []
      rfl rfl rfl (by decide!) (by decide!) (by decide!) (by decide!)⟩

/-- Claim C37: a freshly constructed state is valid: with the default
parameters set by `init_params` (`iter = 1`, the NaN in the norms and the
objective values, `delta = delta_max = 100`, `eta1 = 0.1`, `eta2 = 0.9`), and
whatever vectors the constructor has put into the state, `check` reports no
error. -/
theorem init_params_passes_check {W : Type} (x g s x_old g_old s_old : List W) :
    check ({ init_params with
        x := x, g := g, s := s, x_old := x_old, g_old := g_old, s_old := s_old }
        : State.Unconstrained W) = .ok ()
      ∧ (init_params : State.Unconstrained W).iter = 1
      ∧ (init_params : State.Unconstrained W).norm_g = .nan
      ∧ (init_params : State.Unconstrained W).norm_gtyp = .nan
      ∧ (init_params : State.Unconstrained W).norm_s = .nan
      ∧ (init_params : State.Unconstrained W).norm_styp = .nan
      ∧ (init_params : State.Unconstrained W).obj_x = .nan
      ∧ (init_params : State.Unconstrained W).obj_xps = .nan
      ∧ (init_params : State.Unconstrained W).delta = .fin 100
      ∧ (init_params : State.Unconstrained W).delta_max = .fin 100
      ∧ (init_params : State.Unconstrained W).eta1 = .fin (1 / 10)
      ∧ (init_params : State.Unconstrained W).eta2 = .fin (9 / 10) := by
  refine ⟨?_, rfl, rfl, rfl, rfl, rfl, rfl, rfl, rfl, rfl, rfl, rfl⟩
  simp [check, errorIf_bind_eq_ok, errorIf_eq_ok, init_params,
    Real.le, Real.lt, Real.gt, Real.ge, Real.ne]
  norm_num

end RadiusClaims

/-! ## The inverse BFGS operator inverts the BFGS operator (C38, C39, C40) -/

namespace Recursion

open Hilbert

theorem linear_zero {V : Type} [AddCommGroup V] [Module ℚ V] {B : V → V}
    (hL : Linear B) : B 0 = 0 := by
  have h := hL.2 0 0
  simpa using h

theorem linear_sub {V : Type} [AddCommGroup V] [Module ℚ V] {B : V → V}
    (hL : Linear B) (u v : V) : B (u - v) = B u - B v := by
  have h : u - v = u + (-1 : ℚ) • v := by rw [neg_smul, one_smul, sub_eq_add_neg]
  rw [h, hL.1, hL.2, neg_smul, one_smul, sub_eq_add_neg]

variable {V : Type} [AddCommGroup V] [Module ℚ V] [Hilbert V]

theorem linear_invBfgsUpdate {H : V → V} (hL : Linear H) (y s : V) :
    Linear (invBfgsUpdate H y s) := by
  constructor
  · intro u v
    simp only [invBfgsUpdate]
    have h1 : u + v - (1 / innr y s * innr s (u + v)) • y
        = (u - (1 / innr y s * innr s u) • y) + (v - (1 / innr y s * innr s v) • y) := by
      rw [innr_add_right]
      module
    rw [h1, hL.1, innr_add_right, innr_add_right]
    module
  · intro a u
    simp only [invBfgsUpdate]
    have h1 : a • u - (1 / innr y s * innr s (a • u)) • y
        = a • (u - (1 / innr y s * innr s u) • y) := by
      rw [innr_smul_right]
      module
    rw [h1, hL.2, innr_smul_right, innr_smul_right]
    module

/-- The inverse update applied after the update is the identity, when the old
operators are inverse to each other. -/
theorem invBfgsUpdate_bfgsUpdate {B H : V → V} (hS : Symmetric B)
    (hLH : Linear H) (hHB : ∀ v, H (B v) = v) {y s : V} (hys : innr y s ≠ 0)
    (ha : innr s (B s) ≠ 0) (p : V) :
    invBfgsUpdate H y s (bfgsUpdate B y s p) = p := by
  have hsq : innr s (bfgsUpdate B y s p) = innr y p := by
    simp only [bfgsUpdate, innr_add_right, innr_sub_right, innr_smul_right]
    rw [hS s p, innr_comm s y]
    field_simp
  have hq : bfgsUpdate B y s p - (1 / innr y s * innr y p) • y
      = B p - (innr (B s) p / innr s (B s)) • B s := by
    simp only [bfgsUpdate]
    have e : innr y p / innr y s = 1 / innr y s * innr y p := by ring
    rw [e]
    module
  have hr : H (B p - (innr (B s) p / innr s (B s)) • B s)
      = p - (innr (B s) p / innr s (B s)) • s := by
    rw [linear_sub hLH, hLH.2, hHB, hHB]
  have hk : 1 / innr y s
      * (innr y p - innr (B s) p / innr s (B s) * innr y s)
      = 1 / innr y s * innr y p - innr (B s) p / innr s (B s) := by
    field_simp
    ring
  simp only [invBfgsUpdate]
  rw [hsq, hq, hr, innr_sub_right, innr_smul_right, hk]
  module

/-- The update applied after the inverse update is the identity, when the old
operators are inverse to each other. -/
theorem bfgsUpdate_invBfgsUpdate {B H : V → V} (hS : Symmetric B)
    (hLB : Linear B) (hBH : ∀ v, B (H v) = v) {y s : V} (hys : innr y s ≠ 0)
    (ha : innr s (B s) ≠ 0) (p : V) :
    bfgsUpdate B y s (invBfgsUpdate H y s p) = p := by
  -- the value of the inverse update is `r + c s`
  obtain ⟨r, hrdef⟩ : ∃ r, r = H (p - (1 / innr y s * innr s p) • y) := ⟨_, rfl⟩
  obtain ⟨c, hcdef⟩ : ∃ c, c = 1 / innr y s * (innr s p - innr y r) := ⟨_, rfl⟩
  have hw : invBfgsUpdate H y s p = r + c • s := by
    simp only [invBfgsUpdate]
    rw [← hrdef, hcdef]
    module
  have hBr : B r = p - (1 / innr y s * innr s p) • y := by
    rw [hrdef, hBH]
  have hBw : B (r + c • s) = p - (1 / innr y s * innr s p) • y + c • B s := by
    rw [hLB.1, hLB.2, hBr]
  have hsBr : innr s (B r) = 0 := by
    rw [hBr, innr_sub_right, innr_smul_right, innr_comm s y]
    field_simp
  have h1 : innr (B s) (r + c • s) = c * innr s (B s) := by
    rw [hS s (r + c • s), hLB.1, hLB.2, innr_add_right, innr_smul_right, hsBr, zero_add]
  have h2 : innr y (r + c • s) = innr s p := by
    rw [innr_add_right, innr_smul_right, hcdef]
    field_simp
  rw [hw]
  simp only [bfgsUpdate]
  rw [hBw, h1, h2]
  have e1 : c * innr s (B s) / innr s (B s) = c := by field_simp
  have e2 : innr s p / innr y s = 1 / innr y s * innr s p := by ring
  rw [e1, e2]
  module

/-- Under `⟨y_i, s_i⟩ > 0` the operators of the two recursions are linear and
inverse to each other. -/
theorem InvBFGS_inverse :
    ∀ (oldY oldS : List V),
      (∀ a ∈ List.zip oldY oldS, 0 < innr a.1 a.2) →
        Linear (InvBFGS oldY oldS)
          ∧ (∀ p, InvBFGS oldY oldS (BFGS oldY oldS p) = p)
          ∧ (∀ p, BFGS oldY oldS (InvBFGS oldY oldS p) = p)
  | [], _, _ => ⟨⟨fun _ _ => rfl, fun _ _ => rfl⟩, fun _ => rfl, fun _ => rfl⟩
  | _ :: _, [], _ => ⟨⟨fun _ _ => rfl, fun _ _ => rfl⟩, fun _ => rfl, fun _ => rfl⟩
  | y :: oldY, s :: oldS, h => by
    have hys : 0 < innr y s := h (y, s) (by simp)
    have hrest : ∀ a ∈ List.zip oldY oldS, 0 < innr a.1 a.2 :=
      fun a ha => h a (by simp [ha])
    obtain ⟨hS, hL, hP⟩ := BFGS_invariants oldY oldS hrest
    obtain ⟨hLH, hHB, hBH⟩ := InvBFGS_inverse oldY oldS hrest
    have hs : s ≠ 0 := by
      intro h0
      rw [h0, innr_zero_right] at hys
      exact lt_irrefl _ hys
    have ha : innr s (BFGS oldY oldS s) ≠ 0 := ne_of_gt (hP s hs)
    exact ⟨linear_invBfgsUpdate hLH y s,
      invBfgsUpdate_bfgsUpdate hS hLH hHB (ne_of_gt hys) ha,
      bfgsUpdate_invBfgsUpdate hS hL hBH (ne_of_gt hys) ha⟩

/-- Under `⟨y_i, s_i⟩ > 0` the operator of the inverse recursion is symmetric
and positive definite. -/
theorem InvBFGS_symmetric_posDef (oldY oldS : List V)
    (h : ∀ a ∈ List.zip oldY oldS, 0 < innr a.1 a.2) :
    Symmetric (InvBFGS oldY oldS) ∧ PosDef (InvBFGS oldY oldS) := by
  obtain ⟨hS, hL, hP⟩ := BFGS_invariants oldY oldS h
  obtain ⟨-, hHB, hBH⟩ := InvBFGS_inverse oldY oldS h
  constructor
  · intro u v
    calc innr (InvBFGS oldY oldS u) v
        = innr (InvBFGS oldY oldS u) (BFGS oldY oldS (InvBFGS oldY oldS v)) := by
          rw [hBH]
      _ = innr (BFGS oldY oldS (InvBFGS oldY oldS u)) (InvBFGS oldY oldS v) :=
          (hS _ _).symm
      _ = innr u (InvBFGS oldY oldS v) := by rw [hBH]
  · intro v hv
    have hne : InvBFGS oldY oldS v ≠ 0 := by
      intro h0
      apply hv
      rw [← hBH v, h0, linear_zero hL]
    have := hP _ hne
    rwa [hBH, innr_comm] at this

/-- The secant condition of the newest pair, for both recursions. -/
theorem secant (y s : V) (oldY oldS : List V)
    (h : ∀ a ∈ List.zip (y :: oldY) (s :: oldS), 0 < innr a.1 a.2) :
    BFGS (y :: oldY) (s :: oldS) s = y ∧ InvBFGS (y :: oldY) (s :: oldS) y = s := by
  have hys : 0 < innr y s := h (y, s) (by simp)
  have hrest : ∀ a ∈ List.zip oldY oldS, 0 < innr a.1 a.2 :=
    fun a ha => h a (by simp [ha])
  obtain ⟨hS, hL, hP⟩ := BFGS_invariants oldY oldS hrest
  obtain ⟨hLH, -, -⟩ := InvBFGS_inverse oldY oldS hrest
  have hs : s ≠ 0 := by
    intro h0
    rw [h0, innr_zero_right] at hys
    exact lt_irrefl _ hys
  have ha : innr s (BFGS oldY oldS s) ≠ 0 := ne_of_gt (hP s hs)
  have hys0 : innr y s ≠ 0 := ne_of_gt hys
  constructor
  · show bfgsUpdate (BFGS oldY oldS) y s s = y
    simp only [bfgsUpdate]
    rw [innr_comm (BFGS oldY oldS s) s, div_self ha, div_self hys0]
    module
  · show invBfgsUpdate (InvBFGS oldY oldS) y s y = s
    simp only [invBfgsUpdate]
    have e : 1 / innr y s * innr s y = 1 := by
      rw [innr_comm s y]
      field_simp
    rw [e, one_smul, sub_self, linear_zero hLH, innr_zero_right]
    module

end Recursion

section InverseClaims

open Hilbert Operators.Unconstrained core

variable {V : Type} [AddCommGroup V] [Module ℚ V] [Hilbert V]

/-- The operator `BFGS` on a history of pairs with `⟨y_i, s_i⟩ > 0`. -/
theorem BFGS_eq_recursion (state : State.Unconstrained V) (p : V)
    (hlen : state.oldY.length = state.oldS.length)
    (hpos : ∀ a ∈ List.zip state.oldY state.oldS, 0 < innr a.1 a.2) :
    BFGS state p = .ok (Recursion.BFGS state.oldY state.oldS p) := by
  unfold BFGS
  simp only [hlen, ne_eq, not_true_eq_false, if_false, any_neg_eq_false _ hpos,
    Bool.false_eq_true]
  split
  · rename_i h0
    have hS : state.oldS = [] := List.length_eq_zero.mp h0
    have hY : state.oldY = [] := List.length_eq_zero.mp (hlen.trans h0)
    rw [hS, hY]
    rfl
  · rw [Recursion.work_reverse_eq _ _ hlen, Recursion.BFGS_eq_extend _ _ hlen]
    exact congrArg Except.ok
      (Recursion.BFGS_loop_eq p _ (fun q => q) Recursion.symmetric_id)

/-- The operator `InvBFGS` on a history of pairs with `⟨y_i, s_i⟩ > 0`. -/
theorem InvBFGS_eq_recursion (state : State.Unconstrained V) (p : V)
    (hlen : state.oldY.length = state.oldS.length)
    (hpos : ∀ a ∈ List.zip state.oldY state.oldS, 0 < innr a.1 a.2) :
    InvBFGS state p = .ok (Recursion.InvBFGS state.oldY state.oldS p) := by
  unfold InvBFGS
  simp only [hlen, ne_eq, not_true_eq_false, if_false, any_neg_eq_false _ hpos,
    Bool.false_eq_true, Recursion.forward_eq, List.nil_append, copy]
  rw [Recursion.backward_forward_eq _ _ p hlen, Recursion.twoLoop_eq _ _ hlen]

/-- Claim C38: for every state whose `oldY` and `oldS` have the same length and
whose pairs all satisfy `⟨y_i, s_i⟩ > 0`, and every vector `p`: the operator
`BFGS` returns a vector on `p` that the operator `InvBFGS` maps back to `p`,
and `InvBFGS` returns a vector on `p` that `BFGS` maps back to `p`. -/
theorem InvBFGS_inverts_BFGS (state : State.Unconstrained V) (p : V)
    (hlen : state.oldY.length = state.oldS.length)
    (hpos : ∀ a ∈ List.zip state.oldY state.oldS, 0 < innr a.1 a.2) :
    (∃ q, BFGS state p = .ok q ∧ InvBFGS state q = .ok p)
      ∧ (∃ q, InvBFGS state p = .ok q ∧ BFGS state q = .ok p) := by
  obtain ⟨-, hHB, hBH⟩ := Recursion.InvBFGS_inverse state.oldY state.oldS hpos
  constructor
  · refine ⟨_, BFGS_eq_recursion state p hlen hpos, ?_⟩
    rw [InvBFGS_eq_recursion state _ hlen hpos, hHB]
  · refine ⟨_, InvBFGS_eq_recursion state p hlen hpos, ?_⟩
    rw [BFGS_eq_recursion state _ hlen hpos, hBH]

/-- C38, at a history of two pairs and `p = (1,1)`: `BFGS` returns `(2,3)`,
which `InvBFGS` maps back to `(1,1)`. -/
theorem InvBFGS_inverts_BFGS_witness :
    BFGS (withHistory [(0, 3), (2, 0)] [(0, 1), (1, 0)]) (1, 1) = .ok (2, 3)
      ∧ InvBFGS (withHistory [(0, 3), (2, 0)] [(0, 1), (1, 0)]) (2, 3) = .ok (1, 1)
      ∧ ((∃ q, BFGS (withHistory [(0, 3), (2, 0)] [(0, 1), (1, 0)]) (1, 1) = .ok q
            ∧ InvBFGS (withHistory [(0, 3), (2, 0)] [(0, 1), (1, 0)]) q = .ok (1, 1))
        ∧ (∃ q, InvBFGS (withHistory [(0, 3), (2, 0)] [(0, 1), (1, 0)]) (1, 1) = .ok q
            ∧ BFGS (withHistory [(0, 3), (2, 0)] [(0, 1), (1, 0)]) q = .ok (1, 1))) :=
  ⟨by decide!, by decide!,
    InvBFGS_inverts_BFGS (withHistory [(0, 3), (2, 0)] [(0, 1), (1, 0)]) (1, 1) rfl
      (by simp [withHistory, innr])⟩

/-- Claim C39: for every state with a non-empty history, `oldY` and `oldS` of
the same length and every `⟨y_i, s_i⟩ > 0`, the operators satisfy the secant
condition of the newest pair, the front of the lists: `BFGS` applied to the
front of `oldS` returns the front of `oldY`, and `InvBFGS` applied to the front
of `oldY` returns the front of `oldS`. -/
theorem quasiNewton_secant_condition (state : State.Unconstrained V) (y s : V)
    (oldY oldS : List V) (hY : state.oldY = y :: oldY) (hS : state.oldS = s :: oldS)
    (hlen : state.oldY.length = state.oldS.length)
    (hpos : ∀ a ∈ List.zip state.oldY state.oldS, 0 < innr a.1 a.2) :
    BFGS state s = .ok y ∧ InvBFGS state y = .ok s := by
  have h := Recursion.secant y s oldY oldS (by rw [← hY, ← hS]; exact hpos)
  rw [BFGS_eq_recursion state s hlen hpos, InvBFGS_eq_recursion state y hlen hpos,
    hY, hS, h.1, h.2]
  exact ⟨rfl, rfl⟩

/-- C39, at a history of two pairs with the newest pair `y = (0,3)`,
`s = (0,1)`. -/
theorem quasiNewton_secant_condition_witness :
    (withHistory [(0, 3), (2, 0)] [(0, 1), (1, 0)]).oldY = [(0, 3), (2, 0)]
      ∧ (withHistory [(0, 3), (2, 0)] [(0, 1), (1, 0)]).oldS = [(0, 1), (1, 0)]
      ∧ BFGS (withHistory [(0, 3), (2, 0)] [(0, 1), (1, 0)]) (0, 1) = .ok (0, 3)
      ∧ InvBFGS (withHistory [(0, 3), (2, 0)] [(0, 1), (1, 0)]) (0, 3) = .ok (0, 1) :=
  ⟨rfl, rfl,
    quasiNewton_secant_condition (withHistory [(0, 3), (2, 0)] [(0, 1), (1, 0)])
      (0, 3) (0, 1) [(2, 0)] [(1, 0)] rfl rfl rfl (by simp [withHistory, innr])⟩

/-- Claim C40: for every state that holds a gradient `g ≠ 0` and a slot for
the step, whose `oldY` and `oldS` have the same length and whose pairs all
satisfy `⟨y_i, s_i⟩ > 0`, `BFGS_SD` returns and leaves the step `s = −InvBFGS(g)`
in front of `s`, which is a descent direction: `⟨g, s⟩ < 0`; the gradient is
left in place; and the operator `InvBFGS` of the state is symmetric and
positive definite. -/
theorem BFGS_SD_descent_direction (state : State.Unconstrained V) (g s0 : V)
    (gs ss : List V) (hg : state.g = g :: gs) (hs : state.s = s0 :: ss)
    (hlen : state.oldY.length = state.oldS.length)
    (hpos : ∀ a ∈ List.zip state.oldY state.oldS, 0 < innr a.1 a.2)
    (hg0 : g ≠ 0) :
    (∃ r d q, BFGS_SD state = .ok r ∧ r.s = d :: ss ∧ r.g = g :: gs
        ∧ InvBFGS state g = .ok q ∧ d = -q ∧ innr g d < 0)
      ∧ (∀ u v, ∃ a b, InvBFGS state u = .ok a ∧ InvBFGS state v = .ok b
          ∧ innr a v = innr u b)
      ∧ (∀ v, v ≠ 0 → ∃ a, InvBFGS state v = .ok a ∧ 0 < innr v a) := by
  obtain ⟨hsym, hpd⟩ := Recursion.InvBFGS_symmetric_posDef state.oldY state.oldS hpos
  refine ⟨?_, ?_, ?_⟩
  · refine ⟨{ state with s := -(Recursion.InvBFGS state.oldY state.oldS g) :: ss },
      -(Recursion.InvBFGS state.oldY state.oldS g), _, ?_, rfl, hg,
      InvBFGS_eq_recursion state g hlen hpos, rfl, ?_⟩
    · unfold BFGS_SD
      rw [hg, hs]
      simp only [InvBFGS_eq_recursion state g hlen hpos, scal, neg_smul, one_smul]
    · rw [innr_neg_right]
      exact neg_lt_zero.mpr (hpd g hg0)
  · intro u v
    exact ⟨_, _, InvBFGS_eq_recursion state u hlen hpos,
      InvBFGS_eq_recursion state v hlen hpos, hsym u v⟩
  · intro v hv
    exact ⟨_, InvBFGS_eq_recursion state v hlen hpos, hpd v hv⟩

/-- C40, at a history of two pairs and the gradient `(1,1)`: the direction is
`(-1/2, -1/3)`. -/
theorem BFGS_SD_descent_direction_witness :
    (BFGS_SD { withHistory [(0, 3), (2, 0)] [(0, 1), (1, 0)] with
        g := [(1, 1)], s := [(0, 0)] }).map (fun r => r.s)
        = .ok [(-1 / 2, -1 / 3)]
      ∧ innr ((1, 1) : ℚ × ℚ) (-1 / 2, -1 / 3) < 0
      ∧ ∃ r d q,
          BFGS_SD { withHistory [(0, 3), (2, 0)] [(0, 1), (1, 0)] with
            g := [(1, 1)], s := [(0, 0)] } = .ok r
          ∧ r.s = d :: [] ∧ r.g = (1, 1) :: []
          ∧ InvBFGS { withHistory [(0, 3), (2, 0)] [(0, 1), (1, 0)] with
              g := [(1, 1)], s := [(0, 0)] } (1, 1) = .ok q
          ∧ d = -q ∧ innr ((1, 1) : ℚ × ℚ) d < 0 :=
  ⟨by decide!, by decide!,
    (BFGS_SD_descent_direction
      { withHistory [(0, 3), (2, 0)] [(0, 1), (1, 0)] with g := [(1, 1)], s := [(0, 0)] }
      (1, 1) (0, 0) [] [] rfl rfl rfl (by simp [withHistory, innr])
      (by simp)).1⟩

end InverseClaims

/-! ## The directions of the nonlinear conjugate gradient (C31) -/

section DirectionClaims

open Hilbert core

variable {V : Type} [AddCommGroup V] [Module ℚ V] [Hilbert V]

theorem toInt_eq_one_iff {n : Nat} (h : n < 4294967296) : toInt n = 1 ↔ n = 1 := by
  unfold toInt
  rw [Nat.mod_eq_of_lt h]
  split_ifs <;> omega

/-- Claim C31: for a state that holds `g`, `g_old`, `s_old` and a slot for the
step: at `iter = 1` each of `FletcherReeves`, `PolakRibiere` and
`HestenesStiefel` leaves `s = −g`; at `iter > 1` each leaves
`s = −g + β s_old`, with `β = ⟨g,g⟩/⟨g_old,g_old⟩` for Fletcher–Reeves,
`β = (⟨g,g⟩ − ⟨g,g_old⟩)/⟨g_old,g_old⟩` for Polak–Ribière and
`β = (⟨g,g⟩ − ⟨g,g_old⟩)/(⟨g,s_old⟩ − ⟨g_old,s_old⟩)` for Hestenes–Stiefel,
whenever the denominator of `β` is different from zero; nothing else in the
state changes, in particular not `g`, `g_old` and `s_old`. -/
theorem nonlinearCG_directions (state : State.Unconstrained V)
    (g g_old s_old s0 : V) (gs gos sos ss : List V)
    (hg : state.g = g :: gs) (hgo : state.g_old = g_old :: gos)
    (hso : state.s_old = s_old :: sos) (hs : state.s = s0 :: ss)
    (hi : state.iter < 4294967296) :
    (state.iter = 1 →
        FletcherReeves state = some (.ok { state with s := -g :: ss })
          ∧ PolakRibiere state = some (.ok { state with s := -g :: ss })
          ∧ HestenesStiefel state = some (.ok { state with s := -g :: ss }))
      ∧ (1 < state.iter →
          (innr g_old g_old ≠ 0 →
            FletcherReeves state = some (.ok { state with
              s := (-g + (innr g g / innr g_old g_old) • s_old) :: ss }))
          ∧ (innr g_old g_old ≠ 0 →
            PolakRibiere state = some (.ok { state with
              s := (-g + ((innr g g - innr g g_old) / innr g_old g_old) • s_old)
                :: ss }))
          ∧ (innr g s_old - innr g_old s_old ≠ 0 →
            HestenesStiefel state = some (.ok { state with
              s := (-g + ((innr g g - innr g g_old)
                  / (innr g s_old - innr g_old s_old)) • s_old) :: ss }))) := by
  have hsd : SteepestDescent state = .ok { state with s := -g :: ss } := by
    unfold SteepestDescent
    rw [hg, hs]
    simp only [scal, copy, neg_smul, one_smul]
  have hneg : scal (-1) (copy g) = -g := by
    simp only [scal, copy, neg_smul, one_smul]
  constructor
  · intro h1
    have ht : toInt state.iter = 1 := (toInt_eq_one_iff hi).mpr h1
    refine ⟨?_, ?_, ?_⟩
    · unfold FletcherReeves
      rw [hg, hgo, hso, hs]
      simp only [ht, if_true, hsd, hg, hgo, hso, hs]
    · unfold PolakRibiere
      rw [hg, hgo, hso, hs]
      simp only [ht, if_true, hsd, hg, hgo, hso, hs]
    · unfold HestenesStiefel
      rw [hg, hgo, hso, hs]
      simp only [ht, if_true, hsd, hg, hgo, hso, hs]
  · intro h1
    have ht : ¬ toInt state.iter = 1 := fun h =>
      absurd ((toInt_eq_one_iff hi).mp h) (by omega)
    refine ⟨?_, ?_, ?_⟩
    · intro hden
      unfold FletcherReeves
      rw [hg, hgo, hso, hs]
      simp only [ht, if_false, hneg, Real.div, hden, axpyReal, Real.toRat?,
        Option.map_some', axpy, hg, hgo, hso, hs]
      rw [add_comm]
    · intro hden
      unfold PolakRibiere
      rw [hg, hgo, hso, hs]
      simp only [ht, if_false, hneg, Real.div, Real.sub, Real.add, Real.neg, hden,
        axpyReal, Real.toRat?, Option.map_some', axpy, ← sub_eq_add_neg, hg, hgo, hso,
        hs]
      rw [sub_eq_add_neg, add_comm]
    · intro hden
      unfold HestenesStiefel
      rw [hg, hgo, hso, hs]
      simp only [ht, if_false, hneg, Real.div, Real.sub, Real.add, Real.neg, hden,
        axpyReal, Real.toRat?, Option.map_some', axpy, ← sub_eq_add_neg, hg, hgo, hso,
        hs]
      rw [sub_eq_add_neg, add_comm]

/-- C31, at the state `evaluatedState` (`g = (3,4)`, `g_old = (9,10)`,
`s_old = (11,12)`): the three directions at `iter = 2`, and the direction
`−g` at `iter = 1`. -/
theorem nonlinearCG_directions_witness :
    (FletcherReeves evaluatedState).map (Except.map (fun r => r.s))
        = some (.ok [(-3, -4)])
      ∧ (FletcherReeves { evaluatedState with iter := 2 }).map
          (Except.map (fun r => r.s)) = some (.ok [(-268 / 181, -424 / 181)])
      ∧ (PolakRibiere { evaluatedState with iter := 2 }).map
          (Except.map (fun r => r.s)) = some (.ok [(-1005 / 181, -1228 / 181)])
      ∧ (HestenesStiefel { evaluatedState with iter := 2 }).map
          (Except.map (fun r => r.s)) = some (.ok [(8 / 23, -8 / 23)])
      ∧ ((1 : Nat) < 2 →
          (innr ((9, 10) : ℚ × ℚ) (9, 10) ≠ 0 →
            FletcherReeves { evaluatedState with iter := 2 }
              = some (.ok { ({ evaluatedState with iter := 2 }
                  : State.Unconstrained (ℚ × ℚ)) with
                s := (-(3, 4) + (innr ((3, 4) : ℚ × ℚ) (3, 4)
                    / innr ((9, 10) : ℚ × ℚ) (9, 10)) • (11, 12)) :: [] }))
          ∧ (innr ((9, 10) : ℚ × ℚ) (9, 10) ≠ 0 →
            PolakRibiere { evaluatedState with iter := 2 }
              = some (.ok { ({ evaluatedState with iter := 2 }
                  : State.Unconstrained (ℚ × ℚ)) with
                s := (-(3, 4) + ((innr ((3, 4) : ℚ × ℚ) (3, 4)
                      - innr ((3, 4) : ℚ × ℚ) (9, 10))
                    / innr ((9, 10) : ℚ × ℚ) (9, 10)) • (11, 12)) :: [] }))
          ∧ (innr ((3, 4) : ℚ × ℚ) (11, 12) - innr ((9, 10) : ℚ × ℚ) (11, 12) ≠ 0 →
            HestenesStiefel { evaluatedState with iter := 2 }
              = some (.ok { ({ evaluatedState with iter := 2 }
                  : State.Unconstrained (ℚ × ℚ)) with
                s := (-(3, 4) + ((innr ((3, 4) : ℚ × ℚ) (3, 4)
                      - innr ((3, 4) : ℚ × ℚ) (9, 10))
                    / (innr ((3, 4) : ℚ × ℚ) (11, 12)
                      - innr ((9, 10) : ℚ × ℚ) (11, 12))) • (11, 12)) :: [] }))) :=
  ⟨by decide!, by decide!, by decide!, by decide!,
    (nonlinearCG_directions { evaluatedState with iter := 2 }
      (3, 4) (9, 10) (11, 12) (5, 6) [] [] [] [] rfl rfl rfl rfl (by decide)).2⟩

end DirectionClaims

/-! ## Negative curvature in `NewtonCG` (C32) -/

section NewtonClaims

open Hilbert core

variable {V : Type} [AddCommGroup V] [Module ℚ V] [Hilbert V]

/-- A pass of the loop of `NewtonCG` on a direction of non-positive curvature
ends the loop with `NegativeCurvature`; the step becomes `−g_k` in the first
pass and is left as it is in a later pass. -/
theorem NewtonCG_pass_negative (sqrt : Real → Real) (Minv H : V → V)
    (eps_cg norm_g : Real) (iter : Nat) (l : NewtonCG.Locals V)
    (hk : innr l.p_k (H l.p_k) ≤ 0) :
    NewtonCG.pass sqrt Minv H eps_cg norm_g iter l
      = some (.exit .NegativeCurvature
          { l with s_k := if iter = 1 then -l.g_k else l.s_k }) := by
  have h1 : Real.gt (.fin (innr l.p_k (H l.p_k))) (.fin 0) = false := by
    simp only [Real.gt, Real.lt, decide_eq_false_iff_not, not_lt]
    exact hk
  have h2 : Real.le (.fin (innr l.p_k (H l.p_k))) (.fin 0) = true := by
    simp only [Real.le, decide_eq_true_eq]
    exact hk
  unfold NewtonCG.pass
  simp only [h1, h2, Bool.true_or, if_true, Bool.false_eq_true, if_false, scal, copy,
    neg_smul, one_smul]

/-- A pass of the loop of `NewtonCG` that ends with `NegativeCurvature` leaves
the step as it is, except in the first pass. -/
theorem NewtonCG_pass_exit (sqrt : Real → Real) (Minv H : V → V)
    (eps_cg norm_g : Real) (iter : Nat) (l l' : NewtonCG.Locals V)
    (h : NewtonCG.pass sqrt Minv H eps_cg norm_g iter l
      = some (.exit .NegativeCurvature l')) (hi : iter ≠ 1) :
    l'.s_k = l.s_k := by
  by_cases hk : innr l.p_k (H l.p_k) ≤ 0
  · rw [NewtonCG_pass_negative sqrt Minv H eps_cg norm_g iter l hk] at h
    injection h with h
    injection h with _ h
    rw [← h]
    simp [hi]
  · exfalso
    have h1 : Real.gt (.fin (innr l.p_k (H l.p_k))) (.fin 0) = true := by
      simp only [Real.gt, Real.lt, decide_eq_true_eq]
      exact not_le.mp hk
    have h2 : Real.le (.fin (innr l.p_k (H l.p_k))) (.fin 0) = false := by
      simp only [Real.le, decide_eq_false_iff_not]
      exact hk
    have h3 : Real.ne (.fin (innr l.p_k (H l.p_k))) (.fin (innr l.p_k (H l.p_k)))
        = false := by
      simp [Real.ne]
    unfold NewtonCG.pass at h
    simp only [h1, h2, h3, Bool.or_self, Bool.false_eq_true, if_false, if_true] at h
    split at h
    · split_ifs at h
      · injection h with h
        injection h with h _
        cases h
      · split at h
        · injection h with h
          cases h
        · cases h
    · cases h

/-- A run of the loop of `NewtonCG` that ends by a `break` in pass `k`: the
loop capped at `k − 1` passes ends at its cap with the variables on which pass
`k` ends by the `break`. -/
theorem NewtonCG_loop_break (sqrt : Real → Real) (Minv H : V → V)
    (eps_cg norm_g : Real) :
    ∀ (n i : Nat) (l : NewtonCG.Locals V) (k : Nat) (stop : KrylovStop.t)
      (lf : NewtonCG.Locals V),
      NewtonCG.loop sqrt Minv H eps_cg norm_g n i l = some (k, some stop, lf) →
        i ≤ k ∧ k < i + n
          ∧ ∃ lk, (k < 4294967296 →
                NewtonCG.loop sqrt Minv H eps_cg norm_g (k - i) i l
                  = some (k, none, lk))
              ∧ NewtonCG.pass sqrt Minv H eps_cg norm_g k lk = some (.exit stop lf) := by
  intro n
  induction n with
  | zero =>
    intro i l k stop lf h
    unfold NewtonCG.loop at h
    split_ifs at h
    cases h
  | succ n ih =>
    intro i l k stop lf h
    rw [NewtonCG.loop] at h
    split at h
    · cases h
    · rename_i stop' l' hp
      injection h with h
      injection h with h1 h2
      injection h2 with h2 h3
      injection h2 with h2
      subst h1 h2 h3
      refine ⟨le_refl _, by omega, l, ?_, hp⟩
      intro hk
      rw [Nat.sub_self, NewtonCG.loop, if_pos hk]
    · rename_i l' hp
      obtain ⟨h1, h2, lk, h3, h4⟩ := ih (i + 1) l' k stop lf h
      refine ⟨by omega, by omega, lk, ?_, h4⟩
      intro hk
      have e : k - i = (k - (i + 1)) + 1 := by omega
      rw [e, NewtonCG.loop, hp]
      exact h3 hk

/-- The result of `NewtonCG` from the result of its loop. -/
theorem NewtonCG_of_loop (sqrt : Real → Real) (Minv H : V → V)
    (state : State.Unconstrained V) (u g s0 : V) (us gs ss : List V)
    (hx : state.x = u :: us) (hg : state.g = g :: gs) (hs : state.s = s0 :: ss) :
    (∀ r, NewtonCG sqrt Minv H state = some (.ok r) →
        ∃ k stop l,
          NewtonCG.loop sqrt Minv H state.eps_krylov (.fin (innr g g))
              state.krylov_iter_max 1
              { s_k := scal 0 s0, g_k := copy g, v_k := Minv (copy g),
                p_k := scal (-1) (copy (Minv (copy g))), alpha := .fin 0,
                inner_gk_vk := .fin (innr (copy g) (Minv (copy g))) }
            = some (k, stop, l)
          ∧ r.s = l.s_k :: ss
          ∧ (∀ st, stop = some st → r.krylov_stop = st ∧ r.krylov_iter = k)
          ∧ (stop = none → r.krylov_stop = .MaxItersExceeded ∧ r.krylov_iter = k - 1))
      ∧ (∀ k stop l,
          NewtonCG.loop sqrt Minv H state.eps_krylov (.fin (innr g g))
              state.krylov_iter_max 1
              { s_k := scal 0 s0, g_k := copy g, v_k := Minv (copy g),
                p_k := scal (-1) (copy (Minv (copy g))), alpha := .fin 0,
                inner_gk_vk := .fin (innr (copy g) (Minv (copy g))) }
            = some (k, stop, l) →
          ∃ r, NewtonCG sqrt Minv H state = some (.ok r) ∧ r.s = l.s_k :: ss
            ∧ (∀ st, stop = some st → r.krylov_stop = st ∧ r.krylov_iter = k)
            ∧ (stop = none →
                r.krylov_stop = .MaxItersExceeded ∧ r.krylov_iter = k - 1)) := by
  constructor
  · intro r h
    unfold NewtonCG at h
    rw [hx, hg, hs] at h
    simp only at h
    split at h
    · cases h
    · rename_i k stop l hl
      refine ⟨k, stop, l, hl, ?_⟩
      split at h
      · rename_i st
        injection h with h
        injection h with h
        subst h
        exact ⟨rfl, fun st' hst => (by cases hst; exact ⟨rfl, rfl⟩), fun h0 => (by cases h0)⟩
      · injection h with h
        injection h with h
        subst h
        exact ⟨rfl, fun st' hst => (by cases hst), fun _ => ⟨rfl, rfl⟩⟩
  · intro k stop l hl
    unfold NewtonCG
    rw [hx, hg, hs]
    simp only [hl]
    cases stop with
    | none => exact ⟨_, rfl, rfl, fun st' hst => (by cases hst), fun _ => ⟨rfl, rfl⟩⟩
    | some st =>
      exact ⟨_, rfl, rfl, fun st' hst => (by cases hst; exact ⟨rfl, rfl⟩),
        fun h0 => (by cases h0)⟩

/-- Claim C32: for a state that holds `x`, `g` and a slot for the step, with
`1 ≤ krylov_iter_max < 2^32`: if the first direction `p₀ = −M⁻¹g` has
`⟨p₀, H p₀⟩ ≤ 0`, `NewtonCG` returns the step `s = −g` with the stop code
`NegativeCurvature` in its first pass; if it stops with `NegativeCurvature` in
a later pass `k`, the step it returns is the step of the run capped at
`k − 1` passes, that is the step accumulated so far; and the radius does not
enter: changing `delta` and `delta_max` changes nothing else in the result. -/
theorem NewtonCG_negative_curvature (sqrt : Real → Real) (Minv H : V → V)
    (state : State.Unconstrained V) (u g s0 : V) (us gs ss : List V)
    (hx : state.x = u :: us) (hg : state.g = g :: gs) (hs : state.s = s0 :: ss)
    (hmax : 0 < state.krylov_iter_max)
    (hmax2 : state.krylov_iter_max < 4294967296) :
    (innr (-(Minv g)) (H (-(Minv g))) ≤ 0 →
        ∃ r, NewtonCG sqrt Minv H state = some (.ok r) ∧ r.s = -g :: ss
          ∧ r.krylov_stop = .NegativeCurvature ∧ r.krylov_iter = 1)
      ∧ (∀ r, NewtonCG sqrt Minv H state = some (.ok r) →
          r.krylov_stop = .NegativeCurvature → 1 < r.krylov_iter →
          ∃ r', NewtonCG sqrt Minv H
                { state with krylov_iter_max := r.krylov_iter - 1 } = some (.ok r')
            ∧ r'.krylov_stop = .MaxItersExceeded
            ∧ r'.krylov_iter = r.krylov_iter - 1 ∧ r'.s = r.s)
      ∧ (∀ d dmax, NewtonCG sqrt Minv H { state with delta := d, delta_max := dmax }
          = (NewtonCG sqrt Minv H state).map
              (Except.map (fun r => { r with delta := d, delta_max := dmax }))) := by
  have hneg : scal (-1) (copy (Minv (copy g))) = -(Minv g) := by
    simp only [scal, copy, neg_smul, one_smul]
  obtain ⟨hfwd, hbwd⟩ := NewtonCG_of_loop sqrt Minv H state u g s0 us gs ss hx hg hs
  refine ⟨?_, ?_, ?_⟩
  · intro hk
    obtain ⟨n, hn⟩ : ∃ n, state.krylov_iter_max = n + 1 := ⟨state.krylov_iter_max - 1, by omega⟩
    have hl := NewtonCG_pass_negative sqrt Minv H state.eps_krylov (.fin (innr g g)) 1
      { s_k := scal 0 s0, g_k := copy g, v_k := Minv (copy g),
        p_k := scal (-1) (copy (Minv (copy g))), alpha := .fin 0,
        inner_gk_vk := .fin (innr (copy g) (Minv (copy g))) }
      (by simp only [hneg]; exact hk)
    obtain ⟨r, hr, hrs, hst, -⟩ := hbwd 1 (some .NegativeCurvature) _
      (by rw [hn, NewtonCG.loop, hl])
    refine ⟨r, hr, ?_, (hst _ rfl).1, (hst _ rfl).2⟩
    rw [hrs]
    simp [copy]
  · intro r hr hstop hiter
    obtain ⟨k, stop, l, hl, hrs, hst, hnone⟩ := hfwd r hr
    cases stop with
    | none =>
      rw [(hnone rfl).1] at hstop
      cases hstop
    | some st =>
      obtain ⟨hst1, hst2⟩ := hst st rfl
      rw [hst1] at hstop
      subst hstop
      rw [hst2] at hiter ⊢
      obtain ⟨-, hlt, lk, hcap, hpass⟩ :=
        NewtonCG_loop_break sqrt Minv H state.eps_krylov (.fin (innr g g)) _ _ _ _ _ _ hl
      have hk : k < 4294967296 := by omega
      obtain ⟨-, hbwd'⟩ := NewtonCG_of_loop sqrt Minv H
        { state with krylov_iter_max := k - 1 } u g s0 us gs ss hx hg hs
      obtain ⟨r', hr', hrs', -, hnone'⟩ := hbwd' k none lk (hcap hk)
      refine ⟨r', hr', (hnone' rfl).1, (hnone' rfl).2, ?_⟩
      rw [hrs', hrs,
        NewtonCG_pass_exit sqrt Minv H state.eps_krylov (.fin (innr g g)) k lk l hpass
          (by omega)]
  · intro d dmax
    unfold NewtonCG
    simp only
    split
    · split
      · rfl
      · split <;> rfl
    · rfl

/-- C32, on the plane with the operator `saddle`: for `g = (1,0)` the first
direction has negative curvature and the step is `−g`; for `g = (0,3)`
negative curvature is met in the second pass and the step `(0,-3/2)` of the
first pass is returned, the step of the run capped at one pass. -/
theorem NewtonCG_negative_curvature_witness :
    (NewtonCG rationalSqrt (fun v => v) saddle
        { krylovState with g := [(1, 0)] }).map
        (Except.map (fun r => (r.s, r.krylov_stop, r.krylov_iter)))
        = some (.ok ([(-1, 0)], .NegativeCurvature, 1))
      ∧ (NewtonCG rationalSqrt (fun v => v) saddle
          { krylovState with g := [(0, 3)] }).map
          (Except.map (fun r => (r.s, r.krylov_stop, r.krylov_iter)))
          = some (.ok ([(0, -3 / 2)], .NegativeCurvature, 2))
      ∧ (NewtonCG rationalSqrt (fun v => v) saddle
          { krylovState with g := [(0, 3)], krylov_iter_max := 1 }).map
          (Except.map (fun r => (r.s, r.krylov_stop, r.krylov_iter)))
          = some (.ok ([(0, -3 / 2)], .MaxItersExceeded, 1))
      ∧ ∃ r, NewtonCG rationalSqrt (fun v => v) saddle
            { krylovState with g := [(1, 0)] } = some (.ok r)
          ∧ r.s = -(1, 0) :: [] ∧ r.krylov_stop = .NegativeCurvature
          ∧ r.krylov_iter = 1 :=
  ⟨by decide!, by decide!, by decide!,
    (NewtonCG_negative_curvature rationalSqrt (fun v => v) saddle
      { krylovState with g := [(1, 0)] } (0, 0) (1, 0) (0, 0) [] [] [] rfl rfl rfl
      (by decide) (by decide)).1 (by decide!)⟩

end NewtonClaims

/-! ## The step rules of the line search (C33, C34, C35) -/

section LineSearchClaims

open Hilbert core

/-- A pass of the loop of `goldenSection` keeps the objective values at the
two inner points. -/
theorem goldenSection_pass_obj {K : Type} [Ring K] (beta : K) (phi : K → Real)
    (l : goldenSection.Bracket K)
    (h : l.obj_lambda = phi l.lambda ∧ l.obj_mu = phi l.mu) :
    (goldenSection.pass beta phi l).obj_lambda = phi (goldenSection.pass beta phi l).lambda
      ∧ (goldenSection.pass beta phi l).obj_mu = phi (goldenSection.pass beta phi l).mu := by
  unfold goldenSection.pass
  split_ifs
  · exact ⟨h.2, rfl⟩
  · exact ⟨rfl, h.1⟩

theorem goldenSection_loop_obj {K : Type} [Ring K] (beta : K) (phi : K → Real) :
    ∀ (n : Nat) (l : goldenSection.Bracket K),
      (l.obj_lambda = phi l.lambda ∧ l.obj_mu = phi l.mu) →
        (goldenSection.loop beta phi n l).obj_lambda
            = phi (goldenSection.loop beta phi n l).lambda
          ∧ (goldenSection.loop beta phi n l).obj_mu
            = phi (goldenSection.loop beta phi n l).mu
  | 0, _, h => h
  | n + 1, l, h => by
    rw [goldenSection.loop]
    exact goldenSection_loop_obj beta phi n _ (goldenSection_pass_obj beta phi l h)

/-- The objective value that `goldenSection` takes from its last bracket is the
value at the step length that it takes. -/
theorem goldenSection_search_obj {K : Type} [Ring K] (beta a b : K) (phi : K → Real)
    (n : Nat) :
    goldenSection.obj (goldenSection.search beta a b phi n)
      = phi (goldenSection.alpha (goldenSection.search beta a b phi n)) := by
  have h := goldenSection_loop_obj beta phi n
    { a := a, b := b, lambda := a + (1 - beta) * (b - a), mu := a + beta * (b - a),
      obj_lambda := phi (a + (1 - beta) * (b - a)),
      obj_mu := phi (a + beta * (b - a)) } ⟨rfl, rfl⟩
  unfold goldenSection.obj goldenSection.alpha goldenSection.search
  simp only
  split_ifs
  · exact h.1
  · exact h.2

/-- The loop of `backTracking` keeps the best objective value paired with its
step length, and adds one step length per pass to the list of the
evaluations: `alpha0`, `alpha0/2`, `alpha0/4`, ... -/
theorem backTracking_loop_spec (phi : ℚ → Real) :
    ∀ (n : Nat) (alpha0 alpha_best : ℚ) (obj_best : Real) (probes : List ℚ),
      obj_best = phi alpha_best →
        (backTracking.loop phi n alpha0 (alpha_best, obj_best, probes)).2.1
            = phi (backTracking.loop phi n alpha0 (alpha_best, obj_best, probes)).1
          ∧ (backTracking.loop phi n alpha0 (alpha_best, obj_best, probes)).2.2
            = probes ++ (List.range n).map (fun i => alpha0 / 2 ^ i)
  | 0, _, _, _, _, h => by simp [backTracking.loop, h]
  | n + 1, alpha0, alpha_best, obj_best, probes, h => by
    have e : (List.range (n + 1)).map (fun i => alpha0 / 2 ^ i)
        = alpha0 :: (List.range n).map (fun i => alpha0 / 2 / 2 ^ i) := by
      rw [List.range_succ_eq_map, List.map_cons, List.map_map]
      simp only [pow_zero, div_one, List.cons.injEq, true_and]
      apply List.map_congr_left
      intro i _
      show alpha0 / 2 ^ (i + 1) = alpha0 / 2 / 2 ^ i
      rw [pow_succ, div_div, mul_comm]
    rw [backTracking.loop]
    split_ifs
    · have ih := backTracking_loop_spec phi n (alpha0 / 2) alpha0 (phi alpha0)
        (probes ++ [alpha0]) rfl
      rw [ih.1, ih.2, e]
      simp
    · have ih := backTracking_loop_spec phi n (alpha0 / 2) alpha_best obj_best
        (probes ++ [alpha0]) h
      rw [ih.1, ih.2, e]
      simp

end LineSearchClaims

/-! ### The bracket of the golden-section search (C35) -/

section GoldenClaims

open Hilbert core

/-- One over the golden ratio lies between `1/2` and `2/3`. -/
theorem golden_bounds {K : Type} [LinearOrderedField K] {beta : K}
    (hβ : beta * beta = 1 - beta) (hβ0 : 0 < beta) : 1 / 2 < beta ∧ beta < 2 / 3 := by
  constructor
  · by_contra h
    have h1 : beta ≤ 1 / 2 := not_lt.mp h
    have h2 : beta * beta ≤ 1 / 2 * beta := mul_le_mul_of_nonneg_right h1 (le_of_lt hβ0)
    linarith
  · by_contra h
    have h1 : 2 / 3 ≤ beta := not_lt.mp h
    have h2 : 2 / 3 * beta ≤ beta * beta := mul_le_mul_of_nonneg_right h1 (le_of_lt hβ0)
    linarith

/-- A pass of the loop of `goldenSection` keeps the relations between its
variables and multiplies the width of the bracket by `beta`; the bracket stays
within the old one. -/
theorem goldenSection_pass_invariant {K : Type} [LinearOrderedField K] (beta : K)
    (phi : K → Real) (hβ : beta * beta = 1 - beta) (hβ0 : 0 < beta)
    (l : goldenSection.Bracket K) (h : goldenSection.Invariant beta l) :
    goldenSection.Invariant beta (goldenSection.pass beta phi l)
      ∧ (goldenSection.pass beta phi l).b - (goldenSection.pass beta phi l).a
        = beta * (l.b - l.a)
      ∧ l.a ≤ (goldenSection.pass beta phi l).a
      ∧ (goldenSection.pass beta phi l).b ≤ l.b := by
  obtain ⟨h1, h2, h3, h4, h5⟩ := h
  obtain ⟨hb1, hb2⟩ := golden_bounds hβ hβ0
  have hw : 0 < l.b - l.a := by linarith
  have hsq : beta * (beta * (l.b - l.a)) = (1 - beta) * (l.b - l.a) := by
    rw [← mul_assoc, hβ]
  have k1 : 0 < (2 * beta - 1) * (l.b - l.a) := mul_pos (by linarith) hw
  have k2 : 0 < (2 - 3 * beta) * (l.b - l.a) := mul_pos (by linarith) hw
  have k3 : 0 < (1 - beta) * (l.b - l.a) := mul_pos (by linarith) hw
  have k4 : 0 < beta * (l.b - l.a) := mul_pos hβ0 hw
  unfold goldenSection.pass goldenSection.Invariant
  split_ifs
  · simp only
    refine ⟨⟨?_, ?_, ?_, ?_, ?_⟩, ?_, ?_, ?_⟩
    · linarith
    · rw [h4, h5]
      linarith
    · rw [h4]
      linarith
    · rw [h4, h5]
      linear_combination hsq
    · trivial
    · rw [h4]
      ring
    · exact le_of_lt h1
    · exact le_refl _
  · simp only
    refine ⟨⟨?_, ?_, ?_, ?_, ?_⟩, ?_, ?_, ?_⟩
    · rw [h5]
      linarith
    · rw [h4, h5]
      linarith
    · exact h2
    · trivial
    · rw [h4, h5]
      linear_combination (-1 : K) * hsq
    · rw [h5]
      ring
    · exact le_refl _
    · exact le_of_lt h3

theorem goldenSection_loop_invariant {K : Type} [LinearOrderedField K] (beta : K)
    (phi : K → Real) (hβ : beta * beta = 1 - beta) (hβ0 : 0 < beta) :
    ∀ (n : Nat) (l : goldenSection.Bracket K), goldenSection.Invariant beta l →
      goldenSection.Invariant beta (goldenSection.loop beta phi n l)
        ∧ (goldenSection.loop beta phi n l).b - (goldenSection.loop beta phi n l).a
          = beta ^ n * (l.b - l.a)
        ∧ l.a ≤ (goldenSection.loop beta phi n l).a
        ∧ (goldenSection.loop beta phi n l).b ≤ l.b
  | 0, l, h => ⟨h, by simp [goldenSection.loop], le_refl _, le_refl _⟩
  | n + 1, l, h => by
    obtain ⟨p1, p2, p3, p4⟩ := goldenSection_pass_invariant beta phi hβ hβ0 l h
    obtain ⟨q1, q2, q3, q4⟩ := goldenSection_loop_invariant beta phi hβ hβ0 n _ p1
    rw [goldenSection.loop]
    refine ⟨q1, ?_, p3.trans q3, q4.trans p4⟩
    rw [q2, p2, pow_succ]
    ring

/-- Claim C35: in exact arithmetic (an ordered field) with `beta² = 1 − beta`
and `beta > 0`, which hold for `beta = 2/(1+√5)`, and a bracket `a₀ < b₀`: every
pass of the loop of `goldenSection` keeps `a < lambda < mu < b` with
`lambda = a + (1−beta)(b−a)` and `mu = a + beta(b−a)`; after `n` passes these
relations hold, the width of the bracket is `betaⁿ (b₀ − a₀)`, and the step
length that the routine takes lies strictly between `a₀` and `b₀`. -/
theorem goldenSection_keeps_bracket {K : Type} [LinearOrderedField K]
    (beta a0 b0 : K) (phi : K → Real) (n : Nat)
    (hβ : beta * beta = 1 - beta) (hβ0 : 0 < beta) (hab : a0 < b0) :
    (∀ l, goldenSection.Invariant beta l →
        goldenSection.Invariant beta (goldenSection.pass beta phi l))
      ∧ goldenSection.Invariant beta (goldenSection.search beta a0 b0 phi n)
      ∧ (goldenSection.search beta a0 b0 phi n).b
          - (goldenSection.search beta a0 b0 phi n).a = beta ^ n * (b0 - a0)
      ∧ a0 < goldenSection.alpha (goldenSection.search beta a0 b0 phi n)
      ∧ goldenSection.alpha (goldenSection.search beta a0 b0 phi n) < b0 := by
  obtain ⟨hb1, hb2⟩ := golden_bounds hβ hβ0
  have hw : 0 < b0 - a0 := by linarith
  have k1 : 0 < (2 * beta - 1) * (b0 - a0) := mul_pos (by linarith) hw
  have k3 : 0 < (1 - beta) * (b0 - a0) := mul_pos (by linarith) hw
  have h0 : goldenSection.Invariant beta
      { a := a0, b := b0, lambda := a0 + (1 - beta) * (b0 - a0),
        mu := a0 + beta * (b0 - a0), obj_lambda := phi (a0 + (1 - beta) * (b0 - a0)),
        obj_mu := phi (a0 + beta * (b0 - a0)) } := by
    refine ⟨?_, ?_, ?_, rfl, rfl⟩
    · show a0 < a0 + (1 - beta) * (b0 - a0)
      linarith
    · show a0 + (1 - beta) * (b0 - a0) < a0 + beta * (b0 - a0)
      linarith
    · show a0 + beta * (b0 - a0) < b0
      linarith
  obtain ⟨q1, q2, q3, q4⟩ := goldenSection_loop_invariant beta phi hβ hβ0 n _ h0
  refine ⟨fun l hl => (goldenSection_pass_invariant beta phi hβ hβ0 l hl).1, q1, q2, ?_, ?_⟩
  · obtain ⟨i1, i2, i3, -, -⟩ := q1
    have ha : a0 ≤ (goldenSection.search beta a0 b0 phi n).a := q3
    unfold goldenSection.alpha
    split_ifs
    · exact lt_of_le_of_lt ha i1
    · exact lt_of_le_of_lt ha (i1.trans i2)
  · obtain ⟨i1, i2, i3, -, -⟩ := q1
    have hb : (goldenSection.search beta a0 b0 phi n).b ≤ b0 := q4
    unfold goldenSection.alpha
    split_ifs
    · exact lt_of_lt_of_le (i2.trans i3) hb
    · exact lt_of_lt_of_le i3 hb

end GoldenClaims

section GoldenWitness

open core

/-- One over the golden ratio, `2/(1+√5)`, satisfies `beta² = 1 − beta`. -/
theorem golden_identity :
    (2 / (1 + √5) : ℝ) * (2 / (1 + √5)) = 1 - 2 / (1 + √5) ∧ (0 : ℝ) < 2 / (1 + √5) := by
  have h5 : √5 * √5 = (5 : ℝ) := Real.mul_self_sqrt (by norm_num)
  have h0 : (0 : ℝ) ≤ √5 := Real.sqrt_nonneg 5
  have h1 : (1 + √5 : ℝ) ≠ 0 := by positivity
  constructor
  · field_simp
    nlinarith
  · positivity

/-- C35, over the real numbers with `beta = 2/(1+√5)`, the bracket
`[10⁻¹⁶, 2]` and three passes. -/
theorem goldenSection_keeps_bracket_witness :
    (2 / (1 + √5) : ℝ) * (2 / (1 + √5)) = 1 - 2 / (1 + √5)
      ∧ (0 : ℝ) < 2 / (1 + √5)
      ∧ (1 / 10000000000000000 : ℝ) < 2
      ∧ goldenSection.Invariant (2 / (1 + √5) : ℝ)
          (goldenSection.search (2 / (1 + √5)) (1 / 10000000000000000) 2
            (fun _ => Real.nan) 3)
      ∧ (goldenSection.search (2 / (1 + √5) : ℝ) (1 / 10000000000000000) 2
            (fun _ => Real.nan) 3).b
          - (goldenSection.search (2 / (1 + √5) : ℝ) (1 / 10000000000000000) 2
            (fun _ => Real.nan) 3).a
          = (2 / (1 + √5)) ^ 3 * (2 - 1 / 10000000000000000)
      ∧ (1 / 10000000000000000 : ℝ)
          < goldenSection.alpha (goldenSection.search (2 / (1 + √5) : ℝ)
              (1 / 10000000000000000) 2 (fun _ => Real.nan) 3)
      ∧ goldenSection.alpha (goldenSection.search (2 / (1 + √5) : ℝ)
              (1 / 10000000000000000) 2 (fun _ => Real.nan) 3) < 2 :=
  ⟨golden_identity.1, golden_identity.2, by norm_num,
    (goldenSection_keeps_bracket (2 / (1 + √5) : ℝ) (1 / 10000000000000000) 2
      (fun _ => Real.nan) 3 golden_identity.1 golden_identity.2 (by norm_num)).2⟩

end GoldenWitness

/-! ### The objective value stored by the step rules (C34) -/

section StepRuleClaims

open Hilbert core

/-- The result of `goldenSection`, when it has one. -/
theorem goldenSection_result {V : Type} [AddCommGroup V] [Module ℚ V]
    (sqrt : Real → Real) (F : V → Real)
    (state r : State.Unconstrained V) (u s : V) (us ss : List V)
    (hx : state.x = u :: us) (hs : state.s = s :: ss)
    (h : goldenSection sqrt F state = some (.ok r)) :
    ∃ a : ℚ, r.alpha = .fin a ∧ r.obj_xps = F (u + a • s) ∧ r.x = state.x
      ∧ r.s = state.s := by
  unfold goldenSection at h
  rw [hx, hs] at h
  simp only at h
  split at h
  · split_ifs at h
    injection h with h
    injection h with h
    subst h
    refine ⟨_, rfl, ?_, hx.symm, hs.symm⟩
    show goldenSection.obj _ = _
    rw [goldenSection_search_obj]
    simp only [axpy, copy, add_comm]
  · cases h

/-- The result of `backTracking`, when it has one. -/
theorem backTracking_result {V : Type} [AddCommGroup V] [Module ℚ V]
    (F : V → Real)
    (state r : State.Unconstrained V) (u s : V) (us ss : List V)
    (hx : state.x = u :: us) (hs : state.s = s :: ss)
    (h : backTracking F state = some (.ok r)) :
    ∃ a : ℚ, r.alpha = .fin a ∧ r.obj_xps = F (u + a • s) ∧ r.x = state.x
      ∧ r.s = state.s := by
  unfold backTracking backTracking.run at h
  rw [hx, hs] at h
  simp only at h
  generalize (state.linesearch_iter_max + 4294967295) % 4294967296 = n at h
  split at h
  · rename_i alpha _
    simp only [Option.map_some', Except.map, Option.some.injEq, Except.ok.injEq] at h
    subst h
    refine ⟨(backTracking.loop (fun t : ℚ => F (axpy t s (copy u))) n alpha
      (2 * alpha, F (axpy (2 * alpha) s (copy u)), [2 * alpha])).1, rfl, ?_, hx.symm,
      hs.symm⟩
    have hl := (backTracking_loop_spec (fun t : ℚ => F (axpy t s (copy u)))
      n alpha (2 * alpha) (F (axpy (2 * alpha) s (copy u))) [2 * alpha] rfl).1
    rw [hl, add_comm u]
    exact rfl
  · cases h

/-- The result of `twoPoint`, when it has one. -/
theorem twoPoint_result {V : Type} [AddCommGroup V] [Module ℚ V] [Hilbert V]
    (F : V → Real)
    (state r : State.Unconstrained V) (u s : V) (us ss : List V)
    (hx : state.x = u :: us) (hs : state.s = s :: ss)
    (h : twoPoint F state = some (.ok r)) :
    ∃ a : ℚ, r.alpha = .fin a ∧ r.obj_xps = F (u + a • s) ∧ r.x = state.x
      ∧ r.s = state.s := by
  unfold twoPoint at h
  rw [hx, hs] at h
  split at h
  · rename_i u1 _ g _ u_old _ g_old _ s1 _ h1 h2 h3 h4 h5
    injection h1 with h1 _
    injection h5 with h5 _
    subst h1 h5
    simp only at h
    split at h
    · rename_i work hw
      injection h with h
      injection h with h
      subst h
      unfold axpyReal at hw
      rcases hα : Real.toRat? (if state.kind = .TwoPointA then
          Real.div (.fin (innr (axpy (-1) u_old (copy u)) (axpy (-1) g_old (copy g))))
            (.fin (innr (axpy (-1) g_old (copy g)) (axpy (-1) g_old (copy g))))
        else if state.kind = .TwoPointB then
          Real.div (.fin (innr (axpy (-1) u_old (copy u)) (axpy (-1) u_old (copy u))))
            (.fin (innr (axpy (-1) u_old (copy u)) (axpy (-1) g_old (copy g))))
        else state.alpha) with _ | a
      · rw [hα] at hw
        cases hw
      · rw [hα] at hw
        simp only [Option.map_some', Option.some.injEq] at hw
        have ha : ∀ x : Real, Real.toRat? x = some a → x = .fin a := by
          intro x hx'
          cases x <;> simp_all [Real.toRat?]
        refine ⟨a, ha _ hα, ?_, hx.symm, hs.symm⟩
        show F work = _
        rw [← hw]
        simp only [axpy, copy, add_comm]
    · cases h
  · cases h

/-- The routine `goldenSection` returns when `alpha` and `sqrt(5)` are finite
numbers and the loop ends. -/
theorem goldenSection_returns {V : Type} [AddCommGroup V] [Module ℚ V]
    (sqrt : Real → Real) (F : V → Real)
    (state : State.Unconstrained V) (u s : V) (us ss : List V)
    (hx : state.x = u :: us) (hs : state.s = s :: ss) (a b5 : ℚ)
    (ha : state.alpha = .fin a) (h5 : sqrt (.fin 5) = .fin b5) (hne : 1 + b5 ≠ 0)
    (hmax : state.linesearch_iter_max + 1 < 4294967296) :
    ∃ r, goldenSection sqrt F state = some (.ok r) := by
  have e1 : Real.toRat? (Real.div (.fin 2) (Real.add (.fin 1) (sqrt (.fin 5))))
      = some (2 / (1 + b5)) := by
    rw [h5]
    simp only [Real.add, Real.div, hne, if_false, Real.toRat?]
  have e2 : Real.toRat? (Real.mul (.fin 2) state.alpha) = some (2 * a) := by
    rw [ha]
    rfl
  unfold goldenSection
  rw [hx, hs]
  simp only
  rw [e1, e2]
  simp only
  rw [if_pos hmax]
  exact ⟨_, rfl⟩

/-- The routine `backTracking` returns when `alpha` is a finite number. -/
theorem backTracking_returns {V : Type} [AddCommGroup V] [Module ℚ V]
    (F : V → Real)
    (state : State.Unconstrained V) (u s : V) (us ss : List V)
    (hx : state.x = u :: us) (hs : state.s = s :: ss) (a : ℚ)
    (ha : state.alpha = .fin a) :
    ∃ r, backTracking F state = some (.ok r) := by
  have e : Real.toRat? state.alpha = some a := by
    rw [ha]
    rfl
  unfold backTracking backTracking.run
  rw [hx, hs]
  simp only
  rw [e]
  exact ⟨_, rfl⟩

/-- The routine `twoPoint` returns when the state holds its vectors and the
step length that it computes is a finite number. -/
theorem twoPoint_returns {V : Type} [AddCommGroup V] [Module ℚ V] [Hilbert V]
    (F : V → Real)
    (state : State.Unconstrained V) (u s g u_old g_old : V)
    (us ss gs uos gos : List V)
    (hx : state.x = u :: us) (hs : state.s = s :: ss) (hg : state.g = g :: gs)
    (hxo : state.x_old = u_old :: uos) (hgo : state.g_old = g_old :: gos)
    (hA : state.kind = .TwoPointA → innr (g - g_old) (g - g_old) ≠ 0)
    (hB : state.kind = .TwoPointB → innr (u - u_old) (g - g_old) ≠ 0)
    (hC : state.kind ≠ .TwoPointA → state.kind ≠ .TwoPointB →
      ∃ a : ℚ, state.alpha = .fin a) :
    ∃ r, twoPoint F state = some (.ok r) := by
  have hdu : axpy (-1) u_old (copy u) = u - u_old := by
    simp only [axpy, copy, neg_smul, one_smul]
    abel
  have hdg : axpy (-1) g_old (copy g) = g - g_old := by
    simp only [axpy, copy, neg_smul, one_smul]
    abel
  unfold twoPoint
  rw [hx, hs, hg, hxo, hgo]
  simp only [hdu, hdg]
  by_cases hkA : state.kind = .TwoPointA
  · simp only [hkA, if_true, Real.div, hA hkA, if_false, axpyReal, Real.toRat?,
      Option.map_some']
    exact ⟨_, rfl⟩
  · by_cases hkB : state.kind = .TwoPointB
    · simp only [hkB, if_true, Real.div, hB hkB, if_false, axpyReal, Real.toRat?,
        Option.map_some', reduceCtorEq]
      exact ⟨_, rfl⟩
    · obtain ⟨a, ha⟩ := hC hkA hkB
      simp only [hkA, hkB, if_false, ha, axpyReal, Real.toRat?, Option.map_some']
      exact ⟨_, rfl⟩

/-- Claim C34: for a state that holds the iterate `x` and the search direction
`s`, and an objective `F` (a function of the point): the state that each of
`goldenSection`, `backTracking` and `twoPoint` leaves has `obj_xps = F(x + α s)`
for the step length `α` that it stores in `alpha`, with `x` and the unscaled
direction `s` left in place; and the three rules return when the step lengths
are finite numbers (for `goldenSection` when moreover `sqrt(5)` is one and
`linesearch_iter_max + 1 < 2^32`, for `twoPoint` when the state holds `g`,
`x_old`, `g_old` and the quotient is defined). -/
theorem step_rules_store_objective {V : Type} [AddCommGroup V] [Module ℚ V]
    [Hilbert V] (sqrt : Real → Real) (F : V → Real)
    (state : State.Unconstrained V) (u s : V) (us ss : List V)
    (hx : state.x = u :: us) (hs : state.s = s :: ss) :
    (∀ r, goldenSection sqrt F state = some (.ok r) →
        ∃ a : ℚ, r.alpha = .fin a ∧ r.obj_xps = F (u + a • s) ∧ r.x = state.x
          ∧ r.s = state.s)
      ∧ (∀ r, backTracking F state = some (.ok r) →
        ∃ a : ℚ, r.alpha = .fin a ∧ r.obj_xps = F (u + a • s) ∧ r.x = state.x
          ∧ r.s = state.s)
      ∧ (∀ r, twoPoint F state = some (.ok r) →
        ∃ a : ℚ, r.alpha = .fin a ∧ r.obj_xps = F (u + a • s) ∧ r.x = state.x
          ∧ r.s = state.s)
      ∧ (∀ a b5 : ℚ, state.alpha = .fin a → sqrt (.fin 5) = .fin b5 → 1 + b5 ≠ 0 →
          state.linesearch_iter_max + 1 < 4294967296 →
          ∃ r, goldenSection sqrt F state = some (.ok r))
      ∧ (∀ a : ℚ, state.alpha = .fin a → ∃ r, backTracking F state = some (.ok r))
      ∧ (∀ (g u_old g_old : V) (gs uos gos : List V), state.g = g :: gs →
          state.x_old = u_old :: uos → state.g_old = g_old :: gos →
          (state.kind = .TwoPointA → innr (g - g_old) (g - g_old) ≠ 0) →
          (state.kind = .TwoPointB → innr (u - u_old) (g - g_old) ≠ 0) →
          (state.kind ≠ .TwoPointA → state.kind ≠ .TwoPointB →
            ∃ a : ℚ, state.alpha = .fin a) →
          ∃ r, twoPoint F state = some (.ok r)) :=
  ⟨fun r h => goldenSection_result sqrt F state r u s us ss hx hs h,
    fun r h => backTracking_result F state r u s us ss hx hs h,
    fun r h => twoPoint_result F state r u s us ss hx hs h,
    fun a b5 ha h5 hne hmax =>
      goldenSection_returns sqrt F state u s us ss hx hs a b5 ha h5 hne hmax,
    fun a ha => backTracking_returns F state u s us ss hx hs a ha,
    fun g u_old g_old gs uos gos hg hxo hgo hA hB hC =>
      twoPoint_returns F state u s g u_old g_old us ss gs uos gos hx hs hg hxo hgo
        hA hB hC⟩

/-- C34, at the state `lineSearchState` (`x = (3,4)`, `s = (-9,-12)`) for the
objective `quadratic`: `backTracking` stores the step length `1/4` and the
value `75/32 = F(x + s/4)`, `twoPoint` of kind `TwoPointA` stores `1/3` and the
value `0 = F(x + s/3)`, and `goldenSection` returns a state with
`obj_xps = F(x + α s)` for the step length `α` that it stores. -/
theorem step_rules_store_objective_witness :
    (backTracking quadratic lineSearchState).map
        (Except.map (fun r => (r.alpha, r.obj_xps)))
        = some (.ok (.fin (1 / 4), .fin (75 / 32)))
      ∧ quadratic ((3, 4) + (1 / 4 : ℚ) • (-9, -12)) = .fin (75 / 32)
      ∧ (twoPoint quadratic { lineSearchState with kind := .TwoPointA }).map
          (Except.map (fun r => (r.alpha, r.obj_xps)))
          = some (.ok (.fin (1 / 3), .fin 0))
      ∧ ∃ r a, goldenSection approxSqrt quadratic lineSearchState = some (.ok r)
          ∧ r.alpha = .fin a
          ∧ r.obj_xps = quadratic ((3, 4) + a • (-9, -12)) :=
  have h := step_rules_store_objective approxSqrt quadratic lineSearchState
    (3, 4) (-9, -12) [] [] rfl rfl
  ⟨by decide!, by decide!, by decide!,
    (h.2.2.2.1 1 (2236068 / 1000000) rfl rfl (by norm_num) (by decide)).elim
      fun r hr => (h.1 r hr).elim fun a ha => ⟨r, a, hr, ha.1, ha.2.1⟩⟩

end StepRuleClaims

/-! ### The evaluations of the backtracking search (C33) -/

section BackTrackingClaims

open Hilbert core

/-- The first three step lengths of `backTracking`. -/
theorem backTracking_probes_take (a : ℚ) (n : Nat) (hn : 2 ≤ n) :
    ((2 * a) :: (List.range n).map (fun i => a / 2 ^ i)).take 3 = [2 * a, a, a / 2] := by
  obtain ⟨m, rfl⟩ : ∃ m, n = m + 2 := ⟨n - 2, by omega⟩
  rw [List.range_succ_eq_map, List.range_succ_eq_map]
  simp [List.take]

/-- The routine `backTracking` with the step lengths at which it evaluates the
objective: `2 alpha`, and then `alpha / 2^i` for `i` below the bound
`iter_max - 1` of its loop, computed on `unsigned int`. -/
theorem backTracking_run_spec {V : Type} [AddCommGroup V] [Module ℚ V]
    (F : V → Real) (state : State.Unconstrained V) (u s : V) (us ss : List V)
    (hx : state.x = u :: us) (hs : state.s = s :: ss) (a : ℚ)
    (ha : state.alpha = .fin a) (n : Nat)
    (hn : (state.linesearch_iter_max + 4294967295) % 4294967296 = n) :
    ∃ r, backTracking.run F state
        = some (.ok (r, (2 * a) :: (List.range n).map (fun i => a / 2 ^ i)))
      ∧ r.linesearch_iter = state.linesearch_iter_max := by
  have e : Real.toRat? state.alpha = some a := by
    rw [ha]
    rfl
  have hP := (backTracking_loop_spec (fun t : ℚ => F (axpy t s (copy u)))
    n a (2 * a) (F (axpy (2 * a) s (copy u))) [2 * a] rfl).2
  rw [List.singleton_append] at hP
  unfold backTracking.run
  rw [hx, hs]
  simp only
  rw [e]
  simp only
  rw [hn, hP]
  exact ⟨_, rfl, rfl⟩

/-- For `1 ≤ linesearch_iter_max < 2^32` the routine `backTracking` evaluates
the objective at `linesearch_iter_max` step lengths. -/
theorem backTracking_probes_count {V : Type} [AddCommGroup V] [Module ℚ V]
    (F : V → Real) (state : State.Unconstrained V) (u s : V) (us ss : List V)
    (hx : state.x = u :: us) (hs : state.s = s :: ss) (a : ℚ)
    (ha : state.alpha = .fin a) (h1 : 1 ≤ state.linesearch_iter_max)
    (h2 : state.linesearch_iter_max < 4294967296) :
    ∃ r probes, backTracking.run F state = some (.ok (r, probes))
      ∧ probes.length = state.linesearch_iter_max := by
  obtain ⟨r, hr, -⟩ := backTracking_run_spec F state u s us ss hx hs a ha
    (state.linesearch_iter_max - 1) (by omega)
  refine ⟨r, _, hr, ?_⟩
  rw [List.length_cons, List.length_map, List.length_range]
  omega

/-- Claim C33 (the code at the failing input): the state `lineSearchState` with
`linesearch_iter_max = 0` is accepted by `check`; on it `backTracking`
evaluates the objective at `2^32` step lengths, `2 alpha`, `alpha`,
`alpha/2`, ..., and not at none, and reports `linesearch_iter = 0`: the bound
`iter_max-1` of its loop is computed on `unsigned int`. -/
theorem backTracking_wraps_at_zero :
    State.Unconstrained.check
        ({ lineSearchState with linesearch_iter_max := 0 }
          : State.Unconstrained (ℚ × ℚ)) = .ok ()
      ∧ ∃ r probes,
          backTracking.run quadratic { lineSearchState with linesearch_iter_max := 0 }
            = some (.ok (r, probes))
          ∧ probes.length = 4294967296 ∧ probes.take 3 = [2, 1, 1 / 2]
          ∧ r.linesearch_iter = 0 := by
  constructor
  · simp [State.Unconstrained.check, errorIf_bind_eq_ok,
      errorIf_eq_ok, lineSearchState,
      State.Unconstrained.init_params, Real.le, Real.lt, Real.gt, Real.ge, Real.ne]
    norm_num
  · obtain ⟨r, hr, hi⟩ := backTracking_run_spec quadratic
      { lineSearchState with linesearch_iter_max := 0 } (3, 4) (-9, -12) [] [] rfl rfl 1
      rfl 4294967295 (by decide)
    refine ⟨r, _, hr, ?_, ?_, hi⟩
    · rw [List.length_cons, List.length_map, List.length_range]
    · have h := backTracking_probes_take 1 4294967295 (by decide)
      rw [h]
      norm_num

end BackTrackingClaims

/-! ## The truncated conjugate gradient routine over a scalar field (C23) -/

namespace Exact

section ExactKrylovClaims

variable {K : Type} [LinearOrderedField K] {V : Type} [AddCommGroup V]
  [Module K V] [HilbertSpace K V]

theorem exact_innr_comm (x y : V) : innr K x y = innr K y x :=
  HilbertSpace.innr_comm x y

theorem exact_innr_add_left (x y z : V) :
    innr K (x + y) z = innr K x z + innr K y z :=
  HilbertSpace.innr_add_left x y z

theorem exact_innr_smul_left (a : K) (x y : V) :
    innr K (a • x) y = a * innr K x y :=
  HilbertSpace.innr_smul_left a x y

theorem exact_innr_self_nonneg (x : V) : 0 ≤ innr K x x :=
  HilbertSpace.innr_self_nonneg x

theorem exact_innr_self_eq_zero (x : V) (h : innr K x x = 0) : x = 0 :=
  HilbertSpace.innr_self_eq_zero x h

theorem exact_innr_add_right (x y z : V) :
    innr K x (y + z) = innr K x y + innr K x z := by
  rw [exact_innr_comm x (y + z), exact_innr_add_left, exact_innr_comm y x,
    exact_innr_comm z x]

theorem exact_innr_smul_right (a : K) (x y : V) :
    innr K x (a • y) = a * innr K x y := by
  rw [exact_innr_comm x (a • y), exact_innr_smul_left, exact_innr_comm y x]

theorem exact_innr_neg_left (x y : V) : innr K (-x) y = -innr K x y := by
  have h := exact_innr_smul_left (-1 : K) x y
  simpa using h

theorem exact_innr_neg_right (x y : V) : innr K x (-y) = -innr K x y := by
  rw [exact_innr_comm x (-y), exact_innr_neg_left, exact_innr_comm y x]

theorem exact_innr_sub_left (x y z : V) :
    innr K (x - y) z = innr K x z - innr K y z := by
  rw [sub_eq_add_neg, exact_innr_add_left, exact_innr_neg_left,
    ← sub_eq_add_neg]

theorem exact_innr_sub_right (x y z : V) :
    innr K x (y - z) = innr K x y - innr K x z := by
  rw [sub_eq_add_neg, exact_innr_add_right, exact_innr_neg_right,
    ← sub_eq_add_neg]

theorem exact_innr_zero_left (x : V) : innr K (0 : V) x = 0 := by
  have h := exact_innr_smul_left (0 : K) (0 : V) x
  simpa using h

theorem exact_innr_zero_right (x : V) : innr K x (0 : V) = 0 := by
  rw [exact_innr_comm, exact_innr_zero_left]

theorem exact_cg_step (H : V → V) (hlin : Linear K H)
    (hsym : Symmetric K H)
    (W : Submodule K V) (s g p : V) (hs : s ∈ W)
    (hg : ∀ u ∈ W, innr K g u = 0) (hp : ∀ u ∈ W, innr K p (H u) = 0)
    (hpg : p + g ∈ W) (hH : ∀ u ∈ W, ∃ c : K, H u - c • p ∈ W)
    (hk : innr K p (H p) ≠ 0) (hgg : innr K g g ≠ 0)
    (α β : K) (s1 g1 p1 : V)
    (hα : α = innr K g g / innr K p (H p))
    (hs1 : s1 = α • p + s) (hg1 : g1 = α • H p + g)
    (hβ : β = innr K g1 g1 / innr K g g)
    (hp1 : p1 = (-1 : K) • g1 + β • p) :
    (∃ W1 : Submodule K V,
        s1 ∈ W1
          ∧ (∀ u ∈ W1, innr K g1 u = 0)
          ∧ (∀ u ∈ W1, innr K p1 (H u) = 0)
          ∧ p1 + g1 ∈ W1
          ∧ (∀ u ∈ W1, ∃ c : K, H u - c • p1 ∈ W1))
      ∧ innr K s1 s1 = innr K s s + 2 * α * innr K s p + α * α * innr K p p
      ∧ innr K s1 p1 = β * (innr K s p + α * innr K p p)
      ∧ innr K p1 p1 = innr K g1 g1 + β * β * innr K p p := by
  obtain ⟨hadd, hsmul⟩ := hlin
  have hακ : α * innr K p (H p) = innr K g g := by
    rw [hα]
    field_simp
  have hα0 : α ≠ 0 := by
    rw [hα]
    exact div_ne_zero hgg hk
  -- the residual and the direction
  have hgp : innr K g p = -innr K g g := by
    have h := hg (p + g) hpg
    rw [exact_innr_add_right] at h
    linarith
  have hg1W : ∀ u ∈ W, innr K g1 u = 0 := by
    intro u hu
    rw [hg1, exact_innr_add_left, exact_innr_smul_left, hsym p u, hp u hu, hg u hu]
    ring
  have hg1p : innr K g1 p = 0 := by
    rw [hg1, exact_innr_add_left, exact_innr_smul_left, exact_innr_comm (H p) p, hακ, hgp]
    ring
  have hg1g : innr K g1 g = 0 := by
    have h := hg1W (p + g) hpg
    rw [exact_innr_add_right, hg1p] at h
    linarith
  have hg1s : innr K g1 s = 0 := hg1W s hs
  have hg1s1 : innr K g1 s1 = 0 := by
    rw [hs1, exact_innr_add_right, exact_innr_smul_right, hg1p, hg1s]
    ring
  -- the image of the direction
  have hHp : H p = (1 / α) • (g1 - g) := by
    rw [hg1, add_sub_cancel_right, smul_smul]
    field_simp
  have hg1Hp : innr K g1 (H p) = β * innr K p (H p) := by
    conv_lhs => rw [hHp]
    rw [exact_innr_smul_right, exact_innr_sub_right, hg1g, sub_zero, hβ, ← hακ]
    field_simp
    ring
  have hp1g1 : p1 + g1 = β • p := by
    rw [hp1]
    simp only [neg_smul, one_smul]
    abel
  -- the new subspace
  have hmem : ∀ x : V, x ∈ W ⊔ Submodule.span K {p} ↔ ∃ u ∈ W, ∃ c : K, u + c • p = x := by
    intro x
    rw [Submodule.mem_sup]
    constructor
    · rintro ⟨u, hu, z, hz, rfl⟩
      obtain ⟨c, rfl⟩ := Submodule.mem_span_singleton.mp hz
      exact ⟨u, hu, c, rfl⟩
    · rintro ⟨u, hu, c, rfl⟩
      exact ⟨u, hu, c • p, Submodule.mem_span_singleton.mpr ⟨c, rfl⟩, rfl⟩
  have hpW1 : p ∈ W ⊔ Submodule.span K {p} :=
    (hmem p).mpr ⟨0, W.zero_mem, 1, by simp⟩
  have hWW1 : ∀ u ∈ W, u ∈ W ⊔ Submodule.span K {p} := fun u hu =>
    (hmem u).mpr ⟨u, hu, 0, by simp⟩
  have hb1 : ∀ x ∈ W ⊔ Submodule.span K {p}, innr K g1 x = 0 := by
    intro x hx
    obtain ⟨u, hu, c, rfl⟩ := (hmem x).mp hx
    rw [exact_innr_add_right, exact_innr_smul_right, hg1W u hu, hg1p]
    ring
  have hHW : ∀ u ∈ W, H u ∈ W ⊔ Submodule.span K {p} := by
    intro u hu
    obtain ⟨c, hc⟩ := hH u hu
    have : H u = (H u - c • p) + c • p := by abel
    rw [this]
    exact (hmem _).mpr ⟨_, hc, c, rfl⟩
  have hgW1 : g ∈ W ⊔ Submodule.span K {p} := by
    have : g = (p + g) + (-1 : K) • p := by
      simp only [neg_smul, one_smul]
      abel
    rw [this]
    exact (hmem _).mpr ⟨_, hpg, -1, rfl⟩
  refine ⟨⟨W ⊔ Submodule.span K {p}, ?_, hb1, ?_, ?_, ?_⟩, ?_, ?_, ?_⟩
  · rw [hs1]
    exact (hmem _).mpr ⟨s, hs, α, by abel⟩
  · intro x hx
    obtain ⟨u, hu, c, rfl⟩ := (hmem x).mp hx
    rw [hadd, hsmul, exact_innr_add_right, exact_innr_smul_right, hp1]
    simp only [exact_innr_add_left, exact_innr_smul_left]
    rw [hb1 (H u) (hHW u hu), hp u hu, hg1Hp]
    ring
  · rw [hp1g1]
    exact Submodule.smul_mem _ _ hpW1
  · intro x hx
    obtain ⟨u, hu, c, rfl⟩ := (hmem x).mp hx
    refine ⟨-(c / α), ?_⟩
    have hg1' : g1 = β • p - p1 := by
      rw [← hp1g1]
      abel
    have e : H (u + c • p) - -(c / α) • p1
        = H u + (c / α) • (β • p - g) := by
      rw [hadd, hsmul, hHp, hg1']
      module
    rw [e]
    refine Submodule.add_mem _ (hHW u hu) (Submodule.smul_mem _ _ ?_)
    exact Submodule.sub_mem _ (Submodule.smul_mem _ _ hpW1) hgW1
  · rw [hs1]
    simp only [exact_innr_add_left, exact_innr_add_right, exact_innr_smul_left, exact_innr_smul_right]
    rw [exact_innr_comm p s]
    ring
  · rw [hp1]
    simp only [exact_innr_add_right, exact_innr_smul_right]
    rw [exact_innr_comm s1 g1, hg1s1, hs1]
    simp only [exact_innr_add_left, exact_innr_smul_left]
    ring
  · rw [hp1]
    simp only [exact_innr_add_left, exact_innr_add_right, exact_innr_smul_left, exact_innr_smul_right]
    rw [exact_innr_comm p g1, hg1p]
    ring

omit [AddCommGroup V] [Module K V] [HilbertSpace K V] in
theorem exact_div_eq_some {a b q : K} :
    div a b = some q ↔ b ≠ 0 ∧ q = a / b := by
  unfold div
  split_ifs with h
  · simp [h]
  · simp only [Option.some.injEq, ne_eq, h, not_false_eq_true, true_and]
    exact eq_comm

omit [AddCommGroup V] [Module K V] [HilbertSpace K V] in
theorem exact_root_eq_some {sqrt : K → K} {a r : K} :
    root sqrt a = some r ↔ 0 ≤ a ∧ r = sqrt a := by
  unfold root
  split_ifs with h
  · simp only [reduceCtorEq, false_iff, not_and]
    intro h1
    exact absurd h (not_lt_of_le h1)
  · simp only [Option.some.injEq, not_lt.mp h, true_and]
    exact eq_comm

theorem exact_boundary_exit (sqrt : K → K)
    (hsqrt : ∀ x : K, 0 ≤ x → 0 ≤ sqrt x ∧ sqrt x * sqrt x = x) (delta : K)
    (l : truncatedCG.Locals K V) (H_pk : V) (kappa alpha norm_skp1_M2 : K)
    (r : truncatedCG.Pass K V)
    (hc : l.norm_sk_M2 = innr K l.s_k l.s_k)
    (ha : l.norm_pk_M2 = innr K l.p_k l.p_k)
    (hb : l.inner_sk_M_pk = innr K l.s_k l.p_k)
    (h : truncatedCG.boundary sqrt delta l H_pk kappa alpha norm_skp1_M2
      = some r) :
    ∃ stop l1, r = .exit stop l1 ∧ innr K l1.s_k l1.s_k = delta * delta := by
  unfold truncatedCG.boundary at h
  simp only [hc, ha, hb, Option.bind_eq_some, exact_root_eq_some,
    exact_div_eq_some] at h
  obtain ⟨r0, ⟨hrad, rfl⟩, sigma, ⟨ha0, rfl⟩, h⟩ := h
  injection h with h
  subst h
  refine ⟨_, _, rfl, ?_⟩
  have hrr := (hsqrt _ hrad).2
  simp only [axpy, exact_innr_add_left, exact_innr_add_right,
    exact_innr_smul_left, exact_innr_smul_right]
  rw [exact_innr_comm l.p_k l.s_k]
  field_simp
  linear_combination hrr

omit [HilbertSpace K V] in
theorem exact_boundary_returns (sqrt : K → K) (delta : K)
    (l : truncatedCG.Locals K V) (H_pk : V) (kappa alpha norm_skp1_M2 : K)
    (hc : l.norm_sk_M2 ≤ delta * delta) (ha : 0 < l.norm_pk_M2) :
    ∃ r, truncatedCG.boundary sqrt delta l H_pk kappa alpha norm_skp1_M2
      = some r := by
  have hrad : 0 ≤ l.inner_sk_M_pk * l.inner_sk_M_pk
      + l.norm_pk_M2 * (delta * delta - l.norm_sk_M2) :=
    add_nonneg (mul_self_nonneg _)
      (mul_nonneg (le_of_lt ha) (sub_nonneg.mpr hc))
  unfold truncatedCG.boundary
  rw [exact_root_eq_some.mpr ⟨hrad, rfl⟩, Option.some_bind,
    exact_div_eq_some.mpr ⟨ne_of_gt ha, rfl⟩, Option.some_bind]
  exact ⟨_, rfl⟩

theorem exact_advance_exit (sqrt : K → K) (Minv : V → V) (eps_cg norm_g : K)
    (l l1 : truncatedCG.Locals K V) (H_pk : V) (alpha norm_skp1_M2 : K)
    (stop : KrylovStop.t)
    (h : truncatedCG.advance sqrt Minv eps_cg norm_g l H_pk alpha norm_skp1_M2
      = some (.exit stop l1)) :
    stop = .RelativeErrorSmall := by
  unfold truncatedCG.advance at h
  simp only [Option.bind_eq_some] at h
  obtain ⟨r0, -, rel_err, -, h⟩ := h
  split_ifs at h
  · injection h with h
    injection h with h1 h2
    exact h1.symm
  · simp only [Option.bind_eq_some] at h
    obtain ⟨beta, -, h⟩ := h
    injection h with h
    cases h

theorem exact_advance_next (sqrt : K → K)
    (hsqrt : ∀ x : K, 0 ≤ x → 0 ≤ sqrt x ∧ sqrt x * sqrt x = x) (H : V → V)
    (hlin : Linear K H) (hsym : Symmetric K H) (eps_cg norm_g : K)
    (l l1 : truncatedCG.Locals K V) (α : K)
    (hk : innr K l.p_k (H l.p_k) ≠ 0)
    (hα : α = innr K l.g_k l.g_k / innr K l.p_k (H l.p_k))
    (hinv : truncatedCG.Invariant H l)
    (h : truncatedCG.advance sqrt (fun v => v) eps_cg norm_g l (H l.p_k) α
      (innr K l.s_k l.s_k + 2 * α * innr K l.s_k l.p_k
        + α * α * innr K l.p_k l.p_k)
      = some (.next l1)) :
    truncatedCG.Invariant H l1
      ∧ l1.norm_sk_M2 = innr K l.s_k l.s_k + 2 * α * innr K l.s_k l.p_k
        + α * α * innr K l.p_k l.p_k
      ∧ (0 ≤ eps_cg → 0 ≤ norm_g → l1.g_k ≠ 0) := by
  obtain ⟨hv, hc, ha, hb, hγ, W, hs, hg, hp, hpg, hH⟩ := hinv
  unfold truncatedCG.advance at h
  simp only [Option.bind_eq_some, exact_root_eq_some, exact_div_eq_some] at h
  obtain ⟨r0, ⟨hrad, rfl⟩, rel_err, ⟨hden, rfl⟩, h⟩ := h
  split_ifs at h with hrel
  · injection h with h
    cases h
  simp only [Option.bind_eq_some, exact_div_eq_some] at h
  obtain ⟨β, ⟨hgg, hβ⟩, h⟩ := h
  rw [hγ] at hgg hβ
  injection h with h
  injection h with h
  subst h
  obtain ⟨hW1, e1, e2, e3⟩ := exact_cg_step H hlin hsym W l.s_k l.g_k l.p_k hs
    hg hp hpg hH hk hgg α β (axpy α l.p_k l.s_k) (axpy α (H l.p_k) l.g_k)
    (axpy (-1 : K) (axpy α (H l.p_k) l.g_k) (scal β l.p_k)) hα rfl rfl hβ rfl
  refine ⟨⟨rfl, ?_, ?_, ?_, rfl, hW1⟩, rfl, fun he hng hzero => ?_⟩
  · show _ = innr K (axpy α l.p_k l.s_k) (axpy α l.p_k l.s_k)
    rw [e1]
  · show _ = innr K (axpy (-1 : K) (axpy α (H l.p_k) l.g_k) (scal β l.p_k))
      (axpy (-1 : K) (axpy α (H l.p_k) l.g_k) (scal β l.p_k))
    rw [e3, ha]
  · show _ = innr K (axpy α l.p_k l.s_k)
      (axpy (-1 : K) (axpy α (H l.p_k) l.g_k) (scal β l.p_k))
    rw [e2, ha, hb]
  · apply hrel
    have hz : axpy α (H l.p_k) l.g_k = 0 := hzero
    rw [hz, exact_innr_zero_left]
    have h0 : sqrt 0 = 0 := by
      have := (hsqrt 0 (le_refl 0)).2
      exact mul_self_eq_zero.mp this
    rw [h0, zero_div]
    exact he

theorem exact_advance_returns (sqrt : K → K) (Minv : V → V)
    (eps_cg norm_g : K) (l : truncatedCG.Locals K V) (H_pk : V)
    (alpha norm_skp1_M2 : K) (hng : 0 ≤ norm_g) (hγ : l.inner_gk_vk ≠ 0) :
    ∃ r, truncatedCG.advance sqrt Minv eps_cg norm_g l H_pk alpha norm_skp1_M2
      = some r := by
  have hden : (1 / 10000000000000000 + norm_g : K) ≠ 0 := by
    have : (0 : K) < 1 / 10000000000000000 + norm_g :=
      add_pos_of_pos_of_nonneg (by norm_num) hng
    exact ne_of_gt this
  unfold truncatedCG.advance
  simp only
  rw [exact_root_eq_some.mpr ⟨exact_innr_self_nonneg _, rfl⟩, Option.some_bind,
    exact_div_eq_some.mpr ⟨hden, rfl⟩, Option.some_bind]
  split_ifs
  · exact ⟨_, rfl⟩
  · rw [exact_div_eq_some.mpr ⟨hγ, rfl⟩, Option.some_bind]
    exact ⟨_, rfl⟩

theorem exact_trial_eq (H : V → V) (l : truncatedCG.Locals K V)
    (hv : l.v_k = l.g_k)
    (hc : l.norm_sk_M2 = innr K l.s_k l.s_k)
    (ha : l.norm_pk_M2 = innr K l.p_k l.p_k)
    (hb : l.inner_sk_M_pk = innr K l.s_k l.p_k)
    (hk : 0 < innr K l.p_k (H l.p_k)) :
    truncatedCG.trial H l
      = (innr K l.p_k (H l.p_k),
         innr K l.g_k l.g_k / innr K l.p_k (H l.p_k),
         innr K l.s_k l.s_k
            + 2 * (innr K l.g_k l.g_k / innr K l.p_k (H l.p_k))
              * innr K l.s_k l.p_k
            + (innr K l.g_k l.g_k / innr K l.p_k (H l.p_k))
              * (innr K l.g_k l.g_k / innr K l.p_k (H l.p_k))
              * innr K l.p_k l.p_k) := by
  unfold truncatedCG.trial
  simp only [gt_iff_lt, hk, if_true, hv, hc, ha, hb]

theorem exact_trial_fst (H : V → V) (l : truncatedCG.Locals K V) :
    (truncatedCG.trial H l).1 = innr K l.p_k (H l.p_k) := by
  unfold truncatedCG.trial
  simp only
  split_ifs <;> rfl

theorem exact_pass_exit (sqrt : K → K) (Minv H : V → V)
    (hsqrt : ∀ x : K, 0 ≤ x → 0 ≤ sqrt x ∧ sqrt x * sqrt x = x)
    (delta eps_cg norm_g : K) (l l1 : truncatedCG.Locals K V)
    (stop : KrylovStop.t)
    (hc : l.norm_sk_M2 = innr K l.s_k l.s_k)
    (ha : l.norm_pk_M2 = innr K l.p_k l.p_k)
    (hb : l.inner_sk_M_pk = innr K l.s_k l.p_k)
    (h : truncatedCG.pass sqrt Minv H delta eps_cg norm_g l
      = some (.exit stop l1))
    (hstop : stop ≠ .RelativeErrorSmall) :
    innr K l1.s_k l1.s_k = delta * delta := by
  unfold truncatedCG.pass at h
  simp only at h
  split_ifs at h with hcond
  · obtain ⟨stop1, l2, e, hl2⟩ :=
      exact_boundary_exit sqrt hsqrt delta l _ _ _ _ _ hc ha hb h
    injection e with e1 e2
    subst e2
    exact hl2
  · exact absurd (exact_advance_exit sqrt Minv eps_cg norm_g l l1 _ _ _
      stop h) hstop

theorem exact_pass_next (sqrt : K → K)
    (hsqrt : ∀ x : K, 0 ≤ x → 0 ≤ sqrt x ∧ sqrt x * sqrt x = x) (H : V → V)
    (hlin : Linear K H) (hsym : Symmetric K H) (delta eps_cg norm_g : K)
    (l l1 : truncatedCG.Locals K V) (hinv : truncatedCG.Invariant H l)
    (h : truncatedCG.pass sqrt (fun v => v) H delta eps_cg norm_g l
      = some (.next l1)) :
    truncatedCG.Invariant H l1 ∧ l1.norm_sk_M2 ≤ delta * delta
      ∧ (0 ≤ eps_cg → 0 ≤ norm_g → l1.g_k ≠ 0) := by
  unfold truncatedCG.pass at h
  simp only at h
  split_ifs at h with hcond
  · obtain ⟨stop, l2, e, -⟩ := exact_boundary_exit sqrt hsqrt delta l _ _ _ _ _
      hinv.2.1 hinv.2.2.1 hinv.2.2.2.1 h
    cases e
  · rw [exact_trial_fst] at hcond
    simp only [not_or, not_le, ge_iff_le] at hcond
    have hk : 0 < innr K l.p_k (H l.p_k) := hcond.1
    obtain ⟨hv, hc, ha, hb, -⟩ := id hinv
    rw [exact_trial_eq H l hv hc ha hb hk] at h hcond
    obtain ⟨h1, h2, h3⟩ := exact_advance_next sqrt hsqrt H hlin hsym eps_cg
      norm_g l l1 _ (ne_of_gt hk) rfl hinv h
    refine ⟨h1, ?_, h3⟩
    rw [h2]
    exact le_of_lt hcond.2.1

theorem exact_direction_ne_zero (H : V → V) (l : truncatedCG.Locals K V)
    (hinv : truncatedCG.Invariant H l) (hg : l.g_k ≠ 0) :
    0 < l.norm_pk_M2 := by
  obtain ⟨-, -, ha, -, -, W, -, hgW, -, hpg, -⟩ := hinv
  rw [ha]
  have h1 := hgW _ hpg
  rw [exact_innr_add_right] at h1
  have hgg : innr K l.g_k l.g_k ≠ 0 := fun h0 =>
    hg (exact_innr_self_eq_zero _ h0)
  have hp : l.p_k ≠ 0 := by
    intro hp
    rw [hp, exact_innr_zero_right, zero_add] at h1
    exact hgg h1
  have hpp : innr K l.p_k l.p_k ≠ 0 := fun h0 =>
    hp (exact_innr_self_eq_zero _ h0)
  exact lt_of_le_of_ne (exact_innr_self_nonneg _) (Ne.symm hpp)

theorem exact_pass_returns (sqrt : K → K) (H : V → V)
    (delta eps_cg norm_g : K) (l : truncatedCG.Locals K V)
    (hinv : truncatedCG.Invariant H l) (hg : l.g_k ≠ 0)
    (hc : l.norm_sk_M2 ≤ delta * delta) (hng : 0 ≤ norm_g) :
    ∃ r, truncatedCG.pass sqrt (fun v => v) H delta eps_cg norm_g l
      = some r := by
  unfold truncatedCG.pass
  simp only
  split_ifs with hcond
  · exact exact_boundary_returns sqrt delta l _ _ _ _ hc
      (exact_direction_ne_zero H l hinv hg)
  · refine exact_advance_returns sqrt _ eps_cg norm_g l _ _ _ hng ?_
    rw [hinv.2.2.2.2.1]
    exact fun h0 => hg (exact_innr_self_eq_zero _ h0)

theorem exact_loop_boundary (sqrt : K → K)
    (hsqrt : ∀ x : K, 0 ≤ x → 0 ≤ sqrt x ∧ sqrt x * sqrt x = x) (H : V → V)
    (hlin : Linear K H) (hsym : Symmetric K H) (delta eps_cg norm_g : K) :
    ∀ (n iter : Nat) (l l1 : truncatedCG.Locals K V) (it : Nat)
      (stop : KrylovStop.t),
      truncatedCG.Invariant H l →
      truncatedCG.loop sqrt (fun v => v) H delta eps_cg norm_g n iter l
        = some (it, some stop, l1) →
      stop ≠ .RelativeErrorSmall →
      innr K l1.s_k l1.s_k = delta * delta := by
  intro n
  induction n with
  | zero =>
    intro iter l l1 it stop _ h _
    unfold truncatedCG.loop at h
    split_ifs at h
    injection h with h
    injection h with h1 h2
    injection h2 with h3 h4
    cases h3
  | succ n ih =>
    intro iter l l1 it stop hinv h hstop
    unfold truncatedCG.loop at h
    split at h
    · cases h
    · rename_i stop1 l2 hpass
      injection h with h
      injection h with h1 h2
      injection h2 with h3 h4
      injection h3 with h3
      subst h3 h4
      obtain ⟨-, hc, ha, hb, -⟩ := hinv
      exact exact_pass_exit sqrt _ H hsqrt delta eps_cg norm_g l l2 stop1
        hc ha hb hpass hstop
    · rename_i l2 hpass
      exact ih (iter + 1) l2 l1 it stop
        (exact_pass_next sqrt hsqrt H hlin hsym _ eps_cg norm_g l l2 hinv
          hpass).1 h hstop

theorem exact_loop_returns (sqrt : K → K)
    (hsqrt : ∀ x : K, 0 ≤ x → 0 ≤ sqrt x ∧ sqrt x * sqrt x = x) (H : V → V)
    (hlin : Linear K H) (hsym : Symmetric K H) (delta eps_cg norm_g : K)
    (he : 0 ≤ eps_cg) (hng : 0 ≤ norm_g) :
    ∀ (n iter : Nat) (l : truncatedCG.Locals K V),
      truncatedCG.Invariant H l → l.g_k ≠ 0 →
      l.norm_sk_M2 ≤ delta * delta → iter + n < 4294967296 →
      ∃ r, truncatedCG.loop sqrt (fun v => v) H delta eps_cg norm_g n iter l
        = some r := by
  intro n
  induction n with
  | zero =>
    intro iter l _ _ _ hit
    unfold truncatedCG.loop
    rw [if_pos (by omega)]
    exact ⟨_, rfl⟩
  | succ n ih =>
    intro iter l hinv hg hc hit
    obtain ⟨r, hr⟩ := exact_pass_returns sqrt H delta eps_cg norm_g l hinv hg
      hc hng
    unfold truncatedCG.loop
    rw [hr]
    cases r with
    | exit stop l1 => exact ⟨_, rfl⟩
    | next l1 =>
      obtain ⟨h1, h2, h3⟩ := exact_pass_next sqrt hsqrt H hlin hsym delta
        eps_cg norm_g l l1 hinv hr
      exact ih (iter + 1) l1 h1 (h3 he hng) h2 (by omega)

theorem exact_initial_invariant (H : V → V) (hlin : Linear K H) (g s : V) :
    truncatedCG.Invariant H
      ({ s_k := scal (0 : K) s, g_k := copy g, v_k := (fun v : V => v) (copy g),
         p_k := scal (-1 : K) (copy ((fun v : V => v) (copy g))), alpha := 0,
         norm_sk_M2 := 0, norm_skp1_M2 := 0,
         norm_pk_M2 := innr K (copy g) ((fun v : V => v) (copy g)),
         inner_sk_M_pk := 0,
         inner_gk_vk := innr K (copy g) ((fun v : V => v) (copy g)) }
        : truncatedCG.Locals K V) := by
  have hH0 : H 0 = 0 := by
    have h := hlin.2 0 0
    simpa using h
  refine ⟨rfl, ?_, ?_, ?_, rfl, ⊥, ?_, ?_, ?_, ?_, ?_⟩
  · simp only [scal, zero_smul, exact_innr_zero_left]
  · simp only [scal, copy, exact_innr_smul_left, exact_innr_smul_right]
    ring
  · simp only [scal, zero_smul, exact_innr_zero_left]
  · simp only [scal, zero_smul]
    exact Submodule.zero_mem _
  · intro u hu
    rw [(Submodule.mem_bot K).mp hu, exact_innr_zero_right]
  · intro u hu
    rw [(Submodule.mem_bot K).mp hu, hH0, exact_innr_zero_right]
  · simp only [scal, copy, neg_smul, one_smul, neg_add_cancel]
    exact Submodule.zero_mem _
  · intro u hu
    refine ⟨0, ?_⟩
    rw [(Submodule.mem_bot K).mp hu, hH0]
    simp

/-- C23: `truncatedCG` in exact arithmetic, over an ordered field `K` in which
`sqrt` is the square root of every non-negative number (the real numbers with
their square root), for the identity as preconditioner, a linear symmetric
operator `H` and a radius `delta ≥ 0`.  For a non-zero right-hand side `g`, a
tolerance `eps_krylov ≥ 0` and `krylov_iter_max + 1 < 2^32` the routine
returns.  Whenever it returns with the stop code `NegativeCurvature` or
`TrustRegionViolated`, the step `s` it leaves in the state lies on the
boundary of the trust region: `⟨s, s⟩ = delta²` and
`‖s‖ = sqrt ⟨s, s⟩ = delta`. -/
theorem truncatedCG_stops_on_boundary (sqrt : K → K) (H : V → V)
    (hlin : Linear K H) (hsym : Symmetric K H)
    (hsqrt : ∀ x : K, 0 ≤ x → 0 ≤ sqrt x ∧ sqrt x * sqrt x = x)
    (state : State K V) (hd : 0 ≤ state.delta) :
    (state.g ≠ 0 → 0 ≤ state.eps_krylov →
        state.krylov_iter_max + 1 < 4294967296 →
        ∃ result, truncatedCG sqrt (fun v => v) H state = some result)
      ∧ ∀ result, truncatedCG sqrt (fun v => v) H state = some result →
          (result.krylov_stop = .NegativeCurvature
            ∨ result.krylov_stop = .TrustRegionViolated) →
          innr K result.s result.s = state.delta * state.delta
            ∧ sqrt (innr K result.s result.s) = state.delta := by
  have hinit := exact_initial_invariant H hlin state.g state.s
  have hden : (1 / 10000000000000000 + innr K state.g state.g : K) ≠ 0 := by
    have : (0 : K) < 1 / 10000000000000000 + innr K state.g state.g :=
      add_pos_of_pos_of_nonneg (by norm_num) (exact_innr_self_nonneg _)
    exact ne_of_gt this
  constructor
  · intro hg he hmax
    obtain ⟨⟨iter, stop, l⟩, hr⟩ := exact_loop_returns sqrt hsqrt H hlin hsym
      state.delta state.eps_krylov (innr K state.g state.g) he
      (exact_innr_self_nonneg _) state.krylov_iter_max 1 _ hinit hg
      (mul_self_nonneg _) (by omega)
    unfold truncatedCG
    simp only
    rw [hr]
    simp only
    rw [exact_root_eq_some.mpr ⟨exact_innr_self_nonneg _, rfl⟩,
      Option.some_bind, exact_div_eq_some.mpr ⟨hden, rfl⟩, Option.some_bind]
    cases stop with
    | none => exact ⟨_, rfl⟩
    | some stop => exact ⟨_, rfl⟩
  · intro result h hstop
    have hroot : ∀ s : V, innr K s s = state.delta * state.delta →
        sqrt (innr K s s) = state.delta := by
      intro s hs
      rw [hs]
      obtain ⟨h1, h2⟩ := hsqrt _ (mul_self_nonneg state.delta)
      exact (mul_self_inj h1 hd).mp h2
    unfold truncatedCG at h
    simp only at h
    split at h
    · cases h
    · rename_i iter stop l hloop
      simp only [Option.bind_eq_some] at h
      obtain ⟨r0, -, rel_err, -, h⟩ := h
      split at h
      · rename_i stop1
        injection h with h
        subst h
        have hne : stop1 ≠ .RelativeErrorSmall := by
          rcases hstop with h1 | h1
          · intro h2
            rw [h2] at h1
            cases h1
          · intro h2
            rw [h2] at h1
            cases h1
        have hb := exact_loop_boundary sqrt hsqrt H hlin hsym _ _ _ _ _ _ _ _ _
          hinit hloop hne
        exact ⟨hb, hroot _ hb⟩
      · injection h with h
        subst h
        rcases hstop with h1 | h1 <;> cases h1

omit [AddCommGroup V] [Module K V] [HilbertSpace K V] in
theorem exact_innr_plane (x y : K × K) :
    innr K x y = x.1 * y.1 + x.2 * y.2 := rfl

theorem exact_loop_succ (sqrt : K → K) (Minv H : V → V)
    (delta eps_cg norm_g : K) (n iter : Nat) (l : truncatedCG.Locals K V) :
    truncatedCG.loop sqrt Minv H delta eps_cg norm_g (n + 1) iter l
      = match truncatedCG.pass sqrt Minv H delta eps_cg norm_g l with
        | none => none
        | some (.exit stop l) => some (iter, some stop, l)
        | some (.next l) =>
          truncatedCG.loop sqrt Minv H delta eps_cg norm_g n (iter + 1) l :=
  rfl

theorem exact_truncatedCG_of_loop (sqrt : K → K) (Minv H : V → V)
    (state result : State K V)
    (h : truncatedCG sqrt Minv H state = some result) :
    ∃ iter stop l,
      truncatedCG.loop sqrt Minv H state.delta state.eps_krylov
          (innr K state.g state.g) state.krylov_iter_max 1
          { s_k := scal (0 : K) state.s, g_k := copy state.g,
            v_k := Minv (copy state.g),
            p_k := scal (-1 : K) (copy (Minv (copy state.g))), alpha := 0,
            norm_sk_M2 := 0, norm_skp1_M2 := 0,
            norm_pk_M2 := innr K (copy state.g) (Minv (copy state.g)),
            inner_sk_M_pk := 0,
            inner_gk_vk := innr K (copy state.g) (Minv (copy state.g)) }
          = some (iter, stop, l)
        ∧ result.s = l.s_k
        ∧ result.krylov_stop = stop.getD .MaxItersExceeded
        ∧ (stop ≠ none → result.krylov_iter = iter) := by
  unfold truncatedCG at h
  simp only at h
  split at h
  · cases h
  · rename_i iter stop l hloop
    simp only [Option.bind_eq_some] at h
    obtain ⟨r0, -, rel_err, -, h⟩ := h
    refine ⟨iter, stop, l, hloop, ?_⟩
    split at h
    · injection h with h
      subst h
      exact ⟨rfl, rfl, fun _ => rfl⟩
    · injection h with h
      subst h
      exact ⟨rfl, rfl, fun h0 => absurd rfl h0⟩

/-- C23, over the real numbers with their square root, at the state
`diagonalState` with the gradient `(1,1)` and the radius `1`, for the identity
as operator: the first trial point `(-1,-1)` lies outside of the trust region,
the routine returns with `TrustRegionViolated` after one pass, and its step
`(-√2/2, -√2/2)`, scaled by the irrational root `√2/2`, has the norm `1`. -/
theorem truncatedCG_stops_on_boundary_witness :
    ∃ result : State ℝ (ℝ × ℝ),
      truncatedCG Real.sqrt (fun v => v) (fun v => v) (diagonalState ℝ)
          = some result
        ∧ result.krylov_stop = .TrustRegionViolated ∧ result.krylov_iter = 1
        ∧ result.s = (-(√2 / 2), -(√2 / 2))
        ∧ innr ℝ result.s result.s = 1 * 1
        ∧ √(innr ℝ result.s result.s) = 1 := by
  have hsqrt : ∀ x : ℝ, 0 ≤ x → 0 ≤ √x ∧ √x * √x = x := fun x hx =>
    ⟨Real.sqrt_nonneg x, Real.mul_self_sqrt hx⟩
  have hlin : Linear ℝ (fun v : ℝ × ℝ => v) := ⟨fun _ _ => rfl, fun _ _ => rfl⟩
  have hsym : Symmetric ℝ (fun v : ℝ × ℝ => v) := fun _ _ => rfl
  have hd : (0 : ℝ) ≤ (diagonalState ℝ).delta := zero_le_one
  have hg : (diagonalState ℝ).g ≠ 0 := by
    intro h0
    have h1 := congrArg Prod.fst h0
    exact one_ne_zero h1
  have he : (0 : ℝ) ≤ (diagonalState ℝ).eps_krylov := by
    show (0 : ℝ) ≤ 1 / 10
    norm_num
  obtain ⟨hret, hbd⟩ := truncatedCG_stops_on_boundary Real.sqrt
    (fun v : ℝ × ℝ => v) hlin hsym hsqrt (diagonalState ℝ) hd
  obtain ⟨result, h⟩ := hret hg he (by decide)
  obtain ⟨iter, stop, l, hl, hs, hst, hit⟩ :=
    exact_truncatedCG_of_loop _ _ _ _ _ h
  rw [show (diagonalState ℝ).krylov_iter_max = 9 + 1 from rfl,
    exact_loop_succ] at hl
  simp [truncatedCG.pass, truncatedCG.trial, truncatedCG.boundary,
    exact_innr_plane, root, div, axpy, scal, copy, diagonalState] at hl
  norm_num at hl
  obtain ⟨rfl, rfl, rfl⟩ := hl
  have hstop : result.krylov_stop = .TrustRegionViolated := hst
  have hb := hbd result h (Or.inr hstop)
  refine ⟨result, h, hstop, hit (by simp), ?_, hb.1, hb.2⟩
  rw [hs]
  ext <;> simp

/-- The routine over the rational numbers at the state of the example of the
routine on the scalars of the state (the gradient `(0,3)`, the radius `13/3`,
the operator `saddle`): the first pass stays inside the trust region, the
second meets negative curvature, and the step is `(-5/3,-4)`, of norm
`13/3`. -/
theorem exact_truncatedCG_at_saddle :
    (truncatedCG rationalRoot (fun v => v) saddle
        { g := (0, 3), s := (0, 0), delta := 13 / 3, eps_krylov := 1 / 10,
          krylov_iter_max := 10, krylov_iter := 0, krylov_iter_total := 0,
          krylov_stop := .RelativeErrorSmall, krylov_rel_err := 0 }).map
        (fun r => (r.s, r.krylov_stop, r.krylov_iter, r.krylov_iter_total))
      = some ((-5 / 3, -4), .NegativeCurvature, 2, 2) := by
  decide!

end ExactKrylovClaims

end Exact

/-! ## The two embeddings of `truncatedCG` agree over the rational numbers -/

namespace Exact

section ExactBridge

open Algorithms.Unconstrained

variable {V : Type} [AddCommGroup V] [Module ℚ V] [Hilbert V]
  [HilbertSpace ℚ V]

omit [Hilbert V] [HilbertSpace ℚ V] in
theorem exact_boundary_toReal (sqrt : Real → Real) (sqrtQ : ℚ → ℚ)
    (hroot : ∀ q : ℚ, 0 ≤ q → sqrt (.fin q) = .fin (sqrtQ q))
    (hneg : ∀ q : ℚ, q < 0 → sqrt (.fin q) = .nan)
    (d : ℚ) (l : truncatedCG.Locals ℚ V) (H_pk : V) (kappa alpha n : ℚ) :
    Algorithms.Unconstrained.truncatedCG.boundary sqrt (.fin d) l.toReal H_pk
        (.fin kappa) (.fin alpha) (.fin n)
      = (truncatedCG.boundary sqrtQ d l H_pk kappa alpha n).map
          truncatedCG.Pass.toReal := by
  unfold Algorithms.Unconstrained.truncatedCG.boundary truncatedCG.boundary
  simp only [truncatedCG.Locals.toReal, Real.mul_fin, Real.sub_fin,
    Real.add_fin, Real.neg_fin]
  by_cases hrad : l.inner_sk_M_pk * l.inner_sk_M_pk
      + l.norm_pk_M2 * (d * d - l.norm_sk_M2) < 0
  · rw [hneg _ hrad]
    simp [root, hrad, Real.add, Real.div, Hilbert.axpyReal, Real.toRat?]
  · rw [hroot _ (not_lt.mp hrad)]
    simp only [root, if_neg hrad, Option.some_bind, Real.add_fin]
    by_cases ha : l.norm_pk_M2 = 0
    · simp only [div, ha, if_true, Option.none_bind, Option.map_none',
        Real.div]
      split_ifs <;> rfl
    · rw [Real.div_fin_of_ne _ ha]
      simp only [div, if_neg ha, Option.some_bind, Option.map_some',
        Hilbert.axpyReal, Real.toRat?, truncatedCG.Pass.toReal,
        truncatedCG.Locals.toReal, Real.le, Real.ne]
      simp [Hilbert.axpy, axpy]

theorem exact_advance_toReal (sqrt : Real → Real) (sqrtQ : ℚ → ℚ)
    (hinnr : ∀ u v : V, innr ℚ u v = Hilbert.innr u v)
    (hroot : ∀ q : ℚ, 0 ≤ q → sqrt (.fin q) = .fin (sqrtQ q))
    (Minv : V → V) (e ng : ℚ) (hng : 0 ≤ ng)
    (l : truncatedCG.Locals ℚ V) (H_pk : V) (alpha n : ℚ) :
    Algorithms.Unconstrained.truncatedCG.advance sqrt Minv (.fin e) (.fin ng)
        l.toReal H_pk (.fin alpha) (.fin n)
      = (truncatedCG.advance sqrtQ Minv e ng l H_pk alpha n).map
          truncatedCG.Pass.toReal := by
  have hden : (1 / 10000000000000000 + ng : ℚ) ≠ 0 := by
    have : (0 : ℚ) < 1 / 10000000000000000 + ng :=
      add_pos_of_pos_of_nonneg (by norm_num) hng
    exact ne_of_gt this
  unfold Algorithms.Unconstrained.truncatedCG.advance truncatedCG.advance
  simp only [truncatedCG.Locals.toReal, Hilbert.axpyReal, Real.toRat?,
    Option.map_some', Real.add_fin, hinnr]
  rw [hroot _ (Hilbert.innr_self_nonneg _), Real.div_fin_of_ne _ hden,
    exact_root_eq_some.mpr ⟨Hilbert.innr_self_nonneg _, rfl⟩, Option.some_bind,
    exact_div_eq_some.mpr ⟨hden, rfl⟩, Option.some_bind]
  simp only [Real.le, decide_eq_true_eq, Hilbert.axpy, axpy]
  split_ifs with hrel
  · rfl
  · by_cases hγ : l.inner_gk_vk = 0
    · simp only [div, hγ, if_true, Option.none_bind, Option.map_none',
        Real.div, Hilbert.scalReal]
      split_ifs <;> rfl
    · rw [Real.div_fin_of_ne _ hγ]
      simp only [div, if_neg hγ, Option.some_bind, Option.map_some',
        Hilbert.scalReal, Real.toRat?, truncatedCG.Pass.toReal,
        truncatedCG.Locals.toReal, Real.mul_fin, Real.add_fin, Hilbert.scal,
        scal]

theorem exact_trial_toReal
    (hinnr : ∀ u v : V, innr ℚ u v = Hilbert.innr u v)
    (H : V → V) (l : truncatedCG.Locals ℚ V) :
    Algorithms.Unconstrained.truncatedCG.trial H l.toReal
      = (.fin (truncatedCG.trial H l).1, .fin (truncatedCG.trial H l).2.1,
         .fin (truncatedCG.trial H l).2.2) := by
  unfold Algorithms.Unconstrained.truncatedCG.trial truncatedCG.trial
  simp only [truncatedCG.Locals.toReal, hinnr, Real.gt, Real.lt,
    decide_eq_true_eq, gt_iff_lt]
  split_ifs with hk
  · rw [Real.div_fin_of_ne _ (ne_of_gt hk)]
    simp only [Real.mul_fin, Real.add_fin]
  · rfl

theorem exact_pass_toReal (sqrt : Real → Real) (sqrtQ : ℚ → ℚ)
    (hinnr : ∀ u v : V, innr ℚ u v = Hilbert.innr u v)
    (hroot : ∀ q : ℚ, 0 ≤ q → sqrt (.fin q) = .fin (sqrtQ q))
    (hneg : ∀ q : ℚ, q < 0 → sqrt (.fin q) = .nan)
    (Minv H : V → V) (d e ng : ℚ) (hng : 0 ≤ ng)
    (l : truncatedCG.Locals ℚ V) :
    Algorithms.Unconstrained.truncatedCG.pass sqrt Minv H (.fin d) (.fin e)
        (.fin ng) l.toReal
      = (truncatedCG.pass sqrtQ Minv H d e ng l).map
          truncatedCG.Pass.toReal := by
  unfold Algorithms.Unconstrained.truncatedCG.pass truncatedCG.pass
  simp only [exact_trial_toReal hinnr, Real.mul_fin, Real.le, Real.ge,
    Real.ne, Bool.or_eq_true, decide_eq_true_eq, ge_iff_le]
  have hp : l.toReal.p_k = l.p_k := rfl
  rw [hp]
  split_ifs with h1 h2 h2
  · exact exact_boundary_toReal sqrt sqrtQ hroot hneg d l _ _ _ _
  · exfalso
    apply h2
    rcases h1 with (h1 | h1) | h1
    · exact Or.inl h1
    · exact Or.inr (Or.inl h1)
    · exact absurd rfl h1
  · exfalso
    apply h1
    rcases h2 with h2 | h2 | h2
    · exact Or.inl (Or.inl h2)
    · exact Or.inl (Or.inr h2)
    · exact absurd rfl h2
  · exact exact_advance_toReal sqrt sqrtQ hinnr hroot Minv e ng hng l _ _ _

theorem exact_loop_toReal (sqrt : Real → Real) (sqrtQ : ℚ → ℚ)
    (hinnr : ∀ u v : V, innr ℚ u v = Hilbert.innr u v)
    (hroot : ∀ q : ℚ, 0 ≤ q → sqrt (.fin q) = .fin (sqrtQ q))
    (hneg : ∀ q : ℚ, q < 0 → sqrt (.fin q) = .nan)
    (Minv H : V → V) (d e ng : ℚ) (hng : 0 ≤ ng) :
    ∀ (n iter : Nat) (l : truncatedCG.Locals ℚ V),
      Algorithms.Unconstrained.truncatedCG.loop sqrt Minv H (.fin d) (.fin e)
          (.fin ng) n iter l.toReal
        = (truncatedCG.loop sqrtQ Minv H d e ng n iter l).map
            (fun r => (r.1, r.2.1, r.2.2.toReal)) := by
  intro n
  induction n with
  | zero =>
    intro iter l
    unfold Algorithms.Unconstrained.truncatedCG.loop truncatedCG.loop
    split_ifs <;> rfl
  | succ n ih =>
    intro iter l
    unfold Algorithms.Unconstrained.truncatedCG.loop truncatedCG.loop
    rw [exact_pass_toReal sqrt sqrtQ hinnr hroot hneg Minv H d e ng hng l]
    cases hp : truncatedCG.pass sqrtQ Minv H d e ng l with
    | none => rfl
    | some r =>
      cases r with
      | exit stop l1 => rfl
      | next l1 => exact ih (iter + 1) l1

/-- The routine `truncatedCG` on the scalars of the state is the routine over
the rational numbers wherever both are defined on the same data: for a state
that holds its vectors, with numbers in `delta` and `eps_krylov`, and for a
square root on the scalars of the state that takes the values of `sqrtQ` on
the non-negative numbers and is the NaN on the negative ones, the routine on
the scalars of the state returns the state with the fields written by the
routine over the rational numbers, and has no value where that one has
none. -/
theorem truncatedCG_eq_exact (sqrt : Real → Real) (sqrtQ : ℚ → ℚ)
    (hinnr : ∀ u v : V, innr ℚ u v = Hilbert.innr u v)
    (hroot : ∀ q : ℚ, 0 ≤ q → sqrt (.fin q) = .fin (sqrtQ q))
    (hneg : ∀ q : ℚ, q < 0 → sqrt (.fin q) = .nan)
    (Minv H : V → V) (state : State.Unconstrained V) (u g s : V)
    (us gs ss : List V) (d e : ℚ)
    (hx : state.x = u :: us) (hg : state.g = g :: gs)
    (hs : state.s = s :: ss) (hd : state.delta = .fin d)
    (he : state.eps_krylov = .fin e) :
    Algorithms.Unconstrained.truncatedCG sqrt Minv H state
      = (truncatedCG sqrtQ Minv H (State.read state g s d e)).map
          (fun r => .ok (State.write state ss r)) := by
  have hden : (1 / 10000000000000000 + Hilbert.innr g g : ℚ) ≠ 0 := by
    have : (0 : ℚ) < 1 / 10000000000000000 + Hilbert.innr g g :=
      add_pos_of_pos_of_nonneg (by norm_num) (Hilbert.innr_self_nonneg _)
    exact ne_of_gt this
  have hl : Algorithms.Unconstrained.truncatedCG.loop sqrt Minv H (.fin d)
      (.fin e) (.fin (Hilbert.innr g g)) state.krylov_iter_max 1
      { s_k := Hilbert.scal 0 s, g_k := Hilbert.copy g,
        v_k := Minv (Hilbert.copy g),
        p_k := Hilbert.scal (-1) (Hilbert.copy (Minv (Hilbert.copy g))),
        alpha := .fin 0, norm_sk_M2 := .fin 0, norm_skp1_M2 := .fin 0,
        norm_pk_M2 :=
          .fin (Hilbert.innr (Hilbert.copy g) (Minv (Hilbert.copy g))),
        inner_sk_M_pk := .fin 0,
        inner_gk_vk :=
          .fin (Hilbert.innr (Hilbert.copy g) (Minv (Hilbert.copy g))) }
      = (truncatedCG.loop sqrtQ Minv H d e (Hilbert.innr g g)
          state.krylov_iter_max 1
          { s_k := scal (0 : ℚ) s, g_k := copy g, v_k := Minv (copy g),
            p_k := scal (-1 : ℚ) (copy (Minv (copy g))), alpha := 0,
            norm_sk_M2 := 0, norm_skp1_M2 := 0,
            norm_pk_M2 := Hilbert.innr (copy g) (Minv (copy g)),
            inner_sk_M_pk := 0,
            inner_gk_vk := Hilbert.innr (copy g) (Minv (copy g)) }).map
          (fun r => (r.1, r.2.1, r.2.2.toReal)) :=
    exact_loop_toReal sqrt sqrtQ hinnr hroot hneg Minv H d e
      (Hilbert.innr g g) (Hilbert.innr_self_nonneg _) state.krylov_iter_max 1
      { s_k := scal (0 : ℚ) s, g_k := copy g, v_k := Minv (copy g),
        p_k := scal (-1 : ℚ) (copy (Minv (copy g))), alpha := 0,
        norm_sk_M2 := 0, norm_skp1_M2 := 0,
        norm_pk_M2 := Hilbert.innr (copy g) (Minv (copy g)),
        inner_sk_M_pk := 0,
        inner_gk_vk := Hilbert.innr (copy g) (Minv (copy g)) }
  unfold Algorithms.Unconstrained.truncatedCG truncatedCG
  rw [hx, hg, hs]
  simp only [hd, he, State.read, hinnr]
  rw [hl]
  cases truncatedCG.loop sqrtQ Minv H d e (Hilbert.innr g g)
      state.krylov_iter_max 1
      { s_k := scal (0 : ℚ) s, g_k := copy g, v_k := Minv (copy g),
        p_k := scal (-1 : ℚ) (copy (Minv (copy g))), alpha := 0,
        norm_sk_M2 := 0, norm_skp1_M2 := 0,
        norm_pk_M2 := Hilbert.innr (copy g) (Minv (copy g)),
        inner_sk_M_pk := 0,
        inner_gk_vk := Hilbert.innr (copy g) (Minv (copy g)) } with
  | none => rfl
  | some r =>
    obtain ⟨iter, stop, l⟩ := r
    have hgk : l.toReal.g_k = l.g_k := rfl
    have hsk : l.toReal.s_k = l.s_k := rfl
    simp only [Option.map_some', hgk, hsk, Real.add_fin]
    rw [hroot _ (Hilbert.innr_self_nonneg _), Real.div_fin_of_ne _ hden,
      exact_root_eq_some.mpr ⟨Hilbert.innr_self_nonneg _, rfl⟩,
      Option.some_bind, exact_div_eq_some.mpr ⟨hden, rfl⟩, Option.some_bind]
    cases stop with
    | none => simp only [Option.map_some', State.write, hx, hg, hd, he]
    | some stop => simp only [Option.map_some', State.write, hx, hg, hd, he]

/-- The agreement of the two embeddings of `truncatedCG` at the state
`krylovState`, for the operator `saddle` and the square roots `exactSqrt` on
the scalars of the state and `Rat.sqrt` on the rational numbers. -/
theorem truncatedCG_eq_exact_witness :
    Algorithms.Unconstrained.truncatedCG exactSqrt (fun v => v) saddle
        krylovState
      = (truncatedCG Rat.sqrt (fun v => v) saddle
          (State.read krylovState (3, 4) (0, 0) 100 (1 / 10))).map
          (fun r => .ok (State.write krylovState [] r)) :=
  truncatedCG_eq_exact exactSqrt Rat.sqrt (fun _ _ => rfl)
    (fun q hq => by simp only [exactSqrt, if_neg (not_lt.mpr hq)])
    (fun q hq => by simp only [exactSqrt, if_pos hq])
    (fun v => v) saddle krylovState (0, 0) (3, 4) (0, 0) [] [] [] 100 (1 / 10)
    rfl rfl rfl rfl rfl

end ExactBridge

end Exact

end peopt
